import Mathlib

/-!
# Relayer: provider session accounting and consumer session manager

Shallow embedding of the session accounting of `relayer/server.go`
(`updateSessionCu`, `onRelayFailure`, `getOrCreateSession`,
`getOrCreateDataByEpoch`), of its relay admission (`initRelay`,
`handleRelayErrorStatus`, `processUnsubscribe`), reward claims
(`askForRewards`) and votes (`voteEventHandler`), of the consumer session
manager of `relayer/lavasession/consumer_session_manager.go`
(`UpdateAllProviders`, `validatePairingListNotEmpty`,
`getValidProviderAddress`, `blockProvider`, `getDataReliabilityProviderIndex`,
`OnSessionDone`, `OnSessionFailure`, `OnSessionUnUsed`), of the metrics
store of `relayer/metrics/metricsService.go` (`storeAggregatedData`,
`prepareArrayForProject`), of the mock chain fetcher of
`protocol/chaintracker/chain_tracker_test.go` and of the wire format of
`Metadata` (`metadata.pb.go`: `Marshal`, `Size`, `Unmarshal`), and theorems
about them. The chain tracker, whose code is not among the sources, is
modelled from section 4.1 of the spec.

Conventions of the embedding.

* A Go `uint64` is a `Nat`; every arithmetic operation of the source is
  written with its reduction modulo `2 ^ 64` (`uint64Add`, `uint64Sub`), and
  the cast `int64(x) < 0` is `int64Negative`.
* A Go `map[uint64]*T` is an association list whose entries hold the pointee;
  `mapGet` is the lookup `m[k]`, `mapModify` a write through the pointer
  `m[k]`, `mapPut` the assignment `m[k] = v`.
* A function that mutates `*sess` and `*userSessions` returns the new values;
  a nil-pointer dereference (a missing `dataByEpoch` entry) is the outer
  `none`.
* Locks and log lines have no effect on the values and are left out.
* The answer of a call that leaves the sources (the sentry, the chain proxy,
  a broadcast) is a parameter of the function that makes the call.
* A Go `int64` is an `Int`; `uint64OfInt64` and `int64OfUint64` are the two
  conversions and `int64Add` the sum with its reduction.
* A byte is a `Nat` below 256, and a byte slice or a string of the wire format
  a list of bytes; a write outside a slice is the outer `none`.
* A loop of the source is a function with a fuel argument; the fuel given
  is a bound that the source enforces, and the theorems state the result.
-/

namespace Lava

/-! ## Machine integers -/

/-- Go addition on `uint64`. -/
def uint64Add (a b : Nat) : Nat := (a + b) % 2 ^ 64

/-- Go subtraction on `uint64`. -/
def uint64Sub (a b : Nat) : Nat := (a + 2 ^ 64 - b % 2 ^ 64) % 2 ^ 64

/-- The test `int64(a) < 0` for a `uint64` value `a`. -/
def int64Negative (a : Nat) : Bool := decide (2 ^ 63 ≤ a % 2 ^ 64)

/-- The conversion `uint64(h)` of an `int64` value `h`. -/
def uint64OfInt64 (h : Int) : Nat := (h % 2 ^ 64).toNat

/-! ## Maps -/

/-- The lookup `m[k]` of a Go map. -/
def mapGet {β : Type} (k : Nat) : List (Nat × β) → Option β
  | [] => none
  | (k', v) :: rest => if k' = k then some v else mapGet k rest

/-- A write through the pointer stored at `m[k]`. -/
def mapModify {β : Type} (k : Nat) (f : β → β) : List (Nat × β) → List (Nat × β)
  | [] => []
  | (k', v) :: rest => if k' = k then (k', f v) :: rest else (k', v) :: mapModify k f rest

/-- The assignment `m[k] = v` of a Go map. -/
def mapPut {β : Type} (k : Nat) (v : β) : List (Nat × β) → List (Nat × β)
  | [] => [(k, v)]
  | (k', v') :: rest => if k' = k then (k, v) :: rest else (k', v') :: mapPut k v rest

/-! ## Errors -/

/-- The places of `server.go` that build an error, in place of their message text. -/
inductive ErrorSite where
  | smallerRelayNum
  | badCuSum
  | clientCuOverflow
  | nilSessions
  | usedReachedNegative
  | userSessionsOutOfSync
  | userBlocklisted
  | maxCuQueryFailed
  | invalidBlockHeight
  | veryOldBlockHeight
  | wrongProvider
  | relayUser
  | relayAccAddress
  | specNotSupported
  | userNotAuthorized
  | failedParsing
  | failedAuthorizing
  | relayNumAboveDataReliability
  | cuSumNotDataReliability
  | vrfPkQueryFailed
  | dataReliabilityUsed
  | nilVrfPk
  | reliabilitySigningFailed
  | invalidReliabilitySigning
  | invalidVrfProof
  | vrfThreshold
  | vrfIndexMismatch
  | nilRelaySession
  | epochMismatch
  | zeroSessionId
  | unsubscribeParam
  | unsubscribeQuery
deriving DecidableEq, Repr

/-- Error values: the registered `lavasession.SessionOutOfSyncError`, an error
made by `fmt.Errorf`, and the results of `utils.LavaFormatError` with or
without a cause. -/
inductive RelayError where
  | SessionOutOfSyncError : RelayError
  | Errorf : ErrorSite → RelayError
  | LavaFormatError : ErrorSite → RelayError → RelayError
  | LavaFormatErrorNil : ErrorSite → RelayError
deriving DecidableEq, Repr

/-- Modelled from the spec: `utils.LavaFormatError` and the registered error
`lavasession.SessionOutOfSyncError` are not among the sources. The spec has the
relay-number and CU-sum violations surface as `SessionOutOfSync`, recognised by
the peer, so the formatted error wraps its cause and
`SessionOutOfSyncError.Is` looks through the wrapping. -/
def RelayError.isSessionOutOfSync : RelayError → Bool
  | .SessionOutOfSyncError => true
  | .Errorf _ => false
  | .LavaFormatError _ cause => cause.isSessionOutOfSync
  | .LavaFormatErrorNil _ => false

/-! ## Data model (`server.go`, lines 74-98) -/

/-- The per-epoch record `UserSessionsEpochData` (quota fields). -/
structure UserSessionsEpochData where
  UsedComputeUnits : Nat
  MaxComputeUnits : Nat
deriving DecidableEq, Repr

/-- The provider-side `RelaySession`. -/
structure RelaySession where
  CuSum : Nat
  UniqueIdentifier : Nat
  RelayNum : Nat
  PairingEpoch : Nat
deriving DecidableEq, Repr

/-- The provider-side `UserSessions` of one consumer. -/
structure UserSessions where
  Sessions : List (Nat × RelaySession)
  IsBlockListed : Bool
  dataByEpoch : List (Nat × UserSessionsEpochData)
deriving DecidableEq, Repr

/-- The fields of `spectypes.ServiceApi` read by the accounting. -/
structure ServiceApi where
  ComputeUnits : Nat
deriving DecidableEq, Repr

/-- The fields of `pairingtypes.RelayRequest` read by the accounting. -/
structure RelayRequest where
  SessionId : Nat
  CuSum : Nat
  RelayNum : Nat
  BlockHeight : Int
deriving DecidableEq, Repr

/-- A parsed message `chainproxy.NodeMessage`, as far as the accounting reads it. -/
structure NodeMessage where
  serviceApi : ServiceApi
deriving DecidableEq, Repr

/-- The accessor `nodeMsg.GetServiceApi()`. -/
def NodeMessage.GetServiceApi (nodeMsg : NodeMessage) : ServiceApi := nodeMsg.serviceApi

/-- What a call leaves behind: the session, the consumer record and the returned error. -/
structure CuResult where
  sess : RelaySession
  userSessions : UserSessions
  err : Option RelayError
deriving DecidableEq, Repr

/-! ## `updateSessionCu` (`server.go`, lines 448-518) -/

/-- The function `updateSessionCu`. The outer `none` is the nil dereference of
`userSessions.dataByEpoch[pairingEpoch]` at line 500. -/
def updateSessionCu (sess : RelaySession) (userSessions : UserSessions)
    (serviceApi : ServiceApi) (request : RelayRequest) (pairingEpoch : Nat) : Option CuResult :=
  let relayNum := sess.RelayNum
  let cuSum := sess.CuSum
  -- line 463: a smaller relay number is refused (line 454 only logs)
  if uint64Add relayNum 1 > request.RelayNum then
    some ⟨sess, userSessions,
      some (.LavaFormatError .smallerRelayNum .SessionOutOfSyncError)⟩
  else
    -- line 472
    let sess1 : RelaySession := { sess with RelayNum := uint64Add sess.RelayNum 1 }
    -- line 481
    if cuSum ≥ request.CuSum then
      some ⟨sess1, userSessions, some (.LavaFormatError .badCuSum .SessionOutOfSyncError)⟩
    -- line 488
    else if uint64Add cuSum serviceApi.ComputeUnits ≠ request.CuSum then
      some ⟨sess1, userSessions, some (.LavaFormatError .badCuSum .SessionOutOfSyncError)⟩
    else
      -- line 498
      match mapGet pairingEpoch userSessions.dataByEpoch with
      | none => none
      | some epochData =>
        -- line 500
        if uint64Add epochData.UsedComputeUnits serviceApi.ComputeUnits
            > epochData.MaxComputeUnits then
          some ⟨sess1, userSessions, some (.LavaFormatErrorNil .clientCuOverflow)⟩
        else
          -- line 510
          let userSessions1 : UserSessions :=
            { userSessions with
              dataByEpoch := mapModify pairingEpoch
                (fun d => { d with
                  UsedComputeUnits := uint64Add d.UsedComputeUnits serviceApi.ComputeUnits })
                userSessions.dataByEpoch }
          -- line 514
          some ⟨{ sess1 with CuSum := request.CuSum }, userSessions1, none⟩

/-! ## `onRelayFailure` (`server.go`, lines 747-784) -/

/-- What `onRelayFailure` leaves behind; the two pointers may be nil. -/
structure FailureResult where
  userSessions : Option UserSessions
  relaySession : Option RelaySession
  err : Option RelayError
deriving DecidableEq, Repr

/-- The method `relayServer.onRelayFailure`. The outer `none` is the nil
dereference of `userSessions.dataByEpoch[pairingEpoch]` at line 770. -/
def onRelayFailure (userSessions : Option UserSessions) (relaySession : Option RelaySession)
    (nodeMsg : NodeMessage) : Option FailureResult :=
  match userSessions, relaySession with
  | some us, some rs =>
    -- line 752
    let computeUnits := nodeMsg.GetServiceApi.ComputeUnits
    let pairingEpoch := rs.PairingEpoch
    -- lines 755-756
    let relayNum1 := uint64Sub rs.RelayNum 1
    let cuSum1 := uint64Sub rs.CuSum computeUnits
    -- line 758
    let negative := int64Negative relayNum1 || int64Negative cuSum1
    let rs1 : RelaySession :=
      if negative then { rs with RelayNum := 0, CuSum := 0 }
      else { rs with RelayNum := relayNum1, CuSum := cuSum1 }
    let retError : Option RelayError :=
      if negative then some .SessionOutOfSyncError else none
    -- line 770
    match mapGet pairingEpoch us.dataByEpoch with
    | none => none
    | some epochData =>
      let used1 := uint64Sub epochData.UsedComputeUnits computeUnits
      -- line 771
      if int64Negative used1 then
        some ⟨some { us with
                dataByEpoch := mapModify pairingEpoch
                  (fun d => { d with UsedComputeUnits := 0 }) us.dataByEpoch,
                IsBlockListed := true },
              some rs1,
              some (.LavaFormatError .userSessionsOutOfSync (.Errorf .usedReachedNegative))⟩
      else
        some ⟨some { us with
                dataByEpoch := mapModify pairingEpoch
                  (fun d => { d with UsedComputeUnits := uint64Sub d.UsedComputeUnits computeUnits })
                  us.dataByEpoch },
              some rs1, retError⟩
  -- line 748
  | us, rs => some ⟨us, rs, some (.LavaFormatErrorNil .nilSessions)⟩


/-! ## Session creation (`server.go`, lines 364-435) -/

/-- The function `validateRequestedBlockHeight`; the two epoch heights of the sentry are
parameters. -/
def validateRequestedBlockHeight (blockHeight currentEpochHeight prevEpochHeight : Nat) : Bool :=
  blockHeight == currentEpochHeight || blockHeight == prevEpochHeight

/-- The function `getOrCreateDataByEpoch`: a missing record is created with
`UsedComputeUnits: 0`. The pointer `vrf_pk` is dereferenced (line 426) only when the record
is created; the result is `none` when it is nil there. The key itself is not among the
quota fields kept in the record. -/
def getOrCreateDataByEpoch (userSessions : UserSessions) (sessionEpoch maxcuRes : Nat)
    (vrf_pk : Option Nat) : Option UserSessions :=
  match mapGet sessionEpoch userSessions.dataByEpoch with
  | some _ => some userSessions
  | none =>
    match vrf_pk with
    | none => none
    | some _ =>
      some { userSessions with
             dataByEpoch := mapPut sessionEpoch ⟨0, maxcuRes⟩ userSessions.dataByEpoch }

/-- The function `getOrCreateSession` on the `UserSessions` of the consumer. The answer of
`g_sentry.GetVrfPkAndMaxCuForUser` (an error, or the pointer to the key and the maximum
compute units) and the two epoch heights of the sentry are parameters; the append to the
rewards ledger `g_rewardsSessions` touches no field of the consumer and is not part of the
result. The outer `none` is the nil dereference inside `getOrCreateDataByEpoch`. -/
def getOrCreateSession (userSessions : UserSessions) (req : RelayRequest)
    (sentryRes : Except RelayError (Option Nat × Nat))
    (currentEpochHeight prevEpochHeight : Nat) :
    Option (UserSessions × Option RelaySession × Option RelayError) :=
  -- line 372
  if userSessions.IsBlockListed then
    some (userSessions, none, some (.LavaFormatErrorNil .userBlocklisted))
  else
    -- line 380
    match mapGet req.SessionId userSessions.Sessions with
    | some session => some (userSessions, some session, none)
    | none =>
      -- line 384
      match sentryRes with
      | .error err => some (userSessions, none, some (.LavaFormatError .maxCuQueryFailed err))
      | .ok (vrf_pk, maxcuRes) =>
        -- line 391
        if !validateRequestedBlockHeight (uint64OfInt64 req.BlockHeight)
            currentEpochHeight prevEpochHeight then
          some (userSessions, none, some (.LavaFormatErrorNil .invalidBlockHeight))
        else
          -- lines 398-409
          let sessionEpoch := uint64OfInt64 req.BlockHeight
          let session : RelaySession :=
            { CuSum := 0, UniqueIdentifier := req.SessionId, RelayNum := 0,
              PairingEpoch := sessionEpoch }
          let userSessions1 : UserSessions :=
            { userSessions with
              Sessions := mapPut req.SessionId session userSessions.Sessions }
          match getOrCreateDataByEpoch userSessions1 sessionEpoch maxcuRes vrf_pk with
          | none => none
          | some userSessions2 => some (userSessions2, some session, none)

/-! ## The two calls on the state of one consumer -/

/-- The call of `updateSessionCu` at line 729 of `initRelay`: on the session found under
`request.SessionId` (line 380), with that session's `PairingEpoch` (line 706); the session
written through the pointer is stored back under its key. -/
def relayUpdateSessionCu (userSessions : UserSessions) (serviceApi : ServiceApi)
    (request : RelayRequest) : Option (UserSessions × Option RelayError) :=
  match mapGet request.SessionId userSessions.Sessions with
  | none => none
  | some sess =>
    match updateSessionCu sess userSessions serviceApi request sess.PairingEpoch with
    | none => none
    | some r =>
      some ({ r.userSessions with
              Sessions := mapModify request.SessionId (fun _ => r.sess) r.userSessions.Sessions },
            r.err)

/-- The call of `onRelayFailure` as `Relay` makes it (line 810): on the session stored under
`sessionId`; the session written through the pointer is stored back under its key. -/
def relayOnRelayFailure (userSessions : UserSessions) (sessionId : Nat)
    (nodeMsg : NodeMessage) : Option (UserSessions × Option RelayError) :=
  match mapGet sessionId userSessions.Sessions with
  | none => none
  | some rs =>
    match onRelayFailure (some userSessions) (some rs) nodeMsg with
    | some ⟨some us1, some rs1, err⟩ =>
      some ({ us1 with Sessions := mapModify sessionId (fun _ => rs1) us1.Sessions }, err)
    | _ => none

/-- A call on the accounting state of a consumer. -/
inductive Call where
  | updateSessionCu (serviceApi : ServiceApi) (request : RelayRequest)
  | onRelayFailure (sessionId : Nat) (nodeMsg : NodeMessage)
deriving DecidableEq, Repr

/-- Runs a sequence of calls. The list `pending` holds the accepted `updateSessionCu` calls
that are not rolled back yet, as pairs of session id and compute units; an `onRelayFailure`
call is admitted only when it rolls back one of them, which it removes. The result is
`none` when a call is not admitted or dereferences nil. -/
def runCalls : UserSessions → List (Nat × Nat) → List Call → Option UserSessions
  | us, _, [] => some us
  | us, pending, .updateSessionCu serviceApi request :: rest =>
    match relayUpdateSessionCu us serviceApi request with
    | none => none
    | some (us1, none) =>
      runCalls us1 ((request.SessionId, serviceApi.ComputeUnits) :: pending) rest
    | some (us1, some _) => runCalls us1 pending rest
  | us, pending, .onRelayFailure sessionId nodeMsg :: rest =>
    if (sessionId, nodeMsg.GetServiceApi.ComputeUnits) ∈ pending then
      match relayOnRelayFailure us sessionId nodeMsg with
      | none => none
      | some (us1, _) =>
        runCalls us1 (pending.erase (sessionId, nodeMsg.GetServiceApi.ComputeUnits)) rest
    else none

/-- Runs a sequence of calls in which an `onRelayFailure` call is admitted only when its
compute units are at most `2 ^ 63` or when it comes directly after the accepted
`updateSessionCu` call it rolls back (`last`, as session id and compute units). -/
def runCallsGuarded : UserSessions → Option (Nat × Nat) → List Call → Option UserSessions
  | us, _, [] => some us
  | us, _, .updateSessionCu serviceApi request :: rest =>
    match relayUpdateSessionCu us serviceApi request with
    | none => none
    | some (us1, none) =>
      runCallsGuarded us1 (some (request.SessionId, serviceApi.ComputeUnits)) rest
    | some (us1, some _) => runCallsGuarded us1 none rest
  | us, last, .onRelayFailure sessionId nodeMsg :: rest =>
    if nodeMsg.GetServiceApi.ComputeUnits ≤ 2 ^ 63
        ∨ last = some (sessionId, nodeMsg.GetServiceApi.ComputeUnits) then
      match relayOnRelayFailure us sessionId nodeMsg with
      | none => none
      | some (us1, _) => runCallsGuarded us1 none rest
    else none

/-- Successive calls of `updateSessionCu` on one session, all of them accepted (`none` as
soon as one is refused or dereferences nil). -/
def acceptAll (pairingEpoch : Nat) :
    RelaySession → UserSessions → List (ServiceApi × RelayRequest) →
      Option (RelaySession × UserSessions)
  | sess, us, [] => some (sess, us)
  | sess, us, (serviceApi, request) :: rest =>
    match updateSessionCu sess us serviceApi request pairingEpoch with
    | some ⟨sess1, us1, none⟩ => acceptAll pairingEpoch sess1 us1 rest
    | _ => none

/-! ## Invariants -/

/-- Quota invariant: every epoch record has `UsedComputeUnits ≤ MaxComputeUnits`. -/
def quotaInv (us : UserSessions) : Prop :=
  ∀ e d, mapGet e us.dataByEpoch = some d → d.UsedComputeUnits ≤ d.MaxComputeUnits

/-- Sum of `CuSum` over the sessions whose `PairingEpoch` is `e`. -/
def cuSumOfEpoch (e : Nat) (sessions : List (Nat × RelaySession)) : Nat :=
  ((sessions.filter (fun p => p.2.PairingEpoch == e)).map (fun p => p.2.CuSum)).sum

/-- The value `dataByEpoch[e].UsedComputeUnits`, and 0 for an epoch without record. -/
def usedOfEpoch (e : Nat) (dataByEpoch : List (Nat × UserSessionsEpochData)) : Nat :=
  match mapGet e dataByEpoch with
  | some d => d.UsedComputeUnits
  | none => 0

/-- Accounting invariant: for every epoch the sessions of that epoch sum up to the used
compute units of its record (an epoch without record has no compute units in sessions). -/
def accountingInv (us : UserSessions) : Prop :=
  ∀ e, cuSumOfEpoch e us.Sessions = usedOfEpoch e us.dataByEpoch

/-! ## Consumer session manager: data model (`consumer_session_manager.go`, lines 19-36)

Provider addresses are strings that the code only stores and compares; they are `Nat`
identifiers here, so that the maps above serve. A Go set `map[string]struct{}` is the list of
its keys. -/

/-- Errors of the package `lavasession` returned by the consumer session manager: the
registered errors named in `consumer_session_manager.go`, the result of `sdkerrors.Wrapf`
around one of them, and the formatted error of `UpdateAllProviders` (line 50). -/
inductive SessionError where
  | PairingListEmptyError
  | UnreachableCodeError
  | EpochMismatchError
  | AddressIndexWasNotFoundError
  | LockMisUseDetectedError
  | SessionIsAlreadyBlockListedError
  | NegativeComputeUnitsAmountError
  | MaxComputeUnitsExceededError
  | DataReliabilityIndexOutOfRangeError
  | DataReliabilityIndexRequestedIsOriginalProviderError
  | DataReliabilityEpochMismatchError
  | olderEpoch
  | Wrapf : SessionError → SessionError
deriving DecidableEq, Repr

/-- The test `target.Is(err)` for a registered error `target`: `sdkerrors.Wrapf` keeps the
wrapped error recognisable. -/
def SessionError.Is (target : SessionError) : SessionError → Bool
  | .Wrapf e => SessionError.Is target e
  | e => decide (e = target)

/-- Modelled from the spec: the declaration of `ConsumerSessionsWithProvider` is in a file
that is not among the sources. The spec gives it a public address, `usedComputeUnits` and
`maxComputeUnits`; `PairingEpoch` is what `getPublicLavaAddressAndPairingEpoch` hands to
`OnSessionFailure` (line 395). Endpoints and child sessions play no part here. -/
structure ConsumerSessionsWithProvider where
  PublicLavaAddress : Nat
  UsedComputeUnits : Nat
  MaxComputeUnits : Nat
  PairingEpoch : Nat
deriving DecidableEq, Repr

/-- The per-session quality-of-service record, as far as the manager touches it directly
(`QoSInfo.TotalRelays++`, line 366); `report` stands for everything `CalculateQoS` keeps. -/
structure QoSInfo where
  TotalRelays : Nat
  report : Nat
deriving DecidableEq, Repr

/-- Modelled from the spec: the declaration of `SingleConsumerSession` is in a file that is
not among the sources. The fields are those the manager reads and writes. `LatestRelayCu`
receives the `uint64` argument `cuNeededForSession` (line 223) and is added to `CuSum`
(line 455), so both are `uint64`; the spec gives `relayNum` and `consecutiveFailures` as
counters without a width, and they are natural numbers. `Client` holds the parent the
pointer `consumerSession.Client` leads to, and `locked` is the state of
`consumerSession.lock`. -/
structure SingleConsumerSession where
  CuSum : Nat
  LatestRelayCu : Nat
  QoSInfo : QoSInfo
  SessionId : Int
  Client : ConsumerSessionsWithProvider
  RelayNum : Nat
  LatestBlock : Int
  ConsecutiveNumberOfFailures : Nat
  BlockListed : Bool
  locked : Bool
deriving DecidableEq, Repr

/-- The struct `ConsumerSessionManager` (the endpoint filter `rpcEndpoint`, which no function
below reads or writes, and the lock are left out). -/
structure ConsumerSessionManager where
  pairing : List (Nat × ConsumerSessionsWithProvider)
  currentEpoch : Nat
  numberOfResets : Nat
  pairingAddresses : List Nat
  pairingAddressesLength : Nat
  validAddresses : List Nat
  addedToPurgeAndReport : List Nat
  pairingPurge : List (Nat × ConsumerSessionsWithProvider)
deriving DecidableEq, Repr

/-- What the error handed to `OnSessionFailure` answers to the three tests the function makes
on it: `status.Code(err) == codes.Code(SessionOutOfSyncError.ABCICode())` (line 370),
`ReportAndBlockProviderError.Is(err)` (line 388) and `BlockProviderError.Is(err)`
(line 391). -/
structure ReceivedError where
  hasSessionOutOfSyncCode : Bool
  isReportAndBlockProvider : Bool
  isBlockProvider : Bool
deriving DecidableEq, Repr

/-! ## Epoch rotation (`consumer_session_manager.go`, lines 42-78) -/

/-- The method `setValidAddressesToDefaultValue`: a fresh copy of `pairingAddresses`. -/
def setValidAddressesToDefaultValue (csm : ConsumerSessionManager) : ConsumerSessionManager :=
  { csm with validAddresses := csm.pairingAddresses }

/-- The loop of lines 66-69 on the map `csm.pairing`: `csm.pairing[provider.PublicLavaAddress]
= provider` for each provider of the list in turn. -/
def fillPairing :
    List (Nat × ConsumerSessionsWithProvider) → List ConsumerSessionsWithProvider →
      List (Nat × ConsumerSessionsWithProvider)
  | pairing, [] => pairing
  | pairing, provider :: rest =>
    fillPairing (mapPut provider.PublicLavaAddress provider pairing) rest

/-- The method `UpdateAllProviders`: the new state and the returned error. -/
def UpdateAllProviders (csm : ConsumerSessionManager) (epoch : Nat)
    (pairingList : List ConsumerSessionsWithProvider) :
    ConsumerSessionManager × Option SessionError :=
  let pairingListLength := pairingList.length
  -- line 49
  if epoch ≤ csm.currentEpoch then
    (csm, some .olderEpoch)
  else
    -- lines 53-65
    let csm1 : ConsumerSessionManager :=
      { csm with
        currentEpoch := epoch,
        pairingAddresses := pairingList.map (fun provider => provider.PublicLavaAddress),
        addedToPurgeAndReport := [],
        pairingAddressesLength := pairingListLength,
        numberOfResets := 0,
        pairingPurge := csm.pairing,
        pairing := fillPairing [] pairingList }
    -- line 70
    (setValidAddressesToDefaultValue csm1, none)

/-! ## Reset of the valid addresses (lines 90-121) -/

/-- The method `shouldResetValidAddresses`. -/
def shouldResetValidAddresses (csm : ConsumerSessionManager) : Bool × Nat :=
  (decide (csm.validAddresses.length = 0), csm.numberOfResets)

/-- The method `resetValidAddresses`; `numberOfResets` is a `uint64`. -/
def resetValidAddresses (csm : ConsumerSessionManager) : ConsumerSessionManager × Nat :=
  if csm.validAddresses.length = 0 then
    let csm1 := setValidAddressesToDefaultValue csm
    let csm2 : ConsumerSessionManager :=
      { csm1 with numberOfResets := uint64Add csm1.numberOfResets 1 }
    (csm2, csm2.numberOfResets)
  else
    (csm, csm.numberOfResets)

/-- The method `validatePairingListNotEmpty`. -/
def validatePairingListNotEmpty (csm : ConsumerSessionManager) : ConsumerSessionManager × Nat :=
  let (reset, numberOfResets) := shouldResetValidAddresses csm
  if reset then resetValidAddresses csm else (csm, numberOfResets)

/-! ## Choice of a provider (lines 231-253) -/

/-- The loop of lines 244-251, from position `index` on: the first address that is not
ignored once `validAddressesCounter` has reached `validAddressIndex`. -/
def pickValidAddress (ignoredProvidersList : List Nat) (validAddressIndex : Nat) :
    List Nat → Nat → Option Nat
  | [], _ => none
  | address :: rest, validAddressesCounter =>
    if address ∈ ignoredProvidersList then
      pickValidAddress ignoredProvidersList validAddressIndex rest validAddressesCounter
    else if validAddressesCounter = validAddressIndex then some address
    else
      pickValidAddress ignoredProvidersList validAddressIndex rest (validAddressesCounter + 1)

/-- The method `getValidProviderAddress`. The draw `rand.Intn(totalValidLength)` is
`random % totalValidLength` for a parameter `random`; the lengths are Go `int`s and their
difference may be negative. -/
def getValidProviderAddress (csm : ConsumerSessionManager) (ignoredProvidersList : List Nat)
    (random : Nat) : Except SessionError Nat :=
  let ignoredProvidersListLength : Int := ignoredProvidersList.length
  let validAddressesLength : Int := csm.validAddresses.length
  let totalValidLength : Int := validAddressesLength - ignoredProvidersListLength
  -- line 237
  if totalValidLength ≤ 0 then
    .error .PairingListEmptyError
  else
    -- line 242
    let validAddressIndex := random % totalValidLength.toNat
    match pickValidAddress ignoredProvidersList validAddressIndex csm.validAddresses 0 with
    | some address => .ok address
    | none => .error .UnreachableCodeError

/-! ## Blocking a provider (lines 277-321) -/

/-- The method `removeAddressFromValidAddresses`: the first occurrence of the address is cut
out of `validAddresses`. -/
def removeAddressFromValidAddresses (csm : ConsumerSessionManager) (address : Nat) :
    ConsumerSessionManager × Option SessionError :=
  if address ∈ csm.validAddresses then
    ({ csm with validAddresses := csm.validAddresses.erase address }, none)
  else
    (csm, some .AddressIndexWasNotFoundError)

/-- The method `blockProvider`. -/
def blockProvider (csm : ConsumerSessionManager) (address : Nat) (reportProvider : Bool)
    (sessionEpoch : Nat) : ConsumerSessionManager × Option SessionError :=
  -- lines 294 and 300
  if sessionEpoch ≠ csm.currentEpoch then
    (csm, some .EpochMismatchError)
  else
    -- line 304
    let (csm1, err) := removeAddressFromValidAddresses csm address
    match err with
    | some e =>
      if SessionError.Is .AddressIndexWasNotFoundError e then
        -- line 314
        if reportProvider && !decide (address ∈ csm1.addedToPurgeAndReport) then
          ({ csm1 with addedToPurgeAndReport := csm1.addedToPurgeAndReport ++ [address] }, none)
        else (csm1, none)
      else (csm1, some e)
    | none =>
      -- line 314
      if reportProvider && !decide (address ∈ csm1.addedToPurgeAndReport) then
        ({ csm1 with addedToPurgeAndReport := csm1.addedToPurgeAndReport ++ [address] }, none)
      else (csm1, none)

/-! ## The parent's compute units -/

/-- Modelled from the spec: `addUsedComputeUnits` is declared in a file that is not among the
sources. By the spec `usedComputeUnits ≤ maxComputeUnits` holds at all times and a request
that does not fit is refused with `MaxComputeUnitsExceeded`; otherwise the compute units are
charged to the parent. -/
def addUsedComputeUnits (cswp : ConsumerSessionsWithProvider) (cu : Nat) :
    ConsumerSessionsWithProvider × Option SessionError :=
  if cswp.UsedComputeUnits + cu > cswp.MaxComputeUnits then
    (cswp, some .MaxComputeUnitsExceededError)
  else
    ({ cswp with UsedComputeUnits := cswp.UsedComputeUnits + cu }, none)

/-- Modelled from the spec: `decreaseUsedComputeUnits` is declared in a file that is not among
the sources. By the spec a decreasing operation never drops below 0; the callers (lines 344
and 381) show that it can return an error, which is this case, and then nothing is
subtracted. -/
def decreaseUsedComputeUnits (cswp : ConsumerSessionsWithProvider) (cu : Nat) :
    ConsumerSessionsWithProvider × Option SessionError :=
  if cswp.UsedComputeUnits < cu then
    (cswp, some .NegativeComputeUnitsAmountError)
  else
    ({ cswp with UsedComputeUnits := cswp.UsedComputeUnits - cu }, none)

/-- Modelled from the spec: `getPublicLavaAddressAndPairingEpoch` is declared in a file that
is not among the sources; it reads the two fields its name gives. -/
def getPublicLavaAddressAndPairingEpoch (cswp : ConsumerSessionsWithProvider) : Nat × Nat :=
  (cswp.PublicLavaAddress, cswp.PairingEpoch)

/-- Modelled from the spec: the constant `RelayNumberIncrement` is declared in a file that is
not among the sources; in the spec `onSessionDone` increments `relayNum`, and one call takes
it from 0 to 1. -/
def RelayNumberIncrement : Nat := 1

/-! ## The callbacks on a session (lines 323-405 and 438-463) -/

/-- The method `verifyLock`: `TryLock` succeeds exactly when the session is not locked, which
is the misuse; the lock is left as it was. -/
def verifyLock (consumerSession : SingleConsumerSession) : Option SessionError :=
  if consumerSession.locked then none else some .LockMisUseDetectedError

/-- The method `OnSessionUnUsed` (the receiver is not read). -/
def OnSessionUnUsed (consumerSession : SingleConsumerSession) :
    SingleConsumerSession × Option SessionError :=
  match verifyLock consumerSession with
  | some err => (consumerSession, some (.Wrapf err))
  | none =>
    -- lines 339-343
    let cuToDecrease := consumerSession.LatestRelayCu
    let session1 : SingleConsumerSession :=
      { consumerSession with LatestRelayCu := 0, locked := false }
    -- line 344
    let (parent, err) := decreaseUsedComputeUnits session1.Client cuToDecrease
    ({ session1 with Client := parent }, err)

/-- The method `OnSessionFailure`. The constant
`MaximumNumberOfFailuresAllowedPerConsumerSession`, declared in a file that is not among the
sources, is a parameter. -/
def OnSessionFailure (MaximumNumberOfFailuresAllowedPerConsumerSession : Nat)
    (csm : ConsumerSessionManager) (consumerSession : SingleConsumerSession)
    (errorReceived : ReceivedError) :
    ConsumerSessionManager × SingleConsumerSession × Option SessionError :=
  match verifyLock consumerSession with
  | some err => (csm, consumerSession, some (.Wrapf err))
  | none =>
    -- line 361
    if consumerSession.BlockListed then
      (csm, consumerSession, some (.Wrapf .SessionIsAlreadyBlockListedError))
    else
      -- lines 366-367
      let session1 : SingleConsumerSession :=
        { consumerSession with
          QoSInfo :=
            { consumerSession.QoSInfo with
              TotalRelays := consumerSession.QoSInfo.TotalRelays + 1 },
          ConsecutiveNumberOfFailures := consumerSession.ConsecutiveNumberOfFailures + 1 }
      -- line 370
      let session2 : SingleConsumerSession :=
        if session1.ConsecutiveNumberOfFailures
              > MaximumNumberOfFailuresAllowedPerConsumerSession
            || errorReceived.hasSessionOutOfSyncCode then
          { session1 with BlockListed := true }
        else session1
      -- lines 374-379
      let cuToDecrease := session2.LatestRelayCu
      let session3 : SingleConsumerSession :=
        { session2 with LatestRelayCu := 0, locked := false }
      -- line 381
      let (parent, err) := decreaseUsedComputeUnits session3.Client cuToDecrease
      let session4 : SingleConsumerSession := { session3 with Client := parent }
      match err with
      | some e => (csm, session4, some e)
      | none =>
        -- lines 387-393
        let reportProvider := errorReceived.isReportAndBlockProvider
        let blockProviderFlag :=
          errorReceived.isReportAndBlockProvider || errorReceived.isBlockProvider
        if blockProviderFlag then
          -- lines 395-396
          let (publicProviderAddress, pairingEpoch) :=
            getPublicLavaAddressAndPairingEpoch parent
          let (csm1, err1) := blockProvider csm publicProviderAddress reportProvider pairingEpoch
          match err1 with
          | some e1 =>
            if SessionError.Is .EpochMismatchError e1 then (csm1, session4, none)
            else (csm1, session4, some e1)
          | none => (csm1, session4, none)
        else (csm, session4, none)

/-- The method `OnSessionDone` (the receiver is not read). The call of `CalculateQoS`, which
is declared in a file that is not among the sources, is a parameter acting on the
quality-of-service record of the session (spec, 4.2.1); `CuSum` is a `uint64`. -/
def OnSessionDone (CalculateQoS : QoSInfo → QoSInfo) (consumerSession : SingleConsumerSession)
    (latestServicedBlock : Int) : SingleConsumerSession × Option SessionError :=
  match verifyLock consumerSession with
  | some err => (consumerSession, some (.Wrapf err))
  | none =>
    -- lines 455-461, then the deferred unlock
    ({ consumerSession with
        CuSum := uint64Add consumerSession.CuSum consumerSession.LatestRelayCu,
        LatestRelayCu := 0,
        RelayNum := consumerSession.RelayNum + RelayNumberIncrement,
        ConsecutiveNumberOfFailures := 0,
        LatestBlock := latestServicedBlock,
        QoSInfo := CalculateQoS consumerSession.QoSInfo,
        locked := false }, none)

/-- The end of the loop body of `GetSession` (lines 210-226), on a session obtained locked
from the pool of the chosen provider, which is its `Client`: the compute units are charged
to the parent and recorded in `LatestRelayCu`. With an error the session is unlocked and the
loop goes on with another provider. -/
def GetSessionCharge (consumerSession : SingleConsumerSession) (cuNeededForSession : Nat) :
    SingleConsumerSession × Option SessionError :=
  -- line 211
  match addUsedComputeUnits consumerSession.Client cuNeededForSession with
  | (_, some err) => ({ consumerSession with locked := false }, some err)
  | (parent, none) =>
    -- line 223
    ({ consumerSession with Client := parent, LatestRelayCu := cuNeededForSession }, none)

/-- The provider a pairing list gives for an address: the last one of the list that bears
the address (a later assignment to the same key of a Go map replaces the earlier one). -/
def lastProviderWithAddress (address : Nat) (pairingList : List ConsumerSessionsWithProvider) :
    Option ConsumerSessionsWithProvider :=
  (pairingList.filter (fun provider => provider.PublicLavaAddress == address)).getLast?

/-! ## Choice of the data-reliability provider (lines 483-546) -/

/-- What `getDataReliabilityProviderIndex` returns: the provider `cswp` (nil when absent), the
provider address (`none` is the empty string), the epoch and the error. -/
structure DataReliabilityProvider where
  cswp : Option ConsumerSessionsWithProvider
  providerAddress : Option Nat
  epoch : Nat
  err : Option SessionError
deriving DecidableEq, Repr

/-- The method `GetAtomicPairingAddressesLength`. -/
def GetAtomicPairingAddressesLength (csm : ConsumerSessionManager) : Nat :=
  csm.pairingAddressesLength

/-- The method `getDataReliabilityProviderIndex`; `index` is a `uint64`. The outer `none` is
the run-time panic of `csm.pairingAddresses[index]` (line 497) for an index outside the
slice; a key that `csm.pairing` does not hold gives the nil provider. -/
def getDataReliabilityProviderIndex (csm : ConsumerSessionManager) (unAllowedAddress : Nat)
    (index : Nat) : Option DataReliabilityProvider :=
  let currentEpoch := csm.currentEpoch
  let pairingAddressesLength := GetAtomicPairingAddressesLength csm
  -- line 493
  if index ≥ pairingAddressesLength then
    some ⟨none, none, currentEpoch, some .DataReliabilityIndexOutOfRangeError⟩
  else
    -- line 497
    match csm.pairingAddresses[index]? with
    | none => none
    | some providerAddress =>
      if providerAddress = unAllowedAddress then
        some ⟨none, none, currentEpoch,
          some .DataReliabilityIndexRequestedIsOriginalProviderError⟩
      else
        some ⟨mapGet providerAddress csm.pairing, some providerAddress, currentEpoch, none⟩

/-- The first steps of `GetDataReliabilitySession` (lines 540-546): the `int64` index is
converted to `uint64` for `getDataReliabilityProviderIndex`, an error of the choice is handed
on with epoch 0, and the session epoch is compared with the epoch read there. What is
returned without an error is the choice the rest of the method works with. -/
def GetDataReliabilitySessionChoice (csm : ConsumerSessionManager)
    (originalProviderAddress : Nat) (index : Int) (sessionEpoch : Nat) :
    Option DataReliabilityProvider :=
  match getDataReliabilityProviderIndex csm originalProviderAddress (uint64OfInt64 index) with
  | none => none
  | some choice =>
    match choice.err with
    | some err => some ⟨none, none, 0, some err⟩
    | none =>
      -- line 544
      if sessionEpoch ≠ choice.epoch then
        some ⟨none, none, choice.epoch, some .DataReliabilityEpochMismatchError⟩
      else some choice

/-! ## Relay admission: `initRelay` (`server.go`, lines 566-745) -/

/-- The conversion `int64(a)` of a `uint64`. -/
def int64OfUint64 (a : Nat) : Int :=
  if a % 2 ^ 64 < 2 ^ 63 then ((a % 2 ^ 64 : Nat) : Int) else ((a % 2 ^ 64 : Nat) : Int) - 2 ^ 64

/-- A relay request as `initRelay` reads it: the fields of the accounting, the provider it is
addressed to and the pointer `DataReliability` (nil for a regular relay). -/
structure InboundRelayRequest where
  request : RelayRequest
  Provider : Nat
  DataReliability : Option Nat
deriving DecidableEq, Repr

/-- The provider-side state of one consumer: its `UserSessions`, and beside the quota fields
of the epoch records their field `DataReliability`: `dataReliabilityByEpoch` holds, under the
epoch, the pointer `dataByEpoch[epoch].DataReliability` when it is not nil. -/
structure ConsumerState where
  userSessions : UserSessions
  dataReliabilityByEpoch : List (Nat × Nat)
deriving DecidableEq, Repr

/-- The answers of the calls `initRelay` makes outside the session accounting (the sentry, the
signature checks, the chain proxy); each is a parameter. A failing call gives its error. -/
structure InitRelayCalls where
  /-- The address `g_sentry.Acc` of this provider. -/
  Acc : Nat
  /-- The answer of `g_sentry.GetPrevEpochHeight()`. -/
  PrevEpochHeight : Nat
  /-- The answer of `g_sentry.GetCurrentEpochHeight()`. -/
  CurrentEpochHeight : Nat
  /-- The error of `getRelayUser`, if any. -/
  getRelayUser : Option RelayError
  /-- The error of `sdk.AccAddressFromHex`, if any. -/
  AccAddressFromHex : Option RelayError
  /-- The answer of `isSupportedSpec`. -/
  isSupportedSpec : Bool
  /-- The answer of `g_sentry.IsAuthorizedConsumer`: the field `Index` of the response. -/
  IsAuthorizedConsumer : Except RelayError Int
  /-- The answer of `g_chainProxy.ParseMsg`. -/
  ParseMsg : Except RelayError NodeMessage
  /-- The answer of `g_sentry.GetVrfPkAndMaxCuForUser`. -/
  GetVrfPkAndMaxCuForUser : Except RelayError (Option Nat × Nat)
  /-- The answer of `VerifyReliabilityAddressSigning`. -/
  VerifyReliabilityAddressSigning : Except RelayError Bool
  /-- The answer of `utils.VerifyVrfProof`. -/
  VerifyVrfProof : Bool
  /-- The answer of `utils.GetIndexForVrf`: the index and the error, if any. -/
  GetIndexForVrf : Int × Option RelayError

/-- What `initRelay` returns and leaves behind: the state of the consumer, the parsed message,
the session and the error. -/
structure InitRelayResult where
  state : ConsumerState
  nodeMsg : Option NodeMessage
  relaySession : Option RelaySession
  err : Option RelayError
deriving DecidableEq, Repr

/-- The closure `authorizeAndParseMessage` of `initRelay` (lines 597-609). -/
def authorizeAndParseMessage (calls : InitRelayCalls) : Except RelayError (Int × NodeMessage) :=
  match calls.IsAuthorizedConsumer with
  | .error err => .error (.LavaFormatError .userNotAuthorized err)
  | .ok index =>
    match calls.ParseMsg with
    | .error err => .error (.LavaFormatError .failedParsing err)
    | .ok nodeMsg => .ok (index, nodeMsg)

/-- The data-reliability branch of `initRelay` (lines 618-696). The constants
`DataReliabilitySessionId` and `DataReliabilityCuSum` of the package `lavasession`, declared in
a file that is not among the sources, are parameters. -/
def initRelayDataReliability (DataReliabilitySessionId DataReliabilityCuSum : Nat)
    (calls : InitRelayCalls) (state : ConsumerState) (request : RelayRequest)
    (dataReliability : Nat) (selfIndex : Int) (nodeMsg : NodeMessage) :
    Option InitRelayResult :=
  -- line 618
  if request.RelayNum > DataReliabilitySessionId then
    some ⟨state, none, none, some (.LavaFormatErrorNil .relayNumAboveDataReliability)⟩
  -- line 621
  else if request.CuSum ≠ DataReliabilityCuSum then
    some ⟨state, none, none, some (.LavaFormatErrorNil .cuSumNotDataReliability)⟩
  else
    -- line 625
    match calls.GetVrfPkAndMaxCuForUser with
    | .error err => some ⟨state, none, none, some (.LavaFormatError .vrfPkQueryFailed err)⟩
    | .ok (vrf_pk, maxcuRes) =>
      let epoch := uint64OfInt64 request.BlockHeight
      -- lines 633-640
      if (mapGet epoch state.userSessions.dataByEpoch).isSome
          && (mapGet epoch state.dataReliabilityByEpoch).isSome then
        some ⟨state, none, none, some (.LavaFormatErrorNil .dataReliabilityUsed)⟩
      -- line 643
      else if vrf_pk.isNone then
        some ⟨state, none, none, some (.LavaFormatErrorNil .nilVrfPk)⟩
      else
        -- line 648
        match calls.VerifyReliabilityAddressSigning with
        | .error err =>
          some ⟨state, none, none, some (.LavaFormatError .reliabilitySigningFailed err)⟩
        | .ok valid =>
          if !valid then
            some ⟨state, none, none, some (.LavaFormatErrorNil .invalidReliabilitySigning)⟩
          -- line 658
          else if !calls.VerifyVrfProof then
            some ⟨state, none, none, some (.LavaFormatErrorNil .invalidVrfProof)⟩
          else
            -- line 664
            match calls.GetIndexForVrf with
            | (_, some vrfErr) =>
              some ⟨state, none, none, some (.LavaFormatError .vrfThreshold vrfErr)⟩
            | (vrfIndex, none) =>
              -- line 678
              if selfIndex ≠ vrfIndex then
                some ⟨state, none, none, some (.LavaFormatErrorNil .vrfIndexMismatch)⟩
              else
                -- lines 694-695
                match getOrCreateDataByEpoch state.userSessions epoch maxcuRes vrf_pk with
                | none => none
                | some userSessions1 =>
                  some ⟨⟨userSessions1,
                          mapPut epoch dataReliability state.dataReliabilityByEpoch⟩,
                        some nodeMsg, none, none⟩

/-- The regular branch of `initRelay` (lines 698-740). The field `Proof` of the session, where
line 737 keeps a copy of the request, is not among the fields of `RelaySession` above. -/
def initRelayRegular (calls : InitRelayCalls) (state : ConsumerState) (request : RelayRequest)
    (nodeMsg : NodeMessage) : Option InitRelayResult :=
  -- line 698
  match getOrCreateSession state.userSessions request calls.GetVrfPkAndMaxCuForUser
      calls.CurrentEpochHeight calls.PrevEpochHeight with
  | none => none
  | some (userSessions1, _, some err) =>
    some ⟨{ state with userSessions := userSessions1 }, none, none, some err⟩
  | some (userSessions1, none, none) =>
    -- line 702
    some ⟨{ state with userSessions := userSessions1 }, none, none,
      some (.LavaFormatErrorNil .nilRelaySession)⟩
  | some (userSessions1, some relaySession, none) =>
    let pairingEpoch := relaySession.PairingEpoch
    -- line 708
    if request.BlockHeight ≠ int64OfUint64 pairingEpoch then
      some ⟨{ state with userSessions := userSessions1 }, none, none,
        some (.LavaFormatErrorNil .epochMismatch)⟩
    -- line 721
    else if request.SessionId = 0 then
      some ⟨{ state with userSessions := userSessions1 }, none, none,
        some (.LavaFormatErrorNil .zeroSessionId)⟩
    else
      -- line 729
      match relayUpdateSessionCu userSessions1 (NodeMessage.GetServiceApi nodeMsg) request with
      | none => none
      | some (userSessions2, some err) =>
        some ⟨{ state with userSessions := userSessions2 }, none, none, some err⟩
      | some (userSessions2, none) =>
        some ⟨{ state with userSessions := userSessions2 }, some nodeMsg,
          mapGet request.SessionId userSessions2.Sessions, none⟩

/-- The method `initRelay`, on the state of the consumer the request comes from. The outer
`none` is a nil dereference in the session accounting. The last test (line 741) is on a
pointer that is not nil on either branch. -/
def initRelay (DataReliabilitySessionId DataReliabilityCuSum : Nat) (calls : InitRelayCalls)
    (state : ConsumerState) (inbound : InboundRelayRequest) : Option InitRelayResult :=
  let request := inbound.request
  -- line 568
  if request.BlockHeight < int64OfUint64 calls.PrevEpochHeight then
    some ⟨state, none, none, some (.LavaFormatErrorNil .veryOldBlockHeight)⟩
  -- line 576
  else if calls.Acc ≠ inbound.Provider then
    some ⟨state, none, none, some (.LavaFormatErrorNil .wrongProvider)⟩
  else
    -- line 583
    match calls.getRelayUser with
    | some err => some ⟨state, none, none, some (.LavaFormatError .relayUser err)⟩
    | none =>
      -- line 587
      match calls.AccAddressFromHex with
      | some err => some ⟨state, none, none, some (.LavaFormatError .relayAccAddress err)⟩
      | none =>
        -- line 592
        if !calls.isSupportedSpec then
          some ⟨state, none, none, some (.LavaFormatErrorNil .specNotSupported)⟩
        else
          -- line 611
          match authorizeAndParseMessage calls with
          | .error err => some ⟨state, none, none, some (.LavaFormatError .failedAuthorizing err)⟩
          | .ok (selfIndex, nodeMsg) =>
            -- line 617
            match inbound.DataReliability with
            | some dataReliability =>
              initRelayDataReliability DataReliabilitySessionId DataReliabilityCuSum calls state
                request dataReliability selfIndex nodeMsg
            | none => initRelayRegular calls state request nodeMsg

/-! ## Reward claims: `askForRewards` (`server.go`, lines 132-349)

Texts are lists of characters. -/

/-- The statement `delete(m, k)` of a Go map. -/
def mapDelete {β : Type} (k : Nat) (m : List (Nat × β)) : List (Nat × β) :=
  m.filter (fun p => p.1 ≠ k)

/-- The constant `RETRY_INCORRECT_SEQUENCE` (line 52). -/
def RETRY_INCORRECT_SEQUENCE : Nat := 5

/-- The test `strings.HasPrefix(s, prefix)`. -/
def stringsHasPrefix : List Char → List Char → Bool
  | _, [] => true
  | [], _ :: _ => false
  | c :: s, p :: ps => c == p && stringsHasPrefix s ps

/-- The test `strings.Contains(s, substr)`. -/
def stringsContains (s substr : List Char) : Bool :=
  match s with
  | [] => stringsHasPrefix [] substr
  | c :: rest => stringsHasPrefix (c :: rest) substr || stringsContains rest substr

/-- The call `strings.ReplaceAll(s, ": ", ":")`: two occurrences of `": "` cannot overlap, so
every space that follows a colon is dropped. `afterColon` tells that the character before the
list was a colon that was kept. -/
def replaceColonSpace : Bool → List Char → List Char
  | _, [] => []
  | afterColon, c :: rest =>
    if afterColon && c == Char.ofNat 32 then replaceColonSpace false rest
    else c :: replaceColonSpace (c == Char.ofNat 58) rest

/-- The call `strings.Split(s, "\n")`. -/
def splitLines : List Char → List (List Char)
  | [] => [[]]
  | c :: rest =>
    if c == Char.ofNat 10 then [] :: splitLines rest
    else
      match splitLines rest with
      | [] => [[c]]
      | line :: lines => (c :: line) :: lines

/-- The call `strconv.Atoi` on a text of decimal digits: the value and whether there is an
error, which for digits is the range error of a 64-bit `int`, returned with the largest
`int`. -/
def Atoi (digits : List Char) : Nat × Bool :=
  let value := digits.foldl (fun acc c => 10 * acc + (c.toNat - 48)) 0
  if value < 2 ^ 63 then (value, false) else (2 ^ 63 - 1, true)

/-- The first submatch of the leftmost match of the regular expression `code:(\d+)`. -/
def matchCode : List Char → Option (List Char)
  | [] => none
  | c :: rest =>
    let digits := ((c :: rest).drop 5).takeWhile Char.isDigit
    if stringsHasPrefix (c :: rest) "code:".toList && !digits.isEmpty then some digits
    else matchCode rest

/-- The first submatch of the leftmost match of the regular expression
`expected (\d+), got (\d+)`. -/
def matchExpectedGot : List Char → Option (List Char)
  | [] => none
  | c :: rest =>
    let digits := ((c :: rest).drop 9).takeWhile Char.isDigit
    let after := ((c :: rest).drop 9).dropWhile Char.isDigit
    if stringsHasPrefix (c :: rest) "expected ".toList && !digits.isEmpty
        && stringsHasPrefix after ", got ".toList
        && !((after.drop 6).takeWhile Char.isDigit).isEmpty then
      some digits
    else matchExpectedGot rest

/-- The function `findSequenceNumber`: the number and whether there is an error. -/
def findSequenceNumber (sequence : List Char) : Nat × Bool :=
  match matchExpectedGot sequence with
  | none => (0, true)
  | some digits => Atoi digits

/-- The function `parseTransactionResult`: the summary and the return code. -/
def parseTransactionResult (transactionResult : List Char) : List Char × Nat :=
  let transactionResult1 := replaceColonSpace false transactionResult
  let transactionResults := splitLines transactionResult1
  let summarizedResult := transactionResults.foldl
    (fun summarizedResult str =>
      if stringsContains str "raw_log:".toList || stringsContains str "txhash:".toList
          || stringsContains str "code:".toList then
        summarizedResult ++ str ++ ", ".toList
      else summarizedResult) []
  match matchCode transactionResult1 with
  | none => (summarizedResult, 1)
  | some digits =>
    let (retCode, err) := Atoi digits
    if err then (summarizedResult, 1) else (summarizedResult, retCode)

/-- A session of the rewards ledger `g_rewardsSessions` as `askForRewards` reads it: the
session with its field `Proof`, nil when no relay request was saved. -/
structure RewardSession where
  session : RelaySession
  Proof : Option RelayRequest
deriving DecidableEq, Repr

/-- The epochs `askForRewards` claims (lines 135-150): the stale epoch and, when the ledger
holds more than `StaleEpochDistance + 1` epochs, every epoch of the ledger below it. The
constant `sentry.StaleEpochDistance`, declared in a file that is not among the sources, is a
parameter; the ledger holds one pair for each of its epochs. -/
def staleEpochsToClaim (StaleEpochDistance : Nat)
    (g_rewardsSessions : List (Nat × List RewardSession)) (staleEpochHeight : Int) : List Nat :=
  let staleEpochs := [uint64OfInt64 staleEpochHeight]
  if g_rewardsSessions.length > StaleEpochDistance + 1 then
    staleEpochs ++ (g_rewardsSessions.map Prod.fst).filter
      (fun epoch => epoch < uint64OfInt64 staleEpochHeight)
  else staleEpochs

/-- The loop of lines 157-224 on the ledger and the list `relays`: the proofs of the sessions
of a stale epoch are appended and the epoch is deleted from the ledger. The expected payments
and the `DataReliability` that the loop attaches to a proof touch neither of the two. -/
def collectRewards :
    List Nat → List (Nat × List RewardSession) → List RelayRequest →
      List (Nat × List RewardSession) × List RelayRequest
  | [], g_rewardsSessions, relays => (g_rewardsSessions, relays)
  | staleEpoch :: rest, g_rewardsSessions, relays =>
    match mapGet staleEpoch g_rewardsSessions with
    | none => collectRewards rest g_rewardsSessions relays
    | some staleEpochSessions =>
      collectRewards rest (mapDelete staleEpoch g_rewardsSessions)
        (relays ++ staleEpochSessions.filterMap (fun session => session.Proof))

/-- One broadcast of the payment message: the sequence number given to the transaction factory
just before it (`none` when the factory is used as it is) and the response text. -/
structure RewardBroadcast where
  sequence : Option Nat
  transactionResult : List Char
deriving DecidableEq, Repr

/-- The loop of lines 261-310, with `remaining` iterations left before `idx` reaches
`RETRY_INCORRECT_SEQUENCE`: the broadcasts made and the flag `success`. The response text of
the broadcast number `attempt` is `broadcast attempt`, and the answer of
`AccountRetriever.GetAccountNumberSequence` asked before it is
`GetAccountNumberSequence attempt`, `none` for an error. -/
def askForRewardsRetry (broadcast : Nat → List Char)
    (GetAccountNumberSequence : Nat → Option Nat) :
    Nat → Nat → Bool → Nat → List RewardBroadcast × Bool
  | 0, _, _, _ => ([], false)
  | remaining + 1, attempt, hasSequenceError, sequenceNumberParsed =>
    -- lines 264-285; the inner `none` is the `break` of line 277
    let seq : Option (Option Nat) :=
      if hasSequenceError then
        if sequenceNumberParsed ≠ 0 then some (some sequenceNumberParsed)
        else
          match GetAccountNumberSequence attempt with
          | some seq => some (some seq)
          | none => none
      else some none
    match seq with
    | none => ([], false)
    | some sequence =>
      -- lines 287-298
      let transactionResult := broadcast attempt
      let returnCode := (parseTransactionResult transactionResult).2
      -- line 300
      if returnCode = 0 then ([⟨sequence, transactionResult⟩], true)
      else
        let next :=
          -- line 302
          if stringsContains transactionResult "account sequence".toList then
            askForRewardsRetry broadcast GetAccountNumberSequence remaining (attempt + 1) true
              (findSequenceNumber transactionResult).1
          else
            askForRewardsRetry broadcast GetAccountNumberSequence remaining (attempt + 1)
              hasSequenceError sequenceNumberParsed
        (⟨sequence, transactionResult⟩ :: next.1, next.2)

/-- The function `askForRewards` on the rewards ledger: the ledger it leaves, the broadcasts
it makes and the flag `success`. The loop starts with `idx = -1` and runs while
`idx < RETRY_INCORRECT_SEQUENCE`, that is for at most `RETRY_INCORRECT_SEQUENCE + 1`
iterations. The removal of the claimed sessions from the consumers (lines 226-244) does not
touch the ledger. -/
def askForRewards (StaleEpochDistance : Nat) (broadcast : Nat → List Char)
    (GetAccountNumberSequence : Nat → Option Nat)
    (g_rewardsSessions : List (Nat × List RewardSession)) (staleEpochHeight : Int) :
    List (Nat × List RewardSession) × List RewardBroadcast × Bool :=
  let staleEpochs := staleEpochsToClaim StaleEpochDistance g_rewardsSessions staleEpochHeight
  let (g_rewardsSessions1, relays) := collectRewards staleEpochs g_rewardsSessions []
  -- line 245
  if relays.length = 0 then (g_rewardsSessions1, [], false)
  else
    let (broadcasts, success) :=
      askForRewardsRetry broadcast GetAccountNumberSequence (RETRY_INCORRECT_SEQUENCE + 1) 0
        false 0
    (g_rewardsSessions1, broadcasts, success)

/-! ## The error returned to the consumer (`server.go`, lines 786-794) -/

/-- An error as `Relay` returns it to the peer: an error of the provider as it is, or the
gRPC status error `status.Error(code, msg)` made from one. -/
inductive RelayStatusError where
  | plain (err : RelayError)
  | status (code : Nat) (msg : RelayError)
deriving DecidableEq, Repr

/-- The method `handleRelayErrorStatus`. The ABCI code of the registered error
`lavasession.SessionOutOfSyncError`, declared in a file that is not among the sources, is a
parameter. -/
def handleRelayErrorStatus (SessionOutOfSyncErrorABCICode : Nat) (err : Option RelayError) :
    Option RelayStatusError :=
  match err with
  | none => none
  | some err =>
    if err.isSessionOutOfSync then some (.status SessionOutOfSyncErrorABCICode err)
    else some (.plain err)

/-- The function `status.Code` of the gRPC library on an error that is not nil: the code of a
status error, and `codes.Unknown`, which is 2, for any other error. -/
def statusCode : RelayStatusError → Nat
  | .plain _ => 2
  | .status code _ => code

/-- What `OnSessionFailure` finds in an error returned by the provider: the test of line 370
compares its status code with the ABCI code of `SessionOutOfSyncError`; the answers to the two
other tests are given. -/
def receivedError (SessionOutOfSyncErrorABCICode : Nat) (err : RelayStatusError)
    (isReportAndBlockProvider isBlockProvider : Bool) : ReceivedError :=
  ⟨statusCode err == SessionOutOfSyncErrorABCICode, isReportAndBlockProvider, isBlockProvider⟩

/-! ## Votes (`server.go`, lines 123-127 and 1067-1173)

Vote identifiers, chain identifiers and byte strings are only stored, compared and handed on;
they are `Nat` identifiers. -/

/-- The struct `voteData`. -/
structure voteData where
  RelayDataHash : Nat
  Nonce : Int
  CommitHash : Nat
deriving DecidableEq, Repr

/-- The fields of `sentry.VoteParams` that `voteEventHandler` reads itself (the request it
hands to the chain proxy is answered in the event). -/
structure VoteParams where
  CloseVote : Bool
  ChainID : Nat
  Voters : List Nat
deriving DecidableEq, Repr

/-- Modelled from the spec: the method `GetCloseVote` of `sentry.VoteParams` is declared in a
file that is not among the sources. The handler calls it on the pointer before it tests the
pointer for nil (lines 1090 and 1092), and a reveal event, which has no parameters, has to
pass as an event that does not close the vote: on nil the answer is false. -/
def VoteParams.GetCloseVote : Option VoteParams → Bool
  | none => false
  | some voteParams => voteParams.CloseVote

/-- A message `voteEventHandler` sends: `SendVoteCommitment` and `SendVoteReveal`, with what
they put into the message. -/
inductive VoteMessage where
  | commit (voteID : Nat) (CommitHash : Nat)
  | reveal (voteID : Nat) (Nonce : Int) (RelayDataHash : Nat)
deriving DecidableEq, Repr

/-- What is fixed for the handler: the chain `g_serverChainID`, the account `g_sentry.Acc`,
and the two hash functions `sigs.HashMsg` and `conflicttypes.CommitVoteData`. -/
structure VoteServer where
  g_serverChainID : Nat
  Acc : Nat
  HashMsg : Nat → Nat
  CommitVoteData : Int → Nat → Nat

/-- A vote event: the arguments of `voteEventHandler` and the answers it gets while it handles
the event: the block height of the sentry, the data of the reply to the disputed query (`none`
when `ParseMsg` or `Send` returns an error) and the random nonce. -/
structure VoteEvent where
  voteID : Nat
  voteDeadline : Nat
  voteParams : Option VoteParams
  blockHeight : Int
  reply : Option Nat
  nonce : Int
deriving DecidableEq, Repr

/-- The function `voteEventHandler` on the map `g_votes`: the map it leaves and the messages
it sends. -/
def voteEventHandler (server : VoteServer) (g_votes : List (Nat × voteData))
    (event : VoteEvent) : List (Nat × voteData) × List VoteMessage :=
  let voteParams := event.voteParams
  -- lines 1090-1099
  if !VoteParams.GetCloseVote voteParams
      && (match voteParams with
          | some params => decide (params.ChainID ≠ server.g_serverChainID)
          | none => false) then
    (g_votes, [])
  -- lines 1100-1106
  else if !VoteParams.GetCloseVote voteParams
      && decide (event.voteDeadline < uint64OfInt64 event.blockHeight) then
    (g_votes, [])
  else
    -- line 1110
    match mapGet event.voteID g_votes with
    | some vote =>
      match voteParams with
      | some params =>
        -- lines 1114-1124
        if VoteParams.GetCloseVote (some params) then (mapDelete event.voteID g_votes, [])
        else (g_votes, [])
      -- line 1128
      | none => (g_votes, [.reveal event.voteID vote.Nonce vote.RelayDataHash])
    | none =>
      match voteParams with
      -- line 1132
      | none => (g_votes, [])
      | some params =>
        -- line 1137
        if VoteParams.GetCloseVote (some params) then (g_votes, [])
        -- line 1143
        else if !params.Voters.contains server.Acc then (g_votes, [])
        else
          -- lines 1151-1162
          match event.reply with
          | none => (g_votes, [])
          | some data =>
            -- lines 1163-1170
            let nonce := event.nonce
            let replyDataHash := server.HashMsg data
            let commitHash := server.CommitVoteData nonce replyDataHash
            let vote : voteData := ⟨replyDataHash, nonce, commitHash⟩
            (mapPut event.voteID vote g_votes, [.commit event.voteID vote.CommitHash])

/-- The map `g_votes` after the events of a list have been handled in turn, from the empty
map of the server's start (line 1215). -/
def votesAfter (server : VoteServer) (events : List VoteEvent) : List (Nat × voteData) :=
  events.foldl (fun g_votes event => (voteEventHandler server g_votes event).1) []

/-! ## Unsubscribing (`server.go`, lines 520-564)

Subscription identifiers are strings that are only stored and compared: they are `Nat`
identifiers, the empty string being 0. A subscription is the `Nat` handle of its upstream
client. -/

/-- A value among the request parameters, as far as `processUnsubscribe` tells them apart: a
string or anything else. -/
inductive ParamValue where
  | string (s : Nat)
  | other
deriving DecidableEq, Repr

/-- The request parameters `reqParams interface{}` by their dynamic type: `[]interface{}`,
`map[string]interface{}`, or another type. -/
inductive ReqParams where
  | list (p : List ParamValue)
  | map (p : List (String × ParamValue))
  | other
deriving DecidableEq, Repr

/-- What an unsubscribe call leaves: the map `Subs` of the consumer, the subscriptions it
disconnected, and the error. -/
structure UnsubscribeResult where
  Subs : List (Nat × Nat)
  disconnected : List Nat
  err : Option RelayError
deriving DecidableEq, Repr

/-- The function `processUnsubscribeEthereum` on the map `Subs` of the consumer. -/
def processUnsubscribeEthereum (subscriptionID : Nat) (Subs : List (Nat × Nat)) :
    List (Nat × Nat) × List Nat :=
  match mapGet subscriptionID Subs with
  | some sub => (mapDelete subscriptionID Subs, [sub])
  | none => (Subs, [])

/-- The function `processUnsubscribeTendermint` on the map `Subs` of the consumer; the loop of
lines 534-537 disconnects and deletes the entries one by one. -/
def processUnsubscribeTendermint (apiName : String) (subscriptionID : Nat)
    (Subs : List (Nat × Nat)) : List (Nat × Nat) × List Nat :=
  if apiName = "unsubscribe" then
    match mapGet subscriptionID Subs with
    | some sub => (mapDelete subscriptionID Subs, [sub])
    | none => (Subs, [])
  else
    (Subs.foldl (fun subs entry => mapDelete entry.1 subs) Subs, Subs.map Prod.snd)

/-- The function `processUnsubscribe` on the map `Subs` of the consumer `userAddr`. The result
is `none` when `p[0]` (line 547) is taken of an empty list. -/
def processUnsubscribe (apiName : String) (Subs : List (Nat × Nat)) (reqParams : ReqParams) :
    Option UnsubscribeResult :=
  match reqParams with
  | .list p =>
    -- line 547
    match p with
    | [] => none
    | .string subscriptionID :: _ =>
      let (subs, disconnected) := processUnsubscribeEthereum subscriptionID Subs
      some ⟨subs, disconnected, none⟩
    | .other :: _ => some ⟨Subs, [], some (.Errorf .unsubscribeParam)⟩
  | .map p =>
    -- line 554
    if apiName = "unsubscribe" then
      match p.lookup "query" with
      | some (.string subscriptionID) =>
        let (subs, disconnected) := processUnsubscribeTendermint apiName subscriptionID Subs
        some ⟨subs, disconnected, none⟩
      | _ => some ⟨Subs, [], some (.Errorf .unsubscribeQuery)⟩
    else
      let (subs, disconnected) := processUnsubscribeTendermint apiName 0 Subs
      some ⟨subs, disconnected, none⟩
  | .other => some ⟨Subs, [], none⟩

/-! ## Aggregated metrics (`metricsService.go`, lines 14-18 and 126-187)

Project hashes, chain identifiers and API types are strings that are only used as keys; they
are `Nat` identifiers. -/

/-- The value an `int64` computation gives for the integer `x`: `x` reduced modulo `2^64` into
the range from `-2^63` to `2^63 - 1`. -/
def int64Wrap (x : Int) : Int := (x + 2 ^ 63) % 2 ^ 64 - 2 ^ 63

/-- The sum `a + b` of two `int64`. -/
def int64Add (a b : Int) : Int := int64Wrap (a + b)

/-- The struct `AggregatedMetric`; the three fields are `int64`. -/
structure AggregatedMetric where
  TotalLatency : Int
  RelaysCount : Int
  SuccessCount : Int
deriving DecidableEq, Repr

/-- The fields of `RelayMetrics` that `storeAggregatedData` reads, as the test builds the
record (`metrics_test.go`, lines 14-20). `Latency` is assigned to the `int64` field
`TotalLatency` (line 147), so it is an `int64`. -/
structure RelayMetrics where
  ProjectHash : Nat
  ChainID : Nat
  APIType : Nat
  Success : Bool
  Latency : Int
deriving DecidableEq, Repr

/-- The first entry made for a key triple (lines 146-150, 165-167 and 181-185). -/
def firstMetric (data : RelayMetrics) (successCount : Int) : AggregatedMetric :=
  ⟨data.Latency, 1, successCount⟩

/-- The update of an entry that exists (lines 177-179). -/
def addToMetric (data : RelayMetrics) (successCount : Int) (apiTypesData : AggregatedMetric) :
    AggregatedMetric :=
  { TotalLatency := int64Add apiTypesData.TotalLatency data.Latency,
    SuccessCount := int64Add apiTypesData.SuccessCount successCount,
    RelaysCount := int64Add apiTypesData.RelaysCount 1 }

/-- The method `storeApiTypeData` on the map of the chain: the entry found is updated through
its pointer, a missing one is assigned. -/
def storeApiTypeData (chainIdData : List (Nat × AggregatedMetric)) (data : RelayMetrics)
    (successCount : Int) : List (Nat × AggregatedMetric) :=
  match mapGet data.APIType chainIdData with
  | some _ => mapModify data.APIType (addToMetric data successCount) chainIdData
  | none => mapPut data.APIType (firstMetric data successCount) chainIdData

/-- The method `storeChainIdData` on the map of the project. The map it is given and
`(*m.AggregatedMetricMap)[data.ProjectHash]`, which it writes (line 170), are the same map. -/
def storeChainIdData (projectData : List (Nat × List (Nat × AggregatedMetric)))
    (data : RelayMetrics) (successCount : Int) :
    List (Nat × List (Nat × AggregatedMetric)) :=
  match mapGet data.ChainID projectData with
  | some _ =>
    mapModify data.ChainID
      (fun chainIdData => storeApiTypeData chainIdData data successCount) projectData
  | none => mapPut data.ChainID [(data.APIType, firstMetric data successCount)] projectData

/-- The method `storeAggregatedData` on the map `*m.AggregatedMetricMap`; the error it returns
is always nil. -/
def storeAggregatedData (store : List (Nat × List (Nat × List (Nat × AggregatedMetric))))
    (data : RelayMetrics) : List (Nat × List (Nat × List (Nat × AggregatedMetric))) :=
  -- lines 133-136
  let successCount : Int := if data.Success then 1 else 0
  -- line 139
  match mapGet data.ProjectHash store with
  | some _ =>
    mapModify data.ProjectHash
      (fun projectData => storeChainIdData projectData data successCount) store
  | none =>
    mapPut data.ProjectHash
      [(data.ChainID, [(data.APIType, firstMetric data successCount)])] store

/-- The map after the records of a list have been stored in turn into the empty map. -/
def storeAll (records : List RelayMetrics) :
    List (Nat × List (Nat × List (Nat × AggregatedMetric))) :=
  records.foldl storeAggregatedData []

/-- The entry at `[ProjectHash][ChainID][APIType]`, as the test helper
`checkThatMetricDtoInAggregatedMetricMap` looks it up. -/
def metricAt (store : List (Nat × List (Nat × List (Nat × AggregatedMetric))))
    (ProjectHash ChainID APIType : Nat) : Option AggregatedMetric :=
  (mapGet ProjectHash store).bind fun projectData =>
    (mapGet ChainID projectData).bind fun chainIdData => mapGet APIType chainIdData

/-- The records of a list with a given key triple. -/
def recordsOf (records : List RelayMetrics) (ProjectHash ChainID APIType : Nat) :
    List RelayMetrics :=
  records.filter (fun data =>
    data.ProjectHash = ProjectHash ∧ data.ChainID = ChainID ∧ data.APIType = APIType)

/-! ## The mock chain fetcher (`chain_tracker_test.go`, lines 24-99) -/

/-- A block of the window: the struct `chaintracker.BlockStore`, of which the test reads and
writes the fields `Block` and `Hash`. -/
structure BlockStore where
  Block : Int
  Hash : String
deriving DecidableEq, Repr

/-- The struct `MockChainFetcher` (without its mutex). -/
structure MockChainFetcher where
  latestBlock : Int
  blockHashes : List BlockStore
  fork : String
deriving DecidableEq, Repr

/-- The method `FetchLatestBlockNum`. -/
def MockChainFetcher.FetchLatestBlockNum (mcf : MockChainFetcher) : Int := mcf.latestBlock

/-- The method `FetchBlockHashByNum`: the hash of the first stored block with the number, and
`none` for the error of line 44. -/
def MockChainFetcher.FetchBlockHashByNum (mcf : MockChainFetcher) (blockNum : Int) :
    Option String :=
  (mcf.blockHashes.find? fun blockStore => blockStore.Block = blockNum).map
    fun blockStore => blockStore.Hash

/-- The method `hashKey`; `strconv.FormatInt(latestBlock, 10)` is the decimal text. -/
def MockChainFetcher.hashKey (mcf : MockChainFetcher) (latestBlock : Int) : String :=
  "stubHash-" ++ toString latestBlock ++ mcf.fork

/-- The method `SetBlock`. -/
def MockChainFetcher.SetBlock (mcf : MockChainFetcher) (latestBlock : Int) : MockChainFetcher :=
  let mcf1 : MockChainFetcher := { mcf with latestBlock := latestBlock }
  let newHash := mcf1.hashKey mcf1.latestBlock
  { mcf1 with blockHashes := mcf1.blockHashes ++ [⟨latestBlock, newHash⟩] }

/-- The function `NewMockChainFetcher`: the loop of lines 95-97 for `i` from 0 on, `count`
times. -/
def NewMockChainFetcherLoop (startBlock : Int) : Nat → Nat → MockChainFetcher → MockChainFetcher
  | 0, _, mcf => mcf
  | count + 1, i, mcf =>
    NewMockChainFetcherLoop startBlock count (i + 1) (mcf.SetBlock (startBlock + i))

/-- The function `NewMockChainFetcher`. -/
def NewMockChainFetcher (startBlock : Int) (blocksToSave : Int) : MockChainFetcher :=
  NewMockChainFetcherLoop startBlock blocksToSave.toNat 0 ⟨0, [], ""⟩

/-- The method `Shrink`: the fetcher it leaves and the local slice `newHashes` it fills
(lines 89-90), which is assigned to nothing. The result is `none` for the run-time panic of
`make` with a negative length. -/
def MockChainFetcher.Shrink (mcf : MockChainFetcher) (newSize : Int) :
    Option (MockChainFetcher × List BlockStore) :=
  let currentSize : Int := mcf.blockHashes.length
  -- line 86
  if currentSize ≤ newSize then some (mcf, [])
  else if newSize < 0 then none
  else
    let newHashes := mcf.blockHashes.drop (currentSize - newSize).toNat
    some (mcf, newHashes)

/-! ## Calls on the provider lists of a session manager -/

/-- The function `NewConsumerSessionManager` (line 634): the zero value of the struct. -/
def NewConsumerSessionManager : ConsumerSessionManager := ⟨[], 0, 0, [], 0, [], [], []⟩

/-- A call that writes the provider lists of a session manager. -/
inductive ManagerCall where
  | UpdateAllProviders (epoch : Nat) (pairingList : List ConsumerSessionsWithProvider)
  | validatePairingListNotEmpty
  | blockProvider (address : Nat) (reportProvider : Bool) (sessionEpoch : Nat)
deriving DecidableEq, Repr

/-- The state a call leaves (what the call returns is dropped). -/
def ManagerCall.run (csm : ConsumerSessionManager) : ManagerCall → ConsumerSessionManager
  | .UpdateAllProviders epoch pairingList => (Lava.UpdateAllProviders csm epoch pairingList).1
  | .validatePairingListNotEmpty => (Lava.validatePairingListNotEmpty csm).1
  | .blockProvider address reportProvider sessionEpoch =>
    (Lava.blockProvider csm address reportProvider sessionEpoch).1

/-- Runs a sequence of calls, the first of the list first. -/
def runManagerCalls (csm : ConsumerSessionManager) (calls : List ManagerCall) :
    ConsumerSessionManager :=
  calls.foldl ManagerCall.run csm

/-! ## The array sent for a project (`metricsService.go`, lines 88-103) -/

/-- The quotient `a / b` of two `int64`: truncated toward zero and reduced to 64 bits (the
quotient of `-2 ^ 63` by `-1` is `-2 ^ 63`); `none` is the run-time panic of a division by
zero. -/
def int64Div (a b : Int) : Option Int :=
  if b = 0 then none else some (int64Wrap (a.tdiv b))

/-- The struct `RelayAnalyticsDTO`, with the fields that `prepareArrayForProject` sets and the
test reads; the three numbers are assigned from `int64` fields. -/
structure RelayAnalyticsDTO where
  ProjectHash : Nat
  APIType : Nat
  ChainID : Nat
  Latency : Int
  RelayCounts : Int
  SuccessCount : Int
deriving DecidableEq, Repr

/-- The inner loop of `prepareArrayForProject` (lines 91-100) on the entries of a chain, in
the order of the list; `none` is the panic of the division of line 96. -/
def prepareArrayForChain (projectKey chainKey : Nat) :
    List (Nat × AggregatedMetric) → List RelayAnalyticsDTO → Option (List RelayAnalyticsDTO)
  | [], toSendData => some toSendData
  | (apiTypekey, apiTypeData) :: rest, toSendData =>
    match int64Div apiTypeData.TotalLatency apiTypeData.RelaysCount with
    | none => none
    | some latency =>
      prepareArrayForChain projectKey chainKey rest
        (toSendData ++ [{
          ProjectHash := projectKey,
          APIType := apiTypekey,
          ChainID := chainKey,
          Latency := latency,
          RelayCounts := apiTypeData.RelaysCount,
          SuccessCount := apiTypeData.SuccessCount }])

/-- The outer loop of `prepareArrayForProject` (lines 90-101) on the chains of the project. -/
def prepareArrayForChains (projectKey : Nat) :
    List (Nat × List (Nat × AggregatedMetric)) → List RelayAnalyticsDTO →
      Option (List RelayAnalyticsDTO)
  | [], toSendData => some toSendData
  | (chainKey, chainData) :: rest, toSendData =>
    match prepareArrayForChain projectKey chainKey chainData toSendData with
    | none => none
    | some toSendData1 => prepareArrayForChains projectKey rest toSendData1

/-- The function `prepareArrayForProject`. -/
def prepareArrayForProject (projectData : List (Nat × List (Nat × AggregatedMetric)))
    (projectKey : Nat) : Option (List RelayAnalyticsDTO) :=
  prepareArrayForChains projectKey projectData []

/-- The record that the array holds for an entry of the project, with the quotient that
the division of line 96 gives. -/
def analyticsOf (projectKey chainKey : Nat) (entry : Nat × AggregatedMetric) :
    RelayAnalyticsDTO :=
  { ProjectHash := projectKey,
    APIType := entry.1,
    ChainID := chainKey,
    Latency := int64Wrap (entry.2.TotalLatency.tdiv entry.2.RelaysCount),
    RelayCounts := entry.2.RelaysCount,
    SuccessCount := entry.2.SuccessCount }

/-- The bounds of an entry after at most `n` records: at least one relay and at most `n`,
and a number of successes between 0 and the number of relays. -/
def metricBounds (n : Int) (apiTypesData : AggregatedMetric) : Prop :=
  1 ≤ apiTypesData.RelaysCount ∧ apiTypesData.RelaysCount ≤ n ∧
    0 ≤ apiTypesData.SuccessCount ∧ apiTypesData.SuccessCount ≤ apiTypesData.RelaysCount

/-! ## The rewards ledger written by `getOrCreateSession` (`server.go`, lines 412-417) -/

/-- The append of lines 413-416: the new session, which has no saved proof yet, is added to
the sessions of its epoch in the ledger `g_rewardsSessions`. -/
def appendRewardSession (g_rewardsSessions : List (Nat × List RewardSession))
    (sessionEpoch : Nat) (session : RelaySession) : List (Nat × List RewardSession) :=
  match mapGet sessionEpoch g_rewardsSessions with
  | none => mapPut sessionEpoch [⟨session, none⟩] g_rewardsSessions
  | some sessions => mapPut sessionEpoch (sessions ++ [⟨session, none⟩]) g_rewardsSessions

/-- The ledger `g_rewardsSessions` that `getOrCreateSession` leaves when it returns: the
session is appended exactly on the path that creates it (the branch `!ok` of line 383, past
its two early returns). -/
def getOrCreateSessionRewards (g_rewardsSessions : List (Nat × List RewardSession))
    (userSessions : UserSessions) (req : RelayRequest)
    (sentryRes : Except RelayError (Option Nat × Nat))
    (currentEpochHeight prevEpochHeight : Nat) : List (Nat × List RewardSession) :=
  -- line 372
  if userSessions.IsBlockListed then g_rewardsSessions
  else
    -- line 380
    match mapGet req.SessionId userSessions.Sessions with
    | some _ => g_rewardsSessions
    | none =>
      -- line 384
      match sentryRes with
      | .error _ => g_rewardsSessions
      | .ok _ =>
        -- line 391
        if !validateRequestedBlockHeight (uint64OfInt64 req.BlockHeight)
            currentEpochHeight prevEpochHeight then
          g_rewardsSessions
        else
          -- lines 398-416
          let sessionEpoch := uint64OfInt64 req.BlockHeight
          let session : RelaySession :=
            { CuSum := 0, UniqueIdentifier := req.SessionId, RelayNum := 0,
              PairingEpoch := sessionEpoch }
          appendRewardSession g_rewardsSessions sessionEpoch session

/-- The ledger `g_rewardsSessions` that `initRelay` leaves when it returns: of what it runs
only the call of `getOrCreateSession` at line 698, on the regular branch, writes the
ledger. -/
def initRelayRewards (calls : InitRelayCalls)
    (g_rewardsSessions : List (Nat × List RewardSession)) (state : ConsumerState)
    (inbound : InboundRelayRequest) : List (Nat × List RewardSession) :=
  let request := inbound.request
  -- line 568
  if request.BlockHeight < int64OfUint64 calls.PrevEpochHeight then g_rewardsSessions
  -- line 576
  else if calls.Acc ≠ inbound.Provider then g_rewardsSessions
  else
    -- line 583
    match calls.getRelayUser with
    | some _ => g_rewardsSessions
    | none =>
      -- line 587
      match calls.AccAddressFromHex with
      | some _ => g_rewardsSessions
      | none =>
        -- line 592
        if !calls.isSupportedSpec then g_rewardsSessions
        else
          -- line 611
          match authorizeAndParseMessage calls with
          | .error _ => g_rewardsSessions
          | .ok _ =>
            -- line 617
            match inbound.DataReliability with
            | some _ => g_rewardsSessions
            | none =>
              getOrCreateSessionRewards g_rewardsSessions state.userSessions request
                calls.GetVrfPkAndMaxCuForUser calls.CurrentEpochHeight calls.PrevEpochHeight

/-! ## The chain tracker (spec, section 4.1)

The code of the chain tracker is not among the sources: the test `chain_tracker_test.go`
calls it. The definitions of this section follow the spec, and the test for the shape of a
requested range. -/

/-- Modelled from the spec: the state of the chain tracker: the last observed height, the
window of blocks, newest last, and the size `blocksToSave` the window is kept to. -/
structure ChainTracker where
  latestBlockNum : Int
  blocksQueue : List BlockStore
  blocksToSave : Nat
deriving DecidableEq, Repr

/-- Modelled from the spec: the chain fetcher as one poll sees it: the answers of
`FetchLatestBlockNum` and of `FetchBlockHashByNum`, `none` for an error. -/
structure ChainFetcher where
  FetchLatestBlockNum : Option Int
  FetchBlockHashByNum : Int → Option String

/-- The mock fetcher of the test as a chain fetcher. -/
def MockChainFetcher.toChainFetcher (mcf : MockChainFetcher) : ChainFetcher :=
  ⟨some mcf.FetchLatestBlockNum, mcf.FetchBlockHashByNum⟩

/-- Modelled from the spec: the operation `getLatestBlockNum`. -/
def ChainTracker.GetLatestBlockNum (ct : ChainTracker) : Int := ct.latestBlockNum

/-- Modelled from the spec: the hash that the window records for a height. -/
def ChainTracker.hashOf (ct : ChainTracker) (blockNum : Int) : Option String :=
  (ct.blocksQueue.find? fun blockStore => blockStore.Block = blockNum).map
    fun blockStore => blockStore.Hash

/-- Modelled from the spec: step 4 of the poll, the hashes of the heights `stored + 1`, ...,
`stored + count` in ascending order; `none` when a fetch fails. -/
def fetchMissingBlocks (fetcher : ChainFetcher) (stored : Int) : Nat → Option (List BlockStore)
  | 0 => some []
  | count + 1 =>
    match fetchMissingBlocks fetcher stored count,
        fetcher.FetchBlockHashByNum (stored + (count + 1 : Nat)) with
    | some blocks, some hash => some (blocks ++ [⟨stored + (count + 1 : Nat), hash⟩])
    | _, _ => none

/-- Modelled from the spec: what a fork does to the window: the hash of every entry is fetched
again, and an entry that can no longer be fetched is dropped. -/
def refetchWindow (fetcher : ChainFetcher) (blocks : List BlockStore) : List BlockStore :=
  blocks.filterMap fun blockStore =>
    (fetcher.FetchBlockHashByNum blockStore.Block).map fun hash => ⟨blockStore.Block, hash⟩

/-- Modelled from the spec: step 5 of the poll: the window is kept to `blocksToSave` entries
by dropping from the head. -/
def trimWindow (blocksToSave : Nat) (blocks : List BlockStore) : List BlockStore :=
  blocks.drop (blocks.length - blocksToSave)

/-- Modelled from the spec: one poll (steps 2 to 5), `none` when the poll does not succeed:
a fetch of the latest height, of the hash at the stored latest height or of a missing height
fails, or the fetcher reports a height below the stored one, for which the spec has no step.
The hash at the stored latest height is fetched again (step 3, and step 4 for the previous
tail); when it differs from the recorded one, that is a fork. -/
def pollOnce (fetcher : ChainFetcher) (ct : ChainTracker) : Option ChainTracker :=
  -- step 2
  match fetcher.FetchLatestBlockNum with
  | none => none
  | some newLatest =>
    if newLatest < ct.latestBlockNum then none
    else
      -- steps 3 and 4
      match fetcher.FetchBlockHashByNum ct.latestBlockNum with
      | none => none
      | some tailHash =>
        match fetchMissingBlocks fetcher ct.latestBlockNum
            (newLatest - ct.latestBlockNum).toNat with
        | none => none
        | some missing =>
          let blocks :=
            if ct.hashOf ct.latestBlockNum = some tailHash then ct.blocksQueue ++ missing
            else refetchWindow fetcher (ct.blocksQueue ++ missing)
          -- step 5
          some { ct with
            latestBlockNum := newLatest,
            blocksQueue := trimWindow ct.blocksToSave blocks }

/-- Modelled from the spec: the function `LatestArgToBlockNum` that the test calls: an
argument at or below the sentinel `LATEST_BLOCK` is the offset `request - LATEST_BLOCK` from
the latest height, any other argument is a height. The sentinel, declared outside the sources,
is a parameter. -/
def LatestArgToBlockNum (LATEST_BLOCK : Int) (request latestBlock : Int) : Int :=
  if request ≤ LATEST_BLOCK then latestBlock + (request - LATEST_BLOCK) else request

/-- Modelled from the spec: the entries of the window for a list of heights, `none` when a
height is not in the window. -/
def blocksOfHeights (ct : ChainTracker) : List Int → Option (List BlockStore)
  | [] => some []
  | blockNum :: rest =>
    match ct.hashOf blockNum, blocksOfHeights ct rest with
    | some hash, some blocks => some (⟨blockNum, hash⟩ :: blocks)
    | _, _ => none

/-- Modelled from the spec: the operation `getLatestBlockData`, `none` for its error. The
range is from `fromBlock` up to `toBlock`, which is excluded (in the test the range from
`LATEST_BLOCK - 6` to `LATEST_BLOCK - 3` has 3 blocks, the first one of the height of
`fromBlock`); the specific block, when it is not in the range, comes before the range when it
is below it and after it otherwise, as in the test. The two sentinels are parameters. -/
def GetLatestBlockData (LATEST_BLOCK NOT_APPLICABLE : Int) (ct : ChainTracker)
    (fromBlock toBlock specificBlock : Int) : Option (Int × List BlockStore) :=
  let latestBlock := ct.GetLatestBlockNum
  let fromNum := LatestArgToBlockNum LATEST_BLOCK fromBlock latestBlock
  let toNum := LatestArgToBlockNum LATEST_BLOCK toBlock latestBlock
  let range : List Int :=
    if fromBlock = NOT_APPLICABLE ∨ toBlock = NOT_APPLICABLE then []
    else (List.range (toNum - fromNum).toNat).map fun (i : Nat) => fromNum + (i : Int)
  let specificNum := LatestArgToBlockNum LATEST_BLOCK specificBlock latestBlock
  let heights : List Int :=
    if specificBlock = NOT_APPLICABLE ∨ specificNum ∈ range then range
    else if specificNum < fromNum then specificNum :: range
    else range ++ [specificNum]
  (blocksOfHeights ct heights).map fun blocks => (latestBlock, blocks)

/-- A fork shows at the latest height: a fetcher that reports the recorded hash at the
tracker's latest height reports the recorded hash at every height of the window. -/
def forkShowsAtLatest (fetcher : ChainFetcher) (ct : ChainTracker) : Prop :=
  ct.hashOf ct.latestBlockNum = fetcher.FetchBlockHashByNum ct.latestBlockNum →
    ∀ blockStore ∈ ct.blocksQueue,
      fetcher.FetchBlockHashByNum blockStore.Block = some blockStore.Hash

/-! ## The wire format of `Metadata` (`metadata.pb.go`, lines 110-372)

A byte is a natural number below 256; a string and a buffer are lists of bytes. A `uint64` is
a natural number reduced modulo `2 ^ 64`, and an `int` an integer reduced by `int64Wrap`
where it can leave its range. -/

/-- The struct `Metadata`; the two strings are lists of bytes. -/
structure Metadata where
  FeeVersion : List Nat
  AppVersion : List Nat
deriving DecidableEq, Repr

/-- The number of bits of `x`, at most `fuel`. -/
def Len64Loop : Nat → Nat → Nat
  | 0, _ => 0
  | fuel + 1, x => if x = 0 then 0 else Len64Loop fuel (x / 2) + 1

/-- The function `bits.Len64` of the Go library: the number of bits of a `uint64`, 0 for 0. -/
def Len64 (x : Nat) : Nat := Len64Loop 64 x

/-- The function `sovMetadata`: the number of bytes of the varint of `x`. -/
def sovMetadata (x : Nat) : Nat := (Len64 (x ||| 1) + 6) / 7

/-- The assignment `dAtA[i] = b`; `none` is the run-time panic of an index out of range. -/
def setByte (dAtA : List Nat) (i : Int) (b : Nat) : Option (List Nat) :=
  if 0 ≤ i ∧ i < dAtA.length then some (dAtA.set i.toNat b) else none

/-- The call `copy(dAtA[i:], s)`, which copies as many bytes as fit; `none` is the run-time
panic of the slice bounds. -/
def copyAt (dAtA : List Nat) (i : Int) (s : List Nat) : Option (List Nat) :=
  if 0 ≤ i ∧ i ≤ dAtA.length then
    some (dAtA.take i.toNat ++ s.take (dAtA.length - i.toNat)
      ++ dAtA.drop (i.toNat + s.length))
  else none

/-- The loop of `encodeVarintMetadata` (lines 152-157) and the assignment after it. A `uint64`
has at most ten groups of 7 bits, so the body runs at most ten times; `none` is a panic of an
assignment (or the end of the fuel, which ten steps do not reach). -/
def encodeVarintLoop : Nat → List Nat → Int → Nat → Option (List Nat)
  | 0, _, _, _ => none
  | fuel + 1, dAtA, offset, v =>
    if v ≥ 1 <<< 7 then
      match setByte dAtA offset ((v &&& 0x7f ||| 0x80) % 256) with
      | none => none
      | some dAtA1 => encodeVarintLoop fuel dAtA1 (offset + 1) (v >>> 7)
    else setByte dAtA offset (v % 256)

/-- The function `encodeVarintMetadata`: the buffer it leaves and the offset `base` it
returns. -/
def encodeVarintMetadata (dAtA : List Nat) (offset : Int) (v : Nat) :
    Option (List Nat × Int) :=
  let offset1 := offset - sovMetadata v
  let base := offset1
  (encodeVarintLoop 10 dAtA offset1 v).map fun dAtA1 => (dAtA1, base)

/-- The block that `MarshalToSizedBuffer` runs for each of the two strings (lines 132-138 with
the tag `0x12` and lines 139-145 with the tag `0xa`): the buffer and the index `i` after
it. -/
def marshalString (tag : Nat) (s : List Nat) (dAtA : List Nat) (i : Int) :
    Option (List Nat × Int) :=
  if s.length > 0 then
    let i1 := i - s.length
    match copyAt dAtA i1 s with
    | none => none
    | some dAtA1 =>
      match encodeVarintMetadata dAtA1 i1 s.length with
      | none => none
      | some (dAtA2, i2) =>
        let i3 := i2 - 1
        (setByte dAtA2 i3 tag).map fun dAtA3 => (dAtA3, i3)
  else some (dAtA, i)

/-- The method `MarshalToSizedBuffer`: the buffer it leaves and the number it returns; the
error it returns is always nil. -/
def Metadata.MarshalToSizedBuffer (m : Metadata) (dAtA : List Nat) :
    Option (List Nat × Int) :=
  let i : Int := dAtA.length
  match marshalString 0x12 m.AppVersion dAtA i with
  | none => none
  | some (dAtA1, i1) =>
    match marshalString 0xa m.FeeVersion dAtA1 i1 with
    | none => none
    | some (dAtA2, i2) => some (dAtA2, dAtA.length - i2)

/-- The method `Size`, of a receiver that is not nil. -/
def Metadata.Size (m : Metadata) : Int :=
  let n : Int := 0
  let l := m.FeeVersion.length
  let n1 := if l > 0 then int64Wrap (n + (1 + l + sovMetadata l)) else n
  let l1 := m.AppVersion.length
  if l1 > 0 then int64Wrap (n1 + (1 + l1 + sovMetadata l1)) else n1

/-- The method `Marshal`: the bytes it returns, with a nil error (the error of
`MarshalToSizedBuffer` is always nil); `none` is a run-time panic: of `make` for a negative
size, of a slice or of an index. -/
def Metadata.Marshal (m : Metadata) : Option (List Nat) :=
  let size := m.Size
  if size < 0 then none
  else
    let dAtA := List.replicate size.toNat 0
    match m.MarshalToSizedBuffer dAtA with
    | none => none
    | some (dAtA1, n) =>
      if 0 ≤ n ∧ n ≤ dAtA1.length then some (dAtA1.take n.toNat) else none

/-- The errors of `Unmarshal` and `skipMetadata`. -/
inductive WireError where
  | ErrInvalidLengthMetadata
  | ErrIntOverflowMetadata
  | ErrUnexpectedEndOfGroupMetadata
  | ErrUnexpectedEOF
  | endGroupForNonGroup
  | illegalTag
  | wrongWireType
  | illegalWireType
deriving DecidableEq, Repr

/-- The varint loop of `Unmarshal` (lines 187-201, 220-234 and 252-266), from the given shift,
value and index on: the value read and the index after it. The loop returns at the shift 70
at the latest, so it runs at most 11 times. -/
def decodeVarintLoop (dAtA : List Nat) (l : Nat) :
    Nat → Nat → Nat → Nat → Except WireError (Nat × Nat)
  | 0, _, _, _ => .error .ErrIntOverflowMetadata
  | fuel + 1, shift, wire, iNdEx =>
    if shift ≥ 64 then .error .ErrIntOverflowMetadata
    else if iNdEx ≥ l then .error .ErrUnexpectedEOF
    else
      let b := dAtA.getD iNdEx 0
      let iNdEx1 := iNdEx + 1
      let wire1 := (wire ||| ((b &&& 0x7F) <<< shift)) % 2 ^ 64
      if b < 0x80 then .ok (wire1, iNdEx1)
      else decodeVarintLoop dAtA l fuel (shift + 7) wire1 iNdEx1

/-- The lines of `Unmarshal` that read a string (lines 219-245 and 251-277): the string and
the index after it. -/
def unmarshalString (dAtA : List Nat) (l : Nat) (iNdEx : Nat) :
    Except WireError (List Nat × Nat) :=
  match decodeVarintLoop dAtA l 11 0 0 iNdEx with
  | .error err => .error err
  | .ok (stringLen, iNdEx1) =>
    let intStringLen := int64OfUint64 stringLen
    if intStringLen < 0 then .error .ErrInvalidLengthMetadata
    else
      let postIndex := int64Add iNdEx1 intStringLen
      if postIndex < 0 then .error .ErrInvalidLengthMetadata
      else if postIndex > l then .error .ErrUnexpectedEOF
      else .ok ((dAtA.drop iNdEx1).take (postIndex.toNat - iNdEx1), postIndex.toNat)

/-- The loop of case 0 of `skipMetadata` (lines 316-327): the index after the varint. -/
def skipVarintLoop (dAtA : List Nat) (l : Nat) : Nat → Nat → Nat → Except WireError Nat
  | 0, _, _ => .error .ErrIntOverflowMetadata
  | fuel + 1, shift, iNdEx =>
    if shift ≥ 64 then .error .ErrIntOverflowMetadata
    else if iNdEx ≥ l then .error .ErrUnexpectedEOF
    else if dAtA.getD iNdEx 0 < 0x80 then .ok (iNdEx + 1)
    else skipVarintLoop dAtA l fuel (shift + 7) (iNdEx + 1)

/-- The function `skipMetadata` from the given index and depth on: the number of bytes to skip
or the error. The index is below `l` at the head of the loop; the `int` named `length` of case
2 is kept as its 64 bits and read as an `int64` at the end. Every turn reads a byte, so the
loop runs at most `l` times. -/
def skipMetadataLoop (dAtA : List Nat) (l : Nat) :
    Nat → Nat → Nat → Option (Except WireError Int)
  | 0, _, _ => none
  | fuel + 1, iNdEx, depth =>
    if iNdEx < l then
      match decodeVarintLoop dAtA l 11 0 0 iNdEx with
      | .error err => some (.error err)
      | .ok (wire, iNdEx1) =>
        let wireType := wire &&& 0x7
        let next : Except WireError (Int × Nat) :=
          if wireType = 0 then
            match skipVarintLoop dAtA l 11 0 iNdEx1 with
            | .error err => .error err
            | .ok iNdEx2 => .ok (iNdEx2, depth)
          else if wireType = 1 then .ok (int64Add iNdEx1 8, depth)
          else if wireType = 2 then
            match decodeVarintLoop dAtA l 11 0 0 iNdEx1 with
            | .error err => .error err
            | .ok (length, iNdEx2) =>
              if int64OfUint64 length < 0 then .error .ErrInvalidLengthMetadata
              else .ok (int64Add iNdEx2 (int64OfUint64 length), depth)
          else if wireType = 3 then .ok (iNdEx1, depth + 1)
          else if wireType = 4 then
            if depth = 0 then .error .ErrUnexpectedEndOfGroupMetadata
            else .ok (iNdEx1, depth - 1)
          else if wireType = 5 then .ok (int64Add iNdEx1 4, depth)
          else .error .illegalWireType
        match next with
        | .error err => some (.error err)
        | .ok (iNdEx2, depth1) =>
          if iNdEx2 < 0 then some (.error .ErrInvalidLengthMetadata)
          else if depth1 = 0 then some (.ok iNdEx2)
          else skipMetadataLoop dAtA l fuel iNdEx2.toNat depth1
    else some (.error .ErrUnexpectedEOF)

/-- The function `skipMetadata`. -/
def skipMetadata (dAtA : List Nat) : Option (Except WireError Int) :=
  skipMetadataLoop dAtA dAtA.length (dAtA.length + 1) 0 0

/-- The loop of `Unmarshal` from the given index on: the value of the receiver at the return
and the error returned. Every turn reads a byte, so the loop runs at most `l` times. -/
def unmarshalLoop (dAtA : List Nat) (l : Nat) :
    Nat → Metadata → Nat → Option (Metadata × Option WireError)
  | 0, _, _ => none
  | fuel + 1, m, iNdEx =>
    if iNdEx < l then
      let preIndex := iNdEx
      match decodeVarintLoop dAtA l 11 0 0 iNdEx with
      | .error err => some (m, some err)
      | .ok (wire, iNdEx1) =>
        let fieldNum : Int := ((wire >>> 3 : Nat) + 2 ^ 31) % 2 ^ 32 - 2 ^ 31
        let wireType := wire &&& 0x7
        if wireType = 4 then some (m, some .endGroupForNonGroup)
        else if fieldNum ≤ 0 then some (m, some .illegalTag)
        else if fieldNum = 1 then
          if wireType ≠ 2 then some (m, some .wrongWireType)
          else
            match unmarshalString dAtA l iNdEx1 with
            | .error err => some (m, some err)
            | .ok (s, iNdEx2) => unmarshalLoop dAtA l fuel { m with FeeVersion := s } iNdEx2
        else if fieldNum = 2 then
          if wireType ≠ 2 then some (m, some .wrongWireType)
          else
            match unmarshalString dAtA l iNdEx1 with
            | .error err => some (m, some err)
            | .ok (s, iNdEx2) => unmarshalLoop dAtA l fuel { m with AppVersion := s } iNdEx2
        else
          match skipMetadata (dAtA.drop preIndex) with
          | none => none
          | some (.error err) => some (m, some err)
          | some (.ok skippy) =>
            if skippy < 0 ∨ int64Add preIndex skippy < 0 then
              some (m, some .ErrInvalidLengthMetadata)
            else if int64Add preIndex skippy > l then some (m, some .ErrUnexpectedEOF)
            else unmarshalLoop dAtA l fuel m (int64Add preIndex skippy).toNat
    else if iNdEx > l then some (m, some .ErrUnexpectedEOF)
    else some (m, none)

/-- The method `Unmarshal` on the receiver `m`. -/
def Metadata.Unmarshal (m : Metadata) (dAtA : List Nat) : Option (Metadata × Option WireError) :=
  unmarshalLoop dAtA dAtA.length (dAtA.length + 1) m 0

/-- The bytes of the varint of `v`, low group first, at most `fuel` of them: a group of 7 bits
with the bit `0x80` while more follow, and the last group as it is. -/
def varintBytes : Nat → Nat → List Nat
  | 0, _ => []
  | fuel + 1, v => if v ≥ 128 then (v % 128 + 128) :: varintBytes fuel (v / 128) else [v]

/-- The bytes of a string on the wire: nothing for the empty string, and otherwise the tag,
the varint of the length and the bytes of the string. -/
def fieldBytes (tag : Nat) (s : List Nat) : List Nat :=
  if s.length > 0 then tag :: (varintBytes 10 s.length ++ s) else []

/-- The sum that `Size` adds up, before its reduction to an `int`: for each string that is not
empty, one byte for the tag, the bytes of the string and the bytes of the varint of its
length. -/
def Metadata.wireSize (m : Metadata) : Nat :=
  (if m.FeeVersion.length > 0 then
      1 + m.FeeVersion.length + sovMetadata m.FeeVersion.length else 0)
    + (if m.AppVersion.length > 0 then
      1 + m.AppVersion.length + sovMetadata m.AppVersion.length else 0)

/-! ## Case analysis of `updateSessionCu` -/

theorem uint64Add_lt (a b : Nat) : uint64Add a b < 2 ^ 64 := by
  unfold uint64Add; omega

theorem updateSessionCu_of_smaller (sess : RelaySession) (userSessions : UserSessions)
    (serviceApi : ServiceApi) (request : RelayRequest) (pairingEpoch : Nat)
    (h : request.RelayNum < uint64Add sess.RelayNum 1) :
    updateSessionCu sess userSessions serviceApi request pairingEpoch
      = some ⟨sess, userSessions,
          some (.LavaFormatError .smallerRelayNum .SessionOutOfSyncError)⟩ := by
  unfold updateSessionCu
  simp only [gt_iff_lt, h, if_true]

theorem updateSessionCu_of_badCuSum (sess : RelaySession) (userSessions : UserSessions)
    (serviceApi : ServiceApi) (request : RelayRequest) (pairingEpoch : Nat)
    (h1 : uint64Add sess.RelayNum 1 ≤ request.RelayNum)
    (h2 : request.CuSum ≤ sess.CuSum ∨
      uint64Add sess.CuSum serviceApi.ComputeUnits ≠ request.CuSum) :
    updateSessionCu sess userSessions serviceApi request pairingEpoch
      = some ⟨{ sess with RelayNum := uint64Add sess.RelayNum 1 }, userSessions,
          some (.LavaFormatError .badCuSum .SessionOutOfSyncError)⟩ := by
  unfold updateSessionCu
  have h1' : ¬ (uint64Add sess.RelayNum 1 > request.RelayNum) := by omega
  simp only [h1', if_false]
  by_cases h3 : sess.CuSum ≥ request.CuSum
  · simp only [h3, if_true]
  · have h4 : uint64Add sess.CuSum serviceApi.ComputeUnits ≠ request.CuSum := by
      rcases h2 with h2 | h2
      · omega
      · exact h2
    simp only [h3, if_false, h4, ne_eq, not_false_eq_true, if_true]

theorem updateSessionCu_of_checks (sess : RelaySession) (userSessions : UserSessions)
    (serviceApi : ServiceApi) (request : RelayRequest) (pairingEpoch : Nat)
    (h1 : uint64Add sess.RelayNum 1 ≤ request.RelayNum)
    (h2 : sess.CuSum < request.CuSum)
    (h3 : uint64Add sess.CuSum serviceApi.ComputeUnits = request.CuSum) :
    updateSessionCu sess userSessions serviceApi request pairingEpoch
      = match mapGet pairingEpoch userSessions.dataByEpoch with
        | none => none
        | some epochData =>
          if uint64Add epochData.UsedComputeUnits serviceApi.ComputeUnits
              > epochData.MaxComputeUnits then
            some ⟨{ sess with RelayNum := uint64Add sess.RelayNum 1 }, userSessions,
              some (.LavaFormatErrorNil .clientCuOverflow)⟩
          else
            some ⟨{ sess with RelayNum := uint64Add sess.RelayNum 1, CuSum := request.CuSum },
              { userSessions with
                dataByEpoch := mapModify pairingEpoch
                  (fun d => { d with
                    UsedComputeUnits := uint64Add d.UsedComputeUnits serviceApi.ComputeUnits })
                  userSessions.dataByEpoch }, none⟩ := by
  unfold updateSessionCu
  have h1' : ¬ (uint64Add sess.RelayNum 1 > request.RelayNum) := by omega
  have h2' : ¬ (sess.CuSum ≥ request.CuSum) := by omega
  simp only [h1', if_false, h2', h3, ne_eq, not_true_eq_false]

theorem updateSessionCu_accept_inv (sess : RelaySession) (userSessions : UserSessions)
    (serviceApi : ServiceApi) (request : RelayRequest) (pairingEpoch : Nat) (r : CuResult)
    (h : updateSessionCu sess userSessions serviceApi request pairingEpoch = some r)
    (hacc : r.err = none) :
    uint64Add sess.RelayNum 1 ≤ request.RelayNum ∧ sess.CuSum < request.CuSum ∧
    uint64Add sess.CuSum serviceApi.ComputeUnits = request.CuSum ∧
    ∃ d, mapGet pairingEpoch userSessions.dataByEpoch = some d ∧
      uint64Add d.UsedComputeUnits serviceApi.ComputeUnits ≤ d.MaxComputeUnits ∧
      r = ⟨{ sess with RelayNum := uint64Add sess.RelayNum 1, CuSum := request.CuSum },
           { userSessions with
              dataByEpoch := mapModify pairingEpoch
                (fun d => { d with
                  UsedComputeUnits := uint64Add d.UsedComputeUnits serviceApi.ComputeUnits })
                userSessions.dataByEpoch }, none⟩ := by
  by_cases h1 : request.RelayNum < uint64Add sess.RelayNum 1
  · rw [updateSessionCu_of_smaller _ _ _ _ _ h1] at h
    cases h; simp at hacc
  have h1' : uint64Add sess.RelayNum 1 ≤ request.RelayNum := by omega
  by_cases h2 : request.CuSum ≤ sess.CuSum ∨
      uint64Add sess.CuSum serviceApi.ComputeUnits ≠ request.CuSum
  · rw [updateSessionCu_of_badCuSum _ _ _ _ _ h1' h2] at h
    cases h; simp at hacc
  have h3 : sess.CuSum < request.CuSum := by
    by_contra hc; exact h2 (Or.inl (by omega))
  have h4 : uint64Add sess.CuSum serviceApi.ComputeUnits = request.CuSum := by
    by_contra hc; exact h2 (Or.inr hc)
  rw [updateSessionCu_of_checks _ _ _ _ _ h1' h3 h4] at h
  cases hd : mapGet pairingEpoch userSessions.dataByEpoch with
  | none => simp [hd] at h
  | some d =>
    simp only [hd] at h
    by_cases h5 : uint64Add d.UsedComputeUnits serviceApi.ComputeUnits > d.MaxComputeUnits
    · simp only [h5, if_true] at h
      cases h; simp at hacc
    · simp only [h5, if_false] at h
      cases h
      exact ⟨h1', h3, h4, d, rfl, by omega, rfl⟩

/-! ## Maps: lookup after a write -/

theorem mapGet_mapModify_self {β : Type} (k : Nat) (f : β → β) (l : List (Nat × β)) :
    mapGet k (mapModify k f l) = (mapGet k l).map f := by
  induction l with
  | nil => rfl
  | cons p rest ih =>
    obtain ⟨k', v⟩ := p
    by_cases h : k' = k
    · simp [mapModify, mapGet, h]
    · simp [mapModify, mapGet, h, ih]

theorem mapGet_mapModify_ne {β : Type} (k k2 : Nat) (f : β → β) (l : List (Nat × β))
    (hne : k2 ≠ k) : mapGet k2 (mapModify k f l) = mapGet k2 l := by
  induction l with
  | nil => rfl
  | cons p rest ih =>
    obtain ⟨k', v⟩ := p
    by_cases h : k' = k
    · have h2 : ¬ k' = k2 := fun e => hne (e.symm.trans h)
      simp only [mapModify, h, if_true, mapGet]
      rw [if_neg (h ▸ h2), if_neg (h ▸ h2)]
    · by_cases h2 : k' = k2
      · subst h2
        simp only [mapModify, h, if_false, mapGet, if_true]
      · simp only [mapModify, h, if_false, mapGet, h2, ih]

theorem mapModify_mapModify {β : Type} (k : Nat) (f g : β → β) (l : List (Nat × β)) :
    mapModify k g (mapModify k f l) = mapModify k (fun d => g (f d)) l := by
  induction l with
  | nil => rfl
  | cons p rest ih =>
    obtain ⟨k', v⟩ := p
    by_cases h : k' = k
    · simp [mapModify, h]
    · simp [mapModify, h, ih]

theorem mapModify_eq_self {β : Type} (k : Nat) (f : β → β) (l : List (Nat × β))
    (hf : ∀ d, mapGet k l = some d → f d = d) : mapModify k f l = l := by
  induction l with
  | nil => rfl
  | cons p rest ih =>
    obtain ⟨k', v⟩ := p
    by_cases h : k' = k
    · have := hf v (by simp [mapGet, h])
      simp [mapModify, h, this]
    · have ih2 := ih (fun d hd => hf d (by simp [mapGet, h, hd]))
      simp [mapModify, h, ih2]

theorem mapGet_mapPut_self {β : Type} (k : Nat) (v : β) (l : List (Nat × β)) :
    mapGet k (mapPut k v l) = some v := by
  induction l with
  | nil => simp [mapPut, mapGet]
  | cons p rest ih =>
    obtain ⟨k', v'⟩ := p
    by_cases h : k' = k
    · simp [mapPut, mapGet, h]
    · simp [mapPut, mapGet, h, ih]

theorem mapGet_mapPut_ne {β : Type} (k k2 : Nat) (v : β) (l : List (Nat × β))
    (hne : k2 ≠ k) : mapGet k2 (mapPut k v l) = mapGet k2 l := by
  induction l with
  | nil => simp only [mapPut, mapGet, Ne.symm hne, if_false]
  | cons p rest ih =>
    obtain ⟨k', v'⟩ := p
    by_cases h : k' = k
    · have h2 : ¬ k' = k2 := fun e => hne (e.symm.trans h)
      simp only [mapPut, h, if_true, mapGet]
      rw [if_neg (Ne.symm hne), if_neg (h ▸ h2)]
    · by_cases h2 : k' = k2
      · subst h2
        simp only [mapPut, h, if_false, mapGet, if_true]
      · simp only [mapPut, h, if_false, mapGet, h2, ih]

/-! ## Machine integers: facts -/

theorem uint64Sub_uint64Add (u c : Nat) : uint64Sub (uint64Add u c) c = u % 2 ^ 64 := by
  unfold uint64Sub uint64Add
  omega

theorem int64Negative_eq_false {a : Nat} (h : a < 2 ^ 63) : int64Negative a = false := by
  unfold int64Negative
  simp only [decide_eq_false_iff_not]
  omega

theorem int64Negative_eq_true_iff (a : Nat) :
    int64Negative a = true ↔ 2 ^ 63 ≤ a % 2 ^ 64 := by
  unfold int64Negative
  simp only [decide_eq_true_eq]

/-! ## Case analysis of `onRelayFailure` -/

theorem onRelayFailure_of_usedNegative (us : UserSessions) (rs : RelaySession)
    (nodeMsg : NodeMessage) (d : UserSessionsEpochData)
    (hd : mapGet rs.PairingEpoch us.dataByEpoch = some d)
    (hneg : int64Negative
      (uint64Sub d.UsedComputeUnits nodeMsg.GetServiceApi.ComputeUnits) = true) :
    onRelayFailure (some us) (some rs) nodeMsg
      = some ⟨some { us with
                dataByEpoch := mapModify rs.PairingEpoch
                  (fun d => { d with UsedComputeUnits := 0 }) us.dataByEpoch,
                IsBlockListed := true },
              some (if (int64Negative (uint64Sub rs.RelayNum 1)
                    || int64Negative (uint64Sub rs.CuSum nodeMsg.GetServiceApi.ComputeUnits))
                then { rs with RelayNum := 0, CuSum := 0 }
                else { rs with RelayNum := uint64Sub rs.RelayNum 1,
                               CuSum := uint64Sub rs.CuSum nodeMsg.GetServiceApi.ComputeUnits }),
              some (.LavaFormatError .userSessionsOutOfSync (.Errorf .usedReachedNegative))⟩ := by
  simp only [onRelayFailure, hd, hneg, if_true]

theorem onRelayFailure_of_usedNonneg (us : UserSessions) (rs : RelaySession)
    (nodeMsg : NodeMessage) (d : UserSessionsEpochData)
    (hd : mapGet rs.PairingEpoch us.dataByEpoch = some d)
    (hneg : int64Negative
      (uint64Sub d.UsedComputeUnits nodeMsg.GetServiceApi.ComputeUnits) = false) :
    onRelayFailure (some us) (some rs) nodeMsg
      = some ⟨some { us with
                dataByEpoch := mapModify rs.PairingEpoch
                  (fun d => { d with
                    UsedComputeUnits :=
                      uint64Sub d.UsedComputeUnits nodeMsg.GetServiceApi.ComputeUnits })
                  us.dataByEpoch },
              some (if (int64Negative (uint64Sub rs.RelayNum 1)
                    || int64Negative (uint64Sub rs.CuSum nodeMsg.GetServiceApi.ComputeUnits))
                then { rs with RelayNum := 0, CuSum := 0 }
                else { rs with RelayNum := uint64Sub rs.RelayNum 1,
                               CuSum := uint64Sub rs.CuSum nodeMsg.GetServiceApi.ComputeUnits }),
              (if (int64Negative (uint64Sub rs.RelayNum 1)
                    || int64Negative (uint64Sub rs.CuSum nodeMsg.GetServiceApi.ComputeUnits))
                then some .SessionOutOfSyncError else none)⟩ := by
  simp only [onRelayFailure, hd, hneg, Bool.false_eq_true, if_false]

/-! ## Sequences of accepted calls -/

theorem acceptAll_cons_some (e : Nat) (sess : RelaySession) (us : UserSessions)
    (serviceApi : ServiceApi) (request : RelayRequest)
    (rest : List (ServiceApi × RelayRequest)) (x : RelaySession × UserSessions)
    (h : acceptAll e sess us ((serviceApi, request) :: rest) = some x) :
    ∃ r, updateSessionCu sess us serviceApi request e = some r ∧ r.err = none ∧
      acceptAll e r.sess r.userSessions rest = some x := by
  unfold acceptAll at h
  cases hu : updateSessionCu sess us serviceApi request e with
  | none => simp [hu] at h
  | some r =>
    obtain ⟨s1, u1, err⟩ := r
    cases err with
    | none =>
      simp only [hu] at h
      exact ⟨_, rfl, rfl, h⟩
    | some e1 => simp [hu] at h

theorem acceptAll_spec (e : Nat) (calls : List (ServiceApi × RelayRequest)) :
    ∀ (sess : RelaySession) (us : UserSessions) (d : UserSessionsEpochData)
      (sess' : RelaySession) (us' : UserSessions),
      sess.RelayNum < 2 ^ 64 → d.UsedComputeUnits < 2 ^ 64 →
      (∀ c ∈ calls, c.1.ComputeUnits < 2 ^ 64) →
      mapGet e us.dataByEpoch = some d →
      acceptAll e sess us calls = some (sess', us') →
      sess'.RelayNum = (sess.RelayNum + calls.length) % 2 ^ 64 ∧
      sess'.CuSum = sess.CuSum + (calls.map (fun c => c.1.ComputeUnits)).sum ∧
      (calls ≠ [] → sess'.CuSum < 2 ^ 64) ∧
      calls.length ≤ (calls.map (fun c => c.1.ComputeUnits)).sum ∧
      (∀ c, calls.getLast? = some c → sess'.CuSum = c.2.CuSum) ∧
      ∃ d', mapGet e us'.dataByEpoch = some d' ∧
        d'.UsedComputeUnits
          = (d.UsedComputeUnits + (calls.map (fun c => c.1.ComputeUnits)).sum) % 2 ^ 64 := by
  induction calls with
  | nil =>
    intro sess us d sess' us' hR hU _ hd h
    simp only [acceptAll, Option.some.injEq, Prod.mk.injEq] at h
    obtain ⟨rfl, rfl⟩ := h
    refine ⟨by simp; omega, by simp, by simp, by simp, by simp, d, hd, by simp; omega⟩
  | cons c rest ih =>
    intro sess us d sess' us' hR hU hcu hd h
    obtain ⟨serviceApi, request⟩ := c
    obtain ⟨r, hu, hacc, hrest⟩ := acceptAll_cons_some e sess us serviceApi request rest _ h
    obtain ⟨_, h3, h4, d0, hd0, _, hr⟩ := updateSessionCu_accept_inv _ _ _ _ _ r hu hacc
    rw [hd] at hd0
    cases hd0
    subst hr
    have hc : serviceApi.ComputeUnits < 2 ^ 64 := hcu (serviceApi, request) (by simp)
    have hget : mapGet e (mapModify e
        (fun d => { d with
          UsedComputeUnits := uint64Add d.UsedComputeUnits serviceApi.ComputeUnits })
        us.dataByEpoch)
        = some { d with
            UsedComputeUnits := uint64Add d.UsedComputeUnits serviceApi.ComputeUnits } := by
      rw [mapGet_mapModify_self, hd]; rfl
    obtain ⟨i1, i2, i3, i4, i5, d', hd', i6⟩ := ih _ _ _ sess' us' (uint64Add_lt _ _)
      (uint64Add_lt _ _) (fun c hc => hcu c (by simp [hc])) hget hrest
    simp only at i1 i2 i3 i5 i6
    have hreq : request.CuSum = sess.CuSum + serviceApi.ComputeUnits ∧
        0 < serviceApi.ComputeUnits := by
      unfold uint64Add at h4
      omega
    have hlt : request.CuSum < 2 ^ 64 := by
      rw [← h4]; exact uint64Add_lt _ _
    refine ⟨?_, ?_, ?_, ?_, ?_, d', hd', ?_⟩
    · rw [i1]
      simp only [List.length_cons]
      unfold uint64Add
      omega
    · rw [i2]
      simp only [List.map_cons, List.sum_cons]
      omega
    · intro _
      by_cases hr : rest = []
      · subst hr
        simp only [List.map_nil, List.sum_nil, Nat.add_zero] at i2
        omega
      · exact i3 hr
    · simp only [List.length_cons, List.map_cons, List.sum_cons]
      omega
    · intro c hlast
      by_cases hr : rest = []
      · subst hr
        simp only [List.getLast?_singleton, Option.some.injEq] at hlast
        subst hlast
        simp only [List.map_nil, List.sum_nil, Nat.add_zero] at i2
        exact i2
      · apply i5
        obtain ⟨y, ys, hys⟩ := List.exists_cons_of_ne_nil hr
        rw [hys] at hlast ⊢
        rw [List.getLast?_cons_cons] at hlast
        exact hlast
    · rw [i6]
      simp only [List.map_cons, List.sum_cons]
      unfold uint64Add
      omega

/-! ## The two calls on the consumer state: case analysis -/

theorem updateSessionCu_reject_inv (sess : RelaySession) (userSessions : UserSessions)
    (serviceApi : ServiceApi) (request : RelayRequest) (pairingEpoch : Nat) (r : CuResult)
    (h : updateSessionCu sess userSessions serviceApi request pairingEpoch = some r)
    (herr : r.err ≠ none) :
    r.userSessions = userSessions ∧ r.sess.CuSum = sess.CuSum ∧
    r.sess.PairingEpoch = sess.PairingEpoch := by
  by_cases h1 : request.RelayNum < uint64Add sess.RelayNum 1
  · rw [updateSessionCu_of_smaller _ _ _ _ _ h1] at h
    cases h
    exact ⟨rfl, rfl, rfl⟩
  have h1' : uint64Add sess.RelayNum 1 ≤ request.RelayNum := by omega
  by_cases h2 : request.CuSum ≤ sess.CuSum ∨
      uint64Add sess.CuSum serviceApi.ComputeUnits ≠ request.CuSum
  · rw [updateSessionCu_of_badCuSum _ _ _ _ _ h1' h2] at h
    cases h
    exact ⟨rfl, rfl, rfl⟩
  have h3 : sess.CuSum < request.CuSum := by
    by_contra hc; exact h2 (Or.inl (by omega))
  have h4 : uint64Add sess.CuSum serviceApi.ComputeUnits = request.CuSum := by
    by_contra hc; exact h2 (Or.inr hc)
  rw [updateSessionCu_of_checks _ _ _ _ _ h1' h3 h4] at h
  cases hd : mapGet pairingEpoch userSessions.dataByEpoch with
  | none => simp [hd] at h
  | some d =>
    simp only [hd] at h
    by_cases h5 : uint64Add d.UsedComputeUnits serviceApi.ComputeUnits > d.MaxComputeUnits
    · simp only [h5, if_true] at h
      cases h
      exact ⟨rfl, rfl, rfl⟩
    · simp only [h5, if_false] at h
      cases h
      simp at herr

theorem relayUpdateSessionCu_some (us : UserSessions) (serviceApi : ServiceApi)
    (request : RelayRequest) (us1 : UserSessions) (err : Option RelayError)
    (h : relayUpdateSessionCu us serviceApi request = some (us1, err)) :
    ∃ sess r, mapGet request.SessionId us.Sessions = some sess ∧
      updateSessionCu sess us serviceApi request sess.PairingEpoch = some r ∧
      r.err = err ∧
      us1 = { r.userSessions with
              Sessions := mapModify request.SessionId (fun _ => r.sess)
                r.userSessions.Sessions } := by
  unfold relayUpdateSessionCu at h
  cases hs : mapGet request.SessionId us.Sessions with
  | none => simp [hs] at h
  | some sess =>
    simp only [hs] at h
    cases hu : updateSessionCu sess us serviceApi request sess.PairingEpoch with
    | none => simp [hu] at h
    | some r =>
      simp only [hu, Option.some.injEq, Prod.mk.injEq] at h
      exact ⟨sess, r, rfl, hu, h.2, h.1.symm⟩

theorem relayOnRelayFailure_some (us : UserSessions) (sessionId : Nat)
    (nodeMsg : NodeMessage) (us2 : UserSessions) (err : Option RelayError)
    (h : relayOnRelayFailure us sessionId nodeMsg = some (us2, err)) :
    ∃ rs d, mapGet sessionId us.Sessions = some rs ∧
      mapGet rs.PairingEpoch us.dataByEpoch = some d ∧
      ∃ us1 rs1, onRelayFailure (some us) (some rs) nodeMsg = some ⟨some us1, some rs1, err⟩ ∧
        us2 = { us1 with Sessions := mapModify sessionId (fun _ => rs1) us1.Sessions } := by
  unfold relayOnRelayFailure at h
  cases hs : mapGet sessionId us.Sessions with
  | none => simp [hs] at h
  | some rs =>
    simp only [hs] at h
    cases hd : mapGet rs.PairingEpoch us.dataByEpoch with
    | none =>
      have : onRelayFailure (some us) (some rs) nodeMsg = none := by
        simp only [onRelayFailure, hd]
      simp [this] at h
    | some d =>
      refine ⟨rs, d, rfl, hd, ?_⟩
      by_cases hneg : int64Negative
          (uint64Sub d.UsedComputeUnits nodeMsg.GetServiceApi.ComputeUnits) = true
      · have hres := onRelayFailure_of_usedNegative us rs nodeMsg d hd hneg
        rw [hres] at h
        simp only [Option.some.injEq, Prod.mk.injEq] at h
        obtain ⟨h1, h2⟩ := h
        subst h2
        exact ⟨_, _, hres, h1.symm⟩
      · have hneg' : int64Negative
            (uint64Sub d.UsedComputeUnits nodeMsg.GetServiceApi.ComputeUnits) = false := by
          simpa using hneg
        have hres := onRelayFailure_of_usedNonneg us rs nodeMsg d hd hneg'
        rw [hres] at h
        simp only [Option.some.injEq, Prod.mk.injEq] at h
        obtain ⟨h1, h2⟩ := h
        subst h2
        exact ⟨_, _, hres, h1.symm⟩

/-- The `dataByEpoch` map after `onRelayFailure`, read key by key. -/
theorem onRelayFailure_dataByEpoch (us : UserSessions) (rs : RelaySession)
    (nodeMsg : NodeMessage) (d : UserSessionsEpochData) (us1 : UserSessions)
    (rs1 : RelaySession) (err : Option RelayError)
    (hd : mapGet rs.PairingEpoch us.dataByEpoch = some d)
    (h : onRelayFailure (some us) (some rs) nodeMsg = some ⟨some us1, some rs1, err⟩) :
    (∀ k, k ≠ rs.PairingEpoch → mapGet k us1.dataByEpoch = mapGet k us.dataByEpoch) ∧
    ∃ d1, mapGet rs.PairingEpoch us1.dataByEpoch = some d1 ∧
      d1.MaxComputeUnits = d.MaxComputeUnits ∧
      (d1.UsedComputeUnits = 0 ∨
        (d1.UsedComputeUnits
            = uint64Sub d.UsedComputeUnits nodeMsg.GetServiceApi.ComputeUnits ∧
          int64Negative
            (uint64Sub d.UsedComputeUnits nodeMsg.GetServiceApi.ComputeUnits) = false)) := by
  by_cases hneg : int64Negative
      (uint64Sub d.UsedComputeUnits nodeMsg.GetServiceApi.ComputeUnits) = true
  · rw [onRelayFailure_of_usedNegative us rs nodeMsg d hd hneg] at h
    simp only [Option.some.injEq, FailureResult.mk.injEq] at h
    obtain ⟨h1, _, _⟩ := h
    subst h1
    refine ⟨fun k hk => mapGet_mapModify_ne _ _ _ _ hk,
      { d with UsedComputeUnits := 0 }, ?_, rfl, Or.inl rfl⟩
    simp only [mapGet_mapModify_self, hd, Option.map_some']
  · have hneg' : int64Negative
        (uint64Sub d.UsedComputeUnits nodeMsg.GetServiceApi.ComputeUnits) = false := by
      simpa using hneg
    rw [onRelayFailure_of_usedNonneg us rs nodeMsg d hd hneg'] at h
    simp only [Option.some.injEq, FailureResult.mk.injEq] at h
    obtain ⟨h1, _, _⟩ := h
    subst h1
    refine ⟨fun k hk => mapGet_mapModify_ne _ _ _ _ hk,
      { d with
        UsedComputeUnits := uint64Sub d.UsedComputeUnits nodeMsg.GetServiceApi.ComputeUnits },
      ?_, rfl, Or.inr ⟨rfl, hneg'⟩⟩
    simp only [mapGet_mapModify_self, hd, Option.map_some']

/-! ## The quota invariant along the calls -/

theorem quotaInv_single (sessions : List (Nat × RelaySession)) (b : Bool) (k : Nat)
    (d : UserSessionsEpochData) (h : d.UsedComputeUnits ≤ d.MaxComputeUnits) :
    quotaInv ⟨sessions, b, [(k, d)]⟩ := by
  intro e d' hd'
  simp only [mapGet] at hd'
  split_ifs at hd' with hk
  cases hd'
  exact h

theorem quotaInv_updateSessionCu (sess : RelaySession) (us : UserSessions)
    (serviceApi : ServiceApi) (request : RelayRequest) (pairingEpoch : Nat) (r : CuResult)
    (h : updateSessionCu sess us serviceApi request pairingEpoch = some r)
    (hinv : quotaInv us) : quotaInv r.userSessions := by
  cases herr : r.err with
  | some e1 =>
    rw [(updateSessionCu_reject_inv _ _ _ _ _ r h (by simp [herr])).1]
    exact hinv
  | none =>
    obtain ⟨_, _, _, d, hd, hle, hr⟩ := updateSessionCu_accept_inv _ _ _ _ _ r h herr
    subst hr
    intro e d' hd'
    simp only at hd'
    by_cases he : e = pairingEpoch
    · subst he
      rw [mapGet_mapModify_self, hd] at hd'
      simp only [Option.map_some', Option.some.injEq] at hd'
      subst hd'
      exact hle
    · rw [mapGet_mapModify_ne _ _ _ _ he] at hd'
      exact hinv e d' hd'

theorem quotaInv_relayUpdateSessionCu (us : UserSessions) (serviceApi : ServiceApi)
    (request : RelayRequest) (us1 : UserSessions) (err : Option RelayError)
    (h : relayUpdateSessionCu us serviceApi request = some (us1, err))
    (hinv : quotaInv us) : quotaInv us1 := by
  obtain ⟨sess, r, _, hu, _, hus⟩ := relayUpdateSessionCu_some _ _ _ _ _ h
  subst hus
  exact quotaInv_updateSessionCu _ _ _ _ _ r hu hinv

theorem quotaInv_relayOnRelayFailure_of_le (us : UserSessions) (sessionId : Nat)
    (nodeMsg : NodeMessage) (us2 : UserSessions) (err : Option RelayError)
    (hcu : nodeMsg.GetServiceApi.ComputeUnits ≤ 2 ^ 63)
    (h : relayOnRelayFailure us sessionId nodeMsg = some (us2, err))
    (hinv : quotaInv us) : quotaInv us2 := by
  obtain ⟨rs, d, _, hd, us1, rs1, hres, hus⟩ := relayOnRelayFailure_some _ _ _ _ _ h
  obtain ⟨hother, d1, hd1, hmax, hused⟩ :=
    onRelayFailure_dataByEpoch us rs nodeMsg d us1 rs1 err hd hres
  subst hus
  intro e d' hd'
  simp only at hd'
  by_cases he : e = rs.PairingEpoch
  · subst he
    rw [hd1] at hd'
    cases hd'
    have hle := hinv _ _ hd
    rcases hused with h0 | ⟨hsub, hneg⟩
    · omega
    · rw [hsub, hmax]
      have hn : ¬ (2 ^ 63 ≤ uint64Sub d.UsedComputeUnits
          nodeMsg.GetServiceApi.ComputeUnits % 2 ^ 64) := by
        intro hc
        rw [← int64Negative_eq_true_iff] at hc
        rw [hc] at hneg
        cases hneg
      unfold uint64Sub at hn ⊢
      omega
  · rw [hother e he] at hd'
    exact hinv e d' hd'

/-- An accepted `updateSessionCu` directly followed by its own `onRelayFailure` keeps the
quota invariant, whatever the compute units are. -/
theorem quotaInv_rollback (us : UserSessions) (serviceApi : ServiceApi)
    (request : RelayRequest) (us1 : UserSessions) (nodeMsg : NodeMessage)
    (us2 : UserSessions) (err : Option RelayError)
    (hmsg : nodeMsg.GetServiceApi.ComputeUnits = serviceApi.ComputeUnits)
    (h1 : relayUpdateSessionCu us serviceApi request = some (us1, none))
    (h2 : relayOnRelayFailure us1 request.SessionId nodeMsg = some (us2, err))
    (hinv : quotaInv us) : quotaInv us2 := by
  obtain ⟨sess, r, hs, hu, hacc, hus1⟩ := relayUpdateSessionCu_some _ _ _ _ _ h1
  obtain ⟨_, _, _, d, hd, hle, hr⟩ := updateSessionCu_accept_inv _ _ _ _ _ r hu hacc
  subst hr
  simp only at hus1
  obtain ⟨rs, d1, hrs, hd1, us1', rs1, hres, hus2⟩ := relayOnRelayFailure_some _ _ _ _ _ h2
  subst hus1
  simp only [mapGet_mapModify_self, hs, Option.map_some', Option.some.injEq] at hrs
  subst hrs
  simp only [mapGet_mapModify_self, hd, Option.map_some', Option.some.injEq] at hd1
  subst hd1
  have hget : mapGet sess.PairingEpoch
      (mapModify sess.PairingEpoch
        (fun d => { d with
          UsedComputeUnits := uint64Add d.UsedComputeUnits serviceApi.ComputeUnits })
        us.dataByEpoch)
      = some { d with
          UsedComputeUnits := uint64Add d.UsedComputeUnits serviceApi.ComputeUnits } := by
    rw [mapGet_mapModify_self, hd]; rfl
  obtain ⟨hother, d2, hd2, hmax, hused⟩ :=
    onRelayFailure_dataByEpoch _ _ nodeMsg _ us1' rs1 err hget hres
  subst hus2
  intro e d' hd'
  simp only at hd' hother hd2 hmax hused
  by_cases he : e = sess.PairingEpoch
  · subst he
    rw [hd2] at hd'
    cases hd'
    have hle0 := hinv _ _ hd
    rcases hused with h0 | ⟨hsub, _⟩
    · omega
    · rw [hsub, hmax, hmsg, uint64Sub_uint64Add]
      omega
  · rw [hother e he, mapGet_mapModify_ne _ _ _ _ he] at hd'
    exact hinv e d' hd'

theorem quotaInv_runCallsGuarded (calls : List Call) :
    ∀ (us : UserSessions) (last : Option (Nat × Nat)) (us' : UserSessions),
      quotaInv us →
      (∀ sid cu, last = some (sid, cu) → ∀ nodeMsg us2 err,
        nodeMsg.GetServiceApi.ComputeUnits = cu →
        relayOnRelayFailure us sid nodeMsg = some (us2, err) → quotaInv us2) →
      runCallsGuarded us last calls = some us' → quotaInv us' := by
  induction calls with
  | nil =>
    intro us last us' hinv _ h
    simp only [runCallsGuarded, Option.some.injEq] at h
    subst h
    exact hinv
  | cons c rest ih =>
    intro us last us' hinv hsafe h
    cases c with
    | updateSessionCu serviceApi request =>
      simp only [runCallsGuarded] at h
      cases hstep : relayUpdateSessionCu us serviceApi request with
      | none => simp [hstep] at h
      | some p =>
        obtain ⟨us1, err⟩ := p
        have hinv1 := quotaInv_relayUpdateSessionCu _ _ _ _ _ hstep hinv
        cases err with
        | none =>
          simp only [hstep] at h
          refine ih us1 _ us' hinv1 ?_ h
          intro sid cu hlast nodeMsg us2 err hmsg hfail
          simp only [Option.some.injEq, Prod.mk.injEq] at hlast
          obtain ⟨rfl, rfl⟩ := hlast
          exact quotaInv_rollback us serviceApi request us1 nodeMsg us2 err hmsg hstep hfail hinv
        | some e1 =>
          simp only [hstep] at h
          refine ih us1 none us' hinv1 ?_ h
          intro sid cu hlast
          cases hlast
    | onRelayFailure sessionId nodeMsg =>
      simp only [runCallsGuarded] at h
      split_ifs at h with hcond
      cases hstep : relayOnRelayFailure us sessionId nodeMsg with
      | none => simp [hstep] at h
      | some p =>
        obtain ⟨us1, err⟩ := p
        simp only [hstep] at h
        refine ih us1 none us' ?_ ?_ h
        · rcases hcond with hle | hlast
          · exact quotaInv_relayOnRelayFailure_of_le _ _ _ _ _ hle hstep hinv
          · exact hsafe _ _ hlast nodeMsg us1 err rfl hstep
        · intro sid cu hlast
          cases hlast

/-! ## The accounting invariant along the calls -/

theorem cuSumOfEpoch_nil (e : Nat) : cuSumOfEpoch e [] = 0 := rfl

theorem cuSumOfEpoch_cons (e k : Nat) (s : RelaySession) (l : List (Nat × RelaySession)) :
    cuSumOfEpoch e ((k, s) :: l)
      = (if s.PairingEpoch = e then s.CuSum else 0) + cuSumOfEpoch e l := by
  unfold cuSumOfEpoch
  by_cases h : s.PairingEpoch = e
  · simp [List.filter_cons, h]
  · simp [List.filter_cons, h]

theorem cuSumOfEpoch_mapModify (e sid : Nat) (s s' : RelaySession)
    (l : List (Nat × RelaySession)) (hs : mapGet sid l = some s)
    (hep : s'.PairingEpoch = s.PairingEpoch) :
    cuSumOfEpoch e (mapModify sid (fun _ => s') l)
        + (if s.PairingEpoch = e then s.CuSum else 0)
      = cuSumOfEpoch e l + (if s.PairingEpoch = e then s'.CuSum else 0) := by
  induction l with
  | nil => simp [mapGet] at hs
  | cons p rest ih =>
    obtain ⟨k, v⟩ := p
    by_cases hk : k = sid
    · simp only [mapGet, hk, if_true, Option.some.injEq] at hs
      subst hs
      simp only [mapModify, hk, if_true, cuSumOfEpoch_cons, hep]
      omega
    · simp only [mapGet, hk, if_false] at hs
      have := ih hs
      simp only [mapModify, hk, if_false, cuSumOfEpoch_cons]
      omega

theorem cuSumOfEpoch_mapPut_new (e sid : Nat) (s : RelaySession)
    (l : List (Nat × RelaySession)) (hs : mapGet sid l = none) :
    cuSumOfEpoch e (mapPut sid s l)
      = cuSumOfEpoch e l + (if s.PairingEpoch = e then s.CuSum else 0) := by
  induction l with
  | nil => simp [mapPut, cuSumOfEpoch_cons, cuSumOfEpoch_nil]
  | cons p rest ih =>
    obtain ⟨k, v⟩ := p
    by_cases hk : k = sid
    · simp [mapGet, hk] at hs
    · simp only [mapGet, hk, if_false] at hs
      have := ih hs
      simp only [mapPut, hk, if_false, cuSumOfEpoch_cons]
      omega

theorem cuSum_le_cuSumOfEpoch (sid : Nat) (s : RelaySession)
    (l : List (Nat × RelaySession)) (hs : mapGet sid l = some s) :
    s.CuSum ≤ cuSumOfEpoch s.PairingEpoch l := by
  induction l with
  | nil => simp [mapGet] at hs
  | cons p rest ih =>
    obtain ⟨k, v⟩ := p
    by_cases hk : k = sid
    · simp only [mapGet, hk, if_true, Option.some.injEq] at hs
      subst hs
      simp only [cuSumOfEpoch_cons, if_true]
      omega
    · simp only [mapGet, hk, if_false] at hs
      have := ih hs
      simp only [cuSumOfEpoch_cons]
      omega

theorem usedOfEpoch_of_get (e : Nat) (m : List (Nat × UserSessionsEpochData))
    (d : UserSessionsEpochData) (h : mapGet e m = some d) :
    usedOfEpoch e m = d.UsedComputeUnits := by
  simp only [usedOfEpoch, h]

theorem usedOfEpoch_congr (e : Nat) (m m' : List (Nat × UserSessionsEpochData))
    (h : mapGet e m' = mapGet e m) : usedOfEpoch e m' = usedOfEpoch e m := by
  simp only [usedOfEpoch, h]

/-- One epoch record and all sessions in its epoch: the invariant is one equation. -/
theorem accountingInv_single (sessions : List (Nat × RelaySession)) (b : Bool) (k : Nat)
    (d : UserSessionsEpochData) (hsum : cuSumOfEpoch k sessions = d.UsedComputeUnits)
    (hall : ∀ p ∈ sessions, p.2.PairingEpoch = k) :
    accountingInv ⟨sessions, b, [(k, d)]⟩ := by
  intro e
  by_cases he : k = e
  · subst he
    simp only [usedOfEpoch, mapGet, if_true]
    exact hsum
  · simp only [usedOfEpoch, mapGet, he, if_false]
    unfold cuSumOfEpoch
    have : sessions.filter (fun p => p.2.PairingEpoch == e) = [] := by
      rw [List.filter_eq_nil_iff]
      intro p hp
      simp only [beq_iff_eq]
      rw [hall p hp]
      exact he
    rw [this]
    rfl

theorem accountingInv_getOrCreateDataByEpoch (us : UserSessions) (sessionEpoch maxcu : Nat)
    (vrf_pk : Option Nat) (us' : UserSessions)
    (h : ∀ e, cuSumOfEpoch e us.Sessions = usedOfEpoch e us.dataByEpoch)
    (hres : getOrCreateDataByEpoch us sessionEpoch maxcu vrf_pk = some us') :
    accountingInv us' := by
  unfold getOrCreateDataByEpoch at hres
  cases hd : mapGet sessionEpoch us.dataByEpoch with
  | some d =>
    simp only [hd, Option.some.injEq] at hres
    subst hres
    exact h
  | none =>
    cases vrf_pk with
    | none => simp [hd] at hres
    | some key =>
      simp only [hd, Option.some.injEq] at hres
      subst hres
      intro e
      simp only
      by_cases he : e = sessionEpoch
      · subst he
        rw [h e]
        simp only [usedOfEpoch, hd, mapGet_mapPut_self]
      · rw [h e]
        exact (usedOfEpoch_congr _ _ _ (mapGet_mapPut_ne _ _ _ _ he)).symm

theorem accountingInv_getOrCreateSession (us : UserSessions) (req : RelayRequest)
    (sentryRes : Except RelayError (Option Nat × Nat))
    (currentEpochHeight prevEpochHeight : Nat)
    (res : UserSessions × Option RelaySession × Option RelayError)
    (hres : getOrCreateSession us req sentryRes currentEpochHeight prevEpochHeight = some res)
    (hinv : accountingInv us) : accountingInv res.1 := by
  unfold getOrCreateSession at hres
  by_cases hb : us.IsBlockListed = true
  · simp only [hb, if_true, Option.some.injEq] at hres
    subst hres
    exact hinv
  · simp only [hb, Bool.false_eq_true, if_false] at hres
    cases hs : mapGet req.SessionId us.Sessions with
    | some session =>
      simp only [hs, Option.some.injEq] at hres
      subst hres
      exact hinv
    | none =>
      simp only [hs] at hres
      cases sentryRes with
      | error err =>
        simp only [Option.some.injEq] at hres
        subst hres
        exact hinv
      | ok p =>
        obtain ⟨vrf_pk, maxcu⟩ := p
        simp only at hres
        by_cases hv : validateRequestedBlockHeight (uint64OfInt64 req.BlockHeight)
            currentEpochHeight prevEpochHeight = true
        · simp only [hv, Bool.not_true, Bool.false_eq_true, if_false] at hres
          split at hres
          · simp at hres
          · rename_i us2 hc
            simp only [Option.some.injEq] at hres
            subst hres
            refine accountingInv_getOrCreateDataByEpoch _ _ _ _ us2 ?_ hc
            intro e
            simp only
            rw [cuSumOfEpoch_mapPut_new _ _ _ _ hs]
            simp only [ite_self, Nat.add_zero]
            exact hinv e
        · simp only [hv, Bool.not_false, if_true, Option.some.injEq] at hres
          subst hres
          exact hinv

theorem accountingInv_relayUpdateSessionCu_rejected (us : UserSessions)
    (serviceApi : ServiceApi) (request : RelayRequest) (us1 : UserSessions) (err : RelayError)
    (h : relayUpdateSessionCu us serviceApi request = some (us1, some err))
    (hinv : accountingInv us) : accountingInv us1 := by
  obtain ⟨sess, r, hs, hu, herr, hus⟩ := relayUpdateSessionCu_some _ _ _ _ _ h
  obtain ⟨h1, h2, h3⟩ := updateSessionCu_reject_inv _ _ _ _ _ r hu (by simp [herr])
  subst hus
  intro e
  simp only [h1]
  have := cuSumOfEpoch_mapModify e request.SessionId sess r.sess us.Sessions hs h3
  rw [h2] at this
  have hi := hinv e
  omega

theorem accountingInv_relayUpdateSessionCu_accepted (us : UserSessions)
    (serviceApi : ServiceApi) (request : RelayRequest) (us1 : UserSessions)
    (sess : RelaySession)
    (h : relayUpdateSessionCu us serviceApi request = some (us1, none))
    (hs : mapGet request.SessionId us.Sessions = some sess)
    (hfit : usedOfEpoch sess.PairingEpoch us.dataByEpoch + serviceApi.ComputeUnits < 2 ^ 64)
    (hinv : accountingInv us) : accountingInv us1 := by
  obtain ⟨sess0, r, hs0, hu, herr, hus⟩ := relayUpdateSessionCu_some _ _ _ _ _ h
  rw [hs] at hs0
  cases hs0
  obtain ⟨_, h3, h4, d, hd, _, hr⟩ := updateSessionCu_accept_inv _ _ _ _ _ r hu herr
  subst hr
  subst hus
  rw [usedOfEpoch_of_get _ _ _ hd] at hfit
  have hreq : request.CuSum = sess.CuSum + serviceApi.ComputeUnits := by
    unfold uint64Add at h4
    omega
  intro e
  simp only
  have hsum := cuSumOfEpoch_mapModify e request.SessionId sess
    { sess with RelayNum := uint64Add sess.RelayNum 1, CuSum := request.CuSum }
    us.Sessions hs rfl
  simp only at hsum
  have hi := hinv e
  by_cases he : e = sess.PairingEpoch
  · subst he
    simp only [if_true] at hsum
    rw [usedOfEpoch_of_get _ _ _ hd] at hi
    have hnew : usedOfEpoch sess.PairingEpoch
        (mapModify sess.PairingEpoch
          (fun d => { d with
            UsedComputeUnits := uint64Add d.UsedComputeUnits serviceApi.ComputeUnits })
          us.dataByEpoch)
        = uint64Add d.UsedComputeUnits serviceApi.ComputeUnits := by
      simp only [usedOfEpoch, mapGet_mapModify_self, hd, Option.map_some']
    have hadd : uint64Add d.UsedComputeUnits serviceApi.ComputeUnits
        = d.UsedComputeUnits + serviceApi.ComputeUnits := by
      unfold uint64Add
      omega
    rw [hnew]
    omega
  · have hne : ¬ sess.PairingEpoch = e := fun h => he h.symm
    simp only [hne, if_false, Nat.add_zero] at hsum
    rw [hsum, hi]
    exact (usedOfEpoch_congr _ _ _ (mapGet_mapModify_ne _ _ _ _ he)).symm

theorem accountingInv_relayOnRelayFailure_nil (us : UserSessions) (sessionId : Nat)
    (nodeMsg : NodeMessage) (us2 : UserSessions) (rs : RelaySession)
    (h : relayOnRelayFailure us sessionId nodeMsg = some (us2, none))
    (hs : mapGet sessionId us.Sessions = some rs)
    (hcu : nodeMsg.GetServiceApi.ComputeUnits ≤ rs.CuSum)
    (hU : usedOfEpoch rs.PairingEpoch us.dataByEpoch < 2 ^ 64)
    (hinv : accountingInv us) : accountingInv us2 := by
  obtain ⟨rs0, d, hs0, hd, us1, rs1, hres, hus⟩ := relayOnRelayFailure_some _ _ _ _ _ h
  rw [hs] at hs0
  cases hs0
  rw [usedOfEpoch_of_get _ _ _ hd] at hU
  have hle := cuSum_le_cuSumOfEpoch sessionId rs us.Sessions hs
  have hir := hinv rs.PairingEpoch
  rw [usedOfEpoch_of_get _ _ _ hd] at hir
  by_cases hneg : int64Negative
      (uint64Sub d.UsedComputeUnits nodeMsg.GetServiceApi.ComputeUnits) = true
  · rw [onRelayFailure_of_usedNegative us rs nodeMsg d hd hneg] at hres
    simp at hres
  have hneg' : int64Negative
      (uint64Sub d.UsedComputeUnits nodeMsg.GetServiceApi.ComputeUnits) = false := by
    simpa using hneg
  rw [onRelayFailure_of_usedNonneg us rs nodeMsg d hd hneg'] at hres
  by_cases hor : (int64Negative (uint64Sub rs.RelayNum 1)
      || int64Negative (uint64Sub rs.CuSum nodeMsg.GetServiceApi.ComputeUnits)) = true
  · simp [hor] at hres
  simp only [hor, Bool.false_eq_true, if_false, Option.some.injEq,
    FailureResult.mk.injEq, and_true] at hres
  obtain ⟨hu1, hr1⟩ := hres
  subst hu1
  subst hr1
  subst hus
  intro e
  simp only
  have hsum := cuSumOfEpoch_mapModify e sessionId rs
    { rs with RelayNum := uint64Sub rs.RelayNum 1,
              CuSum := uint64Sub rs.CuSum nodeMsg.GetServiceApi.ComputeUnits }
    us.Sessions hs rfl
  simp only at hsum
  have hi := hinv e
  by_cases he : e = rs.PairingEpoch
  · subst he
    simp only [if_true] at hsum
    have hnew : usedOfEpoch rs.PairingEpoch
        (mapModify rs.PairingEpoch
          (fun d => { d with
            UsedComputeUnits :=
              uint64Sub d.UsedComputeUnits nodeMsg.GetServiceApi.ComputeUnits })
          us.dataByEpoch)
        = uint64Sub d.UsedComputeUnits nodeMsg.GetServiceApi.ComputeUnits := by
      simp only [usedOfEpoch, mapGet_mapModify_self, hd, Option.map_some']
    have hsubC : uint64Sub rs.CuSum nodeMsg.GetServiceApi.ComputeUnits
        = rs.CuSum - nodeMsg.GetServiceApi.ComputeUnits := by
      unfold uint64Sub
      omega
    have hsubU : uint64Sub d.UsedComputeUnits nodeMsg.GetServiceApi.ComputeUnits
        = d.UsedComputeUnits - nodeMsg.GetServiceApi.ComputeUnits := by
      unfold uint64Sub
      omega
    rw [hnew]
    omega
  · have hne : ¬ rs.PairingEpoch = e := fun h => he h.symm
    simp only [hne, if_false, Nat.add_zero] at hsum
    rw [hsum, hi]
    exact (usedOfEpoch_congr _ _ _ (mapGet_mapModify_ne _ _ _ _ he)).symm

/-! ## Epoch rotation: the pairing map -/

theorem mem_mapPut {β : Type} (k : Nat) (v : β) (l : List (Nat × β)) (x : Nat × β)
    (hx : x ∈ mapPut k v l) : x = (k, v) ∨ x ∈ l := by
  induction l with
  | nil =>
    simp only [mapPut, List.mem_singleton] at hx
    exact Or.inl hx
  | cons p rest ih =>
    obtain ⟨k', v'⟩ := p
    by_cases h : k' = k
    · simp only [mapPut, h, if_true, List.mem_cons] at hx
      rcases hx with hx | hx
      · exact Or.inl hx
      · exact Or.inr (List.mem_cons_of_mem _ hx)
    · simp only [mapPut, h, if_false, List.mem_cons] at hx
      rcases hx with hx | hx
      · exact Or.inr (by rw [hx]; exact List.mem_cons_self _ _)
      · rcases ih hx with h1 | h1
        · exact Or.inl h1
        · exact Or.inr (List.mem_cons_of_mem _ h1)

theorem mem_fillPairing (pairingList : List ConsumerSessionsWithProvider) :
    ∀ (pairing : List (Nat × ConsumerSessionsWithProvider))
      (x : Nat × ConsumerSessionsWithProvider),
      x ∈ fillPairing pairing pairingList →
      x ∈ pairing ∨ (x.2 ∈ pairingList ∧ x.1 = x.2.PublicLavaAddress) := by
  induction pairingList with
  | nil =>
    intro pairing x hx
    exact Or.inl hx
  | cons p rest ih =>
    intro pairing x hx
    simp only [fillPairing] at hx
    rcases ih _ x hx with h | ⟨h1, h2⟩
    · rcases mem_mapPut _ _ _ _ h with h3 | h3
      · right
        rw [h3]
        exact ⟨List.mem_cons_self _ _, rfl⟩
      · exact Or.inl h3
    · exact Or.inr ⟨List.mem_cons_of_mem _ h1, h2⟩

theorem mapGet_fillPairing (address : Nat) (pairingList : List ConsumerSessionsWithProvider) :
    ∀ (pairing : List (Nat × ConsumerSessionsWithProvider)),
      mapGet address (fillPairing pairing pairingList)
        = match lastProviderWithAddress address pairingList with
          | some provider => some provider
          | none => mapGet address pairing := by
  induction pairingList with
  | nil =>
    intro pairing
    simp [fillPairing, lastProviderWithAddress]
  | cons p rest ih =>
    intro pairing
    simp only [fillPairing]
    rw [ih]
    unfold lastProviderWithAddress
    by_cases hp : p.PublicLavaAddress = address
    · have hf : (p :: rest).filter (fun provider => provider.PublicLavaAddress == address)
          = p :: rest.filter (fun provider => provider.PublicLavaAddress == address) := by
        simp [List.filter_cons, hp]
      rw [hf]
      cases hr : rest.filter (fun provider => provider.PublicLavaAddress == address) with
      | nil =>
        simp only [List.getLast?_nil, List.getLast?_singleton]
        rw [← hp, mapGet_mapPut_self]
      | cons y ys =>
        rw [List.getLast?_cons_cons]
        have hsome : ∃ q, (y :: ys).getLast? = some q :=
          ⟨(y :: ys).getLast (by simp), List.getLast?_eq_getLast _ (by simp)⟩
        obtain ⟨q, hq⟩ := hsome
        simp only [hq]
    · have hf : (p :: rest).filter (fun provider => provider.PublicLavaAddress == address)
          = rest.filter (fun provider => provider.PublicLavaAddress == address) := by
        simp [List.filter_cons, hp]
      rw [hf]
      cases hr : (rest.filter
          (fun provider => provider.PublicLavaAddress == address)).getLast? with
      | some q => rfl
      | none =>
        simp only
        exact mapGet_mapPut_ne _ _ _ _ (fun e => hp e.symm)

theorem lastProviderWithAddress_of_nodup (pairingList : List ConsumerSessionsWithProvider)
    (hnodup : (pairingList.map (fun provider => provider.PublicLavaAddress)).Nodup)
    (p : ConsumerSessionsWithProvider) (hp : p ∈ pairingList) :
    lastProviderWithAddress p.PublicLavaAddress pairingList = some p := by
  induction pairingList with
  | nil => cases hp
  | cons q rest ih =>
    simp only [List.map_cons, List.nodup_cons, List.mem_map, not_exists, not_and] at hnodup
    obtain ⟨hq, hrest⟩ := hnodup
    unfold lastProviderWithAddress at ih ⊢
    rcases List.mem_cons.mp hp with h | h
    · subst h
      have hf : rest.filter
          (fun provider => provider.PublicLavaAddress == p.PublicLavaAddress) = [] := by
        rw [List.filter_eq_nil_iff]
        intro x hx
        simp only [beq_iff_eq]
        exact hq x hx
      simp [List.filter_cons, hf]
    · have hne : ¬ q.PublicLavaAddress = p.PublicLavaAddress := fun e => hq p h e.symm
      have hf : (q :: rest).filter
          (fun provider => provider.PublicLavaAddress == p.PublicLavaAddress)
          = rest.filter
              (fun provider => provider.PublicLavaAddress == p.PublicLavaAddress) := by
        simp [List.filter_cons, hne]
      rw [hf]
      exact ih hrest h

theorem UpdateAllProviders_of_newer (csm : ConsumerSessionManager) (epoch : Nat)
    (pairingList : List ConsumerSessionsWithProvider) (h : csm.currentEpoch < epoch) :
    UpdateAllProviders csm epoch pairingList
      = (⟨fillPairing [] pairingList, epoch, 0,
          pairingList.map (fun provider => provider.PublicLavaAddress), pairingList.length,
          pairingList.map (fun provider => provider.PublicLavaAddress), [], csm.pairing⟩,
         none) := by
  have h' : ¬ epoch ≤ csm.currentEpoch := by omega
  simp only [UpdateAllProviders, h', if_false, setValidAddressesToDefaultValue]

theorem UpdateAllProviders_of_older (csm : ConsumerSessionManager) (epoch : Nat)
    (pairingList : List ConsumerSessionsWithProvider) (h : epoch ≤ csm.currentEpoch) :
    UpdateAllProviders csm epoch pairingList = (csm, some .olderEpoch) := by
  simp only [UpdateAllProviders, h, if_true]

/-! ## `OnSessionFailure`: case analysis -/

/-- The session as `OnSessionFailure` leaves it once the lock and the blocklist tests are
passed, whatever happens to the provider afterwards. -/
theorem OnSessionFailure_session (M : Nat) (csm : ConsumerSessionManager)
    (s : SingleConsumerSession) (errorReceived : ReceivedError)
    (hlocked : s.locked = true) (hblock : s.BlockListed = false) :
    (OnSessionFailure M csm s errorReceived).2.1
      = { s with
          QoSInfo := { s.QoSInfo with TotalRelays := s.QoSInfo.TotalRelays + 1 },
          ConsecutiveNumberOfFailures := s.ConsecutiveNumberOfFailures + 1,
          BlockListed := decide (s.ConsecutiveNumberOfFailures + 1 > M)
            || errorReceived.hasSessionOutOfSyncCode,
          LatestRelayCu := 0,
          locked := false,
          Client := (decreaseUsedComputeUnits s.Client s.LatestRelayCu).1 } := by
  unfold OnSessionFailure
  simp only [verifyLock, hlocked, if_true, hblock, Bool.false_eq_true, if_false]
  by_cases hc : (decide (s.ConsecutiveNumberOfFailures + 1 > M)
      || errorReceived.hasSessionOutOfSyncCode) = true
  · simp only [hc, if_true]
    generalize decreaseUsedComputeUnits s.Client s.LatestRelayCu = dres
    obtain ⟨parent, err⟩ := dres
    generalize blockProvider csm (getPublicLavaAddressAndPairingEpoch parent).1
      errorReceived.isReportAndBlockProvider (getPublicLavaAddressAndPairingEpoch parent).2
      = bres
    obtain ⟨csm1, err1⟩ := bres
    cases err with
    | some e => rfl
    | none =>
      simp only
      split_ifs
      · cases err1 with
        | none => rfl
        | some e1 =>
          simp only
          split_ifs <;> rfl
      · rfl
  · have hc' : (decide (s.ConsecutiveNumberOfFailures + 1 > M)
        || errorReceived.hasSessionOutOfSyncCode) = false := by
      simpa using hc
    simp only [hc', Bool.false_eq_true, if_false]
    generalize decreaseUsedComputeUnits s.Client s.LatestRelayCu = dres
    obtain ⟨parent, err⟩ := dres
    generalize blockProvider csm (getPublicLavaAddressAndPairingEpoch parent).1
      errorReceived.isReportAndBlockProvider (getPublicLavaAddressAndPairingEpoch parent).2
      = bres
    obtain ⟨csm1, err1⟩ := bres
    cases err with
    | some e => simp only [hblock]
    | none =>
      simp only
      split_ifs
      · cases err1 with
        | none => simp only [hblock]
        | some e1 =>
          simp only
          split_ifs <;> simp only [hblock]
      · simp only [hblock]

theorem blockProvider_of_mismatch (csm : ConsumerSessionManager) (address : Nat)
    (reportProvider : Bool) (sessionEpoch : Nat) (h : sessionEpoch ≠ csm.currentEpoch) :
    blockProvider csm address reportProvider sessionEpoch
      = (csm, some .EpochMismatchError) := by
  simp only [blockProvider, h, ne_eq, not_false_eq_true, if_true]

theorem blockProvider_of_current (csm : ConsumerSessionManager) (address : Nat)
    (reportProvider : Bool) (sessionEpoch : Nat) (h : sessionEpoch = csm.currentEpoch) :
    blockProvider csm address reportProvider sessionEpoch
      = ({ csm with
            validAddresses := csm.validAddresses.erase address,
            addedToPurgeAndReport :=
              if reportProvider && !decide (address ∈ csm.addedToPurgeAndReport) then
                csm.addedToPurgeAndReport ++ [address]
              else csm.addedToPurgeAndReport }, none) := by
  simp only [blockProvider, h, ne_eq, not_true_eq_false, if_false,
    removeAddressFromValidAddresses]
  by_cases hm : address ∈ csm.validAddresses
  · simp only [hm, if_true]
    split_ifs <;> rfl
  · simp only [hm, if_false, SessionError.Is, decide_True, if_true,
      List.erase_of_not_mem hm]
    split_ifs <;> rfl

/-- The manager and the returned error of `OnSessionFailure` once the lock and the blocklist
tests are passed and the parent can give the compute units back. -/
theorem OnSessionFailure_manager (M : Nat) (csm : ConsumerSessionManager)
    (s : SingleConsumerSession) (errorReceived : ReceivedError)
    (hlocked : s.locked = true) (hblock : s.BlockListed = false)
    (hcu : s.LatestRelayCu ≤ s.Client.UsedComputeUnits) :
    ((OnSessionFailure M csm s errorReceived).1, (OnSessionFailure M csm s errorReceived).2.2)
      = if (errorReceived.isReportAndBlockProvider || errorReceived.isBlockProvider) = true then
          if s.Client.PairingEpoch = csm.currentEpoch then
            (blockProvider csm s.Client.PublicLavaAddress
              errorReceived.isReportAndBlockProvider s.Client.PairingEpoch)
          else (csm, none)
        else (csm, none) := by
  have hd : decreaseUsedComputeUnits s.Client s.LatestRelayCu
      = ({ s.Client with UsedComputeUnits := s.Client.UsedComputeUnits - s.LatestRelayCu },
          none) := by
    have : ¬ s.Client.UsedComputeUnits < s.LatestRelayCu := by omega
    simp only [decreaseUsedComputeUnits, this, if_false]
  unfold OnSessionFailure
  simp only [verifyLock, hlocked, if_true, hblock, Bool.false_eq_true, if_false]
  by_cases hb : (errorReceived.isReportAndBlockProvider
      || errorReceived.isBlockProvider) = true
  · by_cases he : s.Client.PairingEpoch = csm.currentEpoch
    · have hbp := blockProvider_of_current csm s.Client.PublicLavaAddress
        errorReceived.isReportAndBlockProvider csm.currentEpoch rfl
      split_ifs <;>
        simp only [hd, hb, he, if_true, getPublicLavaAddressAndPairingEpoch, hbp]
    · have hbp := blockProvider_of_mismatch csm s.Client.PublicLavaAddress
        errorReceived.isReportAndBlockProvider s.Client.PairingEpoch he
      split_ifs <;>
        simp [hd, hb, he, getPublicLavaAddressAndPairingEpoch, hbp, SessionError.Is]
  · split_ifs <;> simp only [hd, hb, if_false]

/-! ## Choice of a provider: what can be returned -/

/-- The loop of `getValidProviderAddress` only returns an address it met in the list. -/
theorem pickValidAddress_mem (ignoredProvidersList : List Nat) (validAddressIndex : Nat) :
    ∀ (validAddresses : List Nat) (validAddressesCounter address : Nat),
      pickValidAddress ignoredProvidersList validAddressIndex validAddresses
          validAddressesCounter = some address →
        address ∈ validAddresses := by
  intro validAddresses
  induction validAddresses with
  | nil => intro c a h; simp [pickValidAddress] at h
  | cons x rest ih =>
    intro c a h
    unfold pickValidAddress at h
    split_ifs at h with h1 h2
    · exact List.mem_cons_of_mem _ (ih _ _ h)
    · simp only [Option.some.injEq] at h
      subst h
      exact List.mem_cons_self _ _
    · exact List.mem_cons_of_mem _ (ih _ _ h)

/-- The method `getValidProviderAddress` only returns a member of `validAddresses`. -/
theorem getValidProviderAddress_mem (csm : ConsumerSessionManager)
    (ignoredProvidersList : List Nat) (random address : Nat)
    (h : getValidProviderAddress csm ignoredProvidersList random = .ok address) :
    address ∈ csm.validAddresses := by
  unfold getValidProviderAddress at h
  simp only at h
  split_ifs at h with h1
  split at h
  · rename_i a ha
    simp only [Except.ok.injEq] at h
    subst h
    exact pickValidAddress_mem _ _ _ _ _ ha
  · simp at h

/-! ## The length of the pairing addresses -/

/-- The method `UpdateAllProviders` keeps `pairingAddressesLength` equal to the length of
`pairingAddresses`: both are written together (lines 55-68). -/
theorem UpdateAllProviders_pairingAddressesLength (csm : ConsumerSessionManager) (epoch : Nat)
    (pairingList : List ConsumerSessionsWithProvider)
    (h : csm.pairingAddressesLength = csm.pairingAddresses.length) :
    (UpdateAllProviders csm epoch pairingList).1.pairingAddressesLength
      = (UpdateAllProviders csm epoch pairingList).1.pairingAddresses.length := by
  unfold UpdateAllProviders setValidAddressesToDefaultValue
  by_cases he : epoch ≤ csm.currentEpoch
  · simp [he, h]
  · simp [he]

/-- The conversion `uint64(index)` of an `int64` that is not negative. -/
theorem uint64OfInt64_of_nonneg (index : Int) (h0 : 0 ≤ index) (h1 : index < 2 ^ 63) :
    uint64OfInt64 index = index.toNat := by
  unfold uint64OfInt64
  rw [Int.emod_eq_of_lt h0 (by omega)]

/-- The conversion `uint64(index)` of a negative `int64` is at least `2^63`. -/
theorem uint64OfInt64_of_neg (index : Int) (h0 : index < 0) (h1 : -2 ^ 63 ≤ index) :
    2 ^ 63 ≤ uint64OfInt64 index := by
  unfold uint64OfInt64
  have h : index % 2 ^ 64 = index + 2 ^ 64 := by
    rw [← Int.add_emod_self]
    exact Int.emod_eq_of_lt (by omega) (by omega)
  rw [h]
  omega

/-- The three outcomes of `getDataReliabilityProviderIndex` on the `uint64` conversion of an
`int64` index, when `pairingAddressesLength` is the length of `pairingAddresses`. -/
theorem getDataReliabilityProviderIndex_cases (csm : ConsumerSessionManager) (originalProvider : Nat)
    (index : Int) (hlo : -2 ^ 63 ≤ index) (hhi : index < 2 ^ 63)
    (hlen : csm.pairingAddressesLength = csm.pairingAddresses.length)
    (hslice : csm.pairingAddresses.length < 2 ^ 63) :
    ∃ choice,
      getDataReliabilityProviderIndex csm originalProvider (uint64OfInt64 index) = some choice ∧
      (choice.err = some .DataReliabilityIndexOutOfRangeError ↔
        ¬ (0 ≤ index ∧ index < csm.pairingAddresses.length)) ∧
      (0 ≤ index ∧ index < csm.pairingAddresses.length →
        ∃ providerAddress, csm.pairingAddresses[index.toNat]? = some providerAddress ∧
          (choice.err = some .DataReliabilityIndexRequestedIsOriginalProviderError ↔
            providerAddress = originalProvider) ∧
          (providerAddress ≠ originalProvider →
            choice = ⟨mapGet providerAddress csm.pairing, some providerAddress,
              csm.currentEpoch, none⟩)) := by
  by_cases hneg : index < 0
  · have hbig := uint64OfInt64_of_neg index hneg hlo
    have hge : uint64OfInt64 index ≥ csm.pairingAddressesLength := by omega
    have hres : getDataReliabilityProviderIndex csm originalProvider (uint64OfInt64 index)
        = some ⟨none, none, csm.currentEpoch, some .DataReliabilityIndexOutOfRangeError⟩ := by
      simp only [getDataReliabilityProviderIndex, GetAtomicPairingAddressesLength, hge, if_true]
    refine ⟨_, hres, ?_, ?_⟩
    · simp only [true_iff]
      omega
    · intro h
      omega
  · have hnn : 0 ≤ index := by omega
    rw [uint64OfInt64_of_nonneg index hnn hhi]
    by_cases hge : index.toNat ≥ csm.pairingAddressesLength
    · have hres : getDataReliabilityProviderIndex csm originalProvider index.toNat
          = some ⟨none, none, csm.currentEpoch, some .DataReliabilityIndexOutOfRangeError⟩ := by
        simp only [getDataReliabilityProviderIndex, GetAtomicPairingAddressesLength, hge,
          if_true]
      refine ⟨_, hres, ?_, ?_⟩
      · simp only [true_iff]
        omega
      · intro h
        omega
    · have hlt : index.toNat < csm.pairingAddresses.length := by omega
      have hget : csm.pairingAddresses[index.toNat]?
          = some (csm.pairingAddresses[index.toNat]) := List.getElem?_eq_getElem hlt
      have hin : 0 ≤ index ∧ index < csm.pairingAddresses.length := by omega
      by_cases heq : csm.pairingAddresses[index.toNat] = originalProvider
      · have hres : getDataReliabilityProviderIndex csm originalProvider index.toNat
            = some ⟨none, none, csm.currentEpoch,
                some .DataReliabilityIndexRequestedIsOriginalProviderError⟩ := by
          simp only [getDataReliabilityProviderIndex, GetAtomicPairingAddressesLength, hge,
            if_false, hget, heq, if_true]
        refine ⟨_, hres, ?_, ?_⟩
        · simp only [Option.some.injEq, reduceCtorEq, false_iff, not_not]
          exact hin
        · intro _
          exact ⟨_, hget, by simp [heq], fun hne => absurd heq hne⟩
      · have hres : getDataReliabilityProviderIndex csm originalProvider index.toNat
            = some ⟨mapGet (csm.pairingAddresses[index.toNat]) csm.pairing,
                some (csm.pairingAddresses[index.toNat]), csm.currentEpoch, none⟩ := by
          simp only [getDataReliabilityProviderIndex, GetAtomicPairingAddressesLength, hge,
            if_false, hget, heq]
        refine ⟨_, hres, ?_, ?_⟩
        · simp only [reduceCtorEq, false_iff, not_not]
          exact hin
        · intro _
          exact ⟨_, hget, by simp [heq], fun _ => rfl⟩

/-! ## Relay admission: case analysis -/

/-- The conversion `int64(a)` of a `uint64` below `2^63` keeps the value. -/
theorem int64OfUint64_of_lt (a : Nat) (h : a < 2 ^ 63) : int64OfUint64 a = (a : Int) := by
  unfold int64OfUint64
  have h1 : a % 2 ^ 64 = a := Nat.mod_eq_of_lt (by omega)
  rw [h1, if_pos h]

/-- A request below the previous epoch height is refused by the first test of `initRelay`
(line 568), and nothing is changed. -/
theorem initRelay_of_veryOld (DataReliabilitySessionId DataReliabilityCuSum : Nat)
    (calls : InitRelayCalls) (state : ConsumerState) (inbound : InboundRelayRequest)
    (h : inbound.request.BlockHeight < int64OfUint64 calls.PrevEpochHeight) :
    initRelay DataReliabilitySessionId DataReliabilityCuSum calls state inbound
      = some ⟨state, none, none, some (.LavaFormatErrorNil .veryOldBlockHeight)⟩ := by
  simp only [initRelay, h, if_true]

/-- Either `initRelay` returns an error before it looks at the sessions, leaving the state as
it was, or it is one of its two branches. -/
theorem initRelay_cases (DataReliabilitySessionId DataReliabilityCuSum : Nat)
    (calls : InitRelayCalls) (state : ConsumerState) (inbound : InboundRelayRequest) :
    (∃ err, initRelay DataReliabilitySessionId DataReliabilityCuSum calls state inbound
        = some ⟨state, none, none, some err⟩) ∨
    ∃ selfIndex nodeMsg,
      initRelay DataReliabilitySessionId DataReliabilityCuSum calls state inbound
        = match inbound.DataReliability with
          | some dataReliability =>
            initRelayDataReliability DataReliabilitySessionId DataReliabilityCuSum calls state
              inbound.request dataReliability selfIndex nodeMsg
          | none => initRelayRegular calls state inbound.request nodeMsg := by
  unfold initRelay
  simp only
  repeat' split
  all_goals first | exact Or.inl ⟨_, rfl⟩ | exact Or.inr ⟨_, _, rfl⟩ | exact Or.inr ⟨0, _, rfl⟩

/-- The data-reliability branch either returns an error and leaves the state as it was, or
records the request's `DataReliability` under the epoch of the request in the state that
`getOrCreateDataByEpoch` gives; the latter only when no record of the epoch has one set. -/
theorem initRelayDataReliability_cases (DataReliabilitySessionId DataReliabilityCuSum : Nat)
    (calls : InitRelayCalls) (state : ConsumerState) (request : RelayRequest)
    (dataReliability : Nat) (selfIndex : Int) (nodeMsg : NodeMessage) :
    (∃ err, initRelayDataReliability DataReliabilitySessionId DataReliabilityCuSum calls state
        request dataReliability selfIndex nodeMsg = some ⟨state, none, none, some err⟩) ∨
    (∃ vrf_pk maxcuRes userSessions1,
      ((mapGet (uint64OfInt64 request.BlockHeight) state.userSessions.dataByEpoch).isSome
        && (mapGet (uint64OfInt64 request.BlockHeight) state.dataReliabilityByEpoch).isSome)
        = false ∧
      getOrCreateDataByEpoch state.userSessions (uint64OfInt64 request.BlockHeight) maxcuRes
        (some vrf_pk) = some userSessions1 ∧
      initRelayDataReliability DataReliabilitySessionId DataReliabilityCuSum calls state
        request dataReliability selfIndex nodeMsg
        = some ⟨⟨userSessions1,
                  mapPut (uint64OfInt64 request.BlockHeight) dataReliability
                    state.dataReliabilityByEpoch⟩,
                some nodeMsg, none, none⟩) := by
  unfold initRelayDataReliability
  simp only
  repeat' split
  all_goals first | exact Or.inl ⟨_, rfl⟩ | skip
  · rename_i vrf_pk maxcuRes _ hfree hpk _ _ _ _ _ _ _ _ _ _ hget
    exfalso
    cases vrf_pk with
    | none => simp at hpk
    | some pk =>
      unfold getOrCreateDataByEpoch at hget
      split at hget <;> simp at hget
  · rename_i vrf_pk maxcuRes _ hfree hpk _ _ _ _ _ _ _ _ _ _ userSessions1 hget
    cases vrf_pk with
    | none => simp at hpk
    | some pk =>
      exact Or.inr ⟨pk, maxcuRes, userSessions1, Bool.eq_false_iff.2 hfree, hget, rfl⟩

/-- A record of the epoch with `DataReliability` set makes the data-reliability branch return
an error. -/
theorem initRelayDataReliability_of_used (DataReliabilitySessionId DataReliabilityCuSum : Nat)
    (calls : InitRelayCalls) (state : ConsumerState) (request : RelayRequest)
    (dataReliability : Nat) (selfIndex : Int) (nodeMsg : NodeMessage)
    (h : ((mapGet (uint64OfInt64 request.BlockHeight) state.userSessions.dataByEpoch).isSome
        && (mapGet (uint64OfInt64 request.BlockHeight) state.dataReliabilityByEpoch).isSome)
        = true) :
    ∃ err, initRelayDataReliability DataReliabilitySessionId DataReliabilityCuSum calls state
        request dataReliability selfIndex nodeMsg = some ⟨state, none, none, some err⟩ := by
  rcases initRelayDataReliability_cases DataReliabilitySessionId DataReliabilityCuSum calls
      state request dataReliability selfIndex nodeMsg with herr | ⟨_, _, _, hfree, _, _⟩
  · exact herr
  · rw [h] at hfree
    exact absurd hfree (by decide)

/-- A session is created by `getOrCreateSession` only at the current or at the previous epoch
height (line 391). -/
theorem getOrCreateSession_created_epoch (userSessions : UserSessions) (req : RelayRequest)
    (sentryRes : Except RelayError (Option Nat × Nat)) (currentEpochHeight prevEpochHeight : Nat)
    (userSessions1 : UserSessions) (session : RelaySession)
    (hnone : mapGet req.SessionId userSessions.Sessions = none)
    (h : getOrCreateSession userSessions req sentryRes currentEpochHeight prevEpochHeight
      = some (userSessions1, some session, none)) :
    session.PairingEpoch = currentEpochHeight ∨ session.PairingEpoch = prevEpochHeight := by
  unfold getOrCreateSession at h
  rw [hnone] at h
  by_cases hb : userSessions.IsBlockListed = true
  · simp [hb] at h
  simp only [hb, Bool.false_eq_true, if_false] at h
  split at h
  · simp at h
  · rename_i vrf_pk maxcuRes
    by_cases hv : (!validateRequestedBlockHeight (uint64OfInt64 req.BlockHeight)
        currentEpochHeight prevEpochHeight) = true
    · simp [hv] at h
    · simp only [hv, Bool.false_eq_true, if_false] at h
      simp only [validateRequestedBlockHeight, Bool.not_eq_true', Bool.or_eq_false_iff,
        not_and, Bool.not_eq_false, beq_eq_false_iff_ne, ne_eq, beq_iff_eq] at hv
      split at h
      · simp at h
      · simp only [Option.some.injEq, Prod.mk.injEq] at h
        obtain ⟨_, hs, _⟩ := h
        rw [← hs]
        show uint64OfInt64 req.BlockHeight = currentEpochHeight
          ∨ uint64OfInt64 req.BlockHeight = prevEpochHeight
        by_cases hc : uint64OfInt64 req.BlockHeight = currentEpochHeight
        · exact Or.inl hc
        · exact Or.inr (not_not.1 (hv hc))

/-- The regular branch refuses a request at or above the previous epoch height whose
`BlockHeight` is neither of the two epoch heights, when the session of the request, if there
is one, has a pairing epoch that is at most the previous epoch height or is the current one. -/
theorem initRelayRegular_of_invalidHeight (calls : InitRelayCalls) (state : ConsumerState)
    (request : RelayRequest) (nodeMsg : NodeMessage)
    (hprev : calls.PrevEpochHeight < 2 ^ 63) (hcur : calls.CurrentEpochHeight < 2 ^ 63)
    (hhi : request.BlockHeight < 2 ^ 63)
    (hge : ¬ request.BlockHeight < (calls.PrevEpochHeight : Int))
    (hcurrent : request.BlockHeight ≠ (calls.CurrentEpochHeight : Int))
    (hprevious : request.BlockHeight ≠ (calls.PrevEpochHeight : Int))
    (hsess : ∀ session, mapGet request.SessionId state.userSessions.Sessions = some session →
      session.PairingEpoch ≤ calls.PrevEpochHeight
        ∨ session.PairingEpoch = calls.CurrentEpochHeight) :
    ∃ err, initRelayRegular calls state request nodeMsg
      = some ⟨state, none, none, some err⟩ := by
  have hnn : 0 ≤ request.BlockHeight := by omega
  have hconv : uint64OfInt64 request.BlockHeight = request.BlockHeight.toNat :=
    uint64OfInt64_of_nonneg _ hnn hhi
  unfold initRelayRegular getOrCreateSession
  by_cases hb : state.userSessions.IsBlockListed = true
  · refine ⟨.LavaFormatErrorNil .userBlocklisted, ?_⟩
    simp only [hb, if_true]
  · simp only [hb, Bool.false_eq_true, if_false]
    cases hs : mapGet request.SessionId state.userSessions.Sessions with
    | some session =>
      have hmis : request.BlockHeight ≠ int64OfUint64 session.PairingEpoch := by
        rcases hsess session hs with hle | heq
        · rw [int64OfUint64_of_lt _ (by omega)]
          omega
        · rw [int64OfUint64_of_lt _ (by omega), heq]
          exact hcurrent
      refine ⟨.LavaFormatErrorNil .epochMismatch, ?_⟩
      simp only [hmis, ne_eq, not_false_eq_true, if_true]
    | none =>
      cases hv : calls.GetVrfPkAndMaxCuForUser with
      | error err => exact ⟨_, rfl⟩
      | ok res =>
        obtain ⟨vrf_pk, maxcuRes⟩ := res
        have hval : validateRequestedBlockHeight (uint64OfInt64 request.BlockHeight)
            calls.CurrentEpochHeight calls.PrevEpochHeight = false := by
          rw [hconv]
          simp only [validateRequestedBlockHeight, Bool.or_eq_false_iff, beq_eq_false_iff_ne,
            ne_eq]
          constructor <;> omega
        refine ⟨.LavaFormatErrorNil .invalidBlockHeight, ?_⟩
        simp only [hval, Bool.not_false, if_true]

/-- What `getOrCreateDataByEpoch` leaves untouched: the sessions, the blocklist flag, every
record that was there, and with them the used compute units of every epoch (a record it creates
starts with none used); afterwards the epoch has a record. -/
theorem getOrCreateDataByEpoch_frame (userSessions userSessions1 : UserSessions)
    (sessionEpoch maxcuRes : Nat) (vrf_pk : Option Nat)
    (h : getOrCreateDataByEpoch userSessions sessionEpoch maxcuRes vrf_pk = some userSessions1) :
    userSessions1.Sessions = userSessions.Sessions ∧
    userSessions1.IsBlockListed = userSessions.IsBlockListed ∧
    (mapGet sessionEpoch userSessions1.dataByEpoch).isSome = true ∧
    (∀ e d, mapGet e userSessions.dataByEpoch = some d →
      mapGet e userSessions1.dataByEpoch = some d) ∧
    ∀ e, usedOfEpoch e userSessions1.dataByEpoch = usedOfEpoch e userSessions.dataByEpoch := by
  unfold getOrCreateDataByEpoch at h
  split at h
  · rename_i d hd
    simp only [Option.some.injEq] at h
    subst h
    exact ⟨rfl, rfl, by simp [hd], fun e d h => h, fun e => rfl⟩
  · rename_i hd
    split at h
    · simp at h
    · simp only [Option.some.injEq] at h
      subst h
      refine ⟨rfl, rfl, by simp [mapGet_mapPut_self], ?_, ?_⟩
      · intro e d hget
        have hne : e ≠ sessionEpoch := by
          rintro rfl
          rw [hd] at hget
          simp at hget
        show mapGet e (mapPut sessionEpoch _ userSessions.dataByEpoch) = some d
        rw [mapGet_mapPut_ne _ _ _ _ hne]
        exact hget
      · intro e
        show usedOfEpoch e (mapPut sessionEpoch _ userSessions.dataByEpoch) = _
        by_cases hne : e = sessionEpoch
        · subst hne
          simp only [usedOfEpoch, mapGet_mapPut_self, hd]
        · exact usedOfEpoch_congr _ _ _ (mapGet_mapPut_ne _ _ _ _ hne)

/-! ## Reward claims: the ledger and the retries -/

/-- A deleted key has no entry. -/
theorem mapGet_mapDelete_self {β : Type} (k : Nat) (m : List (Nat × β)) :
    mapGet k (mapDelete k m) = none := by
  induction m with
  | nil => rfl
  | cons p rest ih =>
    obtain ⟨k', v⟩ := p
    by_cases h : k' = k
    · simpa [mapDelete, List.filter_cons, h] using ih
    · simpa [mapDelete, List.filter_cons, h, mapGet] using ih

/-- A deletion does not touch the other keys. -/
theorem mapGet_mapDelete_ne {β : Type} (k k2 : Nat) (m : List (Nat × β)) (hne : k2 ≠ k) :
    mapGet k2 (mapDelete k m) = mapGet k2 m := by
  induction m with
  | nil => rfl
  | cons p rest ih =>
    obtain ⟨k', v⟩ := p
    have hstep : mapDelete k ((k', v) :: rest)
        = if k' = k then mapDelete k rest else (k', v) :: mapDelete k rest := by
      by_cases h : k' = k <;> simp [mapDelete, List.filter_cons, h]
    rw [hstep]
    by_cases h : k' = k
    · have h2 : k' ≠ k2 := fun h2 => hne (h2 ▸ h)
      rw [if_pos h, ih]
      simp only [mapGet, if_neg h2]
    · rw [if_neg h]
      by_cases h2 : k' = k2
      · simp only [mapGet, if_pos h2]
      · simp only [mapGet, if_neg h2]
        exact ih

/-- The ledger after the loop of `askForRewards`: the claimed epochs are gone, the others are
as they were. -/
theorem mapGet_collectRewards (k : Nat) :
    ∀ (staleEpochs : List Nat) (g_rewardsSessions : List (Nat × List RewardSession))
      (relays : List RelayRequest),
      mapGet k (collectRewards staleEpochs g_rewardsSessions relays).1
        = if k ∈ staleEpochs then none else mapGet k g_rewardsSessions := by
  intro staleEpochs
  induction staleEpochs with
  | nil => intro ledger relays; simp [collectRewards]
  | cons staleEpoch rest ih =>
    intro ledger relays
    unfold collectRewards
    cases hget : mapGet staleEpoch ledger with
    | none =>
      simp only [ih]
      by_cases hk : k ∈ rest
      · simp [hk]
      · by_cases hs : k = staleEpoch
        · subst hs
          simp [hk, hget]
        · simp [hk, hs]
    | some sessions =>
      simp only [ih]
      by_cases hk : k ∈ rest
      · simp [hk]
      · by_cases hs : k = staleEpoch
        · subst hs
          simp [hk, mapGet_mapDelete_self]
        · simp [hk, hs, mapGet_mapDelete_ne _ _ _ hs]

/-- A key of the ledger below the stale epoch is among the claimed epochs when the ledger
holds more than `StaleEpochDistance + 1` epochs. -/
theorem mem_staleEpochsToClaim (StaleEpochDistance : Nat)
    (g_rewardsSessions : List (Nat × List RewardSession)) (staleEpochHeight : Int) (k : Nat) :
    k ∈ staleEpochsToClaim StaleEpochDistance g_rewardsSessions staleEpochHeight ↔
      k = uint64OfInt64 staleEpochHeight ∨
        (g_rewardsSessions.length > StaleEpochDistance + 1 ∧
          k ∈ g_rewardsSessions.map Prod.fst ∧ k < uint64OfInt64 staleEpochHeight) := by
  unfold staleEpochsToClaim
  by_cases h : g_rewardsSessions.length > StaleEpochDistance + 1
  · simp [h]
  · simp [h]

/-- A key outside the ledger has no entry. -/
theorem mapGet_eq_none_of_not_mem {β : Type} (k : Nat) (m : List (Nat × β))
    (h : k ∉ m.map Prod.fst) : mapGet k m = none := by
  induction m with
  | nil => rfl
  | cons p rest ih =>
    obtain ⟨k', v⟩ := p
    simp only [List.map_cons, List.mem_cons, not_or] at h
    simp only [mapGet, if_neg (Ne.symm h.1)]
    exact ih h.2

/-- One iteration of the loop of `askForRewards`: it stops before the broadcast, which takes
a sequence error, no parsed number and no answer of the account retriever; or it broadcasts
and stops on return code 0; or it broadcasts, gets another return code and goes on. -/
theorem askForRewardsRetry_succ (broadcast : Nat → List Char)
    (GetAccountNumberSequence : Nat → Option Nat) (remaining attempt : Nat)
    (hasSequenceError : Bool) (sequenceNumberParsed : Nat) :
    (askForRewardsRetry broadcast GetAccountNumberSequence (remaining + 1) attempt
        hasSequenceError sequenceNumberParsed = ([], false) ∧
      hasSequenceError = true ∧ sequenceNumberParsed = 0 ∧
      GetAccountNumberSequence attempt = none) ∨
    (∃ sequence,
      askForRewardsRetry broadcast GetAccountNumberSequence (remaining + 1) attempt
        hasSequenceError sequenceNumberParsed = ([⟨sequence, broadcast attempt⟩], true) ∧
      (parseTransactionResult (broadcast attempt)).2 = 0) ∨
    (∃ sequence hasSequenceError1 sequenceNumberParsed1,
      (parseTransactionResult (broadcast attempt)).2 ≠ 0 ∧
      askForRewardsRetry broadcast GetAccountNumberSequence (remaining + 1) attempt
        hasSequenceError sequenceNumberParsed
        = (⟨sequence, broadcast attempt⟩ ::
            (askForRewardsRetry broadcast GetAccountNumberSequence remaining (attempt + 1)
              hasSequenceError1 sequenceNumberParsed1).1,
           (askForRewardsRetry broadcast GetAccountNumberSequence remaining (attempt + 1)
              hasSequenceError1 sequenceNumberParsed1).2)) := by
  have hbody : ∀ (sequence : Option Nat) (flag : Bool),
      (∃ sequence1,
        (if (parseTransactionResult (broadcast attempt)).2 = 0 then
            (([⟨sequence, broadcast attempt⟩], true) : List RewardBroadcast × Bool)
          else
            (⟨sequence, broadcast attempt⟩ ::
              (if stringsContains (broadcast attempt) "account sequence".toList then
                askForRewardsRetry broadcast GetAccountNumberSequence remaining (attempt + 1)
                  true (findSequenceNumber (broadcast attempt)).1
              else
                askForRewardsRetry broadcast GetAccountNumberSequence remaining (attempt + 1)
                  flag sequenceNumberParsed).1,
             (if stringsContains (broadcast attempt) "account sequence".toList then
                askForRewardsRetry broadcast GetAccountNumberSequence remaining (attempt + 1)
                  true (findSequenceNumber (broadcast attempt)).1
              else
                askForRewardsRetry broadcast GetAccountNumberSequence remaining (attempt + 1)
                  flag sequenceNumberParsed).2))
          = ([⟨sequence1, broadcast attempt⟩], true) ∧
        (parseTransactionResult (broadcast attempt)).2 = 0) ∨
      (∃ sequence1 hasSequenceError1 sequenceNumberParsed1,
        (parseTransactionResult (broadcast attempt)).2 ≠ 0 ∧
        (if (parseTransactionResult (broadcast attempt)).2 = 0 then
            (([⟨sequence, broadcast attempt⟩], true) : List RewardBroadcast × Bool)
          else
            (⟨sequence, broadcast attempt⟩ ::
              (if stringsContains (broadcast attempt) "account sequence".toList then
                askForRewardsRetry broadcast GetAccountNumberSequence remaining (attempt + 1)
                  true (findSequenceNumber (broadcast attempt)).1
              else
                askForRewardsRetry broadcast GetAccountNumberSequence remaining (attempt + 1)
                  flag sequenceNumberParsed).1,
             (if stringsContains (broadcast attempt) "account sequence".toList then
                askForRewardsRetry broadcast GetAccountNumberSequence remaining (attempt + 1)
                  true (findSequenceNumber (broadcast attempt)).1
              else
                askForRewardsRetry broadcast GetAccountNumberSequence remaining (attempt + 1)
                  flag sequenceNumberParsed).2))
          = (⟨sequence1, broadcast attempt⟩ ::
              (askForRewardsRetry broadcast GetAccountNumberSequence remaining (attempt + 1)
                hasSequenceError1 sequenceNumberParsed1).1,
             (askForRewardsRetry broadcast GetAccountNumberSequence remaining (attempt + 1)
                hasSequenceError1 sequenceNumberParsed1).2)) := by
    intro sequence flag
    by_cases hc : (parseTransactionResult (broadcast attempt)).2 = 0
    · exact Or.inl ⟨sequence, by rw [if_pos hc], hc⟩
    · right
      by_cases hs : stringsContains (broadcast attempt) "account sequence".toList = true
      · exact ⟨sequence, true, (findSequenceNumber (broadcast attempt)).1, hc,
          by rw [if_neg hc, if_pos hs]⟩
      · exact ⟨sequence, flag, sequenceNumberParsed, hc,
          by rw [if_neg hc, if_neg hs]⟩
  have key : askForRewardsRetry broadcast GetAccountNumberSequence (remaining + 1) attempt
      hasSequenceError sequenceNumberParsed
      = askForRewardsRetry broadcast GetAccountNumberSequence (remaining + 1) attempt
          hasSequenceError sequenceNumberParsed := rfl
  conv at key =>
    rhs
    unfold askForRewardsRetry
  generalize askForRewardsRetry broadcast GetAccountNumberSequence (remaining + 1) attempt
      hasSequenceError sequenceNumberParsed = R at key ⊢
  subst key
  cases hasSequenceError with
  | true =>
    by_cases hp : sequenceNumberParsed ≠ 0
    · simp only [if_true, hp, ne_eq, not_false_eq_true]
      exact Or.inr (hbody _ _)
    · cases hg : GetAccountNumberSequence attempt with
      | none =>
        left
        simp only [if_true, hp, if_false, hg, true_and, and_true]
        exact not_not.1 hp
      | some seq =>
        simp only [if_true, hp, if_false, hg]
        exact Or.inr (hbody _ _)
  | false =>
    simp only [Bool.false_eq_true, if_false]
    exact Or.inr (hbody _ _)

/-- What the loop of `askForRewards` does in `remaining` iterations from the broadcast number
`attempt` on: at most `remaining` broadcasts; the responses are those of the consecutive
attempts; every response but the last has a return code other than 0; and after a response
with another return code than 0 the loop broadcasts again unless the iterations are used up
or the account retriever gives no sequence number. -/
theorem askForRewardsRetry_spec (broadcast : Nat → List Char)
    (GetAccountNumberSequence : Nat → Option Nat) :
    ∀ (remaining attempt : Nat) (hasSequenceError : Bool) (sequenceNumberParsed : Nat),
      (askForRewardsRetry broadcast GetAccountNumberSequence remaining attempt hasSequenceError
        sequenceNumberParsed).1.length ≤ remaining ∧
      (∀ k result,
        (askForRewardsRetry broadcast GetAccountNumberSequence remaining attempt
          hasSequenceError sequenceNumberParsed).1[k]? = some result →
        result.transactionResult = broadcast (attempt + k)) ∧
      (∀ k,
        k + 1 < (askForRewardsRetry broadcast GetAccountNumberSequence remaining attempt
          hasSequenceError sequenceNumberParsed).1.length →
        (parseTransactionResult (broadcast (attempt + k))).2 ≠ 0) ∧
      (∀ k,
        k < (askForRewardsRetry broadcast GetAccountNumberSequence remaining attempt
          hasSequenceError sequenceNumberParsed).1.length →
        k + 1 < remaining →
        (parseTransactionResult (broadcast (attempt + k))).2 ≠ 0 →
        k + 1 < (askForRewardsRetry broadcast GetAccountNumberSequence remaining attempt
            hasSequenceError sequenceNumberParsed).1.length
          ∨ GetAccountNumberSequence (attempt + k + 1) = none) := by
  intro remaining
  induction remaining with
  | zero =>
    intro attempt h p
    simp [askForRewardsRetry]
  | succ n ih =>
    intro attempt h p
    rcases askForRewardsRetry_succ broadcast GetAccountNumberSequence n attempt h p with
      ⟨hstop, _, _, _⟩ | ⟨sequence, hdone, hcode⟩ | ⟨sequence, h1, p1, hcode, hmore⟩
    · rw [hstop]
      simp
    · rw [hdone]
      refine ⟨by simp, ?_, ?_, ?_⟩
      · intro k result hk
        cases k with
        | zero =>
          simp only [List.getElem?_cons_zero, Option.some.injEq] at hk
          rw [← hk]
          rfl
        | succ k => simp at hk
      · intro k hk
        simp at hk
      · intro k hk _ hne
        simp only [List.length_singleton, Nat.lt_one_iff] at hk
        subst hk
        exact absurd hcode hne
    · obtain ⟨hlen, hresp, hnz, hgo⟩ := ih (attempt + 1) h1 p1
      rw [hmore]
      refine ⟨by simpa using hlen, ?_, ?_, ?_⟩
      · intro k result hk
        cases k with
        | zero =>
          simp only [List.getElem?_cons_zero, Option.some.injEq] at hk
          rw [← hk]
          rfl
        | succ k =>
          simp only [List.getElem?_cons_succ] at hk
          have := hresp k result hk
          rw [this]
          congr 1
          omega
      · intro k hk
        cases k with
        | zero => exact hcode
        | succ k =>
          simp only [List.length_cons, Nat.add_lt_add_iff_right] at hk
          have := hnz k hk
          have he : attempt + (k + 1) = attempt + 1 + k := by omega
          rw [he]
          exact this
      · intro k hk hrem hne
        cases k with
        | zero =>
          simp only [List.length_cons]
          cases n with
          | zero => omega
          | succ m =>
            rcases askForRewardsRetry_succ broadcast GetAccountNumberSequence m (attempt + 1)
                h1 p1 with ⟨_, _, _, hg⟩ | ⟨_, hd, _⟩ | ⟨_, _, _, _, hm⟩
            · exact Or.inr hg
            · rw [hd]
              simp
            · rw [hm]
              simp
        | succ k =>
          simp only [List.length_cons, Nat.add_lt_add_iff_right] at hk ⊢
          have he : attempt + (k + 1) = attempt + 1 + k := by omega
          rw [he] at hne
          have := hgo k hk (by omega) hne
          have he2 : attempt + (k + 1) + 1 = attempt + 1 + k + 1 := by omega
          rw [he2]
          exact this

/-- The ledger `askForRewards` leaves is the one its first loop leaves. -/
theorem askForRewards_ledger (StaleEpochDistance : Nat) (broadcast : Nat → List Char)
    (GetAccountNumberSequence : Nat → Option Nat)
    (g_rewardsSessions : List (Nat × List RewardSession)) (staleEpochHeight : Int) :
    (askForRewards StaleEpochDistance broadcast GetAccountNumberSequence g_rewardsSessions
        staleEpochHeight).1
      = (collectRewards
          (staleEpochsToClaim StaleEpochDistance g_rewardsSessions staleEpochHeight)
          g_rewardsSessions []).1 := by
  unfold askForRewards
  simp only
  split_ifs <;> rfl

/-- With at least one proof collected, the broadcasts of `askForRewards` are those of its
retry loop, started for `RETRY_INCORRECT_SEQUENCE + 1` iterations without a sequence error. -/
theorem askForRewards_broadcasts (StaleEpochDistance : Nat) (broadcast : Nat → List Char)
    (GetAccountNumberSequence : Nat → Option Nat)
    (g_rewardsSessions : List (Nat × List RewardSession)) (staleEpochHeight : Int)
    (hproof : (collectRewards
        (staleEpochsToClaim StaleEpochDistance g_rewardsSessions staleEpochHeight)
        g_rewardsSessions []).2 ≠ []) :
    (askForRewards StaleEpochDistance broadcast GetAccountNumberSequence g_rewardsSessions
        staleEpochHeight).2.1
      = (askForRewardsRetry broadcast GetAccountNumberSequence (RETRY_INCORRECT_SEQUENCE + 1) 0
          false 0).1 := by
  unfold askForRewards
  simp only
  have hlen : ¬ (collectRewards
      (staleEpochsToClaim StaleEpochDistance g_rewardsSessions staleEpochHeight)
      g_rewardsSessions []).2.length = 0 := by
    rw [List.length_eq_zero]
    exact hproof
  rw [if_neg hlen]

/-! ## Votes: the outcomes of one event -/

/-- The four outcomes of `voteEventHandler`: nothing is done (for a close event only when the
vote has no entry); a reveal is sent for the entry of a vote, on an event without parameters;
a close event deletes the entry; or a new vote gets its entry and a commitment is sent. -/
theorem voteEventHandler_cases (server : VoteServer) (g_votes : List (Nat × voteData))
    (event : VoteEvent) :
    (voteEventHandler server g_votes event = (g_votes, []) ∧
      (VoteParams.GetCloseVote event.voteParams = true →
        mapGet event.voteID g_votes = none)) ∨
    (∃ vote, mapGet event.voteID g_votes = some vote ∧ event.voteParams = none ∧
      voteEventHandler server g_votes event
        = (g_votes, [.reveal event.voteID vote.Nonce vote.RelayDataHash])) ∨
    (VoteParams.GetCloseVote event.voteParams = true ∧
      (mapGet event.voteID g_votes).isSome = true ∧
      voteEventHandler server g_votes event = (mapDelete event.voteID g_votes, [])) ∨
    (∃ vote, VoteParams.GetCloseVote event.voteParams = false ∧
      mapGet event.voteID g_votes = none ∧
      voteEventHandler server g_votes event
        = (mapPut event.voteID vote g_votes, [.commit event.voteID vote.CommitHash])) := by
  unfold voteEventHandler
  simp only
  cases hp : event.voteParams with
  | none =>
    simp only [VoteParams.GetCloseVote, Bool.not_false, Bool.and_false, Bool.false_eq_true,
      if_false, Bool.true_and, decide_eq_true_eq]
    split_ifs with h1
    · exact Or.inl ⟨rfl, fun h => absurd h (by decide)⟩
    · cases hv : mapGet event.voteID g_votes with
      | none => exact Or.inl ⟨rfl, fun h => absurd h (by decide)⟩
      | some vote => exact Or.inr (Or.inl ⟨vote, rfl, trivial, rfl⟩)
  | some params =>
    cases hc : params.CloseVote with
    | true =>
      simp only [VoteParams.GetCloseVote, hc, Bool.not_true, Bool.false_and,
        Bool.false_eq_true, if_false, if_true]
      cases hv : mapGet event.voteID g_votes with
      | none => exact Or.inl ⟨rfl, fun _ => rfl⟩
      | some vote => exact Or.inr (Or.inr (Or.inl ⟨trivial, rfl, rfl⟩))
    | false =>
      simp only [VoteParams.GetCloseVote, hc, Bool.not_false, Bool.true_and,
        Bool.false_eq_true, if_false]
      split_ifs with h1 h2 h3
      · exact Or.inl ⟨rfl, fun h => absurd h (by decide)⟩
      · exact Or.inl ⟨rfl, fun h => absurd h (by decide)⟩
      · cases hv : mapGet event.voteID g_votes with
        | none => exact Or.inl ⟨rfl, fun h => absurd h (by decide)⟩
        | some vote => exact Or.inl ⟨rfl, fun h => absurd h (by decide)⟩
      · cases hv : mapGet event.voteID g_votes with
        | some vote => exact Or.inl ⟨rfl, fun h => absurd h (by decide)⟩
        | none =>
          cases hr : event.reply with
          | none => exact Or.inl ⟨rfl, fun h => absurd h (by decide)⟩
          | some data => exact Or.inr (Or.inr (Or.inr ⟨_, trivial, rfl, rfl⟩))

/-- The map after one more event. -/
theorem votesAfter_append_singleton (server : VoteServer) (events : List VoteEvent)
    (event : VoteEvent) :
    votesAfter server (events ++ [event])
      = (voteEventHandler server (votesAfter server events) event).1 := by
  simp [votesAfter, List.foldl_append]

/-- An entry of the map after an event was there before, the event not being a close event of
that vote, or the event has the vote's identifier and sent a commitment for it. -/
theorem voteEventHandler_entry (server : VoteServer) (g_votes : List (Nat × voteData))
    (event : VoteEvent) (voteID : Nat)
    (h : (mapGet voteID (voteEventHandler server g_votes event).1).isSome = true) :
    ((mapGet voteID g_votes).isSome = true ∧
      ¬ (event.voteID = voteID ∧ VoteParams.GetCloseVote event.voteParams = true)) ∨
    (event.voteID = voteID ∧
      ∃ CommitHash,
        VoteMessage.commit voteID CommitHash ∈ (voteEventHandler server g_votes event).2) := by
  rcases voteEventHandler_cases server g_votes event with
    ⟨hsame, hclose⟩ | ⟨vote, hget, hnone, hsame⟩ | ⟨hclose, _, hdel⟩ | ⟨vote, hopen, _, hput⟩
  · rw [hsame] at h
    refine Or.inl ⟨h, ?_⟩
    rintro ⟨hid, hc⟩
    rw [← hid, hclose hc] at h
    simp at h
  · rw [hsame] at h
    refine Or.inl ⟨h, ?_⟩
    rintro ⟨_, hc⟩
    rw [hnone] at hc
    simp [VoteParams.GetCloseVote] at hc
  · rw [hdel] at h
    by_cases hid : voteID = event.voteID
    · rw [hid, mapGet_mapDelete_self] at h
      simp at h
    · rw [mapGet_mapDelete_ne _ _ _ hid] at h
      exact Or.inl ⟨h, fun hboth => hid hboth.1.symm⟩
  · rw [hput] at h ⊢
    by_cases hid : voteID = event.voteID
    · subst hid
      exact Or.inr ⟨rfl, vote.CommitHash, by simp⟩
    · rw [mapGet_mapPut_ne _ _ _ _ hid] at h
      refine Or.inl ⟨h, ?_⟩
      rintro ⟨_, hc⟩
      rw [hopen] at hc
      simp at hc

/-- An entry of the map comes from a commitment sent by an earlier event that no close event
of the vote has followed. -/
theorem votesAfter_entry (server : VoteServer) (voteID : Nat) :
    ∀ events : List VoteEvent, (mapGet voteID (votesAfter server events)).isSome = true →
      ∃ pre commitEvent post, events = pre ++ commitEvent :: post ∧
        commitEvent.voteID = voteID ∧
        (∃ CommitHash, VoteMessage.commit voteID CommitHash
          ∈ (voteEventHandler server (votesAfter server pre) commitEvent).2) ∧
        ∀ later ∈ post,
          ¬ (later.voteID = voteID ∧ VoteParams.GetCloseVote later.voteParams = true) := by
  intro events
  induction events using List.reverseRecOn with
  | nil =>
    intro h
    simp [votesAfter, mapGet] at h
  | append_singleton events event ih =>
    intro h
    rw [votesAfter_append_singleton] at h
    rcases voteEventHandler_entry server _ event voteID h with ⟨hbefore, hnot⟩ | ⟨hid, hcommit⟩
    · obtain ⟨pre, commitEvent, post, hsplit, hcid, hcommit, hpost⟩ := ih hbefore
      refine ⟨pre, commitEvent, post ++ [event], ?_, hcid, hcommit, ?_⟩
      · rw [hsplit]
        simp
      · intro later hmem
        rcases List.mem_append.1 hmem with hin | hlast
        · exact hpost later hin
        · simp only [List.mem_singleton] at hlast
          rw [hlast]
          exact hnot
    · exact ⟨events, event, [], rfl, hid, hcommit, by simp⟩

/-! ## Unsubscribing: the map after the deletions -/

/-- Deleting the keys of a list of entries one by one keeps the entries with another key. -/
theorem foldl_mapDelete {β : Type} (entries : List (Nat × β)) :
    ∀ m : List (Nat × β),
      entries.foldl (fun subs entry => mapDelete entry.1 subs) m
        = m.filter (fun q => decide (q.1 ∉ entries.map Prod.fst)) := by
  induction entries with
  | nil =>
    intro m
    simp
  | cons entry rest ih =>
    intro m
    rw [List.foldl_cons, ih, mapDelete, List.filter_filter]
    congr 1
    funext q
    by_cases h1 : q.1 = entry.1 <;> by_cases h2 : q.1 ∈ rest.map Prod.fst <;>
      simp [h1, h2]

/-- Deleting every key of a map one by one leaves the empty map. -/
theorem foldl_mapDelete_self {β : Type} (m : List (Nat × β)) :
    m.foldl (fun subs entry => mapDelete entry.1 subs) m = [] := by
  rw [foldl_mapDelete, List.filter_eq_nil_iff]
  intro q hq
  have : q.1 ∈ m.map Prod.fst := List.mem_map_of_mem Prod.fst hq
  simp [this]

/-- The deletion of one subscription: it has no entry afterwards and the others are kept. -/
theorem processUnsubscribeEthereum_frame (subscriptionID : Nat) (Subs : List (Nat × Nat)) :
    mapGet subscriptionID (processUnsubscribeEthereum subscriptionID Subs).1 = none ∧
    (∀ other, other ≠ subscriptionID →
      mapGet other (processUnsubscribeEthereum subscriptionID Subs).1 = mapGet other Subs) ∧
    (processUnsubscribeEthereum subscriptionID Subs).2 = (mapGet subscriptionID Subs).toList := by
  unfold processUnsubscribeEthereum
  cases h : mapGet subscriptionID Subs with
  | none => exact ⟨h, fun _ _ => rfl, rfl⟩
  | some sub =>
    exact ⟨mapGet_mapDelete_self _ _, fun other hne => mapGet_mapDelete_ne _ _ _ hne, rfl⟩

/-! ## Aggregated metrics: one record -/

/-- The entry of an API type after `storeApiTypeData`. -/
theorem mapGet_storeApiTypeData (chainIdData : List (Nat × AggregatedMetric))
    (data : RelayMetrics) (successCount : Int) (APIType : Nat) :
    mapGet APIType (storeApiTypeData chainIdData data successCount)
      = if data.APIType = APIType then
          some (match mapGet APIType chainIdData with
            | some apiTypesData => addToMetric data successCount apiTypesData
            | none => firstMetric data successCount)
        else mapGet APIType chainIdData := by
  unfold storeApiTypeData
  by_cases ha : data.APIType = APIType
  · subst ha
    cases h : mapGet data.APIType chainIdData with
    | none => simp [mapGet_mapPut_self]
    | some apiTypesData => simp [mapGet_mapModify_self, h]
  · have hne : APIType ≠ data.APIType := fun h => ha h.symm
    cases h : mapGet data.APIType chainIdData with
    | none => simp [mapGet_mapPut_ne _ _ _ _ hne, ha]
    | some apiTypesData => simp [mapGet_mapModify_ne _ _ _ _ hne, ha]

/-- The entry of a chain and an API type after `storeChainIdData`. -/
theorem mapGet_storeChainIdData (projectData : List (Nat × List (Nat × AggregatedMetric)))
    (data : RelayMetrics) (successCount : Int) (ChainID APIType : Nat) :
    ((mapGet ChainID (storeChainIdData projectData data successCount)).bind
        fun chainIdData => mapGet APIType chainIdData)
      = if data.ChainID = ChainID ∧ data.APIType = APIType then
          some (match (mapGet ChainID projectData).bind
                  fun chainIdData => mapGet APIType chainIdData with
            | some apiTypesData => addToMetric data successCount apiTypesData
            | none => firstMetric data successCount)
        else (mapGet ChainID projectData).bind fun chainIdData => mapGet APIType chainIdData := by
  unfold storeChainIdData
  by_cases hc : data.ChainID = ChainID
  · subst hc
    cases h : mapGet data.ChainID projectData with
    | none =>
      by_cases ha : data.APIType = APIType
      · simp [mapGet_mapPut_self, mapGet, ha]
      · simp [mapGet_mapPut_self, mapGet, ha]
    | some chainIdData =>
      by_cases ha : data.APIType = APIType
      · simp [mapGet_mapModify_self, h, mapGet_storeApiTypeData, ha]
      · simp [mapGet_mapModify_self, h, mapGet_storeApiTypeData, ha]
  · have hne : ChainID ≠ data.ChainID := fun h => hc h.symm
    cases h : mapGet data.ChainID projectData with
    | none => simp [mapGet_mapPut_ne _ _ _ _ hne, hc]
    | some chainIdData => simp [mapGet_mapModify_ne _ _ _ _ hne, hc]

/-- The entry of a key triple after `storeAggregatedData`: the record's own triple gets its
first entry or the update of the entry it has, every other triple keeps what it has. -/
theorem metricAt_storeAggregatedData
    (store : List (Nat × List (Nat × List (Nat × AggregatedMetric)))) (data : RelayMetrics)
    (ProjectHash ChainID APIType : Nat) :
    metricAt (storeAggregatedData store data) ProjectHash ChainID APIType
      = if data.ProjectHash = ProjectHash ∧ data.ChainID = ChainID ∧ data.APIType = APIType then
          some (match metricAt store ProjectHash ChainID APIType with
            | some apiTypesData =>
              addToMetric data (if data.Success then 1 else 0) apiTypesData
            | none => firstMetric data (if data.Success then 1 else 0))
        else metricAt store ProjectHash ChainID APIType := by
  unfold storeAggregatedData metricAt
  by_cases hp : data.ProjectHash = ProjectHash
  · subst hp
    cases h : mapGet data.ProjectHash store with
    | none =>
      by_cases hc : data.ChainID = ChainID <;> by_cases ha : data.APIType = APIType <;>
        simp [mapGet_mapPut_self, mapGet, hc, ha]
    | some projectData =>
      by_cases hc : data.ChainID = ChainID <;> by_cases ha : data.APIType = APIType <;>
        simp [mapGet_mapModify_self, h, mapGet_storeChainIdData, hc, ha]
  · have hne : ProjectHash ≠ data.ProjectHash := fun h => hp h.symm
    cases h : mapGet data.ProjectHash store with
    | none => simp [mapGet_mapPut_ne _ _ _ _ hne, hp]
    | some projectData => simp [mapGet_mapModify_ne _ _ _ _ hne, hp]

/-! ## Aggregated metrics: a list of records -/

/-- An `int64` sum whose first term was reduced is the reduced sum. -/
theorem int64Add_int64Wrap (x y : Int) : int64Add (int64Wrap x) y = int64Wrap (x + y) := by
  unfold int64Add int64Wrap
  omega

/-- An integer in the range of `int64` is not changed by the reduction. -/
theorem int64Wrap_of_range (x : Int) (hlo : -2 ^ 63 ≤ x) (hhi : x < 2 ^ 63) :
    int64Wrap x = x := by
  unfold int64Wrap
  omega

/-- The map after one more record. -/
theorem storeAll_append_singleton (records : List RelayMetrics) (data : RelayMetrics) :
    storeAll (records ++ [data]) = storeAggregatedData (storeAll records) data := by
  simp [storeAll, List.foldl_append]

/-- The records of a triple after one more record. -/
theorem recordsOf_append_singleton (records : List RelayMetrics) (data : RelayMetrics)
    (ProjectHash ChainID APIType : Nat) :
    recordsOf (records ++ [data]) ProjectHash ChainID APIType
      = recordsOf records ProjectHash ChainID APIType
        ++ if data.ProjectHash = ProjectHash ∧ data.ChainID = ChainID ∧ data.APIType = APIType
          then [data] else [] := by
  unfold recordsOf
  rw [List.filter_append]
  congr 1
  by_cases h : data.ProjectHash = ProjectHash ∧ data.ChainID = ChainID ∧ data.APIType = APIType
  · simp [List.filter_cons, h]
  · simp [List.filter_cons, h]

/-- The entry of a key triple after the records of a list have been stored into the empty
map: none when no record has the triple, and otherwise the sum of the latencies, the number of
records and the number of successes among the records of the triple, each reduced to
`int64`. -/
theorem metricAt_storeAll (ProjectHash ChainID APIType : Nat) :
    ∀ records : List RelayMetrics,
      (∀ data ∈ records, -2 ^ 63 ≤ data.Latency ∧ data.Latency < 2 ^ 63) →
      metricAt (storeAll records) ProjectHash ChainID APIType
        = if recordsOf records ProjectHash ChainID APIType = [] then none
          else some
            { TotalLatency := int64Wrap
                ((recordsOf records ProjectHash ChainID APIType).map
                  fun data => data.Latency).sum,
              RelaysCount := int64Wrap (recordsOf records ProjectHash ChainID APIType).length,
              SuccessCount := int64Wrap
                ((recordsOf records ProjectHash ChainID APIType).filter
                  fun data => data.Success).length } := by
  intro records
  induction records using List.reverseRecOn with
  | nil =>
    intro _
    rfl
  | append_singleton records data ih =>
    intro hrange
    have hprev := ih (fun d hd => hrange d (List.mem_append_left _ hd))
    have hdata := hrange data (List.mem_append_right _ (List.mem_singleton_self _))
    rw [storeAll_append_singleton, metricAt_storeAggregatedData, recordsOf_append_singleton,
      hprev]
    by_cases h : data.ProjectHash = ProjectHash ∧ data.ChainID = ChainID
        ∧ data.APIType = APIType
    · rw [if_pos h, if_pos h]
      by_cases hempty : recordsOf records ProjectHash ChainID APIType = []
      · rw [hempty]
        cases hs : data.Success with
        | true =>
          simp only [if_true, firstMetric, List.nil_append, List.map_cons, List.map_nil,
            List.sum_cons, List.sum_nil, add_zero, List.length_singleton, Nat.cast_one,
            List.filter_cons, hs, List.filter_nil, reduceCtorEq, if_false]
          rw [int64Wrap_of_range _ hdata.1 hdata.2, int64Wrap_of_range 1 (by decide) (by decide)]
        | false =>
          simp only [if_true, firstMetric, List.nil_append, List.map_cons, List.map_nil,
            List.sum_cons, List.sum_nil, add_zero, List.length_singleton, Nat.cast_one,
            List.filter_cons, hs, List.filter_nil, reduceCtorEq, if_false, Bool.false_eq_true,
            List.length_nil, Nat.cast_zero]
          rw [int64Wrap_of_range _ hdata.1 hdata.2, int64Wrap_of_range 1 (by decide) (by decide),
            int64Wrap_of_range 0 (by decide) (by decide)]
      · have hne : recordsOf records ProjectHash ChainID APIType ++ [data] ≠ [] := by simp
        rw [if_neg hempty, if_neg hne]
        cases hs : data.Success with
        | true =>
          simp only [if_true, addToMetric, int64Add_int64Wrap, List.map_append, List.map_cons,
            List.map_nil, List.sum_append, List.sum_cons, List.sum_nil, add_zero,
            List.length_append, List.length_singleton, Nat.cast_add, Nat.cast_one,
            List.filter_append, List.filter_cons, hs, List.filter_nil]
        | false =>
          simp only [Bool.false_eq_true, if_false, addToMetric, int64Add_int64Wrap,
            List.map_append, List.map_cons, List.map_nil, List.sum_append, List.sum_cons,
            List.sum_nil, add_zero, List.length_append, List.length_singleton, Nat.cast_add,
            Nat.cast_one, List.filter_append, List.filter_cons, hs, List.filter_nil,
            List.append_nil]
    · rw [if_neg h, if_neg h, List.append_nil]

/-! ## The valid addresses are drawn from the pairing addresses -/

theorem UpdateAllProviders_sublist (csm : ConsumerSessionManager) (epoch : Nat)
    (pairingList : List ConsumerSessionsWithProvider)
    (h : csm.validAddresses.Sublist csm.pairingAddresses) :
    (UpdateAllProviders csm epoch pairingList).1.validAddresses.Sublist
      (UpdateAllProviders csm epoch pairingList).1.pairingAddresses := by
  unfold UpdateAllProviders
  by_cases hepoch : epoch ≤ csm.currentEpoch
  · simpa only [hepoch, if_true] using h
  · simp only [hepoch, if_false, setValidAddressesToDefaultValue]
    exact List.Sublist.refl _

theorem validatePairingListNotEmpty_lists (csm : ConsumerSessionManager) :
    (validatePairingListNotEmpty csm).1.pairingAddresses = csm.pairingAddresses ∧
    ((validatePairingListNotEmpty csm).1.validAddresses = csm.validAddresses ∨
      (validatePairingListNotEmpty csm).1.validAddresses = csm.pairingAddresses) := by
  unfold validatePairingListNotEmpty shouldResetValidAddresses resetValidAddresses
  by_cases hlen : csm.validAddresses.length = 0
  · simp [hlen, setValidAddressesToDefaultValue]
  · simp [hlen]

theorem blockProvider_lists (csm : ConsumerSessionManager) (address : Nat)
    (reportProvider : Bool) (sessionEpoch : Nat) :
    (blockProvider csm address reportProvider sessionEpoch).1.pairingAddresses
      = csm.pairingAddresses ∧
    (blockProvider csm address reportProvider sessionEpoch).1.validAddresses.Sublist
      csm.validAddresses := by
  unfold blockProvider removeAddressFromValidAddresses
  by_cases hepoch : sessionEpoch ≠ csm.currentEpoch
  · rw [if_pos hepoch]
    exact ⟨rfl, List.Sublist.refl _⟩
  · rw [if_neg hepoch]
    by_cases hmem : address ∈ csm.validAddresses
    · rw [if_pos hmem]
      simp only
      split <;> exact ⟨rfl, List.erase_sublist _ _⟩
    · rw [if_neg hmem]
      simp only [SessionError.Is]
      repeat' split
      all_goals exact ⟨rfl, List.Sublist.refl _⟩

theorem ManagerCall_run_sublist (csm : ConsumerSessionManager) (call : ManagerCall)
    (h : csm.validAddresses.Sublist csm.pairingAddresses) :
    (call.run csm).validAddresses.Sublist (call.run csm).pairingAddresses := by
  cases call with
  | UpdateAllProviders epoch pairingList =>
    exact UpdateAllProviders_sublist csm epoch pairingList h
  | validatePairingListNotEmpty =>
    obtain ⟨hp, hv⟩ := validatePairingListNotEmpty_lists csm
    show (validatePairingListNotEmpty csm).1.validAddresses.Sublist
      (validatePairingListNotEmpty csm).1.pairingAddresses
    rw [hp]
    rcases hv with hv | hv
    · rw [hv]; exact h
    · rw [hv]
  | blockProvider address reportProvider sessionEpoch =>
    obtain ⟨hp, hv⟩ := blockProvider_lists csm address reportProvider sessionEpoch
    show (blockProvider csm address reportProvider sessionEpoch).1.validAddresses.Sublist
      (blockProvider csm address reportProvider sessionEpoch).1.pairingAddresses
    rw [hp]
    exact hv.trans h

theorem runManagerCalls_sublist (calls : List ManagerCall) :
    ∀ csm : ConsumerSessionManager, csm.validAddresses.Sublist csm.pairingAddresses →
      (runManagerCalls csm calls).validAddresses.Sublist
        (runManagerCalls csm calls).pairingAddresses := by
  induction calls with
  | nil => intro csm h; exact h
  | cons call rest ih =>
    intro csm h
    exact ih (call.run csm) (ManagerCall_run_sublist csm call h)

/-! ## The choice of a valid address as an index into the addresses that are not ignored -/

theorem pickValidAddress_eq_getElem? (ignoredProvidersList : List Nat) (validAddressIndex : Nat) :
    ∀ (validAddresses : List Nat) (validAddressesCounter : Nat),
      validAddressesCounter ≤ validAddressIndex →
      pickValidAddress ignoredProvidersList validAddressIndex validAddresses
          validAddressesCounter
        = (validAddresses.filter fun address => !decide (address ∈ ignoredProvidersList))[
            validAddressIndex - validAddressesCounter]? := by
  intro validAddresses
  induction validAddresses with
  | nil => intro counter _; simp [pickValidAddress]
  | cons address rest ih =>
    intro counter hle
    unfold pickValidAddress
    by_cases hmem : address ∈ ignoredProvidersList
    · rw [if_pos hmem, ih counter hle]
      simp [hmem]
    · rw [if_neg hmem]
      by_cases hcounter : counter = validAddressIndex
      · rw [if_pos hcounter]
        subst hcounter
        simp [hmem]
      · rw [if_neg hcounter, ih (counter + 1) (by omega)]
        have hsub : validAddressIndex - counter = (validAddressIndex - (counter + 1)) + 1 := by
          omega
        rw [hsub]
        simp [hmem]

theorem length_filter_ignored_le (ignoredProvidersList validAddresses : List Nat)
    (hvalid : validAddresses.Nodup) :
    (validAddresses.filter fun address => decide (address ∈ ignoredProvidersList)).length
      ≤ ignoredProvidersList.length := by
  apply List.Subperm.length_le
  apply List.Nodup.subperm (hvalid.filter _)
  intro address haddress
  simpa using (List.mem_filter.1 haddress).2

theorem length_filter_ignored_eq (ignoredProvidersList validAddresses : List Nat)
    (hvalid : validAddresses.Nodup) (hignored : ignoredProvidersList.Nodup)
    (hsubset : ∀ address ∈ ignoredProvidersList, address ∈ validAddresses) :
    (validAddresses.filter fun address => decide (address ∈ ignoredProvidersList)).length
      = ignoredProvidersList.length := by
  apply Nat.le_antisymm (length_filter_ignored_le ignoredProvidersList validAddresses hvalid)
  apply List.Subperm.length_le
  apply List.Nodup.subperm hignored
  intro address haddress
  exact List.mem_filter.2 ⟨hsubset address haddress, by simpa using haddress⟩

theorem length_filter_not_ignored (ignoredProvidersList validAddresses : List Nat) :
    validAddresses.length
      = (validAddresses.filter fun address => decide (address ∈ ignoredProvidersList)).length
        + (validAddresses.filter fun address =>
            !decide (address ∈ ignoredProvidersList)).length :=
  List.length_eq_length_filter_add _

/-- With a positive `totalValidLength`, `getValidProviderAddress` is the lookup of the index
`random % totalValidLength` in the addresses that are not ignored. -/
theorem getValidProviderAddress_eq (csm : ConsumerSessionManager)
    (ignoredProvidersList : List Nat) (random : Nat)
    (htotal : ignoredProvidersList.length < csm.validAddresses.length) :
    getValidProviderAddress csm ignoredProvidersList random
      = match (csm.validAddresses.filter fun address =>
            !decide (address ∈ ignoredProvidersList))[
            random % (csm.validAddresses.length - ignoredProvidersList.length)]? with
        | some address => .ok address
        | none => .error .UnreachableCodeError := by
  unfold getValidProviderAddress
  have hpos : ¬ ((csm.validAddresses.length : Int) - (ignoredProvidersList.length : Int) ≤ 0) := by
    omega
  have htoNat : ((csm.validAddresses.length : Int) - (ignoredProvidersList.length : Int)).toNat
      = csm.validAddresses.length - ignoredProvidersList.length := by omega
  simp only [hpos, if_false, htoNat]
  rw [pickValidAddress_eq_getElem? _ _ _ 0 (Nat.zero_le _), Nat.sub_zero]

/-! ## The loops of `prepareArrayForProject` -/

theorem prepareArrayForChain_eq (projectKey chainKey : Nat) :
    ∀ (chainData : List (Nat × AggregatedMetric)) (toSendData : List RelayAnalyticsDTO),
      (∀ entry ∈ chainData, entry.2.RelaysCount ≠ 0) →
      prepareArrayForChain projectKey chainKey chainData toSendData
        = some (toSendData ++ chainData.map (analyticsOf projectKey chainKey)) := by
  intro chainData
  induction chainData with
  | nil => intro toSendData _; simp [prepareArrayForChain]
  | cons entry rest ih =>
    intro toSendData hcount
    obtain ⟨apiTypekey, apiTypeData⟩ := entry
    have hne : apiTypeData.RelaysCount ≠ 0 := hcount (apiTypekey, apiTypeData) (by simp)
    unfold prepareArrayForChain
    simp only [int64Div, hne, if_false]
    rw [ih _ (fun entry hentry => hcount entry (List.mem_cons_of_mem _ hentry))]
    simp [analyticsOf]

theorem prepareArrayForChains_eq (projectKey : Nat) :
    ∀ (projectData : List (Nat × List (Nat × AggregatedMetric)))
      (toSendData : List RelayAnalyticsDTO),
      (∀ chain ∈ projectData, ∀ entry ∈ chain.2, entry.2.RelaysCount ≠ 0) →
      prepareArrayForChains projectKey projectData toSendData
        = some (toSendData
            ++ projectData.flatMap fun chain => chain.2.map (analyticsOf projectKey chain.1)) := by
  intro projectData
  induction projectData with
  | nil => intro toSendData _; simp [prepareArrayForChains]
  | cons chain rest ih =>
    intro toSendData hcount
    obtain ⟨chainKey, chainData⟩ := chain
    unfold prepareArrayForChains
    rw [prepareArrayForChain_eq projectKey chainKey chainData toSendData
      (hcount (chainKey, chainData) (by simp))]
    simp only
    rw [ih _ (fun chain hchain => hcount chain (List.mem_cons_of_mem _ hchain))]
    simp

theorem prepareArrayForProject_eq (projectData : List (Nat × List (Nat × AggregatedMetric)))
    (projectKey : Nat)
    (hcount : ∀ chain ∈ projectData, ∀ entry ∈ chain.2, entry.2.RelaysCount ≠ 0) :
    prepareArrayForProject projectData projectKey
      = some (projectData.flatMap fun chain =>
          chain.2.map (analyticsOf projectKey chain.1)) := by
  unfold prepareArrayForProject
  rw [prepareArrayForChains_eq projectKey projectData [] hcount]
  simp

/-- The truncated quotient of an `int64` by a divisor other than 0 is an `int64`, but for the
quotient of `-2 ^ 63` by `-1`. -/
theorem int64Wrap_tdiv (a b : Int) (hlo : -2 ^ 63 ≤ a) (hhi : a < 2 ^ 63) (hb : b ≠ 0)
    (hmin : ¬ (a = -2 ^ 63 ∧ b = -1)) : int64Wrap (a.tdiv b) = a.tdiv b := by
  suffices hrange : -2 ^ 63 ≤ a.tdiv b ∧ a.tdiv b < 2 ^ 63 from
    int64Wrap_of_range _ hrange.1 hrange.2
  have habs : (a.tdiv b).natAbs = a.natAbs / b.natAbs := Int.natAbs_tdiv a b
  have hbabs : 1 ≤ b.natAbs := Int.natAbs_pos.2 hb
  by_cases hb1 : b.natAbs = 1
  · rw [hb1, Nat.div_one] at habs
    rcases Int.natAbs_eq b with hb' | hb'
    · rw [hb1] at hb'
      have hb'' : b = 1 := by simpa using hb'
      subst hb''
      rw [Int.tdiv_one]
      exact ⟨hlo, hhi⟩
    · rw [hb1] at hb'
      have hb'' : b = -1 := by simpa using hb'
      subst hb''
      have hne : a ≠ -2 ^ 63 := fun h => hmin ⟨h, rfl⟩
      rw [Int.tdiv_neg, Int.tdiv_one]
      constructor <;> omega
  · have h2 : 2 ≤ b.natAbs := by omega
    have hle : a.natAbs / b.natAbs ≤ a.natAbs / 2 := Nat.div_le_div_left h2 (by decide)
    have ha : a.natAbs ≤ 2 ^ 63 := by omega
    have hq : (a.tdiv b).natAbs ≤ 2 ^ 62 := by omega
    constructor <;> omega

/-! ## Aggregated metrics: bounds of every entry -/

theorem forall_mem_mapModify {β : Type} (P Q : β → Prop) (k : Nat) (f : β → β)
    (hkeep : ∀ v, P v → Q v) (hf : ∀ v, P v → Q (f v)) :
    ∀ l : List (Nat × β), (∀ x ∈ l, P x.2) → ∀ x ∈ mapModify k f l, Q x.2 := by
  intro l
  induction l with
  | nil => intro _ x hx; simp [mapModify] at hx
  | cons p rest ih =>
    intro hl x hx
    obtain ⟨k', v⟩ := p
    have hhead : P v := hl (k', v) (List.mem_cons_self _ _)
    have htail : ∀ x ∈ rest, P x.2 := fun x hx => hl x (List.mem_cons_of_mem _ hx)
    by_cases h : k' = k
    · simp only [mapModify, h, if_true, List.mem_cons] at hx
      rcases hx with hx | hx
      · rw [hx]; exact hf v hhead
      · exact hkeep _ (htail x hx)
    · simp only [mapModify, h, if_false, List.mem_cons] at hx
      rcases hx with hx | hx
      · rw [hx]; exact hkeep v hhead
      · exact ih htail x hx

theorem forall_mem_mapPut {β : Type} (P Q : β → Prop) (k : Nat) (v : β)
    (hkeep : ∀ v, P v → Q v) (hv : Q v) (l : List (Nat × β)) (hl : ∀ x ∈ l, P x.2) :
    ∀ x ∈ mapPut k v l, Q x.2 := by
  intro x hx
  rcases mem_mapPut k v l x hx with hx | hx
  · rw [hx]; exact hv
  · exact hkeep _ (hl x hx)

theorem metricBounds_mono (n : Int) (apiTypesData : AggregatedMetric)
    (h : metricBounds n apiTypesData) : metricBounds (n + 1) apiTypesData := by
  unfold metricBounds at h ⊢
  omega

theorem metricBounds_firstMetric (n : Int) (hn : 0 ≤ n) (data : RelayMetrics)
    (successCount : Int) (hsuccess : successCount = 0 ∨ successCount = 1) :
    metricBounds (n + 1) (firstMetric data successCount) := by
  unfold metricBounds firstMetric
  simp only
  omega

theorem metricBounds_addToMetric (n : Int) (hn : n + 1 < 2 ^ 63) (data : RelayMetrics)
    (successCount : Int) (hsuccess : successCount = 0 ∨ successCount = 1)
    (apiTypesData : AggregatedMetric) (h : metricBounds n apiTypesData) :
    metricBounds (n + 1) (addToMetric data successCount apiTypesData) := by
  unfold metricBounds at h ⊢
  unfold addToMetric
  simp only [int64Add]
  rw [int64Wrap_of_range (apiTypesData.RelaysCount + 1) (by omega) (by omega),
    int64Wrap_of_range (apiTypesData.SuccessCount + successCount) (by omega) (by omega)]
  omega

theorem storeApiTypeData_bounds (n : Int) (hn0 : 0 ≤ n) (hn : n + 1 < 2 ^ 63)
    (data : RelayMetrics) (successCount : Int)
    (hsuccess : successCount = 0 ∨ successCount = 1)
    (chainIdData : List (Nat × AggregatedMetric))
    (h : ∀ entry ∈ chainIdData, metricBounds n entry.2) :
    ∀ entry ∈ storeApiTypeData chainIdData data successCount,
      metricBounds (n + 1) entry.2 := by
  unfold storeApiTypeData
  split
  · exact forall_mem_mapModify (metricBounds n) (metricBounds (n + 1)) _ _
      (metricBounds_mono n) (metricBounds_addToMetric n hn data successCount hsuccess) _ h
  · exact forall_mem_mapPut (metricBounds n) (metricBounds (n + 1)) _ _
      (metricBounds_mono n) (metricBounds_firstMetric n hn0 data successCount hsuccess) _ h

theorem storeChainIdData_bounds (n : Int) (hn0 : 0 ≤ n) (hn : n + 1 < 2 ^ 63)
    (data : RelayMetrics) (successCount : Int)
    (hsuccess : successCount = 0 ∨ successCount = 1)
    (projectData : List (Nat × List (Nat × AggregatedMetric)))
    (h : ∀ chain ∈ projectData, ∀ entry ∈ chain.2, metricBounds n entry.2) :
    ∀ chain ∈ storeChainIdData projectData data successCount,
      ∀ entry ∈ chain.2, metricBounds (n + 1) entry.2 := by
  unfold storeChainIdData
  split
  · exact forall_mem_mapModify (fun chainIdData : List (Nat × AggregatedMetric) => ∀ entry ∈ chainIdData, metricBounds n entry.2)
      (fun chainIdData : List (Nat × AggregatedMetric) => ∀ entry ∈ chainIdData, metricBounds (n + 1) entry.2) _ _
      (fun _ hv entry hentry => metricBounds_mono n _ (hv entry hentry))
      (fun v hv => storeApiTypeData_bounds n hn0 hn data successCount hsuccess v hv) _ h
  · refine forall_mem_mapPut (fun chainIdData : List (Nat × AggregatedMetric) => ∀ entry ∈ chainIdData, metricBounds n entry.2)
      (fun chainIdData : List (Nat × AggregatedMetric) => ∀ entry ∈ chainIdData, metricBounds (n + 1) entry.2) _ _
      (fun _ hv entry hentry => metricBounds_mono n _ (hv entry hentry)) ?_ _ h
    intro entry hentry
    rw [List.mem_singleton] at hentry
    rw [hentry]
    exact metricBounds_firstMetric n hn0 data successCount hsuccess

theorem storeAggregatedData_bounds (n : Int) (hn0 : 0 ≤ n) (hn : n + 1 < 2 ^ 63)
    (data : RelayMetrics)
    (store : List (Nat × List (Nat × List (Nat × AggregatedMetric))))
    (h : ∀ project ∈ store, ∀ chain ∈ project.2, ∀ entry ∈ chain.2,
      metricBounds n entry.2) :
    ∀ project ∈ storeAggregatedData store data, ∀ chain ∈ project.2, ∀ entry ∈ chain.2,
      metricBounds (n + 1) entry.2 := by
  have hsuccess : (if data.Success then (1 : Int) else 0) = 0
      ∨ (if data.Success then (1 : Int) else 0) = 1 := by
    cases data.Success
    · exact Or.inl rfl
    · exact Or.inr rfl
  unfold storeAggregatedData
  simp only
  split
  · exact forall_mem_mapModify
      (fun projectData : List (Nat × List (Nat × AggregatedMetric)) =>
        ∀ chain ∈ projectData, ∀ entry ∈ chain.2, metricBounds n entry.2)
      (fun projectData : List (Nat × List (Nat × AggregatedMetric)) =>
        ∀ chain ∈ projectData, ∀ entry ∈ chain.2,
        metricBounds (n + 1) entry.2) _ _
      (fun _ hv chain hchain entry hentry => metricBounds_mono n _ (hv chain hchain entry hentry))
      (fun v hv => storeChainIdData_bounds n hn0 hn data _ hsuccess v hv) _ h
  · refine forall_mem_mapPut
      (fun projectData : List (Nat × List (Nat × AggregatedMetric)) =>
        ∀ chain ∈ projectData, ∀ entry ∈ chain.2, metricBounds n entry.2)
      (fun projectData : List (Nat × List (Nat × AggregatedMetric)) =>
        ∀ chain ∈ projectData, ∀ entry ∈ chain.2,
        metricBounds (n + 1) entry.2) _ _
      (fun _ hv chain hchain entry hentry => metricBounds_mono n _ (hv chain hchain entry hentry))
      ?_ _ h
    intro chain hchain entry hentry
    rw [List.mem_singleton] at hchain
    rw [hchain] at hentry
    rw [List.mem_singleton] at hentry
    rw [hentry]
    exact metricBounds_firstMetric n hn0 data _ hsuccess

/-- Every entry of the map built from fewer than `2 ^ 63` records is within the bounds. -/
theorem storeAll_bounds :
    ∀ records : List RelayMetrics, (records.length : Int) < 2 ^ 63 →
      ∀ project ∈ storeAll records, ∀ chain ∈ project.2, ∀ entry ∈ chain.2,
        metricBounds records.length entry.2 := by
  intro records
  induction records using List.reverseRecOn with
  | nil =>
    intro _ project hproject
    simp [storeAll] at hproject
  | append_singleton records data ih =>
    intro hlen
    rw [List.length_append, List.length_singleton] at hlen ⊢
    rw [storeAll_append_singleton]
    push_cast at hlen ⊢
    exact storeAggregatedData_bounds records.length (by omega) hlen data _ (ih (by omega))

/-- The map built from one record stored `n + 1` times. -/
theorem storeAll_replicate (data : RelayMetrics) (n : Nat)
    (hlo : -2 ^ 63 ≤ data.Latency) (hhi : data.Latency < 2 ^ 63) :
    storeAll (List.replicate (n + 1) data)
      = [(data.ProjectHash, [(data.ChainID, [(data.APIType,
          { TotalLatency := int64Wrap ((n + 1) * data.Latency),
            RelaysCount := int64Wrap (n + 1),
            SuccessCount := int64Wrap ((n + 1) * if data.Success then 1 else 0) })])])] := by
  induction n with
  | zero =>
    simp only [storeAll, List.replicate, List.foldl, storeAggregatedData, mapGet, mapPut,
      firstMetric, Nat.cast_zero, zero_add, one_mul]
    rw [int64Wrap_of_range data.Latency hlo hhi, int64Wrap_of_range 1 (by decide) (by decide)]
    cases data.Success
    · rw [if_neg (by decide), int64Wrap_of_range 0 (by decide) (by decide)]
    · rw [if_pos rfl, int64Wrap_of_range 1 (by decide) (by decide)]
  | succ n ih =>
    rw [List.replicate_succ', storeAll_append_singleton, ih]
    simp only [storeAggregatedData, mapGet, if_true, mapModify, storeChainIdData,
      storeApiTypeData, addToMetric, int64Add_int64Wrap]
    have hlatency : ((n : Int) + 1) * data.Latency + data.Latency
        = (((n + 1 : Nat) : Int) + 1) * data.Latency := by
      push_cast; ring
    have hcount : (n : Int) + 1 + 1 = ((n + 1 : Nat) : Int) + 1 := by
      push_cast; ring
    have hsuccess : (((n : Int) + 1) * if data.Success = true then 1 else 0)
          + (if data.Success = true then 1 else 0)
        = (((n + 1 : Nat) : Int) + 1) * if data.Success = true then 1 else 0 := by
      push_cast; ring
    rw [hlatency, hcount, hsuccess]

/-! ## A regular relay with the session id 0 -/

/-- On a regular relay either `initRelay` returns an error before it looks at the sessions,
leaving the state and the rewards ledger as they were, or it is its regular branch, with the
ledger that `getOrCreateSession` leaves. -/
theorem initRelay_regular_cases (DataReliabilitySessionId DataReliabilityCuSum : Nat)
    (calls : InitRelayCalls) (g_rewardsSessions : List (Nat × List RewardSession))
    (state : ConsumerState) (inbound : InboundRelayRequest)
    (hregular : inbound.DataReliability = none) :
    (∃ err, initRelay DataReliabilitySessionId DataReliabilityCuSum calls state inbound
        = some ⟨state, none, none, some err⟩ ∧
      initRelayRewards calls g_rewardsSessions state inbound = g_rewardsSessions) ∨
    ∃ nodeMsg,
      initRelay DataReliabilitySessionId DataReliabilityCuSum calls state inbound
        = initRelayRegular calls state inbound.request nodeMsg ∧
      initRelayRewards calls g_rewardsSessions state inbound
        = getOrCreateSessionRewards g_rewardsSessions state.userSessions inbound.request
            calls.GetVrfPkAndMaxCuForUser calls.CurrentEpochHeight calls.PrevEpochHeight := by
  unfold initRelay initRelayRewards
  simp only [hregular]
  repeat' split
  all_goals first | exact Or.inl ⟨_, rfl, rfl⟩ | exact Or.inr ⟨_, rfl, rfl⟩ | simp_all

/-- With a key, `getOrCreateDataByEpoch` returns. -/
theorem getOrCreateDataByEpoch_of_key (userSessions : UserSessions)
    (sessionEpoch maxcuRes vrf_pk : Nat) :
    ∃ userSessions1,
      getOrCreateDataByEpoch userSessions sessionEpoch maxcuRes (some vrf_pk)
        = some userSessions1 := by
  unfold getOrCreateDataByEpoch
  split
  · exact ⟨_, rfl⟩
  · exact ⟨_, rfl⟩

set_option linter.unusedTactic false in
set_option linter.unreachableTactic false in
/-- The regular branch on a request with the session id 0: it returns an error; with a
session 0 in the map the state and the ledger stay as they were, and without one either they
stay or the session 0 is created in both. -/
theorem initRelayRegular_zero (calls : InitRelayCalls)
    (g_rewardsSessions : List (Nat × List RewardSession)) (state : ConsumerState)
    (request : RelayRequest) (nodeMsg : NodeMessage) (hzero : request.SessionId = 0)
    (hvrf : ∀ maxcuRes, calls.GetVrfPkAndMaxCuForUser ≠ .ok (none, maxcuRes)) :
    ∃ result err,
      initRelayRegular calls state request nodeMsg = some result ∧
      result.err = some err ∧ result.nodeMsg = none ∧ result.relaySession = none ∧
      ((mapGet 0 state.userSessions.Sessions).isSome = true →
        result.state = state ∧
        getOrCreateSessionRewards g_rewardsSessions state.userSessions request
          calls.GetVrfPkAndMaxCuForUser calls.CurrentEpochHeight calls.PrevEpochHeight
          = g_rewardsSessions) ∧
      (mapGet 0 state.userSessions.Sessions = none →
        (result.state = state ∧
          getOrCreateSessionRewards g_rewardsSessions state.userSessions request
            calls.GetVrfPkAndMaxCuForUser calls.CurrentEpochHeight calls.PrevEpochHeight
            = g_rewardsSessions) ∨
        (mapGet 0 result.state.userSessions.Sessions
            = some ⟨0, 0, 0, uint64OfInt64 request.BlockHeight⟩ ∧
          getOrCreateSessionRewards g_rewardsSessions state.userSessions request
            calls.GetVrfPkAndMaxCuForUser calls.CurrentEpochHeight calls.PrevEpochHeight
            = appendRewardSession g_rewardsSessions (uint64OfInt64 request.BlockHeight)
                ⟨0, 0, 0, uint64OfInt64 request.BlockHeight⟩)) := by
  unfold initRelayRegular getOrCreateSession getOrCreateSessionRewards
  rw [hzero]
  by_cases hb : state.userSessions.IsBlockListed = true
  · simp only [hb, if_true]
    refine ⟨_, _, rfl, rfl, rfl, rfl, ?_, ?_⟩ <;> intro h <;>
          (first
          | exact ⟨rfl, trivial⟩
          | exact ⟨rfl, rfl⟩
          | exact Or.inl ⟨rfl, trivial⟩
          | exact Or.inl ⟨rfl, rfl⟩
          | exact Or.inr ⟨hsession, trivial⟩
          | exact Or.inr ⟨hsession, rfl⟩
          | simp at h)
  · simp only [hb, Bool.false_eq_true, if_false]
    cases hs : mapGet 0 state.userSessions.Sessions with
    | some session =>
      simp only
      by_cases hmis : request.BlockHeight ≠ int64OfUint64 session.PairingEpoch
      · rw [if_pos hmis]
        refine ⟨_, _, rfl, rfl, rfl, rfl, ?_, ?_⟩ <;> intro h <;>
          (first
          | exact ⟨rfl, trivial⟩
          | exact ⟨rfl, rfl⟩
          | exact Or.inl ⟨rfl, trivial⟩
          | exact Or.inl ⟨rfl, rfl⟩
          | exact Or.inr ⟨hsession, trivial⟩
          | exact Or.inr ⟨hsession, rfl⟩
          | simp at h)
      · rw [if_neg hmis, if_pos trivial]
        refine ⟨_, _, rfl, rfl, rfl, rfl, ?_, ?_⟩ <;> intro h <;>
          (first
          | exact ⟨rfl, trivial⟩
          | exact ⟨rfl, rfl⟩
          | exact Or.inl ⟨rfl, trivial⟩
          | exact Or.inl ⟨rfl, rfl⟩
          | exact Or.inr ⟨hsession, trivial⟩
          | exact Or.inr ⟨hsession, rfl⟩
          | simp at h)
    | none =>
      simp only
      cases hsentry : calls.GetVrfPkAndMaxCuForUser with
      | error err =>
        simp only
        refine ⟨_, _, rfl, rfl, rfl, rfl, ?_, ?_⟩ <;> intro h <;>
          (first
          | exact ⟨rfl, trivial⟩
          | exact ⟨rfl, rfl⟩
          | exact Or.inl ⟨rfl, trivial⟩
          | exact Or.inl ⟨rfl, rfl⟩
          | exact Or.inr ⟨hsession, trivial⟩
          | exact Or.inr ⟨hsession, rfl⟩
          | simp at h)
      | ok answer =>
        obtain ⟨vrf_pk, maxcuRes⟩ := answer
        simp only
        by_cases hv : (!validateRequestedBlockHeight (uint64OfInt64 request.BlockHeight)
            calls.CurrentEpochHeight calls.PrevEpochHeight) = true
        · simp only [hv, if_true]
          refine ⟨_, _, rfl, rfl, rfl, rfl, ?_, ?_⟩ <;> intro h <;>
          (first
          | exact ⟨rfl, trivial⟩
          | exact ⟨rfl, rfl⟩
          | exact Or.inl ⟨rfl, trivial⟩
          | exact Or.inl ⟨rfl, rfl⟩
          | exact Or.inr ⟨hsession, trivial⟩
          | exact Or.inr ⟨hsession, rfl⟩
          | simp at h)
        · simp only [hv, Bool.false_eq_true, if_false]
          cases vrf_pk with
          | none => exact absurd hsentry (hvrf maxcuRes)
          | some key =>
            obtain ⟨userSessions2, hdata⟩ := getOrCreateDataByEpoch_of_key
              ⟨mapPut 0 ⟨0, 0, 0, uint64OfInt64 request.BlockHeight⟩
                state.userSessions.Sessions, false, state.userSessions.dataByEpoch⟩
              (uint64OfInt64 request.BlockHeight) maxcuRes key
            have hframe := (getOrCreateDataByEpoch_frame _ _ _ _ _ hdata).1
            have hsession : mapGet 0 userSessions2.Sessions
                = some ⟨0, 0, 0, uint64OfInt64 request.BlockHeight⟩ := by
              rw [hframe]
              exact mapGet_mapPut_self _ _ _
            rw [hdata]
            simp only
            by_cases hmis : request.BlockHeight
                ≠ int64OfUint64 (uint64OfInt64 request.BlockHeight)
            · rw [if_pos hmis]
              refine ⟨_, _, rfl, rfl, rfl, rfl, ?_, ?_⟩ <;> intro h <;>
          (first
          | exact ⟨rfl, trivial⟩
          | exact ⟨rfl, rfl⟩
          | exact Or.inl ⟨rfl, trivial⟩
          | exact Or.inl ⟨rfl, rfl⟩
          | exact Or.inr ⟨hsession, trivial⟩
          | exact Or.inr ⟨hsession, rfl⟩
          | simp at h)
            · rw [if_neg hmis, if_pos trivial]
              refine ⟨_, _, rfl, rfl, rfl, rfl, ?_, ?_⟩ <;> intro h <;>
          (first
          | exact ⟨rfl, trivial⟩
          | exact ⟨rfl, rfl⟩
          | exact Or.inl ⟨rfl, trivial⟩
          | exact Or.inl ⟨rfl, rfl⟩
          | exact Or.inr ⟨hsession, trivial⟩
          | exact Or.inr ⟨hsession, rfl⟩
          | simp at h)

/-! ## The chain tracker: the window after a poll -/

theorem fetchMissingBlocks_agree (fetcher : ChainFetcher) (stored : Int) :
    ∀ (count : Nat) (blocks : List BlockStore),
      fetchMissingBlocks fetcher stored count = some blocks →
      ∀ blockStore ∈ blocks, fetcher.FetchBlockHashByNum blockStore.Block = some blockStore.Hash := by
  intro count
  induction count with
  | zero =>
    intro blocks h blockStore hmem
    simp only [fetchMissingBlocks, Option.some.injEq] at h
    subst h
    simp at hmem
  | succ count ih =>
    intro blocks h blockStore hmem
    unfold fetchMissingBlocks at h
    split at h
    · rename_i previous hash hprevious hhash
      simp only [Option.some.injEq] at h
      subst h
      rcases List.mem_append.1 hmem with hmem | hmem
      · exact ih previous hprevious blockStore hmem
      · rw [List.mem_singleton] at hmem
        subst hmem
        exact hhash
    · simp at h

theorem refetchWindow_agree (fetcher : ChainFetcher) (blocks : List BlockStore) :
    ∀ blockStore ∈ refetchWindow fetcher blocks,
      fetcher.FetchBlockHashByNum blockStore.Block = some blockStore.Hash := by
  intro blockStore hmem
  unfold refetchWindow at hmem
  obtain ⟨old, _, hold⟩ := List.mem_filterMap.1 hmem
  cases hfetch : fetcher.FetchBlockHashByNum old.Block with
  | none => simp [hfetch] at hold
  | some hash =>
    simp only [hfetch, Option.map_some', Option.some.injEq] at hold
    subst hold
    exact hfetch

theorem mem_of_mem_trimWindow (blocksToSave : Nat) (blocks : List BlockStore)
    (blockStore : BlockStore) (hmem : blockStore ∈ trimWindow blocksToSave blocks) :
    blockStore ∈ blocks :=
  List.mem_of_mem_drop hmem

/-- After a successful poll of a fetcher whose forks show at the latest height, the tracker
has the fetcher's latest height and every entry of the window has the hash the fetcher
reports for its height. -/
theorem pollOnce_agree (fetcher : ChainFetcher) (ct ct1 : ChainTracker)
    (hvisible : forkShowsAtLatest fetcher ct) (hpoll : pollOnce fetcher ct = some ct1) :
    fetcher.FetchLatestBlockNum = some ct1.latestBlockNum ∧
    ∀ blockStore ∈ ct1.blocksQueue,
      fetcher.FetchBlockHashByNum blockStore.Block = some blockStore.Hash := by
  unfold pollOnce at hpoll
  cases hlatest : fetcher.FetchLatestBlockNum with
  | none => simp [hlatest] at hpoll
  | some newLatest =>
    simp only [hlatest] at hpoll
    by_cases hlt : newLatest < ct.latestBlockNum
    · simp [hlt] at hpoll
    · rw [if_neg hlt] at hpoll
      cases htail : fetcher.FetchBlockHashByNum ct.latestBlockNum with
      | none => simp [htail] at hpoll
      | some tailHash =>
        simp only [htail] at hpoll
        cases hmissing : fetchMissingBlocks fetcher ct.latestBlockNum
            (newLatest - ct.latestBlockNum).toNat with
        | none => simp [hmissing] at hpoll
        | some missing =>
          simp only [hmissing, Option.some.injEq] at hpoll
          subst hpoll
          refine ⟨rfl, ?_⟩
          intro blockStore hmem
          have hmem1 := mem_of_mem_trimWindow _ _ _ hmem
          by_cases hsame : ct.hashOf ct.latestBlockNum = some tailHash
          · rw [if_pos hsame] at hmem1
            rcases List.mem_append.1 hmem1 with hold | hnew
            · exact hvisible (by rw [hsame, htail]) blockStore hold
            · exact fetchMissingBlocks_agree fetcher _ _ missing hmissing blockStore hnew
          · rw [if_neg hsame] at hmem1
            exact refetchWindow_agree fetcher _ blockStore hmem1

theorem mem_of_hashOf (ct : ChainTracker) (blockNum : Int) (hash : String)
    (h : ct.hashOf blockNum = some hash) : (⟨blockNum, hash⟩ : BlockStore) ∈ ct.blocksQueue := by
  unfold ChainTracker.hashOf at h
  cases hfind : ct.blocksQueue.find? (fun blockStore => blockStore.Block = blockNum) with
  | none => simp [hfind] at h
  | some found =>
    simp only [hfind, Option.map_some', Option.some.injEq] at h
    have hblock : found.Block = blockNum := by
      simpa using List.find?_some hfind
    have hmem := List.mem_of_find?_eq_some hfind
    have hfound : found = ⟨blockNum, hash⟩ := by
      cases found
      simp only [BlockStore.mk.injEq]
      exact ⟨hblock, h⟩
    rw [← hfound]
    exact hmem

theorem blocksOfHeights_spec (ct : ChainTracker) :
    ∀ (heights : List Int) (blocks : List BlockStore),
      blocksOfHeights ct heights = some blocks →
      blocks.map (fun blockStore => blockStore.Block) = heights ∧
      ∀ blockStore ∈ blocks, blockStore ∈ ct.blocksQueue := by
  intro heights
  induction heights with
  | nil =>
    intro blocks h
    simp only [blocksOfHeights, Option.some.injEq] at h
    subst h
    simp
  | cons blockNum rest ih =>
    intro blocks h
    unfold blocksOfHeights at h
    split at h
    · rename_i hash tail hhash htail
      simp only [Option.some.injEq] at h
      subst h
      obtain ⟨hmap, hmem⟩ := ih tail htail
      refine ⟨by simp [hmap], ?_⟩
      intro blockStore hblock
      rcases List.mem_cons.1 hblock with hhead | htl
      · rw [hhead]
        exact mem_of_hashOf ct blockNum hash hhash
      · exact hmem blockStore htl
    · simp at h

/-- A range that `GetLatestBlockData` returns without a specific block: the latest height of
the tracker, and entries of the window whose heights go up by one from the height of
`fromBlock`. -/
theorem GetLatestBlockData_range (LATEST_BLOCK NOT_APPLICABLE : Int) (ct : ChainTracker)
    (fromBlock toBlock latest : Int) (blocks : List BlockStore)
    (h : GetLatestBlockData LATEST_BLOCK NOT_APPLICABLE ct fromBlock toBlock NOT_APPLICABLE
      = some (latest, blocks)) :
    latest = ct.latestBlockNum ∧
    blocks.map (fun blockStore => blockStore.Block)
      = (List.range blocks.length).map
          (fun (i : Nat) =>
            LatestArgToBlockNum LATEST_BLOCK fromBlock ct.latestBlockNum + (i : Int)) ∧
    ∀ blockStore ∈ blocks, blockStore ∈ ct.blocksQueue := by
  unfold GetLatestBlockData at h
  simp only [true_or, if_true, ChainTracker.GetLatestBlockNum] at h
  split at h
  · rename_i hna
    simp only [blocksOfHeights, Option.map_some', Option.some.injEq, Prod.mk.injEq] at h
    obtain ⟨hlatest, hblocks⟩ := h
    subst hblocks
    exact ⟨hlatest.symm, by simp, by simp⟩
  · cases hfound : blocksOfHeights ct ((List.range
        (LatestArgToBlockNum LATEST_BLOCK toBlock ct.latestBlockNum
          - LatestArgToBlockNum LATEST_BLOCK fromBlock ct.latestBlockNum).toNat).map
        fun (i : Nat) =>
          LatestArgToBlockNum LATEST_BLOCK fromBlock ct.latestBlockNum + (i : Int)) with
    | none => simp [hfound] at h
    | some found =>
      simp only [hfound, Option.map_some', Option.some.injEq, Prod.mk.injEq] at h
      obtain ⟨hlatest, hblocks⟩ := h
      subst hblocks
      obtain ⟨hmap, hmem⟩ := blocksOfHeights_spec ct _ found hfound
      have hlen : found.length = (LatestArgToBlockNum LATEST_BLOCK toBlock ct.latestBlockNum
          - LatestArgToBlockNum LATEST_BLOCK fromBlock ct.latestBlockNum).toNat := by
        have := congrArg List.length hmap
        simpa using this
      refine ⟨hlatest.symm, ?_, hmem⟩
      rw [hmap, hlen]

/-! ## The wire format of `Metadata`: the length of a varint -/

theorem Len64Loop_le_iff : ∀ (fuel x n : Nat), x < 2 ^ fuel →
    (Len64Loop fuel x ≤ n ↔ x < 2 ^ n) := by
  intro fuel
  induction fuel with
  | zero =>
    intro x n hx
    have hx0 : x = 0 := by simpa using hx
    subst hx0
    simp [Len64Loop]
  | succ fuel ih =>
    intro x n hx
    unfold Len64Loop
    by_cases hzero : x = 0
    · subst hzero
      simp
    · rw [if_neg hzero]
      cases n with
      | zero =>
        simp only [Nat.le_zero_eq, Nat.add_one_ne_zero, pow_zero, Nat.lt_one_iff, false_iff]
        exact hzero
      | succ n =>
        have hhalf : x / 2 < 2 ^ fuel := by
          rw [Nat.div_lt_iff_lt_mul (by decide)]
          rw [pow_succ] at hx
          exact hx
        rw [Nat.add_le_add_iff_right, ih (x / 2) n hhalf, Nat.div_lt_iff_lt_mul (by decide),
          pow_succ]

theorem or_one_eq (v : Nat) : v ||| 1 = 2 * (v / 2) + 1 := by
  have h1 : 2 ^ 1 * (v / 2) + v % 2 = 2 ^ 1 * (v / 2) ||| v % 2 :=
    Nat.mul_add_lt_is_or (Nat.mod_lt _ (by decide)) _
  have h2 : 2 ^ 1 * (v / 2) + 1 = 2 ^ 1 * (v / 2) ||| 1 :=
    Nat.mul_add_lt_is_or (by decide) _
  have hv : v = 2 ^ 1 * (v / 2) + v % 2 := by omega
  have hbit : v % 2 ||| 1 = 1 := by
    rcases Nat.mod_two_eq_zero_or_one v with h | h <;> rw [h] <;> rfl
  calc v ||| 1 = (2 ^ 1 * (v / 2) ||| v % 2) ||| 1 := by rw [← h1, ← hv]
    _ = 2 ^ 1 * (v / 2) ||| (v % 2 ||| 1) := Nat.lor_assoc _ _ _
    _ = 2 ^ 1 * (v / 2) ||| 1 := by rw [hbit]
    _ = 2 * (v / 2) + 1 := by rw [← h2, pow_one]

theorem or_one_lt_iff (v k : Nat) (hk : 1 ≤ k) : v ||| 1 < 2 ^ k ↔ v < 2 ^ k := by
  rw [or_one_eq]
  obtain ⟨j, rfl⟩ : ∃ j, k = j + 1 := ⟨k - 1, by omega⟩
  rw [pow_succ]
  omega

theorem sovMetadata_le_iff (v k : Nat) (hv : v < 2 ^ 64) (hk : 1 ≤ k) :
    sovMetadata v ≤ k ↔ v < 2 ^ (7 * k) := by
  unfold sovMetadata Len64
  have hor : v ||| 1 < 2 ^ 64 := (or_one_lt_iff v 64 (by decide)).2 hv
  have hlen := Len64Loop_le_iff 64 (v ||| 1) (7 * k) hor
  rw [or_one_lt_iff v (7 * k) (by omega)] at hlen
  rw [← hlen]
  omega

theorem sovMetadata_pos (v : Nat) : 1 ≤ sovMetadata v := by
  unfold sovMetadata Len64
  have hne : v ||| 1 ≠ 0 := by rw [or_one_eq]; omega
  have hlen : 1 ≤ Len64Loop 64 (v ||| 1) := by
    show 1 ≤ Len64Loop (63 + 1) (v ||| 1)
    unfold Len64Loop
    rw [if_neg hne]
    omega
  omega

theorem varintBytes_length_le_iff : ∀ (fuel v k : Nat), v < 2 ^ (7 * fuel) → 1 ≤ k →
    ((varintBytes fuel v).length ≤ k ↔ v < 2 ^ (7 * k)) := by
  intro fuel
  induction fuel with
  | zero =>
    intro v k hv hk
    have hv0 : v = 0 := by simpa using hv
    subst hv0
    simp [varintBytes]
  | succ fuel ih =>
    intro v k hv hk
    unfold varintBytes
    obtain ⟨j, rfl⟩ : ∃ j, k = j + 1 := ⟨k - 1, by omega⟩
    have hpow : ∀ n : Nat, 2 ^ (7 * (n + 1)) = 2 ^ (7 * n) * 128 := by
      intro n
      rw [Nat.mul_succ, pow_add]
      rfl
    by_cases hbig : v ≥ 128
    · rw [if_pos hbig, List.length_cons, Nat.add_le_add_iff_right]
      have hdiv : v / 128 < 2 ^ (7 * fuel) := by
        rw [Nat.div_lt_iff_lt_mul (by decide), ← hpow]
        exact hv
      cases j with
      | zero =>
        have hpos : 1 ≤ (varintBytes fuel (v / 128)).length := by
          cases fuel with
          | zero => simp at hdiv; omega
          | succ fuel =>
            unfold varintBytes
            split <;> simp
        simp only [Nat.le_zero_eq, zero_add, Nat.mul_one]
        constructor
        · intro h; omega
        · intro h
          have : (2 : Nat) ^ 7 = 128 := by decide
          omega
      | succ j =>
        rw [ih (v / 128) (j + 1) hdiv (by omega), Nat.div_lt_iff_lt_mul (by decide), ← hpow]
    · rw [if_neg hbig]
      simp only [List.length_singleton, Nat.le_add_left, true_iff]
      have h128 : (128 : Nat) ≤ 2 ^ (7 * (j + 1)) := by
        rw [hpow]
        have : 1 ≤ 2 ^ (7 * j) := Nat.one_le_two_pow
        omega
      omega

theorem varintBytes_length_pos (fuel v : Nat) : 1 ≤ (varintBytes (fuel + 1) v).length := by
  unfold varintBytes
  split <;> simp

/-- The number `sovMetadata v` is the number of bytes of the varint of a `uint64`. -/
theorem sovMetadata_eq_length (v : Nat) (hv : v < 2 ^ 64) :
    sovMetadata v = (varintBytes 10 v).length := by
  have hv70 : v < 2 ^ (7 * 10) := Nat.lt_of_lt_of_le hv (by decide)
  apply Nat.le_antisymm
  · rw [sovMetadata_le_iff v _ hv (varintBytes_length_pos 9 v),
      ← varintBytes_length_le_iff 10 v _ hv70 (varintBytes_length_pos 9 v)]
  · rw [varintBytes_length_le_iff 10 v _ hv70 (sovMetadata_pos v),
      ← sovMetadata_le_iff v _ hv (sovMetadata_pos v)]

/-! ## The wire format of `Metadata`: the bytes that `Marshal` writes -/

theorem setByte_append (pre rest : List Nat) (x b : Nat) :
    setByte (pre ++ x :: rest) (pre.length : Int) b = some (pre ++ b :: rest) := by
  unfold setByte
  have hrange : 0 ≤ (pre.length : Int) ∧ (pre.length : Int) < ((pre ++ x :: rest).length : Nat) := by
    rw [List.length_append, List.length_cons]
    omega
  rw [if_pos hrange, Int.toNat_ofNat, List.set_append_right _ _ (Nat.le_refl _), Nat.sub_self]
  rfl

theorem low_group_byte (v : Nat) : (v &&& 0x7f ||| 0x80) % 256 = v % 128 + 128 := by
  have hand : v &&& 0x7f = v % 128 := Nat.and_pow_two_sub_one_eq_mod v 7
  have hor : ∀ x, x < 128 → x ||| 0x80 = x + 128 := by decide
  rw [hand, hor _ (Nat.mod_lt _ (by decide))]
  omega

theorem encodeVarintLoop_last (fuel v : Nat) (pre suf : List Nat) (x : Nat) (hv : v < 128) :
    encodeVarintLoop (fuel + 1) (pre ++ (x :: suf)) (pre.length : Int) v
      = some (pre ++ (v :: suf)) := by
  unfold encodeVarintLoop
  have hshift : (1 : Nat) <<< 7 = 128 := by decide
  rw [hshift, if_neg (by omega), setByte_append, Nat.mod_eq_of_lt (by omega)]

/-- The loop of `encodeVarintMetadata` writes the bytes of the varint over the bytes that
follow the offset. -/
theorem encodeVarintLoop_append : ∀ (fuel v : Nat) (pre mid suf : List Nat),
    v < 2 ^ (7 * (fuel + 1)) → mid.length = (varintBytes (fuel + 1) v).length →
    encodeVarintLoop (fuel + 1) (pre ++ (mid ++ suf)) (pre.length : Int) v
      = some (pre ++ (varintBytes (fuel + 1) v ++ suf)) := by
  intro fuel
  induction fuel with
  | zero =>
    intro v pre mid suf hv hmid
    have hsmall : v < 128 := by simpa using hv
    unfold varintBytes at hmid ⊢
    rw [if_neg (by omega)] at hmid ⊢
    cases mid with
    | nil => simp at hmid
    | cons x mid =>
      have hnil : mid = [] := by simpa using hmid
      subst hnil
      exact encodeVarintLoop_last 0 v pre suf x hsmall
  | succ fuel ih =>
    intro v pre mid suf hv hmid
    by_cases hbig : v ≥ 128
    · unfold encodeVarintLoop
      unfold varintBytes at hmid ⊢
      have hshift : (1 : Nat) <<< 7 = 128 := by decide
      rw [hshift]
      rw [if_pos hbig] at hmid ⊢
      rw [if_pos hbig]
      cases mid with
      | nil => simp at hmid
      | cons x mid =>
        rw [List.cons_append, setByte_append, low_group_byte]
        simp only
        have hdiv : v / 128 < 2 ^ (7 * (fuel + 1)) := by
          rw [Nat.div_lt_iff_lt_mul (by decide)]
          have hpow : 2 ^ (7 * (fuel + 1 + 1)) = 2 ^ (7 * (fuel + 1)) * 128 := by
            rw [Nat.mul_succ, pow_add]
            rfl
          rw [← hpow]
          exact hv
        have hlen : mid.length = (varintBytes (fuel + 1) (v / 128)).length := by
          simpa using hmid
        have hstep := ih (v / 128) (pre ++ [v % 128 + 128]) mid suf hdiv hlen
        rw [List.length_append, List.length_singleton] at hstep
        rw [Nat.shiftRight_eq_div_pow]
        have h7 : (2 : Nat) ^ 7 = 128 := by decide
        rw [h7]
        simp only [List.append_assoc, List.singleton_append, Nat.cast_add, Nat.cast_one] at hstep
        rw [hstep]
        simp
    · unfold varintBytes at hmid ⊢
      rw [if_neg hbig] at hmid ⊢
      cases mid with
      | nil => simp at hmid
      | cons x mid =>
        have hnil : mid = [] := by simpa using hmid
        subst hnil
        exact encodeVarintLoop_last (fuel + 1) v pre suf x (by omega)

theorem copyAt_replicate (i : Nat) (s suf : List Nat) :
    copyAt (List.replicate (i + s.length) 0 ++ suf) (i : Int) s
      = some (List.replicate i 0 ++ (s ++ suf)) := by
  unfold copyAt
  have hrange : 0 ≤ (i : Int)
      ∧ (i : Int) ≤ ((List.replicate (i + s.length) 0 ++ suf).length : Nat) := by
    rw [List.length_append, List.length_replicate]
    omega
  rw [if_pos hrange, Int.toNat_ofNat]
  have htake : (List.replicate (i + s.length) 0 ++ suf).take i = List.replicate i (0 : Nat) := by
    rw [List.take_append_of_le_length (by rw [List.length_replicate]; omega),
      List.take_replicate]
    congr 1
    omega
  have hdrop : (List.replicate (i + s.length) 0 ++ suf).drop (i + s.length) = suf := by
    rw [List.drop_append_of_le_length (by rw [List.length_replicate]),
      List.drop_replicate, Nat.sub_self]
    rfl
  have hall : s.take ((List.replicate (i + s.length) 0 ++ suf).length - i) = s := by
    apply List.take_of_length_le
    rw [List.length_append, List.length_replicate]
    omega
  rw [htake, hdrop, hall, List.append_assoc]

theorem encodeVarintMetadata_replicate (i v : Nat) (suf : List Nat) (hv : v < 2 ^ 64) :
    encodeVarintMetadata (List.replicate (i + (varintBytes 10 v).length) 0 ++ suf)
        ((i + (varintBytes 10 v).length : Nat) : Int) v
      = some (List.replicate i 0 ++ (varintBytes 10 v ++ suf), (i : Int)) := by
  unfold encodeVarintMetadata
  have hoffset : ((i + (varintBytes 10 v).length : Nat) : Int) - (sovMetadata v : Nat)
      = (i : Int) := by
    rw [sovMetadata_eq_length v hv]
    omega
  simp only [hoffset]
  have hbuffer : List.replicate (i + (varintBytes 10 v).length) 0 ++ suf
      = List.replicate i 0 ++ (List.replicate (varintBytes 10 v).length 0 ++ suf) := by
    rw [List.replicate_add, List.append_assoc]
  have hloop := encodeVarintLoop_append 9 v (List.replicate i 0)
    (List.replicate (varintBytes 10 v).length 0) suf
    (Nat.lt_of_lt_of_le hv (by decide)) (by rw [List.length_replicate])
  rw [List.length_replicate] at hloop
  rw [hbuffer, hloop]
  rfl

/-- The block of `MarshalToSizedBuffer` for a string writes the bytes of the string on the wire
before the bytes that are written already. -/
theorem marshalString_replicate (tag i : Nat) (s suf : List Nat) (hs : s.length < 2 ^ 64) :
    marshalString tag s (List.replicate (i + (fieldBytes tag s).length) 0 ++ suf)
        ((i + (fieldBytes tag s).length : Nat) : Int)
      = some (List.replicate i 0 ++ (fieldBytes tag s ++ suf), (i : Int)) := by
  unfold marshalString fieldBytes
  by_cases hempty : s.length > 0
  · simp only [hempty, if_true]
    have hlen : i + (tag :: (varintBytes 10 s.length ++ s)).length
        = (i + 1 + (varintBytes 10 s.length).length) + s.length := by
      rw [List.length_cons, List.length_append]
      omega
    have hindex : ((i + (tag :: (varintBytes 10 s.length ++ s)).length : Nat) : Int)
          - (s.length : Nat)
        = ((i + 1 + (varintBytes 10 s.length).length : Nat) : Int) := by
      rw [hlen]
      omega
    rw [hindex, hlen, copyAt_replicate]
    simp only
    rw [encodeVarintMetadata_replicate (i + 1) s.length (s ++ suf) hs]
    simp only
    have hminus : ((i + 1 : Nat) : Int) - 1 = (i : Int) := by omega
    rw [hminus]
    have hzero : List.replicate (i + 1) (0 : Nat) = List.replicate i 0 ++ [0] :=
      List.replicate_succ' i 0
    have hset := setByte_append (List.replicate i 0) (varintBytes 10 s.length ++ (s ++ suf)) 0 tag
    rw [List.length_replicate] at hset
    rw [hzero, List.append_assoc, List.singleton_append, hset]
    simp
  · simp only [hempty, if_false]
    simp

theorem fieldBytes_length (tag : Nat) (s : List Nat) (hs : s.length < 2 ^ 64) :
    (fieldBytes tag s).length
      = if s.length > 0 then 1 + s.length + sovMetadata s.length else 0 := by
  unfold fieldBytes
  by_cases hempty : s.length > 0
  · rw [if_pos hempty, if_pos hempty, List.length_cons, List.length_append,
      sovMetadata_eq_length _ hs]
    omega
  · rw [if_neg hempty, if_neg hempty]
    rfl

/-- The bytes that `MarshalToSizedBuffer` leaves in a zeroed buffer of the size of the two
strings on the wire: the fee version and then the app version. -/
theorem MarshalToSizedBuffer_replicate (m : Metadata) (hfee : m.FeeVersion.length < 2 ^ 64)
    (happ : m.AppVersion.length < 2 ^ 64) :
    m.MarshalToSizedBuffer
        (List.replicate ((fieldBytes 0xa m.FeeVersion).length
          + (fieldBytes 0x12 m.AppVersion).length) 0)
      = some (fieldBytes 0xa m.FeeVersion ++ fieldBytes 0x12 m.AppVersion,
          (((fieldBytes 0xa m.FeeVersion).length
            + (fieldBytes 0x12 m.AppVersion).length : Nat) : Int)) := by
  unfold Metadata.MarshalToSizedBuffer
  have happ1 := marshalString_replicate 0x12 (fieldBytes 0xa m.FeeVersion).length
    m.AppVersion [] happ
  have hfee1 := marshalString_replicate 0xa 0 m.FeeVersion (fieldBytes 0x12 m.AppVersion) hfee
  simp only [List.append_nil, Nat.zero_add, List.replicate_zero, List.nil_append] at happ1 hfee1
  simp only [List.length_replicate]
  rw [happ1]
  simp only
  rw [hfee1]
  simp

/-- The size of a value whose strings take fewer than `2 ^ 63` bytes on the wire. -/
theorem Size_eq (m : Metadata)
    (hsize : (fieldBytes 0xa m.FeeVersion).length + (fieldBytes 0x12 m.AppVersion).length
      < 2 ^ 63) :
    m.Size = (((fieldBytes 0xa m.FeeVersion).length
      + (fieldBytes 0x12 m.AppVersion).length : Nat) : Int) := by
  have hfee : m.FeeVersion.length < 2 ^ 64 := by
    have h : m.FeeVersion.length ≤ (fieldBytes 0xa m.FeeVersion).length := by
      unfold fieldBytes
      split
      · rw [List.length_cons, List.length_append]; omega
      · omega
    omega
  have happ : m.AppVersion.length < 2 ^ 64 := by
    have h : m.AppVersion.length ≤ (fieldBytes 0x12 m.AppVersion).length := by
      unfold fieldBytes
      split
      · rw [List.length_cons, List.length_append]; omega
      · omega
    omega
  rw [fieldBytes_length _ _ hfee, fieldBytes_length _ _ happ] at hsize ⊢
  unfold Metadata.Size
  simp only
  by_cases h1 : m.FeeVersion.length > 0 <;> by_cases h2 : m.AppVersion.length > 0
  all_goals
    simp only [h1, h2, if_true, if_false] at hsize ⊢
  · rw [int64Wrap_of_range (0 + (1 + ↑m.FeeVersion.length + ↑(sovMetadata m.FeeVersion.length)))
      (by omega) (by omega), int64Wrap_of_range _ (by omega) (by omega)]
    push_cast
    omega
  · rw [int64Wrap_of_range _ (by omega) (by omega)]
    push_cast
    omega
  · rw [int64Wrap_of_range _ (by omega) (by omega)]
    push_cast
    omega
  · rfl

/-- The bytes that `Marshal` returns. -/
theorem Marshal_eq (m : Metadata)
    (hsize : (fieldBytes 0xa m.FeeVersion).length + (fieldBytes 0x12 m.AppVersion).length
      < 2 ^ 63) :
    m.Marshal = some (fieldBytes 0xa m.FeeVersion ++ fieldBytes 0x12 m.AppVersion) := by
  have hfee : m.FeeVersion.length < 2 ^ 64 := by
    have h : m.FeeVersion.length ≤ (fieldBytes 0xa m.FeeVersion).length := by
      unfold fieldBytes
      split
      · rw [List.length_cons, List.length_append]; omega
      · omega
    omega
  have happ : m.AppVersion.length < 2 ^ 64 := by
    have h : m.AppVersion.length ≤ (fieldBytes 0x12 m.AppVersion).length := by
      unfold fieldBytes
      split
      · rw [List.length_cons, List.length_append]; omega
      · omega
    omega
  unfold Metadata.Marshal
  simp only [Size_eq m hsize]
  rw [if_neg (by omega), Int.toNat_ofNat, MarshalToSizedBuffer_replicate m hfee happ]
  simp only
  rw [if_pos (by rw [List.length_append]; omega), Int.toNat_ofNat]
  rw [List.take_of_length_le (by rw [List.length_append])]

/-! ## The wire format of `Metadata`: what `Unmarshal` reads -/

theorem getD_append_cons (pre rest : List Nat) (b : Nat) :
    (pre ++ b :: rest).getD pre.length 0 = b := by
  rw [List.getD_append_right _ _ _ _ (Nat.le_refl _), Nat.sub_self]
  rfl

theorem lor_shiftLeft (wire x shift : Nat) (hwire : wire < 2 ^ shift) :
    wire ||| (x <<< shift) = wire + x * 2 ^ shift := by
  rw [Nat.shiftLeft_eq, Nat.lor_comm, Nat.mul_comm x, ← Nat.mul_add_lt_is_or hwire,
    Nat.add_comm]

theorem high_bit_mask (u : Nat) : (u % 128 + 128) &&& 0x7F = u % 128 := by
  have h : ∀ x, x < 128 → (x + 128) &&& 0x7F = x := by decide
  exact h _ (Nat.mod_lt _ (by decide))

theorem low_bits_mask (u : Nat) (hu : u < 128) : u &&& 0x7F = u := by
  have h : u &&& 0x7F = u % 128 := Nat.and_pow_two_sub_one_eq_mod u 7
  rw [h, Nat.mod_eq_of_lt hu]

theorem varintBytes_small (fuel u : Nat) (hu : u < 128) : varintBytes (fuel + 1) u = [u] := by
  unfold varintBytes
  rw [if_neg (show ¬ u ≥ 128 by omega)]

theorem varintBytes_big (fuel u : Nat) (hu : u ≥ 128) :
    varintBytes (fuel + 1) u = (u % 128 + 128) :: varintBytes fuel (u / 128) := by
  conv_lhs => unfold varintBytes
  rw [if_pos hu]

theorem decodeVarintLoop_last (fuel b shift wire : Nat) (pre suf : List Nat) (hb : b < 128)
    (hshift : shift < 64) (hwire : wire < 2 ^ shift) (htotal : wire + b * 2 ^ shift < 2 ^ 64) :
    decodeVarintLoop (pre ++ (b :: suf)) (pre ++ (b :: suf)).length (fuel + 1) shift wire
        pre.length
      = .ok (wire + b * 2 ^ shift, pre.length + 1) := by
  unfold decodeVarintLoop
  rw [if_neg (show ¬ shift ≥ 64 by omega),
    if_neg (show ¬ pre.length ≥ (pre ++ (b :: suf)).length by
      rw [List.length_append, List.length_cons]; omega)]
  simp only [getD_append_cons]
  rw [if_pos (show b < 0x80 from hb), low_bits_mask b hb, lor_shiftLeft _ _ _ hwire,
    Nat.mod_eq_of_lt htotal]

theorem decodeVarintLoop_step (fuel r shift wire : Nat) (pre rest : List Nat) (hr : r < 128)
    (hshift : shift < 64) (hwire : wire < 2 ^ shift)
    (htotal : wire + r * 2 ^ shift < 2 ^ 64) :
    decodeVarintLoop (pre ++ ((r + 128) :: rest)) (pre ++ ((r + 128) :: rest)).length
        (fuel + 1) shift wire pre.length
      = decodeVarintLoop (pre ++ ((r + 128) :: rest)) (pre ++ ((r + 128) :: rest)).length
          fuel (shift + 7) (wire + r * 2 ^ shift) (pre.length + 1) := by
  conv_lhs => unfold decodeVarintLoop
  rw [if_neg (show ¬ shift ≥ 64 by omega),
    if_neg (show ¬ pre.length ≥ (pre ++ ((r + 128) :: rest)).length by
      rw [List.length_append, List.length_cons]; omega)]
  simp only [getD_append_cons]
  have hmask : (r + 128) &&& 0x7F = r := by
    have h := high_bit_mask r
    rw [Nat.mod_eq_of_lt hr] at h
    exact h
  rw [if_neg (show ¬ r + 128 < 0x80 by omega), hmask, lor_shiftLeft _ _ _ hwire,
    Nat.mod_eq_of_lt htotal]

/-- The varint loop of `Unmarshal` on the bytes of a varint: it adds the value that was
written, shifted, to the value read so far, and stops after the last byte. -/
theorem decodeVarintLoop_append : ∀ (fuelv u shift wire fuel : Nat) (pre suf : List Nat),
    u < 2 ^ (7 * (fuelv + 1)) → shift < 64 → wire < 2 ^ shift →
    wire + u * 2 ^ shift < 2 ^ 64 → fuelv + 1 ≤ fuel →
    decodeVarintLoop (pre ++ (varintBytes (fuelv + 1) u ++ suf))
        (pre ++ (varintBytes (fuelv + 1) u ++ suf)).length fuel shift wire pre.length
      = .ok (wire + u * 2 ^ shift, pre.length + (varintBytes (fuelv + 1) u).length) := by
  intro fuelv
  induction fuelv with
  | zero =>
    intro u shift wire fuel pre suf hu hshift hwire htotal hfuel
    obtain ⟨fuel, rfl⟩ : ∃ f, fuel = f + 1 := ⟨fuel - 1, by omega⟩
    have hsmall : u < 128 := by simpa using hu
    rw [varintBytes_small 0 u hsmall]
    exact decodeVarintLoop_last fuel u shift wire pre suf hsmall hshift hwire htotal
  | succ fuelv ih =>
    intro u shift wire fuel pre suf hu hshift hwire htotal hfuel
    obtain ⟨fuel, rfl⟩ : ∃ f, fuel = f + 1 := ⟨fuel - 1, by omega⟩
    by_cases hbig : u ≥ 128
    · rw [varintBytes_big (fuelv + 1) u hbig]
      have hpow : 2 ^ (shift + 7) = 2 ^ shift * 128 := by rw [pow_add]; rfl
      have hsplit : u = 128 * (u / 128) + u % 128 := (Nat.div_add_mod u 128).symm
      have hmod : u % 128 < 128 := Nat.mod_lt _ (by decide)
      have hvalue : wire + u % 128 * 2 ^ shift + u / 128 * 2 ^ (shift + 7)
          = wire + u * 2 ^ shift := by
        rw [hpow]
        conv_rhs => rw [hsplit]
        ring
      have hpos : 0 < 2 ^ shift := Nat.two_pow_pos shift
      have hlow : wire + u % 128 * 2 ^ shift < 2 ^ (shift + 7) := by
        rw [hpow]
        nlinarith
      have hshift7 : shift + 7 < 64 := by
        by_contra hge
        have hle : 2 ^ 64 ≤ 2 ^ (shift + 7) :=
          Nat.pow_le_pow_right (by decide) (by omega)
        have hbound : 2 ^ (shift + 7) ≤ u * 2 ^ shift := by
          rw [hpow, Nat.mul_comm]
          exact Nat.mul_le_mul_right _ hbig
        omega
      have hdiv : u / 128 < 2 ^ (7 * (fuelv + 1)) := by
        rw [Nat.div_lt_iff_lt_mul (by decide)]
        have hp : 2 ^ (7 * (fuelv + 1 + 1)) = 2 ^ (7 * (fuelv + 1)) * 128 := by
          rw [Nat.mul_succ, pow_add]
          rfl
        rw [← hp]
        exact hu
      have hpart : wire + u % 128 * 2 ^ shift < 2 ^ 64 := by
        have : wire + u % 128 * 2 ^ shift ≤ wire + u * 2 ^ shift := by
          rw [← hvalue]
          omega
        omega
      rw [List.cons_append, decodeVarintLoop_step fuel (u % 128) shift wire pre _ hmod hshift
        hwire hpart]
      have hstep := ih (u / 128) (shift + 7) (wire + u % 128 * 2 ^ shift) fuel
        (pre ++ [u % 128 + 128]) suf hdiv hshift7 hlow (by rw [hvalue]; exact htotal) (by omega)
      rw [hvalue] at hstep
      simp only [List.append_assoc, List.singleton_append, List.length_append,
        List.length_singleton, List.length_cons, List.length_nil, Nat.zero_add] at hstep ⊢
      rw [hstep]
      congr 2
      omega
    · have hsmall : u < 128 := by omega
      rw [varintBytes_small (fuelv + 1) u hsmall]
      exact decodeVarintLoop_last fuel u shift wire pre suf hsmall hshift hwire htotal

/-- The lines of `Unmarshal` that read a string, on the varint of its length followed by its
bytes. -/
theorem unmarshalString_append (pre s suf : List Nat)
    (hlen : (pre ++ (varintBytes 10 s.length ++ (s ++ suf))).length < 2 ^ 63) :
    unmarshalString (pre ++ (varintBytes 10 s.length ++ (s ++ suf)))
        (pre ++ (varintBytes 10 s.length ++ (s ++ suf))).length pre.length
      = .ok (s, pre.length + (varintBytes 10 s.length).length + s.length) := by
  have hlen1 := hlen
  simp only [List.length_append] at hlen1
  have hs : s.length < 2 ^ 63 := by omega
  have hread := decodeVarintLoop_append 9 s.length 0 0 11 pre (s ++ suf)
    (Nat.lt_of_lt_of_le hs (by decide)) (by decide) (by decide)
    (by rw [pow_zero, Nat.mul_one, Nat.zero_add]; omega) (by decide)
  rw [pow_zero, Nat.mul_one, Nat.zero_add] at hread
  unfold unmarshalString
  rw [hread]
  simp only
  rw [int64OfUint64_of_lt _ hs]
  have hpost : int64Add ((pre.length + (varintBytes 10 s.length).length : Nat) : Int)
      (s.length : Int)
      = ((pre.length + (varintBytes 10 s.length).length + s.length : Nat) : Int) := by
    unfold int64Add
    rw [int64Wrap_of_range _ (by omega) (by omega)]
    push_cast
    rfl
  rw [hpost]
  rw [if_neg (by omega), if_neg (by omega),
    if_neg (by simp only [List.length_append]; omega), Int.toNat_ofNat]
  have hdrop : (pre ++ (varintBytes 10 s.length ++ (s ++ suf))).drop
      (pre.length + (varintBytes 10 s.length).length) = s ++ suf := by
    rw [← List.append_assoc, ← List.length_append, List.drop_left]
  have htake : (s ++ suf).take
      (pre.length + (varintBytes 10 s.length).length + s.length
        - (pre.length + (varintBytes 10 s.length).length)) = s := by
    rw [Nat.add_sub_cancel_left, List.take_left]
  rw [hdrop, htake]

/-- At its end the loop of `Unmarshal` returns the value it has read and no error. -/
theorem unmarshalLoop_end (dAtA : List Nat) (fuel : Nat) (m : Metadata) (hfuel : 0 < fuel) :
    unmarshalLoop dAtA dAtA.length fuel m dAtA.length = some (m, none) := by
  obtain ⟨fuel, rfl⟩ : ∃ f, fuel = f + 1 := ⟨fuel - 1, by omega⟩
  unfold unmarshalLoop
  rw [if_neg (Nat.lt_irrefl _), if_neg (Nat.lt_irrefl _)]

/-- One turn of the loop of `Unmarshal` on a fee version on the wire. -/
theorem unmarshalLoop_fee (fuel : Nat) (m : Metadata) (pre s suf : List Nat)
    (hs : s.length > 0) (hfuel : 0 < fuel)
    (hlen : (pre ++ (fieldBytes 0xa s ++ suf)).length < 2 ^ 63) :
    unmarshalLoop (pre ++ (fieldBytes 0xa s ++ suf))
        (pre ++ (fieldBytes 0xa s ++ suf)).length fuel m pre.length
      = unmarshalLoop (pre ++ (fieldBytes 0xa s ++ suf))
          (pre ++ (fieldBytes 0xa s ++ suf)).length (fuel - 1) { m with FeeVersion := s }
          (pre.length + (fieldBytes 0xa s).length) := by
  obtain ⟨fuel, rfl⟩ : ∃ f, fuel = f + 1 := ⟨fuel - 1, by omega⟩
  rw [Nat.add_sub_cancel]
  have hfield : fieldBytes 0xa s = 0xa :: (varintBytes 10 s.length ++ s) := by
    unfold fieldBytes
    rw [if_pos hs]
  have hshape1 : pre ++ (fieldBytes 0xa s ++ suf)
      = pre ++ (0xa :: ((varintBytes 10 s.length ++ s) ++ suf)) := by
    rw [hfield]
    rfl
  have hshape2 : pre ++ (fieldBytes 0xa s ++ suf)
      = (pre ++ [0xa]) ++ (varintBytes 10 s.length ++ (s ++ suf)) := by
    rw [hfield]
    simp
  have htag : decodeVarintLoop (pre ++ (fieldBytes 0xa s ++ suf))
      (pre ++ (fieldBytes 0xa s ++ suf)).length 11 0 0 pre.length
      = .ok (10, pre.length + 1) := by
    rw [hshape1]
    exact decodeVarintLoop_last 10 0xa 0 0 pre _ (by decide) (by decide) (by decide)
      (by decide)
  have hstring : unmarshalString (pre ++ (fieldBytes 0xa s ++ suf))
      (pre ++ (fieldBytes 0xa s ++ suf)).length (pre.length + 1)
      = .ok (s, pre.length + (fieldBytes 0xa s).length) := by
    have h := unmarshalString_append (pre ++ [0xa]) s suf (by rw [← hshape2]; exact hlen)
    rw [← hshape2, List.length_append pre [0xa], List.length_singleton] at h
    rw [h, hfield, List.length_cons, List.length_append]
    congr 2
    omega
  have hlt : pre.length < (pre ++ (fieldBytes 0xa s ++ suf)).length := by
    rw [hshape1, List.length_append, List.length_cons]
    omega
  generalize pre ++ (fieldBytes 0xa s ++ suf) = dAtA at htag hstring hlt ⊢
  conv_lhs => unfold unmarshalLoop
  rw [if_pos hlt]
  simp only [htag]
  have hnum : (((10 : Nat) >>> 3 : Nat) : Int) = 1 := by decide
  have htype : (10 : Nat) &&& 0x7 = 2 := by decide
  simp only [hnum, htype, hstring]
  rw [if_neg (by decide), if_neg (by decide), if_pos (by decide), if_neg (by decide)]

/-- One turn of the loop of `Unmarshal` on an app version on the wire. -/
theorem unmarshalLoop_app (fuel : Nat) (m : Metadata) (pre s suf : List Nat)
    (hs : s.length > 0) (hfuel : 0 < fuel)
    (hlen : (pre ++ (fieldBytes 0x12 s ++ suf)).length < 2 ^ 63) :
    unmarshalLoop (pre ++ (fieldBytes 0x12 s ++ suf))
        (pre ++ (fieldBytes 0x12 s ++ suf)).length fuel m pre.length
      = unmarshalLoop (pre ++ (fieldBytes 0x12 s ++ suf))
          (pre ++ (fieldBytes 0x12 s ++ suf)).length (fuel - 1) { m with AppVersion := s }
          (pre.length + (fieldBytes 0x12 s).length) := by
  obtain ⟨fuel, rfl⟩ : ∃ f, fuel = f + 1 := ⟨fuel - 1, by omega⟩
  rw [Nat.add_sub_cancel]
  have hfield : fieldBytes 0x12 s = 0x12 :: (varintBytes 10 s.length ++ s) := by
    unfold fieldBytes
    rw [if_pos hs]
  have hshape1 : pre ++ (fieldBytes 0x12 s ++ suf)
      = pre ++ (0x12 :: ((varintBytes 10 s.length ++ s) ++ suf)) := by
    rw [hfield]
    rfl
  have hshape2 : pre ++ (fieldBytes 0x12 s ++ suf)
      = (pre ++ [0x12]) ++ (varintBytes 10 s.length ++ (s ++ suf)) := by
    rw [hfield]
    simp
  have htag : decodeVarintLoop (pre ++ (fieldBytes 0x12 s ++ suf))
      (pre ++ (fieldBytes 0x12 s ++ suf)).length 11 0 0 pre.length
      = .ok (18, pre.length + 1) := by
    rw [hshape1]
    exact decodeVarintLoop_last 10 0x12 0 0 pre _ (by decide) (by decide) (by decide)
      (by decide)
  have hstring : unmarshalString (pre ++ (fieldBytes 0x12 s ++ suf))
      (pre ++ (fieldBytes 0x12 s ++ suf)).length (pre.length + 1)
      = .ok (s, pre.length + (fieldBytes 0x12 s).length) := by
    have h := unmarshalString_append (pre ++ [0x12]) s suf (by rw [← hshape2]; exact hlen)
    rw [← hshape2, List.length_append pre [0x12], List.length_singleton] at h
    rw [h, hfield, List.length_cons, List.length_append]
    congr 2
    omega
  have hlt : pre.length < (pre ++ (fieldBytes 0x12 s ++ suf)).length := by
    rw [hshape1, List.length_append, List.length_cons]
    omega
  generalize pre ++ (fieldBytes 0x12 s ++ suf) = dAtA at htag hstring hlt ⊢
  conv_lhs => unfold unmarshalLoop
  rw [if_pos hlt]
  simp only [htag]
  have hnum : (((18 : Nat) >>> 3 : Nat) : Int) = 2 := by decide
  have htype : (18 : Nat) &&& 0x7 = 2 := by decide
  simp only [hnum, htype, hstring]
  rw [if_neg (by decide), if_neg (by decide), if_neg (by decide), if_pos (by decide),
    if_neg (by decide)]

theorem length_le_fieldBytes_length (tag : Nat) (s : List Nat) :
    s.length ≤ (fieldBytes tag s).length := by
  unfold fieldBytes
  split
  · rw [List.length_cons, List.length_append]
    omega
  · omega

theorem fieldBytes_of_empty (tag : Nat) (s : List Nat) (hs : ¬ s.length > 0) :
    fieldBytes tag s = [] ∧ s = [] := by
  unfold fieldBytes
  rw [if_neg hs]
  exact ⟨rfl, List.eq_nil_of_length_eq_zero (by omega)⟩

theorem three_le_fieldBytes_length (tag : Nat) (s : List Nat) (hs : s.length > 0) :
    3 ≤ (fieldBytes tag s).length := by
  unfold fieldBytes
  rw [if_pos hs, List.length_cons, List.length_append]
  have hpos : 1 ≤ (varintBytes 10 s.length).length := varintBytes_length_pos 9 s.length
  omega

/-- The bytes that `Marshal` writes are read back by `Unmarshal` into the zero value as the
value that was written. -/
theorem Unmarshal_fieldBytes (m : Metadata)
    (hsize : (fieldBytes 0xa m.FeeVersion).length + (fieldBytes 0x12 m.AppVersion).length
      < 2 ^ 63) :
    Metadata.Unmarshal ⟨[], []⟩ (fieldBytes 0xa m.FeeVersion ++ fieldBytes 0x12 m.AppVersion)
      = some (m, none) := by
  unfold Metadata.Unmarshal
  obtain ⟨fee, app⟩ := m
  simp only at hsize ⊢
  by_cases hfee : fee.length > 0 <;> by_cases happ : app.length > 0
  · have h3 := three_le_fieldBytes_length 0xa fee hfee
    have h1 := unmarshalLoop_fee
      ((fieldBytes 0xa fee ++ fieldBytes 0x12 app).length + 1) ⟨[], []⟩ [] fee
      (fieldBytes 0x12 app) hfee (by omega)
      (by rw [List.nil_append, List.length_append]; exact hsize)
    have h2 := unmarshalLoop_app
      ((fieldBytes 0xa fee ++ fieldBytes 0x12 app).length + 1 - 1) ⟨fee, []⟩
      (fieldBytes 0xa fee) app [] happ (by rw [List.length_append]; omega)
      (by rw [List.append_nil, List.length_append]; exact hsize)
    simp only [List.nil_append, List.length_nil, Nat.zero_add] at h1
    simp only [List.append_nil] at h2
    rw [h1, h2, ← List.length_append]
    exact unmarshalLoop_end _ _ _ (by rw [List.length_append]; omega)
  · obtain ⟨hnil, happnil⟩ := fieldBytes_of_empty 0x12 app happ
    subst happnil
    have h3 := three_le_fieldBytes_length 0xa fee hfee
    have h1 := unmarshalLoop_fee
      ((fieldBytes 0xa fee ++ fieldBytes 0x12 []).length + 1) ⟨[], []⟩ [] fee
      (fieldBytes 0x12 []) hfee (by omega)
      (by rw [List.nil_append, List.length_append]; exact hsize)
    simp only [List.nil_append, List.length_nil, Nat.zero_add] at h1
    rw [h1]
    rw [hnil, List.append_nil]
    exact unmarshalLoop_end _ _ _ (by omega)
  · obtain ⟨hnil, hfeenil⟩ := fieldBytes_of_empty 0xa fee hfee
    subst hfeenil
    have h3 := three_le_fieldBytes_length 0x12 app happ
    have h2 := unmarshalLoop_app
      ((fieldBytes 0xa [] ++ fieldBytes 0x12 app).length + 1) ⟨[], []⟩
      (fieldBytes 0xa []) app [] happ (by omega)
      (by rw [List.append_nil, List.length_append]; exact hsize)
    simp only [List.append_nil] at h2
    rw [hnil] at h2 ⊢
    simp only [List.nil_append, List.length_nil, Nat.zero_add] at h2 ⊢
    rw [h2]
    exact unmarshalLoop_end _ _ _ (by omega)
  · obtain ⟨hnil1, hfeenil⟩ := fieldBytes_of_empty 0xa fee hfee
    obtain ⟨hnil2, happnil⟩ := fieldBytes_of_empty 0x12 app happ
    subst hfeenil
    subst happnil
    rw [hnil1, hnil2]
    rfl

theorem wireSize_eq (m : Metadata) (hsize : m.wireSize < 2 ^ 63) :
    (fieldBytes 0xa m.FeeVersion).length + (fieldBytes 0x12 m.AppVersion).length
      = m.wireSize := by
  unfold Metadata.wireSize at hsize ⊢
  have hfee : m.FeeVersion.length < 2 ^ 64 := by
    split at hsize <;> omega
  have happ : m.AppVersion.length < 2 ^ 64 := by
    split at hsize
    · split at hsize <;> omega
    · split at hsize <;> omega
  rw [fieldBytes_length _ _ hfee, fieldBytes_length _ _ happ]

/-- With a negative size `Marshal` does not return: `make` panics. -/
theorem Marshal_of_negative_size (m : Metadata) (h : m.Size < 0) : m.Marshal = none := by
  unfold Metadata.Marshal
  simp only [h, if_true]

/-! ## The guard of a session after a callback -/

/-- For a session whose guard is held on entry, `OnSessionDone` and `OnSessionUnUsed` return
with the guard released, whatever they return, and so does `OnSessionFailure` when the session
is not already blocklisted; for a session that is already blocklisted `OnSessionFailure`
returns an error and leaves the guard held. -/
theorem session_guard_after_callback (MaximumNumberOfFailuresAllowedPerConsumerSession : Nat)
    (CalculateQoS : QoSInfo → QoSInfo) (csm : ConsumerSessionManager)
    (consumerSession : SingleConsumerSession) (errorReceived : ReceivedError)
    (latestServicedBlock : Int) (hlocked : consumerSession.locked = true) :
    (OnSessionDone CalculateQoS consumerSession latestServicedBlock).1.locked = false ∧
    (OnSessionUnUsed consumerSession).1.locked = false ∧
    (consumerSession.BlockListed = false →
      (OnSessionFailure MaximumNumberOfFailuresAllowedPerConsumerSession csm consumerSession
        errorReceived).2.1.locked = false) ∧
    (consumerSession.BlockListed = true →
      (OnSessionFailure MaximumNumberOfFailuresAllowedPerConsumerSession csm consumerSession
        errorReceived).2.1.locked = true ∧
      (OnSessionFailure MaximumNumberOfFailuresAllowedPerConsumerSession csm consumerSession
        errorReceived).2.2 = some (.Wrapf .SessionIsAlreadyBlockListedError)) := by
  refine ⟨?_, ?_, ?_, ?_⟩
  · simp only [OnSessionDone, verifyLock, hlocked, if_true]
  · unfold OnSessionUnUsed
    simp only [verifyLock, hlocked, if_true]
  · intro hblock
    rw [OnSessionFailure_session _ csm consumerSession errorReceived hlocked hblock]
  · intro hblock
    simp only [OnSessionFailure, verifyLock, hlocked, if_true, hblock, and_self]

/-! ## What an error of `updateSessionCu` leaves -/

/-- Whenever `updateSessionCu` returns an error, the session's CuSum and the
consumer record (every UsedComputeUnits) equal their values before the call; RelayNum is
unchanged when the relay-number check rejected the request, and is RelayNum + 1 (in uint64)
when the CU-sum or the quota check rejected it. -/
theorem updateSessionCu_error_frame (sess : RelaySession) (userSessions : UserSessions)
    (serviceApi : ServiceApi) (request : RelayRequest) (pairingEpoch : Nat) (r : CuResult)
    (h : updateSessionCu sess userSessions serviceApi request pairingEpoch = some r)
    (herr : r.err ≠ none) :
    r.sess.CuSum = sess.CuSum ∧ r.userSessions = userSessions ∧
    (request.RelayNum < uint64Add sess.RelayNum 1 → r.sess = sess) ∧
    (uint64Add sess.RelayNum 1 ≤ request.RelayNum →
      r.sess = { sess with RelayNum := uint64Add sess.RelayNum 1 }) := by
  by_cases h1 : request.RelayNum < uint64Add sess.RelayNum 1
  · rw [updateSessionCu_of_smaller _ _ _ _ _ h1] at h
    cases h
    exact ⟨rfl, rfl, fun _ => rfl, fun h => by omega⟩
  have h1' : uint64Add sess.RelayNum 1 ≤ request.RelayNum := by omega
  by_cases h2 : request.CuSum ≤ sess.CuSum ∨
      uint64Add sess.CuSum serviceApi.ComputeUnits ≠ request.CuSum
  · rw [updateSessionCu_of_badCuSum _ _ _ _ _ h1' h2] at h
    cases h
    exact ⟨rfl, rfl, fun h => absurd h h1, fun _ => rfl⟩
  have h3 : sess.CuSum < request.CuSum := by
    by_contra hc; exact h2 (Or.inl (by omega))
  have h4 : uint64Add sess.CuSum serviceApi.ComputeUnits = request.CuSum := by
    by_contra hc; exact h2 (Or.inr hc)
  rw [updateSessionCu_of_checks _ _ _ _ _ h1' h3 h4] at h
  cases hd : mapGet pairingEpoch userSessions.dataByEpoch with
  | none => simp [hd] at h
  | some d =>
    simp only [hd] at h
    by_cases h5 : uint64Add d.UsedComputeUnits serviceApi.ComputeUnits > d.MaxComputeUnits
    · simp only [h5, if_true] at h
      cases h
      exact ⟨rfl, rfl, fun h => absurd h h1, fun _ => rfl⟩
    · simp only [h5, if_false] at h
      cases h
      simp at herr

/-! ## The epoch heights that `initRelay` admits -/

/-- With epoch heights below `2^63`, `initRelay` returns an error, and leaves
the state of the consumer as it was, for every relay request, regular or data-reliability,
whose `BlockHeight` is below the previous epoch height, and for every regular relay request
whose `BlockHeight` is neither the current nor the previous epoch height, whether or not a
session with the request's `SessionId` exists, when the pairing epoch of an existing session
is at most the previous epoch height or is the current one. -/
theorem initRelay_epoch_admission (DataReliabilitySessionId DataReliabilityCuSum : Nat)
    (calls : InitRelayCalls) (state : ConsumerState) (inbound : InboundRelayRequest)
    (hprev : calls.PrevEpochHeight < 2 ^ 63) (hcur : calls.CurrentEpochHeight < 2 ^ 63)
    (hhi : inbound.request.BlockHeight < 2 ^ 63)
    (hcurrent : inbound.request.BlockHeight ≠ (calls.CurrentEpochHeight : Int))
    (hprevious : inbound.request.BlockHeight ≠ (calls.PrevEpochHeight : Int))
    (hcase : inbound.request.BlockHeight < (calls.PrevEpochHeight : Int) ∨
      (inbound.DataReliability = none ∧
        ∀ session,
          mapGet inbound.request.SessionId state.userSessions.Sessions = some session →
            session.PairingEpoch ≤ calls.PrevEpochHeight
              ∨ session.PairingEpoch = calls.CurrentEpochHeight)) :
    ∃ err, initRelay DataReliabilitySessionId DataReliabilityCuSum calls state inbound
      = some ⟨state, none, none, some err⟩ := by
  by_cases hold : inbound.request.BlockHeight < (calls.PrevEpochHeight : Int)
  · refine ⟨_, initRelay_of_veryOld _ _ calls state inbound ?_⟩
    rw [int64OfUint64_of_lt _ hprev]
    exact hold
  · rcases hcase with h | ⟨hreg, hsess⟩
    · exact absurd h hold
    · rcases initRelay_cases DataReliabilitySessionId DataReliabilityCuSum calls state inbound
        with herr | ⟨selfIndex, nodeMsg, hbranch⟩
      · exact herr
      · rw [hbranch, hreg]
        exact initRelayRegular_of_invalidHeight calls state inbound.request nodeMsg hprev hcur
          hhi hold hcurrent hprevious hsess

/-! ## A regular relay with the session id 0: state and ledger -/

/-- A regular relay whose `SessionId` is 0 is rejected by `initRelay` (which
returns when the sentry answers with a key): the result is an error, with no message and no
session. When the consumer has a session with the id 0 already, the rejection leaves the state
of the consumer and the rewards ledger as they were; when it has none, either they are left as
they were, or a session with the id 0 has been added to the `Sessions` map and appended to the
ledger under the epoch of the request. -/
theorem initRelay_zero_session (DataReliabilitySessionId DataReliabilityCuSum : Nat)
    (calls : InitRelayCalls) (g_rewardsSessions : List (Nat × List RewardSession))
    (state : ConsumerState) (inbound : InboundRelayRequest)
    (hregular : inbound.DataReliability = none) (hzero : inbound.request.SessionId = 0)
    (hvrf : ∀ maxcuRes, calls.GetVrfPkAndMaxCuForUser ≠ .ok (none, maxcuRes)) :
    ∃ result err,
      initRelay DataReliabilitySessionId DataReliabilityCuSum calls state inbound
        = some result ∧
      result.err = some err ∧ result.nodeMsg = none ∧ result.relaySession = none ∧
      ((mapGet 0 state.userSessions.Sessions).isSome = true →
        result.state = state ∧
        initRelayRewards calls g_rewardsSessions state inbound = g_rewardsSessions) ∧
      (mapGet 0 state.userSessions.Sessions = none →
        (result.state = state ∧
          initRelayRewards calls g_rewardsSessions state inbound = g_rewardsSessions) ∨
        (mapGet 0 result.state.userSessions.Sessions
            = some ⟨0, 0, 0, uint64OfInt64 inbound.request.BlockHeight⟩ ∧
          initRelayRewards calls g_rewardsSessions state inbound
            = appendRewardSession g_rewardsSessions
                (uint64OfInt64 inbound.request.BlockHeight)
                ⟨0, 0, 0, uint64OfInt64 inbound.request.BlockHeight⟩)) := by
  rcases initRelay_regular_cases DataReliabilitySessionId DataReliabilityCuSum calls
    g_rewardsSessions state inbound hregular with ⟨err, hinit, hrewards⟩ | ⟨nodeMsg, hinit, hrewards⟩
  · rw [hinit, hrewards]
    exact ⟨_, err, rfl, rfl, rfl, rfl, fun _ => ⟨rfl, rfl⟩, fun _ => Or.inl ⟨rfl, rfl⟩⟩
  · rw [hinit, hrewards]
    exact initRelayRegular_zero calls g_rewardsSessions state inbound.request nodeMsg hzero hvrf

/-! ## Specification properties -/

/-- C2 (counterexample). A session whose RelayNum is 2^64 - 1 and a request with RelayNum 1,
which is not above the session's: line 463 computes relayNum+1 = 0, the request is accepted and
RelayNum, CuSum and UsedComputeUnits all change. -/
theorem C2_replay_counterexample :
    (1 : Nat) ≤ 2 ^ 64 - 1 ∧
    updateSessionCu ⟨0, 1, 2 ^ 64 - 1, 7⟩ ⟨[], false, [(7, ⟨60, 100⟩)]⟩ ⟨10⟩ ⟨1, 10, 1, 7⟩ 7
      = some ⟨⟨10, 1, 0, 7⟩, ⟨[], false, [(7, ⟨70, 100⟩)]⟩, none⟩ := by
  decide

/-- C2 (amended). Replay defence: for every session whose RelayNum is below 2^64 - 1 and every
request whose RelayNum is at most the session's RelayNum, updateSessionCu returns an error that
is SessionOutOfSyncError and leaves the session and the consumer record as they were. -/
theorem C2_replay_rejected (sess : RelaySession) (userSessions : UserSessions)
    (serviceApi : ServiceApi) (request : RelayRequest) (pairingEpoch : Nat)
    (hnum : sess.RelayNum < 2 ^ 64 - 1) (hreq : request.RelayNum ≤ sess.RelayNum) :
    ∃ err, updateSessionCu sess userSessions serviceApi request pairingEpoch
        = some ⟨sess, userSessions, some err⟩ ∧ err.isSessionOutOfSync = true := by
  refine ⟨.LavaFormatError .smallerRelayNum .SessionOutOfSyncError, ?_, rfl⟩
  apply updateSessionCu_of_smaller
  unfold uint64Add
  omega

/-- C2 (witness). A second relay repeating relay number 1 on a session that committed it. -/
theorem C2_replay_rejected_witness :
    ∃ err, updateSessionCu ⟨10, 1, 1, 7⟩ ⟨[], false, [(7, ⟨10, 100⟩)]⟩ ⟨10⟩ ⟨1, 10, 1, 7⟩ 7
        = some ⟨⟨10, 1, 1, 7⟩, ⟨[], false, [(7, ⟨10, 100⟩)]⟩, some err⟩
      ∧ err.isSessionOutOfSync = true :=
  C2_replay_rejected ⟨10, 1, 1, 7⟩ ⟨[], false, [(7, ⟨10, 100⟩)]⟩ ⟨10⟩ ⟨1, 10, 1, 7⟩ 7
    (by decide) (by decide)

/-- C3 (counterexample). A fresh session (RelayNum 0) receives a request with RelayNum 5, not
RelayNum + 1: the call returns nil. -/
theorem C3_relayNum_counterexample :
    (5 : Nat) ≠ 0 + 1 ∧
    updateSessionCu ⟨0, 1, 0, 7⟩ ⟨[], false, [(7, ⟨60, 100⟩)]⟩ ⟨10⟩ ⟨1, 10, 5, 7⟩ 7
      = some ⟨⟨10, 1, 1, 7⟩, ⟨[], false, [(7, ⟨70, 100⟩)]⟩, none⟩ := by
  decide

/-- C3 (amended). Relay-number enforcement: updateSessionCu returns nil only if
request.RelayNum is at least the session's RelayNum + 1 (computed in uint64), and every request
with a smaller RelayNum is rejected with SessionOutOfSyncError, session and consumer record
untouched. A RelayNum that is larger than RelayNum + 1 is only logged: the call does what it
does for the request with RelayNum + 1 in its place, and in whatever it returns the session's
RelayNum has advanced by one. -/
theorem C3_relayNum_enforced (sess : RelaySession) (userSessions : UserSessions)
    (serviceApi : ServiceApi) (request : RelayRequest) (pairingEpoch : Nat) :
    (∀ r, updateSessionCu sess userSessions serviceApi request pairingEpoch = some r →
        r.err = none → uint64Add sess.RelayNum 1 ≤ request.RelayNum) ∧
    (request.RelayNum < uint64Add sess.RelayNum 1 →
      ∃ err, updateSessionCu sess userSessions serviceApi request pairingEpoch
          = some ⟨sess, userSessions, some err⟩ ∧ err.isSessionOutOfSync = true) ∧
    (uint64Add sess.RelayNum 1 ≤ request.RelayNum →
      updateSessionCu sess userSessions serviceApi request pairingEpoch
        = updateSessionCu sess userSessions serviceApi
            { request with RelayNum := uint64Add sess.RelayNum 1 } pairingEpoch ∧
      ∀ r, updateSessionCu sess userSessions serviceApi request pairingEpoch = some r →
        r.sess.RelayNum = uint64Add sess.RelayNum 1) := by
  refine ⟨?_, ?_, ?_⟩
  · intro r h hacc
    exact (updateSessionCu_accept_inv _ _ _ _ _ r h hacc).1
  · intro h
    exact ⟨_, updateSessionCu_of_smaller _ _ _ _ _ h, rfl⟩
  · intro h1
    constructor
    · unfold updateSessionCu
      have hrequest : ¬ (uint64Add sess.RelayNum 1 > request.RelayNum) := by omega
      have hnext : ¬ (uint64Add sess.RelayNum 1 > uint64Add sess.RelayNum 1) := by omega
      simp only [hrequest, hnext, if_false]
    · intro r h
      by_cases h2 : request.CuSum ≤ sess.CuSum ∨
          uint64Add sess.CuSum serviceApi.ComputeUnits ≠ request.CuSum
      · rw [updateSessionCu_of_badCuSum _ _ _ _ _ h1 h2] at h
        cases h
        rfl
      have h3 : sess.CuSum < request.CuSum := by
        by_contra hc; exact h2 (Or.inl (by omega))
      have h4 : uint64Add sess.CuSum serviceApi.ComputeUnits = request.CuSum := by
        by_contra hc; exact h2 (Or.inr hc)
      rw [updateSessionCu_of_checks _ _ _ _ _ h1 h3 h4] at h
      cases hd : mapGet pairingEpoch userSessions.dataByEpoch with
      | none => simp [hd] at h
      | some d =>
        simp only [hd] at h
        by_cases h5 : uint64Add d.UsedComputeUnits serviceApi.ComputeUnits > d.MaxComputeUnits
        · simp only [h5, if_true] at h
          cases h
          rfl
        · simp only [h5, if_false] at h
          cases h
          rfl

/-- C3 (witness). An accepted request with RelayNum 1 on a fresh session, a refused request
repeating RelayNum 1, and an accepted request with RelayNum 5 on a fresh session, after which
the session's RelayNum is 1. -/
theorem C3_relayNum_enforced_witness :
    uint64Add 0 1 ≤ 1 ∧
    (∃ err, updateSessionCu ⟨10, 1, 1, 7⟩ ⟨[], false, [(7, ⟨10, 100⟩)]⟩ ⟨10⟩ ⟨1, 20, 1, 7⟩ 7
        = some ⟨⟨10, 1, 1, 7⟩, ⟨[], false, [(7, ⟨10, 100⟩)]⟩, some err⟩
      ∧ err.isSessionOutOfSync = true) ∧
    (⟨⟨10, 1, 1, 7⟩, ⟨[], false, [(7, ⟨70, 100⟩)]⟩, none⟩ : CuResult).sess.RelayNum
      = uint64Add 0 1 :=
  ⟨(C3_relayNum_enforced ⟨0, 1, 0, 7⟩ ⟨[], false, [(7, ⟨60, 100⟩)]⟩ ⟨10⟩ ⟨1, 10, 1, 7⟩ 7).1
      ⟨⟨10, 1, 1, 7⟩, ⟨[], false, [(7, ⟨70, 100⟩)]⟩, none⟩ (by decide) rfl,
   (C3_relayNum_enforced ⟨10, 1, 1, 7⟩ ⟨[], false, [(7, ⟨10, 100⟩)]⟩ ⟨10⟩ ⟨1, 20, 1, 7⟩ 7).2.1
      (by decide),
   ((C3_relayNum_enforced ⟨0, 1, 0, 7⟩ ⟨[], false, [(7, ⟨60, 100⟩)]⟩ ⟨10⟩ ⟨1, 10, 5, 7⟩ 7).2.2
      (by decide)).2 ⟨⟨10, 1, 1, 7⟩, ⟨[], false, [(7, ⟨70, 100⟩)]⟩, none⟩ (by decide)⟩

/-- C4 (counterexample). With ComputeUnits = 0 the request CuSum 5 equals the session CuSum 5
plus 0, the relay number is right and the quota has room, yet line 481 rejects the request. -/
theorem C4_cuSum_counterexample :
    (5 : Nat) = 5 + 0 ∧ 5 + 0 ≤ 100 ∧ uint64Add 0 1 ≤ 1 ∧
    updateSessionCu ⟨5, 1, 0, 7⟩ ⟨[], false, [(7, ⟨5, 100⟩)]⟩ ⟨0⟩ ⟨1, 5, 1, 7⟩ 7
      = some ⟨⟨5, 1, 1, 7⟩, ⟨[], false, [(7, ⟨5, 100⟩)]⟩,
          some (.LavaFormatError .badCuSum .SessionOutOfSyncError)⟩ := by
  decide

/-- C4 (amended). CU-sum enforcement: for every session and request (uint64 values) that pass
the relay-number check and fit in the remaining quota, updateSessionCu accepts if and only if
request.CuSum equals session.CuSum + serviceApi.ComputeUnits over the natural numbers and
ComputeUnits is not 0; when the equation fails the returned error is SessionOutOfSyncError. -/
theorem C4_cuSum_enforced (sess : RelaySession) (userSessions : UserSessions)
    (serviceApi : ServiceApi) (request : RelayRequest) (pairingEpoch : Nat)
    (epochData : UserSessionsEpochData)
    (hcu : serviceApi.ComputeUnits < 2 ^ 64) (hreq : request.CuSum < 2 ^ 64)
    (hnum : uint64Add sess.RelayNum 1 ≤ request.RelayNum)
    (hget : mapGet pairingEpoch userSessions.dataByEpoch = some epochData)
    (hfit : epochData.UsedComputeUnits + serviceApi.ComputeUnits ≤ epochData.MaxComputeUnits) :
    ∃ r, updateSessionCu sess userSessions serviceApi request pairingEpoch = some r ∧
      (r.err = none ↔
        (request.CuSum = sess.CuSum + serviceApi.ComputeUnits ∧ 0 < serviceApi.ComputeUnits)) ∧
      (request.CuSum ≠ sess.CuSum + serviceApi.ComputeUnits →
        ∃ err, r.err = some err ∧ err.isSessionOutOfSync = true) := by
  by_cases h2 : request.CuSum ≤ sess.CuSum ∨
      uint64Add sess.CuSum serviceApi.ComputeUnits ≠ request.CuSum
  · refine ⟨_, updateSessionCu_of_badCuSum _ _ _ _ _ hnum h2, ?_, ?_⟩
    · constructor
      · intro h; simp at h
      · rintro ⟨h3, h4⟩
        exfalso
        rcases h2 with h2 | h2
        · omega
        · apply h2
          unfold uint64Add
          omega
    · intro _
      exact ⟨_, rfl, rfl⟩
  · have h3 : sess.CuSum < request.CuSum := by
      by_contra hc; exact h2 (Or.inl (by omega))
    have h4 : uint64Add sess.CuSum serviceApi.ComputeUnits = request.CuSum := by
      by_contra hc; exact h2 (Or.inr hc)
    have h5 : ¬ (uint64Add epochData.UsedComputeUnits serviceApi.ComputeUnits
        > epochData.MaxComputeUnits) := by
      unfold uint64Add
      omega
    have heq : request.CuSum = sess.CuSum + serviceApi.ComputeUnits ∧
        0 < serviceApi.ComputeUnits := by
      unfold uint64Add at h4
      omega
    have hres : updateSessionCu sess userSessions serviceApi request pairingEpoch
        = some ⟨{ sess with RelayNum := uint64Add sess.RelayNum 1, CuSum := request.CuSum },
            { userSessions with
              dataByEpoch := mapModify pairingEpoch
                (fun d => { d with
                  UsedComputeUnits := uint64Add d.UsedComputeUnits serviceApi.ComputeUnits })
                userSessions.dataByEpoch }, none⟩ := by
      rw [updateSessionCu_of_checks _ _ _ _ _ hnum h3 h4]
      simp only [hget, h5, if_false]
    refine ⟨_, hres, ?_, ?_⟩
    · simp only [true_iff]
      exact heq
    · intro hne
      exact absurd heq.1 hne

/-- C4 (witness). A session with CuSum 10, a request of 4 compute units with CuSum 14. -/
theorem C4_cuSum_enforced_witness :
    ∃ r, updateSessionCu ⟨10, 1, 1, 7⟩ ⟨[], false, [(7, ⟨10, 100⟩)]⟩ ⟨4⟩ ⟨1, 14, 2, 7⟩ 7 = some r ∧
      (r.err = none ↔ ((14 : Nat) = 10 + 4 ∧ 0 < 4)) ∧
      ((14 : Nat) ≠ 10 + 4 → ∃ err, r.err = some err ∧ err.isSessionOutOfSync = true) :=
  C4_cuSum_enforced ⟨10, 1, 1, 7⟩ ⟨[], false, [(7, ⟨10, 100⟩)]⟩ ⟨4⟩ ⟨1, 14, 2, 7⟩ 7 ⟨10, 100⟩
    (by decide) (by decide) (by decide) (by decide) (by decide)

/-- C5 (counterexample). UsedComputeUnits 60, MaxComputeUnits 100 and a call of 2^64 - 50
compute units: 60 + (2^64 - 50) exceeds 100 over the natural numbers, but line 500 adds in
uint64, finds 10, and the call returns nil with UsedComputeUnits = 10. -/
theorem C5_quota_counterexample :
    ¬ (60 + (2 ^ 64 - 50) ≤ 100) ∧
    updateSessionCu ⟨0, 1, 0, 7⟩ ⟨[], false, [(7, ⟨60, 100⟩)]⟩ ⟨2 ^ 64 - 50⟩
        ⟨1, 2 ^ 64 - 50, 1, 7⟩ 7
      = some ⟨⟨2 ^ 64 - 50, 1, 1, 7⟩, ⟨[], false, [(7, ⟨10, 100⟩)]⟩, none⟩ := by
  decide

/-- C5 (amended). Quota enforcement: updateSessionCu returns nil only if the epoch's
UsedComputeUnits plus serviceApi.ComputeUnits, computed modulo 2^64, is at most
MaxComputeUnits; when a request passes the relay-number and CU-sum checks and that uint64 sum
exceeds MaxComputeUnits, the call returns the quota error (not SessionOutOfSyncError) and
leaves the consumer record (UsedComputeUnits) and the session's CuSum unchanged. -/
theorem C5_quota_enforced (sess : RelaySession) (userSessions : UserSessions)
    (serviceApi : ServiceApi) (request : RelayRequest) (pairingEpoch : Nat) :
    (∀ r, updateSessionCu sess userSessions serviceApi request pairingEpoch = some r →
      r.err = none →
      ∃ d, mapGet pairingEpoch userSessions.dataByEpoch = some d ∧
        uint64Add d.UsedComputeUnits serviceApi.ComputeUnits ≤ d.MaxComputeUnits) ∧
    (∀ d, uint64Add sess.RelayNum 1 ≤ request.RelayNum → sess.CuSum < request.CuSum →
      uint64Add sess.CuSum serviceApi.ComputeUnits = request.CuSum →
      mapGet pairingEpoch userSessions.dataByEpoch = some d →
      d.MaxComputeUnits < uint64Add d.UsedComputeUnits serviceApi.ComputeUnits →
      ∃ r, updateSessionCu sess userSessions serviceApi request pairingEpoch = some r ∧
        r.err = some (.LavaFormatErrorNil .clientCuOverflow) ∧
        (RelayError.LavaFormatErrorNil .clientCuOverflow).isSessionOutOfSync = false ∧
        r.userSessions = userSessions ∧ r.sess.CuSum = sess.CuSum) := by
  constructor
  · intro r h hacc
    obtain ⟨_, _, _, d, hd, hle, _⟩ := updateSessionCu_accept_inv _ _ _ _ _ r h hacc
    exact ⟨d, hd, hle⟩
  · intro d h1 h2 h3 hd hgt
    have hres : updateSessionCu sess userSessions serviceApi request pairingEpoch
        = some ⟨{ sess with RelayNum := uint64Add sess.RelayNum 1 }, userSessions,
            some (.LavaFormatErrorNil .clientCuOverflow)⟩ := by
      rw [updateSessionCu_of_checks _ _ _ _ _ h1 h2 h3]
      simp only [hd, gt_iff_lt, hgt, if_true]
    exact ⟨_, hres, rfl, rfl, rfl, rfl⟩

/-- C5 (witness). An accepted call of 10 units on 60 of 100, and a refused call of 50 units. -/
theorem C5_quota_enforced_witness :
    (∃ d, mapGet 7 [(7, (⟨60, 100⟩ : UserSessionsEpochData))] = some d ∧
        uint64Add d.UsedComputeUnits 10 ≤ d.MaxComputeUnits) ∧
    (∃ r, updateSessionCu ⟨0, 1, 0, 7⟩ ⟨[], false, [(7, ⟨60, 100⟩)]⟩ ⟨50⟩ ⟨1, 50, 1, 7⟩ 7 = some r ∧
        r.err = some (.LavaFormatErrorNil .clientCuOverflow) ∧
        (RelayError.LavaFormatErrorNil .clientCuOverflow).isSessionOutOfSync = false ∧
        r.userSessions = ⟨[], false, [(7, ⟨60, 100⟩)]⟩ ∧ r.sess.CuSum = 0) :=
  ⟨(C5_quota_enforced ⟨0, 1, 0, 7⟩ ⟨[], false, [(7, ⟨60, 100⟩)]⟩ ⟨10⟩ ⟨1, 10, 1, 7⟩ 7).1
      ⟨⟨10, 1, 1, 7⟩, ⟨[], false, [(7, ⟨70, 100⟩)]⟩, none⟩ (by decide) rfl,
   (C5_quota_enforced ⟨0, 1, 0, 7⟩ ⟨[], false, [(7, ⟨60, 100⟩)]⟩ ⟨50⟩ ⟨1, 50, 1, 7⟩ 7).2
      ⟨60, 100⟩ (by decide) (by decide) (by decide) (by decide) (by decide)⟩

/-- C7. A request with the right relay number 1 and a wrong `CuSum` on a fresh session:
`updateSessionCu` returns an error and the session's `RelayNum` has gone from 0 to 1; the
call of line 729, as `initRelay` makes it, leaves the session stored with `RelayNum` 1; and the
same relay sent again with the right `CuSum` is then refused as a repeated relay number. -/
theorem C7_rejected_request_advances_relayNum :
    updateSessionCu ⟨0, 1, 0, 7⟩ ⟨[], false, [(7, ⟨60, 100⟩)]⟩ ⟨10⟩ ⟨1, 0, 1, 7⟩ 7
      = some ⟨⟨0, 1, 1, 7⟩, ⟨[], false, [(7, ⟨60, 100⟩)]⟩,
          some (.LavaFormatError .badCuSum .SessionOutOfSyncError)⟩ ∧
    relayUpdateSessionCu ⟨[(1, ⟨0, 1, 0, 7⟩)], false, [(7, ⟨60, 100⟩)]⟩ ⟨10⟩ ⟨1, 0, 1, 7⟩
      = some (⟨[(1, ⟨0, 1, 1, 7⟩)], false, [(7, ⟨60, 100⟩)]⟩,
          some (.LavaFormatError .badCuSum .SessionOutOfSyncError)) ∧
    updateSessionCu ⟨0, 1, 1, 7⟩ ⟨[], false, [(7, ⟨60, 100⟩)]⟩ ⟨10⟩ ⟨1, 10, 1, 7⟩ 7
      = some ⟨⟨0, 1, 1, 7⟩, ⟨[], false, [(7, ⟨60, 100⟩)]⟩,
          some (.LavaFormatError .smallerRelayNum .SessionOutOfSyncError)⟩ := by
  decide

/-- C8. Rollback round trip: for every session and epoch record whose counters (RelayNum,
CuSum, UsedComputeUnits) are below 2^63, an accepted updateSessionCu followed by
onRelayFailure for the same message returns nil and gives back the session and the consumer
record exactly as they were before the updateSessionCu: RelayNum, CuSum and UsedComputeUnits
are restored and IsBlockListed is not set. -/
theorem C8_rollback_round_trip (sess : RelaySession) (userSessions : UserSessions)
    (request : RelayRequest) (nodeMsg : NodeMessage) (r : CuResult)
    (d : UserSessionsEpochData)
    (hR : sess.RelayNum < 2 ^ 63) (hC : sess.CuSum < 2 ^ 63)
    (hd : mapGet sess.PairingEpoch userSessions.dataByEpoch = some d)
    (hU : d.UsedComputeUnits < 2 ^ 63)
    (h : updateSessionCu sess userSessions nodeMsg.GetServiceApi request sess.PairingEpoch
      = some r)
    (hacc : r.err = none) :
    onRelayFailure (some r.userSessions) (some r.sess) nodeMsg
      = some ⟨some userSessions, some sess, none⟩ := by
  obtain ⟨_, h3, h4, d', hd', _, hr⟩ := updateSessionCu_accept_inv _ _ _ _ _ r h hacc
  rw [hd] at hd'
  cases hd'
  subst hr
  have hrel : uint64Sub (uint64Add sess.RelayNum 1) 1 = sess.RelayNum := by
    rw [uint64Sub_uint64Add]; omega
  have hcu : uint64Sub request.CuSum nodeMsg.GetServiceApi.ComputeUnits = sess.CuSum := by
    rw [← h4, uint64Sub_uint64Add]; omega
  have hused : uint64Sub (uint64Add d.UsedComputeUnits nodeMsg.GetServiceApi.ComputeUnits)
      nodeMsg.GetServiceApi.ComputeUnits = d.UsedComputeUnits := by
    rw [uint64Sub_uint64Add]; omega
  have hget : mapGet sess.PairingEpoch
      (mapModify sess.PairingEpoch
        (fun d => { d with
          UsedComputeUnits :=
            uint64Add d.UsedComputeUnits nodeMsg.GetServiceApi.ComputeUnits })
        userSessions.dataByEpoch)
      = some { d with
          UsedComputeUnits :=
            uint64Add d.UsedComputeUnits nodeMsg.GetServiceApi.ComputeUnits } := by
    rw [mapGet_mapModify_self, hd]; rfl
  rw [onRelayFailure_of_usedNonneg _ _ _ _ hget
    (by simp only [hused]; exact int64Negative_eq_false hU)]
  simp only [hrel, hcu, int64Negative_eq_false hR, int64Negative_eq_false hC,
    Bool.or_self, Bool.false_eq_true, if_false, mapModify_mapModify]
  rw [mapModify_eq_self]
  intro d2 hd2
  rw [hd] at hd2
  cases hd2
  simp only [hused]

/-- C8 (witness). A relay of 10 compute units on a session with CuSum 30, then its rollback. -/
theorem C8_rollback_round_trip_witness :
    onRelayFailure (some ⟨[], false, [(7, ⟨70, 100⟩)]⟩) (some ⟨40, 1, 4, 7⟩) ⟨⟨10⟩⟩
      = some ⟨some ⟨[], false, [(7, ⟨60, 100⟩)]⟩, some ⟨30, 1, 3, 7⟩, none⟩ :=
  C8_rollback_round_trip ⟨30, 1, 3, 7⟩ ⟨[], false, [(7, ⟨60, 100⟩)]⟩ ⟨1, 40, 4, 7⟩ ⟨⟨10⟩⟩
    ⟨⟨40, 1, 4, 7⟩, ⟨[], false, [(7, ⟨70, 100⟩)]⟩, none⟩ ⟨60, 100⟩
    (by decide) (by decide) (by decide) (by decide) (by decide) rfl

/-- C9 (counterexample). First call: RelayNum 0 minus 1 is negative while UsedComputeUnits
60 minus 5 is not; the error is SessionOutOfSyncError but IsBlockListed stays false. Second
call: UsedComputeUnits 60 minus 70 is negative; IsBlockListed is set, but the returned error
wraps a fmt.Errorf error and is not SessionOutOfSyncError. -/
theorem C9_sanction_counterexample :
    onRelayFailure (some ⟨[], false, [(7, ⟨60, 100⟩)]⟩) (some ⟨10, 1, 0, 7⟩) ⟨⟨5⟩⟩
      = some ⟨some ⟨[], false, [(7, ⟨55, 100⟩)]⟩, some ⟨0, 1, 0, 7⟩,
          some .SessionOutOfSyncError⟩ ∧
    onRelayFailure (some ⟨[], false, [(7, ⟨60, 100⟩)]⟩) (some ⟨80, 1, 2, 7⟩) ⟨⟨70⟩⟩
      = some ⟨some ⟨[], true, [(7, ⟨0, 100⟩)]⟩, some ⟨10, 1, 1, 7⟩,
          some (.LavaFormatError .userSessionsOutOfSync (.Errorf .usedReachedNegative))⟩ ∧
    (RelayError.LavaFormatError .userSessionsOutOfSync
      (.Errorf .usedReachedNegative)).isSessionOutOfSync = false := by
  decide

/-- C9 (amended). Negative-result sanction: whenever the subtraction of onRelayFailure makes
the epoch's UsedComputeUnits negative (read as int64), onRelayFailure sets UsedComputeUnits
to 0 and IsBlockListed = true on the consumer and returns an error; whenever it makes only
the session's counters (RelayNum, CuSum) negative, it resets both to 0, returns an error that
is SessionOutOfSyncError and leaves IsBlockListed as it was. -/
theorem C9_negative_sanction (us : UserSessions) (rs : RelaySession)
    (nodeMsg : NodeMessage) (d : UserSessionsEpochData)
    (hd : mapGet rs.PairingEpoch us.dataByEpoch = some d) :
    (int64Negative (uint64Sub d.UsedComputeUnits nodeMsg.GetServiceApi.ComputeUnits) = true →
      ∃ us1 rs1 err, onRelayFailure (some us) (some rs) nodeMsg
          = some ⟨some us1, some rs1, some err⟩ ∧
        us1.IsBlockListed = true ∧
        mapGet rs.PairingEpoch us1.dataByEpoch = some { d with UsedComputeUnits := 0 }) ∧
    (int64Negative (uint64Sub d.UsedComputeUnits nodeMsg.GetServiceApi.ComputeUnits) = false →
      (int64Negative (uint64Sub rs.RelayNum 1) = true ∨
        int64Negative (uint64Sub rs.CuSum nodeMsg.GetServiceApi.ComputeUnits) = true) →
      ∃ us1 rs1 err, onRelayFailure (some us) (some rs) nodeMsg
          = some ⟨some us1, some rs1, some err⟩ ∧
        err.isSessionOutOfSync = true ∧ rs1.RelayNum = 0 ∧ rs1.CuSum = 0 ∧
        us1.IsBlockListed = us.IsBlockListed) := by
  constructor
  · intro hneg
    refine ⟨_, _, _, onRelayFailure_of_usedNegative us rs nodeMsg d hd hneg, rfl, ?_⟩
    simp only [mapGet_mapModify_self, hd, Option.map_some']
  · intro hneg hsess
    have hor : (int64Negative (uint64Sub rs.RelayNum 1)
        || int64Negative (uint64Sub rs.CuSum nodeMsg.GetServiceApi.ComputeUnits)) = true := by
      rcases hsess with h | h <;> simp [h]
    have hres := onRelayFailure_of_usedNonneg us rs nodeMsg d hd hneg
    simp only [hor, if_true] at hres
    exact ⟨_, _, _, hres, rfl, rfl, rfl, rfl⟩

/-- C9 (witness). The two calls of the counterexample. -/
theorem C9_negative_sanction_witness :
    (∃ us1 rs1 err, onRelayFailure (some ⟨[], false, [(7, ⟨60, 100⟩)]⟩) (some ⟨80, 1, 2, 7⟩)
          ⟨⟨70⟩⟩ = some ⟨some us1, some rs1, some err⟩ ∧
        us1.IsBlockListed = true ∧
        mapGet 7 us1.dataByEpoch = some ⟨0, 100⟩) ∧
    (∃ us1 rs1 err, onRelayFailure (some ⟨[], false, [(7, ⟨60, 100⟩)]⟩) (some ⟨10, 1, 0, 7⟩)
          ⟨⟨5⟩⟩ = some ⟨some us1, some rs1, some err⟩ ∧
        err.isSessionOutOfSync = true ∧ rs1.RelayNum = 0 ∧ rs1.CuSum = 0 ∧
        us1.IsBlockListed = false) :=
  ⟨(C9_negative_sanction ⟨[], false, [(7, ⟨60, 100⟩)]⟩ ⟨80, 1, 2, 7⟩ ⟨⟨70⟩⟩ ⟨60, 100⟩
      (by decide)).1 (by decide),
   (C9_negative_sanction ⟨[], false, [(7, ⟨60, 100⟩)]⟩ ⟨10, 1, 0, 7⟩ ⟨⟨5⟩⟩ ⟨60, 100⟩
      (by decide)).2 (by decide) (Or.inl (by decide))⟩

/-- C6 (counterexample). One accepted request of 2^64 - 50 compute units on a fresh session
while the epoch has UsedComputeUnits 60: the session ends with RelayNum 1 and CuSum 2^64 - 50,
but UsedComputeUnits goes from 60 to 10 and has not grown by 2^64 - 50. -/
theorem C6_sequence_counterexample :
    acceptAll 7 ⟨0, 1, 0, 7⟩ ⟨[], false, [(7, ⟨60, 100⟩)]⟩
        [(⟨2 ^ 64 - 50⟩, ⟨1, 2 ^ 64 - 50, 1, 7⟩)]
      = some (⟨2 ^ 64 - 50, 1, 1, 7⟩, ⟨[], false, [(7, ⟨10, 100⟩)]⟩) ∧
    (10 : Nat) ≠ 60 + (2 ^ 64 - 50) := by
  decide

/-- C6 (amended). For every freshly created provider-side RelaySession (RelayNum 0, CuSum 0)
and every sequence of n requests (uint64 compute units) that updateSessionCu accepts, the
session ends with RelayNum = n and CuSum = the sum of the compute units of those n requests,
which is also the CuSum of the last request, and the epoch's UsedComputeUnits has grown by
the same sum modulo 2^64: exactly by that sum whenever the total stays below 2^64. -/
theorem C6_accepted_sequence (e : Nat) (sess : RelaySession) (us : UserSessions)
    (d : UserSessionsEpochData) (calls : List (ServiceApi × RelayRequest))
    (sess' : RelaySession) (us' : UserSessions)
    (hnum : sess.RelayNum = 0) (hsum : sess.CuSum = 0)
    (hU : d.UsedComputeUnits < 2 ^ 64)
    (hcu : ∀ c ∈ calls, c.1.ComputeUnits < 2 ^ 64)
    (hd : mapGet e us.dataByEpoch = some d)
    (h : acceptAll e sess us calls = some (sess', us')) :
    sess'.RelayNum = calls.length ∧
    sess'.CuSum = (calls.map (fun c => c.1.ComputeUnits)).sum ∧
    (∀ c, calls.getLast? = some c → sess'.CuSum = c.2.CuSum) ∧
    ∃ d', mapGet e us'.dataByEpoch = some d' ∧
      d'.UsedComputeUnits
        = (d.UsedComputeUnits + (calls.map (fun c => c.1.ComputeUnits)).sum) % 2 ^ 64 ∧
      (d.UsedComputeUnits + (calls.map (fun c => c.1.ComputeUnits)).sum < 2 ^ 64 →
        d'.UsedComputeUnits
          = d.UsedComputeUnits + (calls.map (fun c => c.1.ComputeUnits)).sum) := by
  obtain ⟨i1, i2, i3, i4, i5, d', hd', i6⟩ :=
    acceptAll_spec e calls sess us d sess' us' (by omega) hU hcu hd h
  rw [hnum] at i1
  rw [hsum] at i2
  refine ⟨?_, by omega, i5, d', hd', i6, ?_⟩
  · by_cases hc : calls = []
    · subst hc
      simpa using i1
    · have := i3 hc
      omega
  · intro hlt
    rw [i6]
    exact Nat.mod_eq_of_lt hlt

/-- C6 (witness). Two accepted requests of 10 and 5 compute units on a fresh session. -/
theorem C6_accepted_sequence_witness :
    (2 : Nat) = [((⟨10⟩ : ServiceApi), (⟨1, 10, 1, 7⟩ : RelayRequest)),
      (⟨5⟩, ⟨1, 15, 2, 7⟩)].length ∧
    (15 : Nat) = ([((⟨10⟩ : ServiceApi), (⟨1, 10, 1, 7⟩ : RelayRequest)),
      (⟨5⟩, ⟨1, 15, 2, 7⟩)].map (fun c => c.1.ComputeUnits)).sum ∧
    (∀ c, [((⟨10⟩ : ServiceApi), (⟨1, 10, 1, 7⟩ : RelayRequest)),
      (⟨5⟩, ⟨1, 15, 2, 7⟩)].getLast? = some c → (15 : Nat) = c.2.CuSum) ∧
    ∃ d', mapGet 7 [(7, (⟨75, 100⟩ : UserSessionsEpochData))] = some d' ∧
      d'.UsedComputeUnits
        = (60 + ([((⟨10⟩ : ServiceApi), (⟨1, 10, 1, 7⟩ : RelayRequest)),
            (⟨5⟩, ⟨1, 15, 2, 7⟩)].map (fun c => c.1.ComputeUnits)).sum) % 2 ^ 64 ∧
      (60 + ([((⟨10⟩ : ServiceApi), (⟨1, 10, 1, 7⟩ : RelayRequest)),
            (⟨5⟩, ⟨1, 15, 2, 7⟩)].map (fun c => c.1.ComputeUnits)).sum < 2 ^ 64 →
        d'.UsedComputeUnits
          = 60 + ([((⟨10⟩ : ServiceApi), (⟨1, 10, 1, 7⟩ : RelayRequest)),
            (⟨5⟩, ⟨1, 15, 2, 7⟩)].map (fun c => c.1.ComputeUnits)).sum) :=
  C6_accepted_sequence 7 ⟨0, 1, 0, 7⟩ ⟨[], false, [(7, ⟨60, 100⟩)]⟩ ⟨60, 100⟩
    [(⟨10⟩, ⟨1, 10, 1, 7⟩), (⟨5⟩, ⟨1, 15, 2, 7⟩)] ⟨15, 1, 2, 7⟩ ⟨[], false, [(7, ⟨75, 100⟩)]⟩
    rfl rfl (by decide) (by decide) rfl (by decide)

/-- C1 (counterexample). Epoch 7 has UsedComputeUnits 60 of 100. Session 1 is granted a relay
of 2^64 - 50 compute units (line 500 wraps: used becomes 10), session 2 a relay of 80 (used
90), then the relay of session 1 fails and onRelayFailure subtracts 2^64 - 50 in uint64:
UsedComputeUnits is 140 > 100, not negative as int64, and is kept. -/
theorem C1_quota_counterexample :
    quotaInv ⟨[(3, ⟨60, 3, 1, 7⟩), (1, ⟨0, 1, 0, 7⟩), (2, ⟨0, 2, 0, 7⟩)], false,
      [(7, ⟨60, 100⟩)]⟩ ∧
    runCalls ⟨[(3, ⟨60, 3, 1, 7⟩), (1, ⟨0, 1, 0, 7⟩), (2, ⟨0, 2, 0, 7⟩)], false,
        [(7, ⟨60, 100⟩)]⟩ []
        [.updateSessionCu ⟨2 ^ 64 - 50⟩ ⟨1, 2 ^ 64 - 50, 1, 7⟩,
         .updateSessionCu ⟨80⟩ ⟨2, 80, 1, 7⟩,
         .onRelayFailure 1 ⟨⟨2 ^ 64 - 50⟩⟩]
      = some ⟨[(3, ⟨60, 3, 1, 7⟩), (1, ⟨0, 1, 0, 7⟩), (2, ⟨80, 2, 1, 7⟩)], false,
          [(7, ⟨140, 100⟩)]⟩ ∧
    ¬ quotaInv ⟨[(3, ⟨60, 3, 1, 7⟩), (1, ⟨0, 1, 0, 7⟩), (2, ⟨80, 2, 1, 7⟩)], false,
      [(7, ⟨140, 100⟩)]⟩ :=
  ⟨quotaInv_single _ _ _ _ (by decide), by decide,
    fun h => absurd (h 7 ⟨140, 100⟩ rfl) (by decide)⟩

/-- C1 (amended). Provider-side quota invariant: starting from a consumer whose per-epoch
records satisfy UsedComputeUnits <= MaxComputeUnits, after any sequence of updateSessionCu
calls (accepted or rejected) and onRelayFailure calls, each of which either comes directly
after the accepted updateSessionCu it rolls back or has compute units of at most 2^63, every
epoch record of that consumer still satisfies UsedComputeUnits <= MaxComputeUnits. -/
theorem C1_quota_invariant (us : UserSessions) (calls : List Call) (us' : UserSessions)
    (hinv : quotaInv us) (h : runCallsGuarded us none calls = some us') : quotaInv us' :=
  quotaInv_runCallsGuarded calls us none us' hinv (fun _ _ hlast => by cases hlast) h

/-- C1 (witness). A relay of 2^64 - 50 compute units that wraps the used counter, its direct
rollback, and a further accepted relay of 30 compute units. -/
theorem C1_quota_invariant_witness :
    quotaInv ⟨[(1, ⟨30, 1, 1, 7⟩)], false, [(7, ⟨90, 100⟩)]⟩ :=
  C1_quota_invariant ⟨[(1, ⟨0, 1, 0, 7⟩)], false, [(7, ⟨60, 100⟩)]⟩
    [.updateSessionCu ⟨2 ^ 64 - 50⟩ ⟨1, 2 ^ 64 - 50, 1, 7⟩,
     .onRelayFailure 1 ⟨⟨2 ^ 64 - 50⟩⟩,
     .updateSessionCu ⟨30⟩ ⟨1, 30, 1, 7⟩]
    ⟨[(1, ⟨30, 1, 1, 7⟩)], false, [(7, ⟨90, 100⟩)]⟩
    (quotaInv_single _ _ _ _ (by decide)) (by decide)

/-- C10 (counterexample). First, an accepted updateSessionCu of 2^64 - 50 compute units on a
fresh session while another session of the epoch has CuSum 60: the sessions sum up to
60 + (2^64 - 50) and UsedComputeUnits wraps to 10. Second, a session with CuSum 2^63 beside a
session with CuSum 1: a relay of 1 compute unit is accepted (the equality still holds) and
then fails; onRelayFailure finds CuSum = 2^63 negative as int64 and resets the session to 0,
finds UsedComputeUnits = 2^63 + 1 negative and resets it to 0, and the sessions sum up to 1. -/
theorem C10_accounting_counterexample :
    (accountingInv ⟨[(3, ⟨60, 3, 1, 7⟩), (1, ⟨0, 1, 0, 7⟩)], false, [(7, ⟨60, 100⟩)]⟩ ∧
      relayUpdateSessionCu ⟨[(3, ⟨60, 3, 1, 7⟩), (1, ⟨0, 1, 0, 7⟩)], false, [(7, ⟨60, 100⟩)]⟩
          ⟨2 ^ 64 - 50⟩ ⟨1, 2 ^ 64 - 50, 1, 7⟩
        = some (⟨[(3, ⟨60, 3, 1, 7⟩), (1, ⟨2 ^ 64 - 50, 1, 1, 7⟩)], false,
            [(7, ⟨10, 100⟩)]⟩, none) ∧
      ¬ accountingInv ⟨[(3, ⟨60, 3, 1, 7⟩), (1, ⟨2 ^ 64 - 50, 1, 1, 7⟩)], false,
          [(7, ⟨10, 100⟩)]⟩) ∧
    (accountingInv ⟨[(1, ⟨2 ^ 63, 1, 1, 7⟩), (2, ⟨1, 2, 1, 7⟩)], false,
        [(7, ⟨2 ^ 63 + 1, 2 ^ 64 - 1⟩)]⟩ ∧
      relayUpdateSessionCu ⟨[(1, ⟨2 ^ 63, 1, 1, 7⟩), (2, ⟨1, 2, 1, 7⟩)], false,
          [(7, ⟨2 ^ 63 + 1, 2 ^ 64 - 1⟩)]⟩ ⟨1⟩ ⟨1, 2 ^ 63 + 1, 2, 7⟩
        = some (⟨[(1, ⟨2 ^ 63 + 1, 1, 2, 7⟩), (2, ⟨1, 2, 1, 7⟩)], false,
            [(7, ⟨2 ^ 63 + 2, 2 ^ 64 - 1⟩)]⟩, none) ∧
      accountingInv ⟨[(1, ⟨2 ^ 63 + 1, 1, 2, 7⟩), (2, ⟨1, 2, 1, 7⟩)], false,
        [(7, ⟨2 ^ 63 + 2, 2 ^ 64 - 1⟩)]⟩ ∧
      relayOnRelayFailure ⟨[(1, ⟨2 ^ 63 + 1, 1, 2, 7⟩), (2, ⟨1, 2, 1, 7⟩)], false,
          [(7, ⟨2 ^ 63 + 2, 2 ^ 64 - 1⟩)]⟩ 1 ⟨⟨1⟩⟩
        = some (⟨[(1, ⟨0, 1, 0, 7⟩), (2, ⟨1, 2, 1, 7⟩)], true, [(7, ⟨0, 2 ^ 64 - 1⟩)]⟩,
            some (.LavaFormatError .userSessionsOutOfSync (.Errorf .usedReachedNegative))) ∧
      ¬ accountingInv ⟨[(1, ⟨0, 1, 0, 7⟩), (2, ⟨1, 2, 1, 7⟩)], true,
          [(7, ⟨0, 2 ^ 64 - 1⟩)]⟩) :=
  ⟨⟨accountingInv_single _ _ _ _ (by decide) (by decide), by decide,
      fun h => absurd (h 7) (by decide)⟩,
    ⟨accountingInv_single _ _ _ _ (by decide) (by decide), by decide,
      accountingInv_single _ _ _ _ (by decide) (by decide), by decide,
      fun h => absurd (h 7) (by decide)⟩⟩

/-- C10 (amended). Accounting consistency: the equality, for every epoch, between the sum of
CuSum over the consumer's sessions of that epoch and dataByEpoch[epoch].UsedComputeUnits is
preserved by session creation, by every rejected updateSessionCu call, by every accepted
updateSessionCu call whose UsedComputeUnits plus compute units stays below 2^64, and by every
onRelayFailure call that returns nil and whose compute units are at most the session's CuSum
(UsedComputeUnits being a uint64). -/
theorem C10_accounting_preserved (us : UserSessions) (hinv : accountingInv us) :
    (∀ req sentryRes currentEpochHeight prevEpochHeight res,
      getOrCreateSession us req sentryRes currentEpochHeight prevEpochHeight = some res →
      accountingInv res.1) ∧
    (∀ serviceApi request us1 err,
      relayUpdateSessionCu us serviceApi request = some (us1, some err) →
      accountingInv us1) ∧
    (∀ serviceApi request us1 sess,
      relayUpdateSessionCu us serviceApi request = some (us1, none) →
      mapGet request.SessionId us.Sessions = some sess →
      usedOfEpoch sess.PairingEpoch us.dataByEpoch + serviceApi.ComputeUnits < 2 ^ 64 →
      accountingInv us1) ∧
    (∀ sessionId nodeMsg us2 rs,
      relayOnRelayFailure us sessionId nodeMsg = some (us2, none) →
      mapGet sessionId us.Sessions = some rs →
      nodeMsg.GetServiceApi.ComputeUnits ≤ rs.CuSum →
      usedOfEpoch rs.PairingEpoch us.dataByEpoch < 2 ^ 64 →
      accountingInv us2) :=
  ⟨fun req sentryRes c p res hres =>
     accountingInv_getOrCreateSession us req sentryRes c p res hres hinv,
   fun serviceApi request us1 err h =>
     accountingInv_relayUpdateSessionCu_rejected us serviceApi request us1 err h hinv,
   fun serviceApi request us1 sess h hs hfit =>
     accountingInv_relayUpdateSessionCu_accepted us serviceApi request us1 sess h hs hfit hinv,
   fun sessionId nodeMsg us2 rs h hs hcu hU =>
     accountingInv_relayOnRelayFailure_nil us sessionId nodeMsg us2 rs h hs hcu hU hinv⟩

/-- C10 (witness). Two sessions with CuSum 10 and 20 in epoch 7 (used 30): a session created
for epoch 8, a request refused for its CU sum, an accepted request of 5 compute units, and a
rollback of 5 compute units. -/
theorem C10_accounting_preserved_witness :
    accountingInv ⟨[(1, ⟨10, 1, 1, 7⟩), (2, ⟨20, 2, 1, 7⟩), (3, ⟨0, 3, 0, 8⟩)], false,
      [(7, ⟨30, 100⟩), (8, ⟨0, 50⟩)]⟩ ∧
    accountingInv ⟨[(1, ⟨10, 1, 2, 7⟩), (2, ⟨20, 2, 1, 7⟩)], false, [(7, ⟨30, 100⟩)]⟩ ∧
    accountingInv ⟨[(1, ⟨15, 1, 2, 7⟩), (2, ⟨20, 2, 1, 7⟩)], false, [(7, ⟨35, 100⟩)]⟩ ∧
    accountingInv ⟨[(1, ⟨5, 1, 0, 7⟩), (2, ⟨20, 2, 1, 7⟩)], false, [(7, ⟨25, 100⟩)]⟩ :=
  ⟨(C10_accounting_preserved
      ⟨[(1, ⟨10, 1, 1, 7⟩), (2, ⟨20, 2, 1, 7⟩)], false, [(7, ⟨30, 100⟩)]⟩
      (accountingInv_single _ _ _ _ (by decide) (by decide))).1 ⟨3, 0, 0, 8⟩
      (.ok (some 11, 50)) 8 7
      (⟨[(1, ⟨10, 1, 1, 7⟩), (2, ⟨20, 2, 1, 7⟩), (3, ⟨0, 3, 0, 8⟩)], false,
          [(7, ⟨30, 100⟩), (8, ⟨0, 50⟩)]⟩, some ⟨0, 3, 0, 8⟩, none) (by decide),
   (C10_accounting_preserved
      ⟨[(1, ⟨10, 1, 1, 7⟩), (2, ⟨20, 2, 1, 7⟩)], false, [(7, ⟨30, 100⟩)]⟩
      (accountingInv_single _ _ _ _ (by decide) (by decide))).2.1 ⟨5⟩ ⟨1, 99, 2, 7⟩
      ⟨[(1, ⟨10, 1, 2, 7⟩), (2, ⟨20, 2, 1, 7⟩)], false, [(7, ⟨30, 100⟩)]⟩
      (.LavaFormatError .badCuSum .SessionOutOfSyncError) (by decide),
   (C10_accounting_preserved
      ⟨[(1, ⟨10, 1, 1, 7⟩), (2, ⟨20, 2, 1, 7⟩)], false, [(7, ⟨30, 100⟩)]⟩
      (accountingInv_single _ _ _ _ (by decide) (by decide))).2.2.1 ⟨5⟩ ⟨1, 15, 2, 7⟩
      ⟨[(1, ⟨15, 1, 2, 7⟩), (2, ⟨20, 2, 1, 7⟩)], false, [(7, ⟨35, 100⟩)]⟩
      ⟨10, 1, 1, 7⟩ (by decide) (by decide) (by decide),
   (C10_accounting_preserved
      ⟨[(1, ⟨10, 1, 1, 7⟩), (2, ⟨20, 2, 1, 7⟩)], false, [(7, ⟨30, 100⟩)]⟩
      (accountingInv_single _ _ _ _ (by decide) (by decide))).2.2.2 1 ⟨⟨5⟩⟩
      ⟨[(1, ⟨5, 1, 0, 7⟩), (2, ⟨20, 2, 1, 7⟩)], false, [(7, ⟨25, 100⟩)]⟩
      ⟨10, 1, 1, 7⟩ (by decide) (by decide) (by decide) (by decide)⟩

/-- C11. UpdateAllProviders(epoch, list) returns an error if and only if epoch is at most
currentEpoch, and in that case the manager (pairing, pairingPurge, pairingAddresses,
validAddresses, addedToPurgeAndReport, numberOfResets, currentEpoch and the length) is
unchanged. -/
theorem C11_update_refuses_old_epoch (csm : ConsumerSessionManager) (epoch : Nat)
    (pairingList : List ConsumerSessionsWithProvider) :
    ((UpdateAllProviders csm epoch pairingList).2 ≠ none ↔ epoch ≤ csm.currentEpoch) ∧
    (epoch ≤ csm.currentEpoch → (UpdateAllProviders csm epoch pairingList).1 = csm) := by
  by_cases h : epoch ≤ csm.currentEpoch
  · rw [UpdateAllProviders_of_older csm epoch pairingList h]
    simp [h]
  · rw [UpdateAllProviders_of_newer csm epoch pairingList (by omega)]
    simp [h]

/-- C11 (witness). A manager at epoch 5 is asked to go to epoch 5 and to epoch 3. -/
theorem C11_update_refuses_old_epoch_witness :
    (UpdateAllProviders ⟨[(1, ⟨1, 0, 100, 5⟩)], 5, 2, [1], 1, [], [1], []⟩ 5
        [⟨2, 0, 100, 5⟩]).1
      = ⟨[(1, ⟨1, 0, 100, 5⟩)], 5, 2, [1], 1, [], [1], []⟩ ∧
    (UpdateAllProviders ⟨[(1, ⟨1, 0, 100, 5⟩)], 5, 2, [1], 1, [], [1], []⟩ 3
        [⟨2, 0, 100, 3⟩]).1
      = ⟨[(1, ⟨1, 0, 100, 5⟩)], 5, 2, [1], 1, [], [1], []⟩ :=
  ⟨(C11_update_refuses_old_epoch ⟨[(1, ⟨1, 0, 100, 5⟩)], 5, 2, [1], 1, [], [1], []⟩ 5
      [⟨2, 0, 100, 5⟩]).2 (by decide),
   (C11_update_refuses_old_epoch ⟨[(1, ⟨1, 0, 100, 5⟩)], 5, 2, [1], 1, [], [1], []⟩ 3
      [⟨2, 0, 100, 3⟩]).2 (by decide)⟩

/-- C12. For every epoch above currentEpoch and every pairing list, UpdateAllProviders
returns nil and leaves: pairingPurge = the previous pairing map; a pairing map in which every
address is bound to the provider of the list that bears it (the last one, should two bear
the same address; with distinct addresses every provider of the list is found under its
address) and no other address is bound; pairingAddresses and validAddresses = the addresses
of the list in list order; pairingAddressesLength = the length of the list;
addedToPurgeAndReport empty; numberOfResets = 0; currentEpoch = epoch. -/
theorem C12_update_installs_pairing (csm : ConsumerSessionManager) (epoch : Nat)
    (pairingList : List ConsumerSessionsWithProvider) (h : csm.currentEpoch < epoch) :
    (UpdateAllProviders csm epoch pairingList).2 = none ∧
    (UpdateAllProviders csm epoch pairingList).1.pairingPurge = csm.pairing ∧
    (∀ address, mapGet address (UpdateAllProviders csm epoch pairingList).1.pairing
      = lastProviderWithAddress address pairingList) ∧
    ((pairingList.map (fun provider => provider.PublicLavaAddress)).Nodup →
      ∀ provider ∈ pairingList,
        mapGet provider.PublicLavaAddress (UpdateAllProviders csm epoch pairingList).1.pairing
          = some provider) ∧
    (UpdateAllProviders csm epoch pairingList).1.pairingAddresses
      = pairingList.map (fun provider => provider.PublicLavaAddress) ∧
    (UpdateAllProviders csm epoch pairingList).1.validAddresses
      = pairingList.map (fun provider => provider.PublicLavaAddress) ∧
    (UpdateAllProviders csm epoch pairingList).1.pairingAddressesLength = pairingList.length ∧
    (UpdateAllProviders csm epoch pairingList).1.addedToPurgeAndReport = [] ∧
    (UpdateAllProviders csm epoch pairingList).1.numberOfResets = 0 ∧
    (UpdateAllProviders csm epoch pairingList).1.currentEpoch = epoch := by
  rw [UpdateAllProviders_of_newer csm epoch pairingList h]
  have hget : ∀ address, mapGet address (fillPairing [] pairingList)
      = lastProviderWithAddress address pairingList := by
    intro address
    rw [mapGet_fillPairing]
    cases lastProviderWithAddress address pairingList with
    | some q => rfl
    | none => rfl
  refine ⟨rfl, rfl, hget, ?_, rfl, rfl, rfl, rfl, rfl, rfl⟩
  intro hnodup provider hp
  simp only
  rw [hget]
  exact lastProviderWithAddress_of_nodup pairingList hnodup provider hp

/-- C12 (witness). A manager at epoch 5 with provider 1 receives providers 2 and 3 for
epoch 6. -/
theorem C12_update_installs_pairing_witness :
    UpdateAllProviders ⟨[(1, ⟨1, 0, 100, 5⟩)], 5, 2, [1], 1, [], [1], []⟩ 6
        [⟨2, 0, 100, 6⟩, ⟨3, 0, 50, 6⟩]
      = (⟨[(2, ⟨2, 0, 100, 6⟩), (3, ⟨3, 0, 50, 6⟩)], 6, 0, [2, 3], 2, [2, 3], [],
          [(1, ⟨1, 0, 100, 5⟩)]⟩, none) ∧
    (UpdateAllProviders ⟨[(1, ⟨1, 0, 100, 5⟩)], 5, 2, [1], 1, [], [1], []⟩ 6
        [⟨2, 0, 100, 6⟩, ⟨3, 0, 50, 6⟩]).1.pairingPurge = [(1, ⟨1, 0, 100, 5⟩)] :=
  ⟨by decide,
   (C12_update_installs_pairing ⟨[(1, ⟨1, 0, 100, 5⟩)], 5, 2, [1], 1, [], [1], []⟩ 6
      [⟨2, 0, 100, 6⟩, ⟨3, 0, 50, 6⟩] (by decide)).2.1⟩

/-- C13. For every manager state and every two successful rotations UpdateAllProviders(e1, P1)
then UpdateAllProviders(e2, P2) with e2 > e1, the final pairingPurge is exactly the map built
from P1 and the final pairing is exactly the map built from P2; the final manager is a
function of e2, P1 and P2 alone, and every provider held in either map is a provider of P1 or
of P2, so nothing of the first pairing map or of the first purge map is retained. -/
theorem C13_two_rotations_drop_old_purge (csm : ConsumerSessionManager) (e1 e2 : Nat)
    (P1 P2 : List ConsumerSessionsWithProvider)
    (h1 : csm.currentEpoch < e1) (h2 : e1 < e2) :
    (UpdateAllProviders csm e1 P1).2 = none ∧
    (UpdateAllProviders (UpdateAllProviders csm e1 P1).1 e2 P2).2 = none ∧
    (∀ address,
      mapGet address (UpdateAllProviders (UpdateAllProviders csm e1 P1).1 e2 P2).1.pairingPurge
        = lastProviderWithAddress address P1) ∧
    (∀ address,
      mapGet address (UpdateAllProviders (UpdateAllProviders csm e1 P1).1 e2 P2).1.pairing
        = lastProviderWithAddress address P2) ∧
    (UpdateAllProviders (UpdateAllProviders csm e1 P1).1 e2 P2).1
      = ⟨fillPairing [] P2, e2, 0, P2.map (fun provider => provider.PublicLavaAddress),
          P2.length, P2.map (fun provider => provider.PublicLavaAddress), [],
          fillPairing [] P1⟩ ∧
    (∀ x, x ∈ (UpdateAllProviders (UpdateAllProviders csm e1 P1).1 e2 P2).1.pairingPurge →
      x.2 ∈ P1) ∧
    (∀ x, x ∈ (UpdateAllProviders (UpdateAllProviders csm e1 P1).1 e2 P2).1.pairing →
      x.2 ∈ P2) := by
  rw [UpdateAllProviders_of_newer csm e1 P1 h1]
  rw [UpdateAllProviders_of_newer _ e2 P2 h2]
  have hget : ∀ (P : List ConsumerSessionsWithProvider) address,
      mapGet address (fillPairing [] P) = lastProviderWithAddress address P := by
    intro P address
    rw [mapGet_fillPairing]
    cases lastProviderWithAddress address P with
    | some q => rfl
    | none => rfl
  have hmem : ∀ (P : List ConsumerSessionsWithProvider) x, x ∈ fillPairing [] P → x.2 ∈ P := by
    intro P x hx
    rcases mem_fillPairing P [] x hx with h | h
    · cases h
    · exact h.1
  exact ⟨rfl, rfl, hget P1, hget P2, rfl, hmem P1, hmem P2⟩

/-- C13 (witness). Provider 1 is paired at epoch 5 and provider 9 sits in the purge map; after
the rotations to epoch 6 (provider 2) and epoch 7 (provider 3) only 2 and 3 are left. -/
theorem C13_two_rotations_drop_old_purge_witness :
    (UpdateAllProviders
      (UpdateAllProviders ⟨[(1, ⟨1, 0, 100, 5⟩)], 5, 2, [1], 1, [], [1], [(9, ⟨9, 0, 100, 4⟩)]⟩
        6 [⟨2, 0, 100, 6⟩]).1 7 [⟨3, 0, 50, 7⟩]).1
      = ⟨fillPairing [] [⟨3, 0, 50, 7⟩], 7, 0, [3], 1, [3], [],
          fillPairing [] [⟨2, 0, 100, 6⟩]⟩ :=
  (C13_two_rotations_drop_old_purge
    ⟨[(1, ⟨1, 0, 100, 5⟩)], 5, 2, [1], 1, [], [1], [(9, ⟨9, 0, 100, 4⟩)]⟩ 6 7
    [⟨2, 0, 100, 6⟩] [⟨3, 0, 50, 7⟩] (by decide) (by decide)).2.2.2.2.1

/-- C14 (code at the failing input). validAddresses = [2] and the ignored set = {1}: provider
2 is valid and not ignored, so validAddresses without the ignored providers is not empty, yet
line 236 computes 1 - 1 = 0 and getValidProviderAddress returns PairingListEmptyError,
whatever the random draw. -/
theorem C14_empty_error_despite_candidate (random : Nat) :
    (2 ∈ [2] ∧ 2 ∉ [1]) ∧
    getValidProviderAddress ⟨[(2, ⟨2, 0, 100, 5⟩)], 5, 0, [1, 2], 2, [2], [], []⟩ [1] random
      = .error .PairingListEmptyError := by
  refine ⟨by decide, ?_⟩
  rfl

/-- C15 (counterexample). validAddresses is empty and numberOfResets is 2^64 - 1: the reset
copies pairingAddresses, and the uint64 counter goes to 0, which is also the value returned;
it has not increased by 1. -/
theorem C15_reset_counterexample :
    validatePairingListNotEmpty ⟨[], 5, 2 ^ 64 - 1, [1, 2], 2, [], [], []⟩
      = (⟨[], 5, 0, [1, 2], 2, [1, 2], [], []⟩, 0) ∧
    (0 : Nat) ≠ (2 ^ 64 - 1) + 1 := by
  decide

/-- C15 (amended). Reset step: validatePairingListNotEmpty, when validAddresses is empty,
sets validAddresses to a copy of pairingAddresses, increases the uint64 numberOfResets by 1
modulo 2^64 (by exactly 1 when it is below 2^64 - 1) and returns the new count; when
validAddresses is non-empty it changes nothing and returns the current numberOfResets. -/
theorem C15_reset_step (csm : ConsumerSessionManager) :
    (csm.validAddresses = [] →
      validatePairingListNotEmpty csm
        = ({ csm with
              validAddresses := csm.pairingAddresses,
              numberOfResets := (csm.numberOfResets + 1) % 2 ^ 64 },
           (csm.numberOfResets + 1) % 2 ^ 64) ∧
      (csm.numberOfResets < 2 ^ 64 - 1 →
        (validatePairingListNotEmpty csm).1.numberOfResets = csm.numberOfResets + 1 ∧
        (validatePairingListNotEmpty csm).2 = csm.numberOfResets + 1)) ∧
    (csm.validAddresses ≠ [] →
      validatePairingListNotEmpty csm = (csm, csm.numberOfResets)) := by
  constructor
  · intro h
    have hres : validatePairingListNotEmpty csm
        = ({ csm with
              validAddresses := csm.pairingAddresses,
              numberOfResets := (csm.numberOfResets + 1) % 2 ^ 64 },
           (csm.numberOfResets + 1) % 2 ^ 64) := by
      simp [validatePairingListNotEmpty, shouldResetValidAddresses, resetValidAddresses,
        setValidAddressesToDefaultValue, uint64Add, h]
    refine ⟨hres, ?_⟩
    intro hlt
    rw [hres]
    simp only
    constructor <;> omega
  · intro h
    simp [validatePairingListNotEmpty, shouldResetValidAddresses, h]

/-- C15 (witness). A reset at numberOfResets = 2, and a call with a non-empty list. -/
theorem C15_reset_step_witness :
    ((validatePairingListNotEmpty ⟨[], 5, 2, [1, 2], 2, [], [], []⟩).1.numberOfResets = 2 + 1 ∧
      (validatePairingListNotEmpty ⟨[], 5, 2, [1, 2], 2, [], [], []⟩).2 = 2 + 1) ∧
    validatePairingListNotEmpty ⟨[], 5, 2, [1, 2], 2, [1], [], []⟩
      = (⟨[], 5, 2, [1, 2], 2, [1], [], []⟩, 2) :=
  ⟨((C15_reset_step ⟨[], 5, 2, [1, 2], 2, [], [], []⟩).1 rfl).2 (by decide),
   (C15_reset_step ⟨[], 5, 2, [1, 2], 2, [1], [], []⟩).2 (by decide)⟩

/-- C16 (counterexample). A locked session with CuSum 2^64 - 1 and LatestRelayCu 10:
OnSessionDone returns nil and CuSum is 9, not CuSum + 10 (line 455 adds in uint64). -/
theorem C16_done_counterexample :
    OnSessionDone (fun q => q)
        ⟨2 ^ 64 - 1, 10, ⟨0, 0⟩, 77, ⟨1, 10, 100, 5⟩, 3, 40, 0, false, true⟩ 41
      = (⟨9, 0, ⟨0, 0⟩, 77, ⟨1, 10, 100, 5⟩, 4, 41, 0, false, false⟩, none) ∧
    (9 : Nat) ≠ (2 ^ 64 - 1) + 10 := by
  decide

/-- C16 (amended). For every locked consumer session, OnSessionDone returns nil and leaves
the session with CuSum increased by the LatestRelayCu it had on entry modulo 2^64 (exactly by
it when the sum stays below 2^64), RelayNum increased by one relay increment,
ConsecutiveNumberOfFailures = 0, LatestRelayCu = 0 and LatestBlock = latestServicedBlock,
while the parent provider's used compute units are unchanged; in particular a fresh session
acquired with cu = 10 ends with CuSum = 10 and RelayNum = 1. -/
theorem C16_session_done (CalculateQoS : QoSInfo → QoSInfo)
    (consumerSession : SingleConsumerSession) (latestServicedBlock : Int)
    (hlocked : consumerSession.locked = true) :
    (OnSessionDone CalculateQoS consumerSession latestServicedBlock).2 = none ∧
    (OnSessionDone CalculateQoS consumerSession latestServicedBlock).1.CuSum
      = (consumerSession.CuSum + consumerSession.LatestRelayCu) % 2 ^ 64 ∧
    (consumerSession.CuSum + consumerSession.LatestRelayCu < 2 ^ 64 →
      (OnSessionDone CalculateQoS consumerSession latestServicedBlock).1.CuSum
        = consumerSession.CuSum + consumerSession.LatestRelayCu) ∧
    (OnSessionDone CalculateQoS consumerSession latestServicedBlock).1.RelayNum
      = consumerSession.RelayNum + RelayNumberIncrement ∧
    (OnSessionDone CalculateQoS consumerSession latestServicedBlock).1.ConsecutiveNumberOfFailures
      = 0 ∧
    (OnSessionDone CalculateQoS consumerSession latestServicedBlock).1.LatestRelayCu = 0 ∧
    (OnSessionDone CalculateQoS consumerSession latestServicedBlock).1.LatestBlock
      = latestServicedBlock ∧
    (OnSessionDone CalculateQoS consumerSession latestServicedBlock).1.Client.UsedComputeUnits
      = consumerSession.Client.UsedComputeUnits ∧
    (consumerSession.CuSum = 0 → consumerSession.RelayNum = 0 →
      consumerSession.LatestRelayCu = 10 →
      (OnSessionDone CalculateQoS consumerSession latestServicedBlock).1.CuSum = 10 ∧
      (OnSessionDone CalculateQoS consumerSession latestServicedBlock).1.RelayNum = 1) := by
  have hres : OnSessionDone CalculateQoS consumerSession latestServicedBlock
      = ({ consumerSession with
            CuSum := uint64Add consumerSession.CuSum consumerSession.LatestRelayCu,
            LatestRelayCu := 0,
            RelayNum := consumerSession.RelayNum + RelayNumberIncrement,
            ConsecutiveNumberOfFailures := 0,
            LatestBlock := latestServicedBlock,
            QoSInfo := CalculateQoS consumerSession.QoSInfo,
            locked := false }, none) := by
    simp only [OnSessionDone, verifyLock, hlocked, if_true]
  rw [hres]
  refine ⟨rfl, rfl, ?_, rfl, rfl, rfl, rfl, rfl, ?_⟩
  · intro hlt
    exact Nat.mod_eq_of_lt hlt
  · intro h1 h2 h3
    simp only [h1, h2, h3, uint64Add, RelayNumberIncrement]
    decide

/-- C16 (witness). A fresh session acquired with 10 compute units. -/
theorem C16_session_done_witness :
    (OnSessionDone (fun q => q)
        ⟨0, 10, ⟨0, 0⟩, 77, ⟨1, 10, 100, 5⟩, 0, 0, 0, false, true⟩ 41).1.CuSum = 10 ∧
    (OnSessionDone (fun q => q)
        ⟨0, 10, ⟨0, 0⟩, 77, ⟨1, 10, 100, 5⟩, 0, 0, 0, false, true⟩ 41).1.RelayNum = 1 :=
  (C16_session_done (fun q => q)
    ⟨0, 10, ⟨0, 0⟩, 77, ⟨1, 10, 100, 5⟩, 0, 0, 0, false, true⟩ 41 rfl).2.2.2.2.2.2.2.2
    rfl rfl rfl

/-- C17. For every locked session that is not already blocklisted and every error, after
OnSessionFailure the session's ConsecutiveNumberOfFailures is one more than before, its
RelayNum and CuSum are unchanged, and it is blocklisted if and only if the new
ConsecutiveNumberOfFailures exceeds MaximumNumberOfFailuresAllowedPerConsumerSession or the
error received carries the session-out-of-sync status code. -/
theorem C17_session_failure (MaximumNumberOfFailuresAllowedPerConsumerSession : Nat)
    (csm : ConsumerSessionManager) (consumerSession : SingleConsumerSession)
    (errorReceived : ReceivedError)
    (hlocked : consumerSession.locked = true)
    (hblock : consumerSession.BlockListed = false) :
    (OnSessionFailure MaximumNumberOfFailuresAllowedPerConsumerSession csm consumerSession
        errorReceived).2.1.ConsecutiveNumberOfFailures
      = consumerSession.ConsecutiveNumberOfFailures + 1 ∧
    (OnSessionFailure MaximumNumberOfFailuresAllowedPerConsumerSession csm consumerSession
        errorReceived).2.1.RelayNum = consumerSession.RelayNum ∧
    (OnSessionFailure MaximumNumberOfFailuresAllowedPerConsumerSession csm consumerSession
        errorReceived).2.1.CuSum = consumerSession.CuSum ∧
    ((OnSessionFailure MaximumNumberOfFailuresAllowedPerConsumerSession csm consumerSession
        errorReceived).2.1.BlockListed = true ↔
      (consumerSession.ConsecutiveNumberOfFailures + 1
          > MaximumNumberOfFailuresAllowedPerConsumerSession
        ∨ errorReceived.hasSessionOutOfSyncCode = true)) := by
  rw [OnSessionFailure_session _ csm consumerSession errorReceived hlocked hblock]
  refine ⟨rfl, rfl, rfl, ?_⟩
  simp only [Bool.or_eq_true, decide_eq_true_eq]

/-- C17 (witness). A third failure in a row with at most 3 allowed: the session is not
blocklisted; with the out-of-sync code it is. -/
theorem C17_session_failure_witness :
    ((OnSessionFailure 3 ⟨[], 5, 0, [1], 1, [1], [], []⟩
        ⟨30, 10, ⟨4, 0⟩, 77, ⟨1, 40, 100, 5⟩, 3, 40, 2, false, true⟩
        ⟨false, false, false⟩).2.1.BlockListed = true ↔
      (2 + 1 > 3 ∨ false = true)) ∧
    ((OnSessionFailure 3 ⟨[], 5, 0, [1], 1, [1], [], []⟩
        ⟨30, 10, ⟨4, 0⟩, 77, ⟨1, 40, 100, 5⟩, 3, 40, 2, false, true⟩
        ⟨true, false, false⟩).2.1.BlockListed = true ↔
      (2 + 1 > 3 ∨ true = true)) :=
  ⟨(C17_session_failure 3 ⟨[], 5, 0, [1], 1, [1], [], []⟩
      ⟨30, 10, ⟨4, 0⟩, 77, ⟨1, 40, 100, 5⟩, 3, 40, 2, false, true⟩
      ⟨false, false, false⟩ rfl rfl).2.2.2,
   (C17_session_failure 3 ⟨[], 5, 0, [1], 1, [1], [], []⟩
      ⟨30, 10, ⟨4, 0⟩, 77, ⟨1, 40, 100, 5⟩, 3, 40, 2, false, true⟩
      ⟨true, false, false⟩ rfl rfl).2.2.2⟩

/-- C18. Consumer-side rollback round trip: for every provider with used + cu at most max, the
pre-charge of cu at the end of a successful GetSession (on a locked session that is not
blocklisted) followed by OnSessionFailure with an error that carries no provider-block
semantics returns nil both times and leaves the provider's used compute units equal to their
value before GetSession, the manager being untouched. -/
theorem C18_charge_then_failure (MaximumNumberOfFailuresAllowedPerConsumerSession : Nat)
    (csm : ConsumerSessionManager) (consumerSession : SingleConsumerSession)
    (cuNeededForSession : Nat) (errorReceived : ReceivedError)
    (hlocked : consumerSession.locked = true)
    (hblock : consumerSession.BlockListed = false)
    (hfit : consumerSession.Client.UsedComputeUnits + cuNeededForSession
      ≤ consumerSession.Client.MaxComputeUnits)
    (hreport : errorReceived.isReportAndBlockProvider = false)
    (hprovider : errorReceived.isBlockProvider = false) :
    (GetSessionCharge consumerSession cuNeededForSession).2 = none ∧
    (GetSessionCharge consumerSession cuNeededForSession).1.Client.UsedComputeUnits
      = consumerSession.Client.UsedComputeUnits + cuNeededForSession ∧
    (OnSessionFailure MaximumNumberOfFailuresAllowedPerConsumerSession csm
        (GetSessionCharge consumerSession cuNeededForSession).1 errorReceived).2.2 = none ∧
    (OnSessionFailure MaximumNumberOfFailuresAllowedPerConsumerSession csm
        (GetSessionCharge consumerSession cuNeededForSession).1
        errorReceived).2.1.Client.UsedComputeUnits
      = consumerSession.Client.UsedComputeUnits ∧
    (OnSessionFailure MaximumNumberOfFailuresAllowedPerConsumerSession csm
        (GetSessionCharge consumerSession cuNeededForSession).1 errorReceived).1 = csm := by
  have hnot : ¬ (consumerSession.Client.UsedComputeUnits + cuNeededForSession
      > consumerSession.Client.MaxComputeUnits) := by omega
  obtain ⟨s1, hs1⟩ : ∃ s1, (GetSessionCharge consumerSession cuNeededForSession).1 = s1 :=
    ⟨_, rfl⟩
  have herr : (GetSessionCharge consumerSession cuNeededForSession).2 = none := by
    simp only [GetSessionCharge, addUsedComputeUnits, hnot, if_false]
  have hl1 : s1.locked = true := by
    rw [← hs1]
    simp only [GetSessionCharge, addUsedComputeUnits, hnot, if_false]
    exact hlocked
  have hb1 : s1.BlockListed = false := by
    rw [← hs1]
    simp only [GetSessionCharge, addUsedComputeUnits, hnot, if_false]
    exact hblock
  have hcu1 : s1.LatestRelayCu = cuNeededForSession := by
    rw [← hs1]
    simp only [GetSessionCharge, addUsedComputeUnits, hnot, if_false]
  have hu1 : s1.Client.UsedComputeUnits
      = consumerSession.Client.UsedComputeUnits + cuNeededForSession := by
    rw [← hs1]
    simp only [GetSessionCharge, addUsedComputeUnits, hnot, if_false]
  rw [hs1]
  have hm := OnSessionFailure_manager MaximumNumberOfFailuresAllowedPerConsumerSession csm
    s1 errorReceived hl1 hb1 (by omega)
  simp only [hreport, hprovider, Bool.or_self, Bool.false_eq_true, if_false,
    Prod.mk.injEq] at hm
  refine ⟨herr, hu1, hm.2, ?_, hm.1⟩
  rw [OnSessionFailure_session _ csm s1 errorReceived hl1 hb1]
  have hlt : ¬ (s1.Client.UsedComputeUnits < s1.LatestRelayCu) := by omega
  simp only [decreaseUsedComputeUnits, hlt, if_false]
  omega

/-- C18 (witness). A provider with 40 of 100 compute units used, a session charged 10. -/
theorem C18_charge_then_failure_witness :
    (OnSessionFailure 3 ⟨[], 5, 0, [1], 1, [1], [], []⟩
        (GetSessionCharge ⟨30, 0, ⟨4, 0⟩, 77, ⟨1, 40, 100, 5⟩, 3, 40, 0, false, true⟩ 10).1
        ⟨false, false, false⟩).2.1.Client.UsedComputeUnits = 40 :=
  (C18_charge_then_failure 3 ⟨[], 5, 0, [1], 1, [1], [], []⟩
    ⟨30, 0, ⟨4, 0⟩, 77, ⟨1, 40, 100, 5⟩, 3, 40, 0, false, true⟩ 10 ⟨false, false, false⟩
    rfl rfl (by decide) rfl rfl).2.2.2.1

/-- C19 (counterexample). A locked session with LatestRelayCu 10 whose parent has only 5
compute units used: OnSessionUnUsed returns NegativeComputeUnitsAmountError and the parent's
used compute units stay at 5; nothing was subtracted. -/
theorem C19_unused_counterexample :
    OnSessionUnUsed ⟨30, 10, ⟨4, 0⟩, 77, ⟨1, 5, 100, 5⟩, 3, 40, 1, false, true⟩
      = (⟨30, 0, ⟨4, 0⟩, 77, ⟨1, 5, 100, 5⟩, 3, 40, 1, false, false⟩,
          some .NegativeComputeUnitsAmountError) := by
  decide

/-- C19 (amended). For every locked session, OnSessionUnUsed sets LatestRelayCu to 0 and
leaves the session's RelayNum, CuSum, ConsecutiveNumberOfFailures and BlockListed flag
unchanged; when the session's LatestRelayCu is at most the parent provider's used compute
units it subtracts it from them and returns nil, and otherwise it returns an error and leaves
the parent's used compute units as they were. -/
theorem C19_session_unused (consumerSession : SingleConsumerSession)
    (hlocked : consumerSession.locked = true) :
    (OnSessionUnUsed consumerSession).1.LatestRelayCu = 0 ∧
    (OnSessionUnUsed consumerSession).1.RelayNum = consumerSession.RelayNum ∧
    (OnSessionUnUsed consumerSession).1.CuSum = consumerSession.CuSum ∧
    (OnSessionUnUsed consumerSession).1.ConsecutiveNumberOfFailures
      = consumerSession.ConsecutiveNumberOfFailures ∧
    (OnSessionUnUsed consumerSession).1.BlockListed = consumerSession.BlockListed ∧
    (consumerSession.LatestRelayCu ≤ consumerSession.Client.UsedComputeUnits →
      (OnSessionUnUsed consumerSession).1.Client.UsedComputeUnits
        = consumerSession.Client.UsedComputeUnits - consumerSession.LatestRelayCu ∧
      (OnSessionUnUsed consumerSession).2 = none) ∧
    (consumerSession.Client.UsedComputeUnits < consumerSession.LatestRelayCu →
      (OnSessionUnUsed consumerSession).1.Client.UsedComputeUnits
        = consumerSession.Client.UsedComputeUnits ∧
      (OnSessionUnUsed consumerSession).2 = some .NegativeComputeUnitsAmountError) := by
  by_cases hcu : consumerSession.Client.UsedComputeUnits < consumerSession.LatestRelayCu
  · have hres : OnSessionUnUsed consumerSession
        = ({ consumerSession with LatestRelayCu := 0, locked := false },
            some .NegativeComputeUnitsAmountError) := by
      simp only [OnSessionUnUsed, verifyLock, hlocked, if_true, decreaseUsedComputeUnits, hcu]
    rw [hres]
    exact ⟨rfl, rfl, rfl, rfl, rfl, fun h => by omega, fun _ => ⟨rfl, rfl⟩⟩
  · have hres : OnSessionUnUsed consumerSession
        = ({ consumerSession with
              LatestRelayCu := 0, locked := false,
              Client := { consumerSession.Client with
                UsedComputeUnits :=
                  consumerSession.Client.UsedComputeUnits - consumerSession.LatestRelayCu } },
            none) := by
      simp only [OnSessionUnUsed, verifyLock, hlocked, if_true, decreaseUsedComputeUnits, hcu,
        if_false]
    rw [hres]
    exact ⟨rfl, rfl, rfl, rfl, rfl, fun _ => ⟨rfl, rfl⟩, fun h => absurd h hcu⟩

/-- C19 (witness). A session charged 10 on a parent with 40 used, and the session of the
counterexample. -/
theorem C19_session_unused_witness :
    ((OnSessionUnUsed
        ⟨30, 10, ⟨4, 0⟩, 77, ⟨1, 40, 100, 5⟩, 3, 40, 1, false, true⟩).1.Client.UsedComputeUnits
        = 40 - 10 ∧
      (OnSessionUnUsed
        ⟨30, 10, ⟨4, 0⟩, 77, ⟨1, 40, 100, 5⟩, 3, 40, 1, false, true⟩).2 = none) ∧
    ((OnSessionUnUsed
        ⟨30, 10, ⟨4, 0⟩, 77, ⟨1, 5, 100, 5⟩, 3, 40, 1, false, true⟩).1.Client.UsedComputeUnits
        = 5 ∧
      (OnSessionUnUsed
        ⟨30, 10, ⟨4, 0⟩, 77, ⟨1, 5, 100, 5⟩, 3, 40, 1, false, true⟩).2
        = some .NegativeComputeUnitsAmountError) :=
  ⟨(C19_session_unused ⟨30, 10, ⟨4, 0⟩, 77, ⟨1, 40, 100, 5⟩, 3, 40, 1, false, true⟩
      rfl).2.2.2.2.2.1 (by decide),
   (C19_session_unused ⟨30, 10, ⟨4, 0⟩, 77, ⟨1, 5, 100, 5⟩, 3, 40, 1, false, true⟩
      rfl).2.2.2.2.2.2 (by decide)⟩

/-- C20 (counterexample). A locked session that is already blocklisted, an error with
ReportAndBlockProvider semantics, and a pairing epoch equal to currentEpoch = 5:
OnSessionFailure stops at line 361 with SessionIsAlreadyBlockListedError, provider 1 is still
in validAddresses and addedToPurgeAndReport is still empty. -/
theorem C20_sanction_counterexample :
    OnSessionFailure 3 ⟨[(1, ⟨1, 40, 100, 5⟩)], 5, 0, [1, 2], 2, [1, 2], [], []⟩
        ⟨30, 10, ⟨4, 0⟩, 77, ⟨1, 40, 100, 5⟩, 3, 40, 1, true, true⟩ ⟨false, true, false⟩
      = (⟨[(1, ⟨1, 40, 100, 5⟩)], 5, 0, [1, 2], 2, [1, 2], [], []⟩,
          ⟨30, 10, ⟨4, 0⟩, 77, ⟨1, 40, 100, 5⟩, 3, 40, 1, true, true⟩,
          some (.Wrapf .SessionIsAlreadyBlockListedError)) := by
  decide

/-- C20 (amended). Provider sanctions are epoch-guarded: when OnSessionFailure receives, on a
locked session that is not already blocklisted and whose LatestRelayCu the parent can give
back, an error with BlockProvider or ReportAndBlockProvider semantics and the session's
pairing epoch equals currentEpoch, it returns nil, the provider's address is cut out of
validAddresses (its first occurrence; none is left when the addresses are distinct) and is
added to addedToPurgeAndReport exactly in the ReportAndBlockProvider case; when the pairing
epoch differs from currentEpoch, OnSessionFailure returns nil and the manager, validAddresses
and addedToPurgeAndReport included, is unchanged. -/
theorem C20_epoch_guarded_sanction (MaximumNumberOfFailuresAllowedPerConsumerSession : Nat)
    (csm : ConsumerSessionManager) (consumerSession : SingleConsumerSession)
    (errorReceived : ReceivedError)
    (hlocked : consumerSession.locked = true)
    (hblock : consumerSession.BlockListed = false)
    (hcu : consumerSession.LatestRelayCu ≤ consumerSession.Client.UsedComputeUnits)
    (hsem : errorReceived.isReportAndBlockProvider = true
      ∨ errorReceived.isBlockProvider = true) :
    (consumerSession.Client.PairingEpoch = csm.currentEpoch →
      (OnSessionFailure MaximumNumberOfFailuresAllowedPerConsumerSession csm consumerSession
          errorReceived).2.2 = none ∧
      (OnSessionFailure MaximumNumberOfFailuresAllowedPerConsumerSession csm consumerSession
          errorReceived).1.validAddresses
        = csm.validAddresses.erase consumerSession.Client.PublicLavaAddress ∧
      (csm.validAddresses.Nodup →
        consumerSession.Client.PublicLavaAddress ∉
          (OnSessionFailure MaximumNumberOfFailuresAllowedPerConsumerSession csm
            consumerSession errorReceived).1.validAddresses) ∧
      (errorReceived.isReportAndBlockProvider = true →
        consumerSession.Client.PublicLavaAddress ∈
          (OnSessionFailure MaximumNumberOfFailuresAllowedPerConsumerSession csm
            consumerSession errorReceived).1.addedToPurgeAndReport) ∧
      (errorReceived.isReportAndBlockProvider = false →
        (OnSessionFailure MaximumNumberOfFailuresAllowedPerConsumerSession csm
            consumerSession errorReceived).1.addedToPurgeAndReport
          = csm.addedToPurgeAndReport)) ∧
    (consumerSession.Client.PairingEpoch ≠ csm.currentEpoch →
      (OnSessionFailure MaximumNumberOfFailuresAllowedPerConsumerSession csm consumerSession
          errorReceived).2.2 = none ∧
      (OnSessionFailure MaximumNumberOfFailuresAllowedPerConsumerSession csm consumerSession
          errorReceived).1 = csm) := by
  have hm := OnSessionFailure_manager MaximumNumberOfFailuresAllowedPerConsumerSession csm
    consumerSession errorReceived hlocked hblock hcu
  have hflag : (errorReceived.isReportAndBlockProvider
      || errorReceived.isBlockProvider) = true := by
    rcases hsem with h | h <;> simp [h]
  simp only [hflag, if_true] at hm
  constructor
  · intro he
    simp only [he, if_true] at hm
    rw [blockProvider_of_current csm _ _ _ rfl] at hm
    simp only [Prod.mk.injEq] at hm
    obtain ⟨h1, h2⟩ := hm
    rw [h1]
    refine ⟨h2, rfl, ?_, ?_, ?_⟩
    · intro hnodup
      simp only
      exact List.Nodup.not_mem_erase hnodup
    · intro hr
      simp only [hr, Bool.true_and]
      by_cases hin : consumerSession.Client.PublicLavaAddress ∈ csm.addedToPurgeAndReport
      · simp [hin]
      · simp [hin]
    · intro hr
      simp only [hr, Bool.false_and, Bool.false_eq_true, if_false]
  · intro he
    simp only [he, if_false, Prod.mk.injEq] at hm
    exact ⟨hm.2, hm.1⟩

/-- C20 (witness). Provider 1 is reported and blocked at the current epoch 5; with a pairing
epoch 4 nothing happens. -/
theorem C20_epoch_guarded_sanction_witness :
    ((OnSessionFailure 3 ⟨[(1, ⟨1, 40, 100, 5⟩)], 5, 0, [1, 2], 2, [1, 2], [], []⟩
        ⟨30, 10, ⟨4, 0⟩, 77, ⟨1, 40, 100, 5⟩, 3, 40, 1, false, true⟩
        ⟨false, true, false⟩).1.validAddresses = [1, 2].erase 1) ∧
    ((OnSessionFailure 3 ⟨[(1, ⟨1, 40, 100, 4⟩)], 5, 0, [1, 2], 2, [1, 2], [], []⟩
        ⟨30, 10, ⟨4, 0⟩, 77, ⟨1, 40, 100, 4⟩, 3, 40, 1, false, true⟩
        ⟨false, true, false⟩).1
      = ⟨[(1, ⟨1, 40, 100, 4⟩)], 5, 0, [1, 2], 2, [1, 2], [], []⟩) :=
  ⟨((C20_epoch_guarded_sanction 3
      ⟨[(1, ⟨1, 40, 100, 5⟩)], 5, 0, [1, 2], 2, [1, 2], [], []⟩
      ⟨30, 10, ⟨4, 0⟩, 77, ⟨1, 40, 100, 5⟩, 3, 40, 1, false, true⟩ ⟨false, true, false⟩
      rfl rfl (by decide) (Or.inl rfl)).1 rfl).2.1,
   ((C20_epoch_guarded_sanction 3
      ⟨[(1, ⟨1, 40, 100, 4⟩)], 5, 0, [1, 2], 2, [1, 2], [], []⟩
      ⟨30, 10, ⟨4, 0⟩, 77, ⟨1, 40, 100, 4⟩, 3, 40, 1, false, true⟩ ⟨false, true, false⟩
      rfl rfl (by decide) (Or.inl rfl)).2 (by decide)).2⟩

/-- C21, counterexample: two providers of a pairing list bear the address 7, so that
`UpdateAllProviders` puts 7 twice into `validAddresses`; `blockProvider` for 7 in the current
epoch returns nil, and 7 still occurs in `validAddresses` and is what
`getValidProviderAddress` returns. -/
theorem C21_block_counterexample :
    (blockProvider
        (UpdateAllProviders ⟨[], 0, 0, [], 0, [], [], []⟩ 1 [⟨7, 0, 10, 1⟩, ⟨7, 0, 10, 1⟩]).1
        7 false 1).2 = none ∧
    7 ∈ (blockProvider
        (UpdateAllProviders ⟨[], 0, 0, [], 0, [], [], []⟩ 1 [⟨7, 0, 10, 1⟩, ⟨7, 0, 10, 1⟩]).1
        7 false 1).1.validAddresses ∧
    getValidProviderAddress
      (blockProvider
        (UpdateAllProviders ⟨[], 0, 0, [], 0, [], [], []⟩ 1 [⟨7, 0, 10, 1⟩, ⟨7, 0, 10, 1⟩]).1
        7 false 1).1 [] 0 = .ok 7 :=
  ⟨by decide, by decide, rfl⟩

/-- C21, amended: for every manager state whose `validAddresses` holds no address twice and
every address, `blockProvider address report currentEpoch` returns nil and leaves in
`validAddresses` exactly the other addresses, in their previous order; the address does not
occur in it, and `getValidProviderAddress` on the resulting state returns it for no list of
ignored providers and no random draw. The epoch is not changed. -/
theorem C21_blocked_provider_unavailable (csm : ConsumerSessionManager) (address : Nat)
    (reportProvider : Bool) (hnodup : csm.validAddresses.Nodup) :
    (blockProvider csm address reportProvider csm.currentEpoch).2 = none ∧
    address ∉ (blockProvider csm address reportProvider csm.currentEpoch).1.validAddresses ∧
    (∀ (ignoredProvidersList : List Nat) (random : Nat),
      getValidProviderAddress (blockProvider csm address reportProvider csm.currentEpoch).1
        ignoredProvidersList random ≠ .ok address) ∧
    (blockProvider csm address reportProvider csm.currentEpoch).1.validAddresses
      = csm.validAddresses.filter (fun other => other ≠ address) ∧
    (blockProvider csm address reportProvider csm.currentEpoch).1.currentEpoch
      = csm.currentEpoch := by
  have hbp := blockProvider_of_current csm address reportProvider csm.currentEpoch rfl
  have hnot : address ∉ csm.validAddresses.erase address :=
    fun hmem => ((List.Nodup.mem_erase_iff hnodup).1 hmem).1 rfl
  rw [hbp]
  refine ⟨rfl, hnot, ?_, ?_, rfl⟩
  · intro ignoredProvidersList random h
    exact hnot (getValidProviderAddress_mem _ _ _ _ h)
  · show csm.validAddresses.erase address = _
    rw [List.Nodup.erase_eq_filter hnodup]
    congr 1
    funext other
    by_cases h : other = address <;> simp [h]

/-- C21, witness: with `validAddresses = [3, 7, 9]`, blocking 7 leaves `[3, 9]`. -/
theorem C21_blocked_provider_unavailable_witness :
    [3, 7, 9].Nodup ∧
    (blockProvider ⟨[], 1, 0, [3, 7, 9], 3, [3, 7, 9], [], []⟩ 7 true 1).1.validAddresses
      = [3, 7, 9].filter (fun other => other ≠ 7) :=
  ⟨by decide,
   (C21_blocked_provider_unavailable ⟨[], 1, 0, [3, 7, 9], 3, [3, 7, 9], [], []⟩ 7 true
      (by decide)).2.2.2.1⟩

/-- C22: in a manager state where `pairingAddressesLength` is the length of
`pairingAddresses` (a Go slice, shorter than `2^63`), for every `int64` index and every
original provider address, `getDataReliabilityProviderIndex`, called with the index converted
to `uint64`, returns without indexing outside `pairingAddresses`; its error is
`DataReliabilityIndexOutOfRangeError` exactly when the index is not in
`[0, len(pairingAddresses))`; for an index in range its error is
`DataReliabilityIndexRequestedIsOriginalProviderError` exactly when the address at the index is
the original provider, and otherwise it returns `pairing[pairingAddresses[index]]`, that
address and `currentEpoch` with no error. `GetDataReliabilitySession` gets a result from it
and hands an error of the choice on. -/
theorem C22_data_reliability_choice (csm : ConsumerSessionManager) (originalProvider : Nat)
    (index : Int) (sessionEpoch : Nat) (hlo : -2 ^ 63 ≤ index) (hhi : index < 2 ^ 63)
    (hlen : csm.pairingAddressesLength = csm.pairingAddresses.length)
    (hslice : csm.pairingAddresses.length < 2 ^ 63) :
    ∃ choice,
      getDataReliabilityProviderIndex csm originalProvider (uint64OfInt64 index) = some choice ∧
      (choice.err = some .DataReliabilityIndexOutOfRangeError ↔
        ¬ (0 ≤ index ∧ index < csm.pairingAddresses.length)) ∧
      (0 ≤ index ∧ index < csm.pairingAddresses.length →
        ∃ providerAddress, csm.pairingAddresses[index.toNat]? = some providerAddress ∧
          (choice.err = some .DataReliabilityIndexRequestedIsOriginalProviderError ↔
            providerAddress = originalProvider) ∧
          (providerAddress ≠ originalProvider →
            choice = ⟨mapGet providerAddress csm.pairing, some providerAddress,
              csm.currentEpoch, none⟩)) ∧
      ∃ result,
        GetDataReliabilitySessionChoice csm originalProvider index sessionEpoch = some result ∧
        ∀ err, choice.err = some err → result.err = some err := by
  obtain ⟨choice, hres, hrange, hin⟩ :=
    getDataReliabilityProviderIndex_cases csm originalProvider index hlo hhi hlen hslice
  refine ⟨choice, hres, hrange, hin, ?_⟩
  unfold GetDataReliabilitySessionChoice
  rw [hres]
  simp only
  split
  · rename_i err herr
    refine ⟨_, rfl, ?_⟩
    intro err' herr'
    rw [herr] at herr'
    simpa using herr'
  · rename_i hnone
    split_ifs
    · exact ⟨_, rfl, fun err herr => by rw [hnone] at herr; simp at herr⟩
    · exact ⟨_, rfl, fun err herr => by rw [hnone] at herr; simp at herr⟩

/-- C22, witness: with pairing addresses `[3, 7, 9]`, the index 1 and the original provider
3, the choice is the provider of address 7. -/
theorem C22_data_reliability_choice_witness :
    ∃ choice,
      getDataReliabilityProviderIndex
          ⟨[(7, ⟨7, 0, 10, 1⟩)], 1, 0, [3, 7, 9], 3, [3, 7, 9], [], []⟩ 3
          (uint64OfInt64 1) = some choice ∧
      (choice.err = some .DataReliabilityIndexOutOfRangeError ↔
        ¬ ((0 : Int) ≤ 1 ∧ (1 : Int) < ([3, 7, 9] : List Nat).length)) ∧
      ((0 : Int) ≤ 1 ∧ (1 : Int) < ([3, 7, 9] : List Nat).length →
        ∃ providerAddress, ([3, 7, 9] : List Nat)[(1 : Int).toNat]? = some providerAddress ∧
          (choice.err = some .DataReliabilityIndexRequestedIsOriginalProviderError ↔
            providerAddress = 3) ∧
          (providerAddress ≠ 3 →
            choice = ⟨mapGet providerAddress [(7, ⟨7, 0, 10, 1⟩)], some providerAddress,
              1, none⟩)) ∧
      ∃ result,
        GetDataReliabilitySessionChoice
          ⟨[(7, ⟨7, 0, 10, 1⟩)], 1, 0, [3, 7, 9], 3, [3, 7, 9], [], []⟩ 3 1 1 = some result ∧
        ∀ err, choice.err = some err → result.err = some err :=
  C22_data_reliability_choice ⟨[(7, ⟨7, 0, 10, 1⟩)], 1, 0, [3, 7, 9], 3, [3, 7, 9], [], []⟩ 3 1 1
    (by decide) (by decide) rfl (by decide)

/-- C23: with the previous epoch at height 10 and the current one at 20, a data-reliability
request of `BlockHeight` 25 that passes the signature and VRF checks is admitted by `initRelay`
(no error) and an epoch record is made for the height 25, although 25 is neither of the two
epoch heights; the regular request of the same height is refused by the test of line 391. -/
theorem C23_data_reliability_skips_epoch_check :
    initRelay 0 0
        ⟨1, 10, 20, none, none, true, .ok 0, .ok ⟨⟨10⟩⟩, .ok (some 5, 100), .ok true, true,
          (0, none)⟩
        ⟨⟨[], false, []⟩, []⟩ ⟨⟨0, 0, 0, 25⟩, 1, some 77⟩
      = some ⟨⟨⟨[], false, [(25, ⟨0, 100⟩)]⟩, [(25, 77)]⟩, some ⟨⟨10⟩⟩, none, none⟩ ∧
    (25 : Int) ≠ 20 ∧ (25 : Int) ≠ 10 ∧
    initRelay 0 0
        ⟨1, 10, 20, none, none, true, .ok 0, .ok ⟨⟨10⟩⟩, .ok (some 5, 100), .ok true, true,
          (0, none)⟩
        ⟨⟨[], false, []⟩, []⟩ ⟨⟨3, 10, 1, 25⟩, 1, none⟩
      = some ⟨⟨⟨[], false, []⟩, []⟩, none, none,
          some (.LavaFormatErrorNil .invalidBlockHeight)⟩ := by
  refine ⟨?_, by decide, by decide, ?_⟩
  · decide
  · decide

/-- C24: a data-reliability relay that `initRelay` admits (no error) records the request's
`DataReliability` in the record of `dataByEpoch` under the request's `BlockHeight`, leaves the
sessions (their `CuSum` and `RelayNum`) and the blocklist flag as they were, keeps every
epoch record that was there and the used compute units of every epoch; and `initRelay`
returns an error, changing nothing, for every later data-reliability relay of the same epoch
from this consumer, in any state in which the record of the epoch has its `DataReliability`
set. -/
theorem C24_one_data_reliability_per_epoch (DataReliabilitySessionId DataReliabilityCuSum : Nat)
    (calls : InitRelayCalls) (state : ConsumerState) (inbound : InboundRelayRequest)
    (dataReliability : Nat) (result : InitRelayResult)
    (hdr : inbound.DataReliability = some dataReliability)
    (hres : initRelay DataReliabilitySessionId DataReliabilityCuSum calls state inbound
      = some result)
    (hadmitted : result.err = none) :
    mapGet (uint64OfInt64 inbound.request.BlockHeight) result.state.dataReliabilityByEpoch
      = some dataReliability ∧
    (mapGet (uint64OfInt64 inbound.request.BlockHeight)
      result.state.userSessions.dataByEpoch).isSome = true ∧
    result.state.userSessions.Sessions = state.userSessions.Sessions ∧
    result.state.userSessions.IsBlockListed = state.userSessions.IsBlockListed ∧
    (∀ e d, mapGet e state.userSessions.dataByEpoch = some d →
      mapGet e result.state.userSessions.dataByEpoch = some d) ∧
    (∀ e, usedOfEpoch e result.state.userSessions.dataByEpoch
      = usedOfEpoch e state.userSessions.dataByEpoch) ∧
    ∀ (calls2 : InitRelayCalls) (state2 : ConsumerState) (inbound2 : InboundRelayRequest),
      inbound2.DataReliability ≠ none →
      uint64OfInt64 inbound2.request.BlockHeight
        = uint64OfInt64 inbound.request.BlockHeight →
      (mapGet (uint64OfInt64 inbound.request.BlockHeight)
        state2.userSessions.dataByEpoch).isSome = true →
      (mapGet (uint64OfInt64 inbound.request.BlockHeight)
        state2.dataReliabilityByEpoch).isSome = true →
      ∃ err, initRelay DataReliabilitySessionId DataReliabilityCuSum calls2 state2 inbound2
        = some ⟨state2, none, none, some err⟩ := by
  have hfirst : ∃ userSessions1 maxcuRes vrf_pk,
      getOrCreateDataByEpoch state.userSessions (uint64OfInt64 inbound.request.BlockHeight)
        maxcuRes (some vrf_pk) = some userSessions1 ∧
      result.state = ⟨userSessions1,
        mapPut (uint64OfInt64 inbound.request.BlockHeight) dataReliability
          state.dataReliabilityByEpoch⟩ := by
    rcases initRelay_cases DataReliabilitySessionId DataReliabilityCuSum calls state inbound
      with ⟨err, herr⟩ | ⟨selfIndex, nodeMsg, hbranch⟩
    · rw [herr] at hres
      simp only [Option.some.injEq] at hres
      rw [← hres] at hadmitted
      simp at hadmitted
    · rw [hbranch, hdr] at hres
      rcases initRelayDataReliability_cases DataReliabilitySessionId DataReliabilityCuSum calls
          state inbound.request dataReliability selfIndex nodeMsg
        with ⟨err, herr⟩ | ⟨vrf_pk, maxcuRes, userSessions1, _, hget, hok⟩
      · simp only at hres
        rw [herr] at hres
        simp only [Option.some.injEq] at hres
        rw [← hres] at hadmitted
        simp at hadmitted
      · simp only at hres
        rw [hok] at hres
        simp only [Option.some.injEq] at hres
        exact ⟨userSessions1, maxcuRes, vrf_pk, hget, by rw [← hres]⟩
  obtain ⟨userSessions1, maxcuRes, vrf_pk, hget, hstate⟩ := hfirst
  obtain ⟨hsess, hblock, hrec, hkeep, hused⟩ :=
    getOrCreateDataByEpoch_frame _ _ _ _ _ hget
  rw [hstate]
  refine ⟨mapGet_mapPut_self _ _ _, hrec, hsess, hblock, hkeep, hused, ?_⟩
  intro calls2 state2 inbound2 hdr2 hepoch hrec2 hset2
  rcases initRelay_cases DataReliabilitySessionId DataReliabilityCuSum calls2 state2 inbound2
    with herr | ⟨selfIndex, nodeMsg, hbranch⟩
  · exact herr
  · rw [hbranch]
    cases hd : inbound2.DataReliability with
    | none => exact absurd hd hdr2
    | some dataReliability2 =>
      simp only
      apply initRelayDataReliability_of_used
      rw [hepoch, hrec2, hset2]
      rfl

/-- C24, witness: the data-reliability relay of epoch 20 is admitted on a consumer without
records and leaves the record of epoch 20 with `DataReliability` 77; the next data-reliability
relay of epoch 20 is refused. -/
theorem C24_one_data_reliability_per_epoch_witness :
    initRelay 0 0
        ⟨1, 10, 20, none, none, true, .ok 0, .ok ⟨⟨10⟩⟩, .ok (some 5, 100), .ok true, true,
          (0, none)⟩
        ⟨⟨[], false, []⟩, []⟩ ⟨⟨0, 0, 0, 20⟩, 1, some 77⟩
      = some ⟨⟨⟨[], false, [(20, ⟨0, 100⟩)]⟩, [(20, 77)]⟩, some ⟨⟨10⟩⟩, none, none⟩ ∧
    ∃ err, initRelay 0 0
        ⟨1, 10, 20, none, none, true, .ok 0, .ok ⟨⟨10⟩⟩, .ok (some 5, 100), .ok true, true,
          (0, none)⟩
        ⟨⟨[], false, [(20, ⟨0, 100⟩)]⟩, [(20, 77)]⟩ ⟨⟨0, 0, 0, 20⟩, 1, some 78⟩
      = some ⟨⟨⟨[], false, [(20, ⟨0, 100⟩)]⟩, [(20, 77)]⟩, none, none, some err⟩ :=
  ⟨by decide,
   (C24_one_data_reliability_per_epoch 0 0
      ⟨1, 10, 20, none, none, true, .ok 0, .ok ⟨⟨10⟩⟩, .ok (some 5, 100), .ok true, true,
        (0, none)⟩
      ⟨⟨[], false, []⟩, []⟩ ⟨⟨0, 0, 0, 20⟩, 1, some 77⟩ 77
      ⟨⟨⟨[], false, [(20, ⟨0, 100⟩)]⟩, [(20, 77)]⟩, some ⟨⟨10⟩⟩, none, none⟩
      rfl (by decide) rfl).2.2.2.2.2.2
      ⟨1, 10, 20, none, none, true, .ok 0, .ok ⟨⟨10⟩⟩, .ok (some 5, 100), .ok true, true,
        (0, none)⟩
      ⟨⟨[], false, [(20, ⟨0, 100⟩)]⟩, [(20, 77)]⟩ ⟨⟨0, 0, 0, 20⟩, 1, some 78⟩
      (by decide) rfl (by decide) (by decide)⟩

/-- C25, counterexample: the ledger holds the epochs 1 and 5 and `StaleEpochDistance` is 3;
`askForRewards` for the stale epoch 5 deletes the entry of epoch 5 and leaves the entry of the
smaller epoch 1 (the same holds for every value of `StaleEpochDistance`, two epochs being never
more than `StaleEpochDistance + 1`). -/
theorem C25_rewards_counterexample :
    (askForRewards 3 (fun _ => []) (fun _ => none)
        [(1, [⟨⟨10, 7, 1, 1⟩, some ⟨7, 10, 1, 1⟩⟩]), (5, [⟨⟨20, 8, 1, 5⟩, some ⟨8, 20, 1, 5⟩⟩])]
        5).1
      = [(1, [⟨⟨10, 7, 1, 1⟩, some ⟨7, 10, 1, 1⟩⟩])] ∧
    mapGet 1 (askForRewards 3 (fun _ => []) (fun _ => none)
        [(1, [⟨⟨10, 7, 1, 1⟩, some ⟨7, 10, 1, 1⟩⟩]), (5, [⟨⟨20, 8, 1, 5⟩, some ⟨8, 20, 1, 5⟩⟩])]
        5).1 ≠ none := by
  decide

/-- C25, amended: for every content of the rewards ledger and every stale epoch height `e`
(converted to `uint64`, as the code does), after `askForRewards e` the ledger holds no entry
for epoch `e`, and, when the ledger held more than `StaleEpochDistance + 1` epochs at the
call, none for any epoch smaller than `e`; the entries of the epochs above `e` are as they
were, and so are those of the smaller epochs when the ledger held at most
`StaleEpochDistance + 1` epochs. -/
theorem C25_rewards_drained (StaleEpochDistance : Nat) (broadcast : Nat → List Char)
    (GetAccountNumberSequence : Nat → Option Nat)
    (g_rewardsSessions : List (Nat × List RewardSession)) (staleEpochHeight : Int) :
    mapGet (uint64OfInt64 staleEpochHeight)
      (askForRewards StaleEpochDistance broadcast GetAccountNumberSequence g_rewardsSessions
        staleEpochHeight).1 = none ∧
    (g_rewardsSessions.length > StaleEpochDistance + 1 →
      ∀ epoch, epoch < uint64OfInt64 staleEpochHeight →
        mapGet epoch
          (askForRewards StaleEpochDistance broadcast GetAccountNumberSequence g_rewardsSessions
            staleEpochHeight).1 = none) ∧
    (∀ epoch, uint64OfInt64 staleEpochHeight < epoch →
      mapGet epoch
        (askForRewards StaleEpochDistance broadcast GetAccountNumberSequence g_rewardsSessions
          staleEpochHeight).1 = mapGet epoch g_rewardsSessions) ∧
    (g_rewardsSessions.length ≤ StaleEpochDistance + 1 →
      ∀ epoch, epoch ≠ uint64OfInt64 staleEpochHeight →
        mapGet epoch
          (askForRewards StaleEpochDistance broadcast GetAccountNumberSequence g_rewardsSessions
            staleEpochHeight).1 = mapGet epoch g_rewardsSessions) := by
  rw [askForRewards_ledger]
  refine ⟨?_, ?_, ?_, ?_⟩
  · rw [mapGet_collectRewards, if_pos]
    exact (mem_staleEpochsToClaim _ _ _ _).2 (Or.inl rfl)
  · intro hlen epoch hlt
    rw [mapGet_collectRewards]
    by_cases hmem : epoch ∈ g_rewardsSessions.map Prod.fst
    · rw [if_pos]
      exact (mem_staleEpochsToClaim _ _ _ _).2 (Or.inr ⟨hlen, hmem, hlt⟩)
    · split_ifs
      · rfl
      · exact mapGet_eq_none_of_not_mem _ _ hmem
  · intro epoch hgt
    rw [mapGet_collectRewards, if_neg]
    intro hmem
    rcases (mem_staleEpochsToClaim _ _ _ _).1 hmem with h | ⟨_, _, h⟩ <;> omega
  · intro hlen epoch hne
    rw [mapGet_collectRewards, if_neg]
    intro hmem
    rcases (mem_staleEpochsToClaim _ _ _ _).1 hmem with h | ⟨h, _, _⟩
    · exact hne h
    · omega

/-- C25, witness: with five epochs in the ledger and `StaleEpochDistance` 3, the claim for
epoch 4 leaves no entry for the epochs 1, 2, 3 and 4. -/
theorem C25_rewards_drained_witness :
    ([(1, []), (2, []), (3, []), (4, []), (9, [])] : List (Nat × List RewardSession)).length
      > 3 + 1 ∧
    ∀ epoch, epoch < uint64OfInt64 4 →
      mapGet epoch
        (askForRewards 3 (fun _ => []) (fun _ => none)
          [(1, []), (2, []), (3, []), (4, []), (9, [])] 4).1 = none :=
  ⟨by decide,
   (C25_rewards_drained 3 (fun _ => []) (fun _ => none)
      [(1, []), (2, []), (3, []), (4, []), (9, [])] 4).2.1 (by decide)⟩

/-- C26, counterexample: every broadcast is answered by the text `code: 5`, which has the
return code 5 and reports no account sequence error; `askForRewards` with one proof
broadcasts six times, so it broadcasts again after a response without an account sequence
error. -/
theorem C26_retry_counterexample :
    (askForRewards 3 (fun _ => "code: 5".toList) (fun _ => none)
        [(5, [⟨⟨20, 8, 1, 5⟩, some ⟨8, 20, 1, 5⟩⟩])] 5).2.1.length = 6 ∧
    (parseTransactionResult "code: 5".toList).2 = 5 ∧
    stringsContains "code: 5".toList "account sequence".toList = false := by
  decide

/-- C26, amended: treating the broadcast as an arbitrary function from the attempt number to
the response text, `askForRewards` with at least one proof broadcasts at least once and at
most `1 + RETRY_INCORRECT_SEQUENCE` times, the responses being those of the consecutive
attempts; it stops after the first response whose parsed return code is 0; and it broadcasts
again after every response with another return code, whether or not the response reports an
account sequence error, unless `1 + RETRY_INCORRECT_SEQUENCE` broadcasts have been made or the
account retriever gives no sequence number. -/
theorem C26_bounded_retries (StaleEpochDistance : Nat) (broadcast : Nat → List Char)
    (GetAccountNumberSequence : Nat → Option Nat)
    (g_rewardsSessions : List (Nat × List RewardSession)) (staleEpochHeight : Int)
    (hproof : (collectRewards
        (staleEpochsToClaim StaleEpochDistance g_rewardsSessions staleEpochHeight)
        g_rewardsSessions []).2 ≠ []) :
    1 ≤ (askForRewards StaleEpochDistance broadcast GetAccountNumberSequence g_rewardsSessions
        staleEpochHeight).2.1.length ∧
    (askForRewards StaleEpochDistance broadcast GetAccountNumberSequence g_rewardsSessions
        staleEpochHeight).2.1.length ≤ 1 + RETRY_INCORRECT_SEQUENCE ∧
    (∀ k result,
      (askForRewards StaleEpochDistance broadcast GetAccountNumberSequence g_rewardsSessions
        staleEpochHeight).2.1[k]? = some result →
      result.transactionResult = broadcast k) ∧
    (∀ k,
      k + 1 < (askForRewards StaleEpochDistance broadcast GetAccountNumberSequence
        g_rewardsSessions staleEpochHeight).2.1.length →
      (parseTransactionResult (broadcast k)).2 ≠ 0) ∧
    (∀ k,
      k < (askForRewards StaleEpochDistance broadcast GetAccountNumberSequence
        g_rewardsSessions staleEpochHeight).2.1.length →
      k + 1 < 1 + RETRY_INCORRECT_SEQUENCE →
      (parseTransactionResult (broadcast k)).2 ≠ 0 →
      k + 1 < (askForRewards StaleEpochDistance broadcast GetAccountNumberSequence
          g_rewardsSessions staleEpochHeight).2.1.length
        ∨ GetAccountNumberSequence (k + 1) = none) := by
  rw [askForRewards_broadcasts _ _ _ _ _ hproof]
  obtain ⟨hlen, hresp, hnz, hgo⟩ :=
    askForRewardsRetry_spec broadcast GetAccountNumberSequence (RETRY_INCORRECT_SEQUENCE + 1) 0
      false 0
  refine ⟨?_, by omega, ?_, ?_, ?_⟩
  · rcases askForRewardsRetry_succ broadcast GetAccountNumberSequence RETRY_INCORRECT_SEQUENCE 0
        false 0 with ⟨_, hflag, _, _⟩ | ⟨_, hd, _⟩ | ⟨_, _, _, _, hm⟩
    · exact absurd hflag (by decide)
    · rw [hd]
      simp
    · rw [hm]
      simp
  · intro k result hk
    have := hresp k result hk
    rw [this, Nat.zero_add]
  · intro k hk
    have := hnz k hk
    rwa [Nat.zero_add] at this
  · intro k hk hrem hne
    have := hgo k hk (by omega) (by rwa [Nat.zero_add])
    rwa [Nat.zero_add] at this

/-- C26, witness: the first response reports an account sequence error with the expected
number 12, the second has return code 0; there are two broadcasts. -/
theorem C26_bounded_retries_witness :
    (collectRewards (staleEpochsToClaim 3 [(5, [⟨⟨20, 8, 1, 5⟩, some ⟨8, 20, 1, 5⟩⟩])] 5)
      [(5, [⟨⟨20, 8, 1, 5⟩, some ⟨8, 20, 1, 5⟩⟩])] []).2 ≠ [] ∧
    (askForRewards 3
        (fun attempt =>
          if attempt = 0 then "account sequence mismatch, expected 12, got 3".toList
          else "code: 0".toList)
        (fun _ => none) [(5, [⟨⟨20, 8, 1, 5⟩, some ⟨8, 20, 1, 5⟩⟩])] 5).2.1.length
      ≤ 1 + RETRY_INCORRECT_SEQUENCE ∧
    (askForRewards 3
        (fun attempt =>
          if attempt = 0 then "account sequence mismatch, expected 12, got 3".toList
          else "code: 0".toList)
        (fun _ => none) [(5, [⟨⟨20, 8, 1, 5⟩, some ⟨8, 20, 1, 5⟩⟩])] 5).2
      = ([⟨none, "account sequence mismatch, expected 12, got 3".toList⟩,
          ⟨some 12, "code: 0".toList⟩], true) :=
  ⟨by decide,
   (C26_bounded_retries 3
      (fun attempt =>
        if attempt = 0 then "account sequence mismatch, expected 12, got 3".toList
        else "code: 0".toList)
      (fun _ => none) [(5, [⟨⟨20, 8, 1, 5⟩, some ⟨8, 20, 1, 5⟩⟩])] 5 (by decide)).2.1,
   by decide⟩

/-- C27: `handleRelayErrorStatus` returns nil for nil, returns every error that is not
`SessionOutOfSyncError` as it is, and turns every error that is `SessionOutOfSyncError` into a
status error whose code is the ABCI code of `SessionOutOfSyncError`; the consumer's
`OnSessionFailure`, given that returned error on a locked session that is not blocklisted,
blocklists the session. -/
theorem C27_out_of_sync_survives (SessionOutOfSyncErrorABCICode : Nat) :
    handleRelayErrorStatus SessionOutOfSyncErrorABCICode none = none ∧
    (∀ err : RelayError, err.isSessionOutOfSync = false →
      handleRelayErrorStatus SessionOutOfSyncErrorABCICode (some err) = some (.plain err)) ∧
    (∀ err : RelayError, err.isSessionOutOfSync = true →
      ∃ returned,
        handleRelayErrorStatus SessionOutOfSyncErrorABCICode (some err) = some returned ∧
        returned = .status SessionOutOfSyncErrorABCICode err ∧
        statusCode returned = SessionOutOfSyncErrorABCICode ∧
        ∀ (MaximumNumberOfFailuresAllowedPerConsumerSession : Nat)
          (csm : ConsumerSessionManager) (consumerSession : SingleConsumerSession)
          (isReportAndBlockProvider isBlockProvider : Bool),
          consumerSession.locked = true → consumerSession.BlockListed = false →
          (OnSessionFailure MaximumNumberOfFailuresAllowedPerConsumerSession csm consumerSession
            (receivedError SessionOutOfSyncErrorABCICode returned isReportAndBlockProvider
              isBlockProvider)).2.1.BlockListed = true) := by
  refine ⟨rfl, ?_, ?_⟩
  · intro err herr
    simp only [handleRelayErrorStatus, herr, Bool.false_eq_true, if_false]
  · intro err herr
    refine ⟨.status SessionOutOfSyncErrorABCICode err, ?_, rfl, rfl, ?_⟩
    · simp only [handleRelayErrorStatus, herr, if_true]
    · intro M csm consumerSession rb bp hlocked hblock
      rw [OnSessionFailure_session M csm consumerSession _ hlocked hblock]
      simp [receivedError, statusCode]

/-- C27, witness: the error of a replayed relay number, which is `SessionOutOfSyncError`,
leaves with the status code 25 given for the ABCI code, and a locked session of the consumer
that has not failed before is blocklisted by it. -/
theorem C27_out_of_sync_survives_witness :
    (RelayError.LavaFormatError .smallerRelayNum .SessionOutOfSyncError).isSessionOutOfSync
      = true ∧
    handleRelayErrorStatus 25 (some (.LavaFormatError .smallerRelayNum .SessionOutOfSyncError))
      = some (.status 25 (.LavaFormatError .smallerRelayNum .SessionOutOfSyncError)) ∧
    (OnSessionFailure 3 ⟨[], 1, 0, [], 0, [], [], []⟩
      ⟨0, 5, ⟨0, 0⟩, 1, ⟨7, 10, 100, 1⟩, 0, 0, 0, false, true⟩
      (receivedError 25 (.status 25 (.LavaFormatError .smallerRelayNum .SessionOutOfSyncError))
        false false)).2.1.BlockListed = true := by
  obtain ⟨returned, hreturned, hstatus, _, hblocklists⟩ :=
    (C27_out_of_sync_survives 25).2.2
      (.LavaFormatError .smallerRelayNum .SessionOutOfSyncError) rfl
  subst hstatus
  exact ⟨rfl, hreturned, hblocklists 3 _ _ false false rfl rfl⟩

/-- C28: over every sequence of vote events handled from the empty vote map, an event sends a
reveal only for its own vote and only if the map holds an entry for it, whose nonce and hash
it reveals, and then a commitment for that vote was sent by an earlier event that no close
event of the vote has followed; an entry of the map at the end likewise comes from a
commitment not followed by a close event of the vote; a new-vote event for a vote that has an
entry changes nothing and sends nothing; and a close event leaves no entry for its vote and
sends nothing. -/
theorem C28_commit_precedes_reveal (server : VoteServer) (events : List VoteEvent) :
    (∀ pre event post voteID Nonce RelayDataHash, events = pre ++ event :: post →
      VoteMessage.reveal voteID Nonce RelayDataHash
        ∈ (voteEventHandler server (votesAfter server pre) event).2 →
      voteID = event.voteID ∧
      (∃ vote, mapGet voteID (votesAfter server pre) = some vote ∧ vote.Nonce = Nonce ∧
        vote.RelayDataHash = RelayDataHash) ∧
      ∃ before commitEvent between, pre = before ++ commitEvent :: between ∧
        commitEvent.voteID = voteID ∧
        (∃ CommitHash, VoteMessage.commit voteID CommitHash
          ∈ (voteEventHandler server (votesAfter server before) commitEvent).2) ∧
        ∀ later ∈ between,
          ¬ (later.voteID = voteID ∧ VoteParams.GetCloseVote later.voteParams = true)) ∧
    (∀ voteID, (mapGet voteID (votesAfter server events)).isSome = true →
      ∃ pre commitEvent post, events = pre ++ commitEvent :: post ∧
        commitEvent.voteID = voteID ∧
        (∃ CommitHash, VoteMessage.commit voteID CommitHash
          ∈ (voteEventHandler server (votesAfter server pre) commitEvent).2) ∧
        ∀ later ∈ post,
          ¬ (later.voteID = voteID ∧ VoteParams.GetCloseVote later.voteParams = true)) ∧
    (∀ (g_votes : List (Nat × voteData)) (event : VoteEvent) (params : VoteParams),
      event.voteParams = some params → params.CloseVote = false →
      (mapGet event.voteID g_votes).isSome = true →
      voteEventHandler server g_votes event = (g_votes, [])) ∧
    (∀ (g_votes : List (Nat × voteData)) (event : VoteEvent) (params : VoteParams),
      event.voteParams = some params → params.CloseVote = true →
      mapGet event.voteID (voteEventHandler server g_votes event).1 = none ∧
      (voteEventHandler server g_votes event).2 = []) := by
  have hreveal : ∀ (g_votes : List (Nat × voteData)) (event : VoteEvent)
      (voteID : Nat) (Nonce : Int) (RelayDataHash : Nat),
      VoteMessage.reveal voteID Nonce RelayDataHash ∈ (voteEventHandler server g_votes event).2 →
      voteID = event.voteID ∧
        ∃ vote, mapGet voteID g_votes = some vote ∧ vote.Nonce = Nonce ∧
          vote.RelayDataHash = RelayDataHash := by
    intro g_votes event voteID Nonce RelayDataHash hmem
    rcases voteEventHandler_cases server g_votes event with
      ⟨hsame, _⟩ | ⟨vote, hget, _, hsame⟩ | ⟨_, _, hdel⟩ | ⟨vote, _, _, hput⟩
    · rw [hsame] at hmem
      simp at hmem
    · rw [hsame] at hmem
      simp only [List.mem_singleton, VoteMessage.reveal.injEq] at hmem
      obtain ⟨hid, hn, hh⟩ := hmem
      exact ⟨hid, vote, by rw [hid]; exact hget, hn.symm, hh.symm⟩
    · rw [hdel] at hmem
      simp at hmem
    · rw [hput] at hmem
      simp at hmem
  refine ⟨?_, fun voteID => votesAfter_entry server voteID events, ?_, ?_⟩
  · intro pre event post voteID Nonce RelayDataHash _ hmem
    obtain ⟨hid, vote, hget, hnonce, hhash⟩ := hreveal _ _ _ _ _ hmem
    exact ⟨hid, ⟨vote, hget, hnonce, hhash⟩,
      votesAfter_entry server voteID pre (by rw [hget]; rfl)⟩
  · intro g_votes event params hp hc hentry
    rcases voteEventHandler_cases server g_votes event with
      ⟨hsame, _⟩ | ⟨_, _, hnone, _⟩ | ⟨hclose, _, _⟩ | ⟨_, _, hnone, _⟩
    · exact hsame
    · rw [hp] at hnone
      simp at hnone
    · rw [hp] at hclose
      simp [VoteParams.GetCloseVote, hc] at hclose
    · rw [hnone] at hentry
      simp at hentry
  · intro g_votes event params hp hc
    have hclose : VoteParams.GetCloseVote event.voteParams = true := by
      rw [hp]
      exact hc
    rcases voteEventHandler_cases server g_votes event with
      ⟨hsame, hnone⟩ | ⟨_, _, hnone, _⟩ | ⟨_, _, hdel⟩ | ⟨_, hopen, _, _⟩
    · rw [hsame]
      exact ⟨hnone hclose, rfl⟩
    · rw [hp] at hnone
      simp at hnone
    · rw [hdel]
      exact ⟨mapGet_mapDelete_self _ _, rfl⟩
    · rw [hclose] at hopen
      simp at hopen

/-- C28, witness: a new vote 5 for this provider is answered by a commitment, and the reveal
event that follows reveals the nonce 3 and the hash 107 of the entry made for the vote. -/
theorem C28_commit_precedes_reveal_witness :
    VoteMessage.reveal 5 3 107
      ∈ (voteEventHandler ⟨1, 9, fun data => data + 100, fun _ hash => hash + 1000⟩
          (votesAfter ⟨1, 9, fun data => data + 100, fun _ hash => hash + 1000⟩
            [⟨5, 50, some ⟨false, 1, [9]⟩, 10, some 7, 3⟩])
          ⟨5, 50, none, 10, none, 0⟩).2 ∧
    5 = (⟨5, 50, none, 10, none, 0⟩ : VoteEvent).voteID ∧
    ∃ vote,
      mapGet 5 (votesAfter ⟨1, 9, fun data => data + 100, fun _ hash => hash + 1000⟩
        [⟨5, 50, some ⟨false, 1, [9]⟩, 10, some 7, 3⟩]) = some vote ∧
      vote.Nonce = 3 ∧ vote.RelayDataHash = 107 :=
  ⟨by decide,
   ((C28_commit_precedes_reveal ⟨1, 9, fun data => data + 100, fun _ hash => hash + 1000⟩
      [⟨5, 50, some ⟨false, 1, [9]⟩, 10, some 7, 3⟩, ⟨5, 50, none, 10, none, 0⟩]).1
      [⟨5, 50, some ⟨false, 1, [9]⟩, 10, some 7, 3⟩] ⟨5, 50, none, 10, none, 0⟩ [] 5 3 107 rfl
      (by decide)).1,
   ((C28_commit_precedes_reveal ⟨1, 9, fun data => data + 100, fun _ hash => hash + 1000⟩
      [⟨5, 50, some ⟨false, 1, [9]⟩, 10, some 7, 3⟩, ⟨5, 50, none, 10, none, 0⟩]).1
      [⟨5, 50, some ⟨false, 1, [9]⟩, 10, some 7, 3⟩] ⟨5, 50, none, 10, none, 0⟩ [] 5 3 107 rfl
      (by decide)).2.1⟩

/-- C29: with list-shaped parameters whose first element is a string, `processUnsubscribe`
disconnects and removes the subscription with that identifier, if there is one, and leaves
every other subscription of the consumer in place; with map-shaped parameters and the API
name `unsubscribe` it does the same for the subscription keyed by the string `params["query"]`;
when `params["query"]` is not a string it returns an error and removes nothing; with
map-shaped parameters and any other API name it disconnects and removes every subscription of
the consumer. -/
theorem C29_unsubscribe_frame (apiName : String) (Subs : List (Nat × Nat)) :
    (∀ (subscriptionID : Nat) (rest : List ParamValue),
      ∃ result,
        processUnsubscribe apiName Subs (.list (.string subscriptionID :: rest)) = some result ∧
        result.err = none ∧
        mapGet subscriptionID result.Subs = none ∧
        (∀ other, other ≠ subscriptionID → mapGet other result.Subs = mapGet other Subs) ∧
        result.disconnected = (mapGet subscriptionID Subs).toList) ∧
    (∀ (subscriptionID : Nat) (p : List (String × ParamValue)),
      apiName = "unsubscribe" → p.lookup "query" = some (.string subscriptionID) →
      ∃ result,
        processUnsubscribe apiName Subs (.map p) = some result ∧
        result.err = none ∧
        mapGet subscriptionID result.Subs = none ∧
        (∀ other, other ≠ subscriptionID → mapGet other result.Subs = mapGet other Subs) ∧
        result.disconnected = (mapGet subscriptionID Subs).toList) ∧
    (∀ p : List (String × ParamValue), apiName = "unsubscribe" →
      (∀ subscriptionID, p.lookup "query" ≠ some (.string subscriptionID)) →
      processUnsubscribe apiName Subs (.map p)
        = some ⟨Subs, [], some (.Errorf .unsubscribeQuery)⟩) ∧
    (∀ p : List (String × ParamValue), apiName ≠ "unsubscribe" →
      processUnsubscribe apiName Subs (.map p) = some ⟨[], Subs.map Prod.snd, none⟩) := by
  refine ⟨?_, ?_, ?_, ?_⟩
  · intro subscriptionID rest
    obtain ⟨hgone, hkept, hdisc⟩ := processUnsubscribeEthereum_frame subscriptionID Subs
    exact ⟨⟨(processUnsubscribeEthereum subscriptionID Subs).1,
      (processUnsubscribeEthereum subscriptionID Subs).2, none⟩, rfl, rfl, hgone, hkept, hdisc⟩
  · intro subscriptionID p hapi hquery
    obtain ⟨hgone, hkept, hdisc⟩ := processUnsubscribeEthereum_frame subscriptionID Subs
    refine ⟨⟨(processUnsubscribeEthereum subscriptionID Subs).1,
      (processUnsubscribeEthereum subscriptionID Subs).2, none⟩, ?_, rfl, hgone, hkept, hdisc⟩
    simp only [processUnsubscribe, hapi, if_true, hquery, processUnsubscribeTendermint]
    rfl
  · intro p hapi hquery
    simp only [processUnsubscribe, hapi, if_true]
  · intro p hapi
    simp only [processUnsubscribe, hapi, if_false, processUnsubscribeTendermint,
      foldl_mapDelete_self]

/-- C29, witness: of the subscriptions 1, 2 and 3 the Tendermint call `unsubscribe` with the
query 3 removes the third and keeps the two others. -/
theorem C29_unsubscribe_frame_witness :
    ∃ result,
      processUnsubscribe "unsubscribe" [(1, 10), (2, 20), (3, 30)] (.map [("query", .string 3)])
        = some result ∧
      result.err = none ∧
      mapGet 3 result.Subs = none ∧
      (∀ other, other ≠ 3 →
        mapGet other result.Subs = mapGet other [(1, 10), (2, 20), (3, 30)]) ∧
      result.disconnected = (mapGet 3 [(1, 10), (2, 20), (3, 30)]).toList :=
  (C29_unsubscribe_frame "unsubscribe" [(1, 10), (2, 20), (3, 30)]).2.1 3
    [("query", .string 3)] rfl rfl

/-- C30, counterexample: two records of the triple (1, 2, 3) with the latency `2^62` each are
stored into the empty map; the entry holds `TotalLatency = -2^63`, while the sum of the two
latencies is `2^63`. -/
theorem C30_metrics_counterexample :
    metricAt
        (storeAll [⟨1, 2, 3, true, 4611686018427387904⟩, ⟨1, 2, 3, true, 4611686018427387904⟩])
        1 2 3
      = some ⟨-9223372036854775808, 2, 2⟩ ∧
    ((recordsOf [⟨1, 2, 3, true, 4611686018427387904⟩, ⟨1, 2, 3, true, 4611686018427387904⟩]
        1 2 3).map fun data => data.Latency).sum = 9223372036854775808 ∧
    (4611686018427387904 : Int) < 2 ^ 63 := by
  decide

/-- C30, amended: for every sequence of `RelayMetrics` records (their `Latency` an `int64`)
stored with `storeAggregatedData` into an initially empty map, the entry at
`[ProjectHash][ChainID][APIType]` exists exactly for the key triples that were stored, and
holds in `RelaysCount`, `TotalLatency` and `SuccessCount` the number of stored records with
that triple, the sum of their `Latency` values and the number of them with `Success = true`,
each reduced to `int64` by wrap-around, and so equal to them when fewer than `2^63` records
have the triple and when the sum of the latencies lies in the range of `int64`; storing a
record never changes the entry of a different triple. -/
theorem C30_aggregated_metrics (records : List RelayMetrics)
    (hrange : ∀ data ∈ records, -2 ^ 63 ≤ data.Latency ∧ data.Latency < 2 ^ 63)
    (ProjectHash ChainID APIType : Nat) :
    ((metricAt (storeAll records) ProjectHash ChainID APIType).isSome = true ↔
      ∃ data ∈ records,
        data.ProjectHash = ProjectHash ∧ data.ChainID = ChainID ∧ data.APIType = APIType) ∧
    (∀ metric, metricAt (storeAll records) ProjectHash ChainID APIType = some metric →
      metric.RelaysCount = int64Wrap (recordsOf records ProjectHash ChainID APIType).length ∧
      metric.TotalLatency = int64Wrap
        ((recordsOf records ProjectHash ChainID APIType).map fun data => data.Latency).sum ∧
      metric.SuccessCount = int64Wrap
        ((recordsOf records ProjectHash ChainID APIType).filter
          fun data => data.Success).length ∧
      (((recordsOf records ProjectHash ChainID APIType).length : Int) < 2 ^ 63 →
        metric.RelaysCount = (recordsOf records ProjectHash ChainID APIType).length ∧
        metric.SuccessCount = ((recordsOf records ProjectHash ChainID APIType).filter
          fun data => data.Success).length) ∧
      (-2 ^ 63 ≤ ((recordsOf records ProjectHash ChainID APIType).map
            fun data => data.Latency).sum ∧
          ((recordsOf records ProjectHash ChainID APIType).map
            fun data => data.Latency).sum < 2 ^ 63 →
        metric.TotalLatency = ((recordsOf records ProjectHash ChainID APIType).map
          fun data => data.Latency).sum)) ∧
    (∀ (store : List (Nat × List (Nat × List (Nat × AggregatedMetric)))) (data : RelayMetrics),
      ¬ (data.ProjectHash = ProjectHash ∧ data.ChainID = ChainID ∧ data.APIType = APIType) →
      metricAt (storeAggregatedData store data) ProjectHash ChainID APIType
        = metricAt store ProjectHash ChainID APIType) := by
  have hall := metricAt_storeAll ProjectHash ChainID APIType records hrange
  refine ⟨?_, ?_, ?_⟩
  · rw [hall]
    have hmem : recordsOf records ProjectHash ChainID APIType ≠ [] ↔
        ∃ data ∈ records,
          data.ProjectHash = ProjectHash ∧ data.ChainID = ChainID ∧ data.APIType = APIType := by
      rw [ne_eq, recordsOf, List.filter_eq_nil_iff]
      simp
    rw [← hmem]
    by_cases hempty : recordsOf records ProjectHash ChainID APIType = []
    · simp [hempty]
    · simp [hempty]
  · intro metric hmetric
    rw [hall] at hmetric
    by_cases hempty : recordsOf records ProjectHash ChainID APIType = []
    · simp [hempty] at hmetric
    · rw [if_neg hempty] at hmetric
      simp only [Option.some.injEq] at hmetric
      subst hmetric
      refine ⟨rfl, rfl, rfl, ?_, ?_⟩
      · intro hlen
        have hsucc : (((recordsOf records ProjectHash ChainID APIType).filter
            fun data => data.Success).length : Int)
            ≤ (recordsOf records ProjectHash ChainID APIType).length := by
          exact_mod_cast List.length_filter_le _ _
        constructor
        · exact int64Wrap_of_range _ (by omega) hlen
        · exact int64Wrap_of_range _ (by omega) (by omega)
      · intro hsum
        exact int64Wrap_of_range _ hsum.1 hsum.2
  · intro store data hne
    rw [metricAt_storeAggregatedData, if_neg hne]

/-- C30, witness: the four records of the test, three successes and a failure of latency 50
for one triple: the entry holds 4 relays, the total latency 200 and 3 successes. -/
theorem C30_aggregated_metrics_witness :
    metricAt
        (storeAll [⟨1, 2, 3, true, 50⟩, ⟨1, 2, 3, true, 50⟩, ⟨1, 2, 3, true, 50⟩,
          ⟨1, 2, 3, false, 50⟩]) 1 2 3
      = some ⟨200, 4, 3⟩ ∧
    (∀ metric,
      metricAt
          (storeAll [⟨1, 2, 3, true, 50⟩, ⟨1, 2, 3, true, 50⟩, ⟨1, 2, 3, true, 50⟩,
            ⟨1, 2, 3, false, 50⟩]) 1 2 3 = some metric →
      metric.RelaysCount
        = int64Wrap (recordsOf [⟨1, 2, 3, true, 50⟩, ⟨1, 2, 3, true, 50⟩, ⟨1, 2, 3, true, 50⟩,
            ⟨1, 2, 3, false, 50⟩] 1 2 3).length) :=
  ⟨by decide,
   fun metric hmetric =>
    ((C30_aggregated_metrics
      [⟨1, 2, 3, true, 50⟩, ⟨1, 2, 3, true, 50⟩, ⟨1, 2, 3, true, 50⟩, ⟨1, 2, 3, false, 50⟩]
      (by decide) 1 2 3).2.1 metric hmetric).1⟩

/-- C31, counterexample: the entry with `TotalLatency = -2 ^ 63` and `RelaysCount = -1`, which
is not 0. The record made for it has the latency `-2 ^ 63`, while the quotient truncated
toward zero is `2 ^ 63`. -/
theorem C31_quotient_counterexample :
    (∀ chain ∈ [((1 : Nat), [((2 : Nat), (⟨-2 ^ 63, -1, 0⟩ : AggregatedMetric))])],
      ∀ entry ∈ chain.2, entry.2.RelaysCount ≠ 0) ∧
    prepareArrayForProject [(1, [(2, ⟨-2 ^ 63, -1, 0⟩)])] 7
      = some [⟨7, 2, 1, -2 ^ 63, -1, 0⟩] ∧
    Int.tdiv (-2 ^ 63) (-1) = 2 ^ 63 := by
  decide

/-- C31, amended: for a project map whose entries all have a `RelaysCount` other than 0, and
none the `TotalLatency` `-2 ^ 63` with the `RelaysCount` `-1`, `prepareArrayForProject`
returns one record for each entry of each chain, with the project key, the keys of the entry,
the two counts, and the quotient of `TotalLatency` by `RelaysCount` truncated toward zero. -/
theorem C31_array_for_project (projectData : List (Nat × List (Nat × AggregatedMetric)))
    (projectKey : Nat)
    (hcount : ∀ chain ∈ projectData, ∀ entry ∈ chain.2, entry.2.RelaysCount ≠ 0)
    (hrange : ∀ chain ∈ projectData, ∀ entry ∈ chain.2,
      -2 ^ 63 ≤ entry.2.TotalLatency ∧ entry.2.TotalLatency < 2 ^ 63)
    (hmin : ∀ chain ∈ projectData, ∀ entry ∈ chain.2,
      ¬ (entry.2.TotalLatency = -2 ^ 63 ∧ entry.2.RelaysCount = -1)) :
    prepareArrayForProject projectData projectKey
      = some (projectData.flatMap fun chain => chain.2.map fun entry =>
          { ProjectHash := projectKey,
            APIType := entry.1,
            ChainID := chain.1,
            Latency := entry.2.TotalLatency.tdiv entry.2.RelaysCount,
            RelayCounts := entry.2.RelaysCount,
            SuccessCount := entry.2.SuccessCount }) := by
  rw [prepareArrayForProject_eq projectData projectKey hcount]
  congr 1
  apply List.flatMap_congr
  intro chain hchain
  apply List.map_congr_left
  intro entry hentry
  unfold analyticsOf
  rw [int64Wrap_tdiv _ _ (hrange chain hchain entry hentry).1 (hrange chain hchain entry hentry).2
    (hcount chain hchain entry hentry) (hmin chain hchain entry hentry)]

/-- C31, witness: the project of the test, one entry with the total latency 100, 2 relays and
1 success, gives one record with the latency 50. -/
theorem C31_array_for_project_witness :
    prepareArrayForProject [(10, [(20, ⟨100, 2, 1⟩)])] 1 = some [⟨1, 20, 10, 50, 2, 1⟩] :=
  C31_array_for_project [(10, [(20, ⟨100, 2, 1⟩)])] 1 (by decide) (by decide) (by decide)

/-- C32, counterexample: the window records the hashes `a` at the height 100 and `b` at the
latest height 101, and the fetcher now reports `c` at 100 and still `b` at 101. The poll
succeeds and sees no fork, the window stays, and the range from 100 up to 101 returns the
hash `a` for the height 100, for which the fetcher reports `c`. -/
theorem C32_stale_hash_counterexample :
    pollOnce ⟨some 101, fun blockNum =>
        if blockNum = 100 then some "c" else if blockNum = 101 then some "b" else none⟩
        ⟨101, [⟨100, "a"⟩, ⟨101, "b"⟩], 10⟩
      = some ⟨101, [⟨100, "a"⟩, ⟨101, "b"⟩], 10⟩ ∧
    GetLatestBlockData (-1) (-2) ⟨101, [⟨100, "a"⟩, ⟨101, "b"⟩], 10⟩ 100 101 (-2)
      = some (101, [⟨100, "a"⟩]) ∧
    (ChainFetcher.mk (some 101) fun blockNum =>
        if blockNum = 100 then some "c" else if blockNum = 101 then some "b"
        else none).FetchBlockHashByNum 100
      = some "c" := by
  decide

/-- C32, amended: take a fetcher whose forks show at the latest height (when it reports the
recorded hash at the tracker's latest height, it reports the recorded hash at every height of
the window). After a successful poll of it, every successful `GetLatestBlockData` with no
specific block returns the tracker's latest height, which is the fetcher's, and entries whose
heights go up by one from the height that `fromBlock` resolves to, each with the hash that the
fetcher reports for its height. -/
theorem C32_window_after_poll (LATEST_BLOCK NOT_APPLICABLE : Int) (fetcher : ChainFetcher)
    (ct ct1 : ChainTracker) (fromBlock toBlock latest : Int) (blocks : List BlockStore)
    (hvisible : forkShowsAtLatest fetcher ct) (hpoll : pollOnce fetcher ct = some ct1)
    (hdata : GetLatestBlockData LATEST_BLOCK NOT_APPLICABLE ct1 fromBlock toBlock
      NOT_APPLICABLE = some (latest, blocks)) :
    latest = ct1.GetLatestBlockNum ∧
    fetcher.FetchLatestBlockNum = some latest ∧
    blocks.map (fun blockStore => blockStore.Block)
      = (List.range blocks.length).map
          (fun (i : Nat) => LatestArgToBlockNum LATEST_BLOCK fromBlock latest + (i : Int)) ∧
    ∀ blockStore ∈ blocks,
      fetcher.FetchBlockHashByNum blockStore.Block = some blockStore.Hash := by
  obtain ⟨hlatest, hheights, hmem⟩ := GetLatestBlockData_range LATEST_BLOCK NOT_APPLICABLE ct1
    fromBlock toBlock latest blocks hdata
  obtain ⟨hfetched, hagree⟩ := pollOnce_agree fetcher ct ct1 hvisible hpoll
  subst hlatest
  exact ⟨rfl, hfetched, hheights, fun blockStore hblock => hagree blockStore (hmem blockStore hblock)⟩

/-- C32, witness: the mock fetcher of the test holds the blocks 1000 to 1003, and the tracker
the blocks 1001 and 1002 in a window of 3. After the poll the range of the two blocks before
the latest one has the hashes that the mock fetcher reports. -/
theorem C32_window_after_poll_witness :
    pollOnce (NewMockChainFetcher 1000 4).toChainFetcher
        ⟨1002, [⟨1001, "stubHash-1001"⟩, ⟨1002, "stubHash-1002"⟩], 3⟩
      = some ⟨1003, [⟨1001, "stubHash-1001"⟩, ⟨1002, "stubHash-1002"⟩,
          ⟨1003, "stubHash-1003"⟩], 3⟩ ∧
    ∀ blockStore ∈ ([⟨1001, "stubHash-1001"⟩, ⟨1002, "stubHash-1002"⟩] : List BlockStore),
      (NewMockChainFetcher 1000 4).toChainFetcher.FetchBlockHashByNum blockStore.Block
        = some blockStore.Hash :=
  ⟨by decide,
    (C32_window_after_poll (-1) (-2) (NewMockChainFetcher 1000 4).toChainFetcher
      ⟨1002, [⟨1001, "stubHash-1001"⟩, ⟨1002, "stubHash-1002"⟩], 3⟩
      ⟨1003, [⟨1001, "stubHash-1001"⟩, ⟨1002, "stubHash-1002"⟩, ⟨1003, "stubHash-1003"⟩], 3⟩
      (-3) (-1) 1003 [⟨1001, "stubHash-1001"⟩, ⟨1002, "stubHash-1002"⟩]
      (by unfold forkShowsAtLatest; decide) (by decide) (by decide)).2.2.2⟩

/-- C33: a session whose guard is held and that is already blocklisted is handed to
`OnSessionFailure`: the function returns the error of line 363, the session is as it was, and
its guard is still held. -/
theorem C33_blocklisted_failure_keeps_guard :
    OnSessionFailure 3 ⟨[], 5, 0, [1], 1, [1], [], []⟩
        ⟨30, 10, ⟨4, 0⟩, 77, ⟨1, 40, 100, 5⟩, 3, 40, 1, true, true⟩ ⟨false, false, false⟩
      = (⟨[], 5, 0, [1], 1, [1], [], []⟩,
         ⟨30, 10, ⟨4, 0⟩, 77, ⟨1, 40, 100, 5⟩, 3, 40, 1, true, true⟩,
         some (.Wrapf .SessionIsAlreadyBlockListedError)) ∧
    (OnSessionFailure 3 ⟨[], 5, 0, [1], 1, [1], [], []⟩
        ⟨30, 10, ⟨4, 0⟩, 77, ⟨1, 40, 100, 5⟩, 3, 40, 1, true, true⟩
        ⟨false, false, false⟩).2.1.locked = true := by
  decide

/-- C34: a consumer with no session sends a regular relay with the session id
0 at the current epoch height 20. `initRelay` rejects it with the error of line 722, and the
state it leaves holds a session with the id 0 and an epoch record, and the rewards ledger
holds that session under the epoch 20. -/
theorem C34_rejected_relay_creates_session :
    initRelay 0 0
        ⟨1, 10, 20, none, none, true, .ok 0, .ok ⟨⟨10⟩⟩, .ok (some 5, 1000), .ok true, true,
          (0, none)⟩
        ⟨⟨[], false, []⟩, []⟩ ⟨⟨0, 10, 1, 20⟩, 1, none⟩
      = some ⟨⟨⟨[(0, ⟨0, 0, 0, 20⟩)], false, [(20, ⟨0, 1000⟩)]⟩, []⟩, none, none,
          some (.LavaFormatErrorNil .zeroSessionId)⟩ ∧
    initRelayRewards
        ⟨1, 10, 20, none, none, true, .ok 0, .ok ⟨⟨10⟩⟩, .ok (some 5, 1000), .ok true, true,
          (0, none)⟩
        [] ⟨⟨[], false, []⟩, []⟩ ⟨⟨0, 10, 1, 20⟩, 1, none⟩
      = [(20, [⟨⟨0, 0, 0, 20⟩, none⟩])] := by
  decide

/-- C35, counterexample: the map built from the empty map by `2 ^ 64` calls of
`storeAggregatedData` with one record. The `int64` count of its one entry has wrapped to 0,
and `prepareArrayForProject` divides by zero on its project. -/
theorem C35_count_counterexample :
    storeAll (List.replicate (2 ^ 64) ⟨1, 2, 3, true, 0⟩) = [(1, [(2, [(3, ⟨0, 0, 0⟩)])])] ∧
    prepareArrayForProject [(2, [(3, ⟨0, 0, 0⟩)])] 1 = none := by
  constructor
  · have h := storeAll_replicate ⟨1, 2, 3, true, 0⟩ (2 ^ 64 - 1) (by decide) (by decide)
    rw [show (2 : Nat) ^ 64 - 1 + 1 = 2 ^ 64 from by norm_num] at h
    rw [h]
    decide
  · decide

/-- C35, amended: every entry of a map built from the empty map by fewer than `2 ^ 63` calls of
`storeAggregatedData` has `RelaysCount ≥ 1` and `0 ≤ SuccessCount ≤ RelaysCount`, and
`prepareArrayForProject` returns an array for each project of the map: it does not divide by
zero. -/
theorem C35_entries_bounded (records : List RelayMetrics)
    (hlen : records.length < 2 ^ 63) :
    (∀ project ∈ storeAll records, ∀ chain ∈ project.2, ∀ entry ∈ chain.2,
      1 ≤ entry.2.RelaysCount ∧ 0 ≤ entry.2.SuccessCount ∧
        entry.2.SuccessCount ≤ entry.2.RelaysCount) ∧
    (∀ project ∈ storeAll records,
      ∃ toSendData, prepareArrayForProject project.2 project.1 = some toSendData) := by
  have hbounds := storeAll_bounds records (by exact_mod_cast hlen)
  refine ⟨?_, ?_⟩
  · intro project hproject chain hchain entry hentry
    have h := hbounds project hproject chain hchain entry hentry
    exact ⟨h.1, h.2.2.1, h.2.2.2⟩
  · intro project hproject
    refine ⟨_, prepareArrayForProject_eq project.2 project.1 ?_⟩
    intro chain hchain entry hentry
    have h := hbounds project hproject chain hchain entry hentry
    have h1 : 1 ≤ entry.2.RelaysCount := h.1
    omega

/-- C35, witness: after a success and a failure of one key triple the project of the map has
an entry with 2 relays and 1 success, and an array is made for it. -/
theorem C35_entries_bounded_witness :
    storeAll [⟨1, 2, 3, true, 40⟩, ⟨1, 2, 3, false, 60⟩] = [(1, [(2, [(3, ⟨100, 2, 1⟩)])])] ∧
    ∃ toSendData, prepareArrayForProject [(2, [(3, ⟨100, 2, 1⟩)])] 1 = some toSendData :=
  ⟨by decide,
    (C35_entries_bounded [⟨1, 2, 3, true, 40⟩, ⟨1, 2, 3, false, 60⟩] (by decide)).2
      (1, [(2, [(3, ⟨100, 2, 1⟩)])]) (by decide)⟩

/-- C36: the fetcher made by `NewMockChainFetcher 1000 3` holds the blocks 1000, 1001 and 1002;
after `Shrink 2` it still holds all three, and `FetchBlockHashByNum 1000`, for the block
older than the two newest, still succeeds: the slice of the two newest entries that `Shrink`
builds is not assigned to `blockHashes`. -/
theorem C36_shrink_keeps_every_block :
    (NewMockChainFetcher 1000 3).blockHashes
      = [⟨1000, "stubHash-1000"⟩, ⟨1001, "stubHash-1001"⟩, ⟨1002, "stubHash-1002"⟩] ∧
    (NewMockChainFetcher 1000 3).Shrink 2
      = some (NewMockChainFetcher 1000 3,
          [⟨1001, "stubHash-1001"⟩, ⟨1002, "stubHash-1002"⟩]) ∧
    (((NewMockChainFetcher 1000 3).Shrink 2).map
        fun result => result.1.FetchBlockHashByNum 1000)
      = some (some "stubHash-1000") := by
  decide

/-- C37: in the state that any sequence of `UpdateAllProviders`, `validatePairingListNotEmpty`
and `blockProvider` calls leaves of a new session manager, `validAddresses` is a sublist of
`pairingAddresses` (same relative order), so each of its addresses is in `pairingAddresses`;
and in every state `validatePairingListNotEmpty` and `blockProvider` leave `pairingAddresses`
as it was. -/
theorem C37_valid_addresses_sublist (calls : List ManagerCall) (csm : ConsumerSessionManager)
    (address : Nat) (reportProvider : Bool) (sessionEpoch : Nat) :
    (runManagerCalls NewConsumerSessionManager calls).validAddresses.Sublist
      (runManagerCalls NewConsumerSessionManager calls).pairingAddresses ∧
    (∀ valid ∈ (runManagerCalls NewConsumerSessionManager calls).validAddresses,
      valid ∈ (runManagerCalls NewConsumerSessionManager calls).pairingAddresses) ∧
    (validatePairingListNotEmpty csm).1.pairingAddresses = csm.pairingAddresses ∧
    (blockProvider csm address reportProvider sessionEpoch).1.pairingAddresses
      = csm.pairingAddresses := by
  have hsub := runManagerCalls_sublist calls NewConsumerSessionManager (List.Sublist.refl _)
  exact ⟨hsub, fun valid hvalid => hsub.subset hvalid,
    (validatePairingListNotEmpty_lists csm).1,
    (blockProvider_lists csm address reportProvider sessionEpoch).1⟩

/-- C38, counterexample: with `validAddresses = [7, 7, 9]` and the ignored set
`{7}` the difference of the lengths is 2, and for the index 1 of `[0, 2)` the loop finds one
address only that is not ignored, so `getValidProviderAddress` returns
`UnreachableCodeError`. -/
theorem C38_unreachable_counterexample :
    ((([7, 7, 9] : List Nat).length : Int) - (([7] : List Nat).length : Int) > 0) ∧
    (1 : Nat) < 2 ∧
    getValidProviderAddress ⟨[], 0, 0, [7, 7, 9], 3, [7, 7, 9], [], []⟩ [7] 1
      = .error .UnreachableCodeError :=
  ⟨by decide, by decide, rfl⟩

/-- C38, amended: for a duplicate-free `validAddresses` and an ignored set with fewer
addresses, `getValidProviderAddress` returns, for every draw, no error and an address of
`validAddresses` that is not ignored; and when the ignored addresses are all in
`validAddresses`, distinct indices below the difference of the lengths give distinct
addresses, and each address of `validAddresses` that is not ignored is given by one of
them. -/
theorem C38_selection_reaches_an_address (csm : ConsumerSessionManager)
    (ignoredProvidersList : List Nat) (hvalid : csm.validAddresses.Nodup)
    (hignored : ignoredProvidersList.Nodup)
    (htotal : ignoredProvidersList.length < csm.validAddresses.length) :
    (∀ random : Nat, ∃ address : Nat,
      getValidProviderAddress csm ignoredProvidersList random = .ok address ∧
      address ∈ csm.validAddresses ∧ address ∉ ignoredProvidersList) ∧
    ((∀ address ∈ ignoredProvidersList, address ∈ csm.validAddresses) →
      (∀ i j : Nat, i < csm.validAddresses.length - ignoredProvidersList.length →
        j < csm.validAddresses.length - ignoredProvidersList.length →
        getValidProviderAddress csm ignoredProvidersList i
          = getValidProviderAddress csm ignoredProvidersList j → i = j) ∧
      (∀ address ∈ csm.validAddresses, address ∉ ignoredProvidersList →
        ∃ i : Nat, i < csm.validAddresses.length - ignoredProvidersList.length ∧
          getValidProviderAddress csm ignoredProvidersList i = .ok address)) := by
  have hsum := length_filter_not_ignored ignoredProvidersList csm.validAddresses
  have hle := length_filter_ignored_le ignoredProvidersList csm.validAddresses hvalid
  have hnodup : (csm.validAddresses.filter fun address =>
      !decide (address ∈ ignoredProvidersList)).Nodup := hvalid.filter _
  have hget : ∀ i : Nat, i < csm.validAddresses.length - ignoredProvidersList.length →
      ∀ hi : i < (csm.validAddresses.filter fun address =>
        !decide (address ∈ ignoredProvidersList)).length,
      getValidProviderAddress csm ignoredProvidersList i
        = .ok ((csm.validAddresses.filter fun address =>
            !decide (address ∈ ignoredProvidersList)).get ⟨i, hi⟩) := by
    intro i hi hi'
    rw [getValidProviderAddress_eq csm ignoredProvidersList i htotal, Nat.mod_eq_of_lt hi,
      List.getElem?_eq_getElem hi']
    rfl
  refine ⟨?_, ?_⟩
  · intro random
    have hidx : random % (csm.validAddresses.length - ignoredProvidersList.length)
        < csm.validAddresses.length - ignoredProvidersList.length :=
      Nat.mod_lt _ (by omega)
    have hidx' : random % (csm.validAddresses.length - ignoredProvidersList.length)
        < (csm.validAddresses.filter fun address =>
          !decide (address ∈ ignoredProvidersList)).length := by omega
    refine ⟨(csm.validAddresses.filter fun address =>
      !decide (address ∈ ignoredProvidersList)).get ⟨_, hidx'⟩, ?_, ?_⟩
    · rw [getValidProviderAddress_eq csm ignoredProvidersList random htotal,
        List.getElem?_eq_getElem hidx']
      rfl
    · have hmem := List.get_mem (csm.validAddresses.filter fun address =>
        !decide (address ∈ ignoredProvidersList)) _ hidx'
      have hfilter := List.mem_filter.1 hmem
      exact ⟨hfilter.1, by simpa using hfilter.2⟩
  · intro hsubset
    have heq := length_filter_ignored_eq ignoredProvidersList csm.validAddresses hvalid
      hignored hsubset
    refine ⟨?_, ?_⟩
    · intro i j hi hj hij
      have hi' : i < (csm.validAddresses.filter fun address =>
          !decide (address ∈ ignoredProvidersList)).length := by omega
      have hj' : j < (csm.validAddresses.filter fun address =>
          !decide (address ∈ ignoredProvidersList)).length := by omega
      rw [hget i hi hi', hget j hj hj'] at hij
      have hfin := (List.nodup_iff_injective_get.1 hnodup) (Except.ok.inj hij)
      exact Fin.mk.inj hfin
    · intro address haddress hnot
      have hmem : address ∈ csm.validAddresses.filter fun address =>
          !decide (address ∈ ignoredProvidersList) :=
        List.mem_filter.2 ⟨haddress, by simpa using hnot⟩
      obtain ⟨n, hn, hnth⟩ := List.getElem_of_mem hmem
      refine ⟨n, by omega, ?_⟩
      rw [hget n (by omega) hn]
      exact congrArg Except.ok hnth

/-- C38, witness: of the valid addresses 7, 8 and 9 with 8 ignored the draw 4, which is the
index 0, gives an address that is valid and not ignored. -/
theorem C38_selection_reaches_an_address_witness :
    ∃ address : Nat,
      getValidProviderAddress ⟨[], 0, 0, [7, 8, 9], 3, [7, 8, 9], [], []⟩ [8] 4
        = .ok address ∧
      address ∈ ([7, 8, 9] : List Nat) ∧ address ∉ ([8] : List Nat) :=
  (C38_selection_reaches_an_address ⟨[], 0, 0, [7, 8, 9], 3, [7, 8, 9], [], []⟩ [8]
      (by decide) (by decide) (by decide)).1 4

/-- C39: on the empty parameter list `processUnsubscribe` does not return: the expression
`p[0]` of line 547 indexes outside the list, which no test of the length precedes. With a
first element that is not a string, and with a map without a string under `query`, it returns
an error and removes nothing. -/
theorem C39_empty_params_index_out_of_range :
    processUnsubscribe "eth_unsubscribe" [(1, 10), (2, 20)] (.list []) = none ∧
    processUnsubscribe "eth_unsubscribe" [(1, 10), (2, 20)] (.list [.other])
      = some ⟨[(1, 10), (2, 20)], [], some (.Errorf .unsubscribeParam)⟩ ∧
    processUnsubscribe "unsubscribe" [(1, 10), (2, 20)] (.map [])
      = some ⟨[(1, 10), (2, 20)], [], some (.Errorf .unsubscribeQuery)⟩ := by
  decide

/-- C40, counterexample: a value whose two strings have `2 ^ 62` bytes each. The sum that
`Size` adds up is `2 ^ 63 + 20`, which as an `int` is `-2 ^ 63 + 20`, and `Marshal` does not
return: `make` panics on the negative size. -/
theorem C40_size_counterexample :
    (Metadata.mk (List.replicate (2 ^ 62) 0) (List.replicate (2 ^ 62) 0)).Size
      = -2 ^ 63 + 20 ∧
    (Metadata.mk (List.replicate (2 ^ 62) 0) (List.replicate (2 ^ 62) 0)).Marshal = none := by
  have hsize : (Metadata.mk (List.replicate (2 ^ 62) 0) (List.replicate (2 ^ 62) 0)).Size
      = -2 ^ 63 + 20 := by
    unfold Metadata.Size
    simp only [List.length_replicate]
    decide
  exact ⟨hsize, Marshal_of_negative_size _ (by rw [hsize]; decide)⟩

/-- C40, amended: for every `Metadata` value whose size on the wire is below `2 ^ 63`,
`Marshal` returns, with no error, exactly `Size` bytes, and `Unmarshal` of those bytes into a
zero `Metadata` returns no error and leaves the value that was written. -/
theorem C40_metadata_round_trip (m : Metadata) (hsize : m.wireSize < 2 ^ 63) :
    ∃ dAtA, m.Marshal = some dAtA ∧ (dAtA.length : Int) = m.Size ∧
      Metadata.Unmarshal ⟨[], []⟩ dAtA = some (m, none) := by
  have hbytes := wireSize_eq m hsize
  have hbound : (fieldBytes 0xa m.FeeVersion).length + (fieldBytes 0x12 m.AppVersion).length
      < 2 ^ 63 := by
    rw [hbytes]
    exact hsize
  refine ⟨fieldBytes 0xa m.FeeVersion ++ fieldBytes 0x12 m.AppVersion, Marshal_eq m hbound, ?_,
    Unmarshal_fieldBytes m hbound⟩
  rw [Size_eq m hbound, List.length_append]

/-- C40, witness: the fee version `fee` and the app version `ap` are written as 9 bytes and
read back. -/
theorem C40_metadata_round_trip_witness :
    (Metadata.mk [102, 101, 101] [97, 112]).Marshal
      = some [10, 3, 102, 101, 101, 18, 2, 97, 112] ∧
    ∃ dAtA, (Metadata.mk [102, 101, 101] [97, 112]).Marshal = some dAtA ∧
      (dAtA.length : Int) = (Metadata.mk [102, 101, 101] [97, 112]).Size ∧
      Metadata.Unmarshal ⟨[], []⟩ dAtA = some (⟨[102, 101, 101], [97, 112]⟩, none) :=
  ⟨by decide, C40_metadata_round_trip ⟨[102, 101, 101], [97, 112]⟩ (by decide)⟩

end Lava
